import Mathlib

/-!
# PL/0 compiler: trace-mode parser and code generator

A shallow embedding of `parser.c` and `code_generator.c`.  The C globals
(token iterator, level, scope, symbol table, instruction buffer) are threaded
as an explicit state record.  Every C function becomes a Lean function of the
same name with a fuel argument: the recursive production functions and the
loops spend one unit of fuel per call and per iteration, the others hand the
fuel on.  A run that exhausts its fuel ends in `outOfFuel` (code generator) or
`none` (parser), which no C run corresponds to.

`token.h`, `data.h` and `symbol.h` are not part of the sources: the token
kinds, op codes and symbol kinds are the enumerators the two files name, and
the symbol-table lookup and `MAX_CODE_LENGTH` are parameters of the code
generator.
-/

set_option maxRecDepth 4000
set_option maxHeartbeats 1000000

namespace PL0

/-! ## Tokens -/

/-- Modelled from the spec: the token kinds of `token.h`, which is not among the
sources (section 3: a token carries a kind); the enumerators are the ones the
two source files name. -/
inductive TokenType
  | nulsym | identsym | numbersym | plussym | minussym | multsym | slashsym
  | oddsym | eqsym | neqsym | lessym | leqsym | gtrsym | geqsym
  | lparentsym | rparentsym | commasym | semicolonsym | periodsym | becomessym
  | beginsym | endsym | ifsym | thensym | whilesym | dosym | callsym
  | constsym | varsym | procsym | writesym | readsym | elsesym
  deriving DecidableEq, Repr, Inhabited

/-- Modelled from the spec: the struct `Token` of `token.h` (section 3: a kind
and a literal text), with the field names the sources use. -/
structure Token where
  id : TokenType
  lexeme : String
  deriving DecidableEq, Repr, Inhabited

/-- Modelled from the spec: the sentinel that `getCurrentTokenFromIterator` of
`token.h` hands out at the end of the list (section 6); its kind is `nulsym`,
its text is taken to be empty. -/
def nulToken : Token := { id := .nulsym, lexeme := "" }

/-- Modelled from the spec: `getCurrentTokenFromIterator` of `token.h` (section
6: the token at the iterator position, the sentinel past the end). -/
def tokenAt (tokens : List Token) (ind : Nat) : Token :=
  (tokens.get? ind).getD nulToken

/-! ## Symbols -/

/-- Modelled from the spec: the symbol kinds of `symbol.h` (section 3), with the
enumerators the sources name. -/
inductive SymbolType
  | CONST | VAR | PROC
  deriving DecidableEq, Repr, Inhabited

/-- Object a `Symbol*` scope pointer is based on: the null pointer, or the
local `tempScope` of a `block()` activation, identified by the value stored in
its `scope` field. -/
inductive ScopeBase
  | null
  | tempScope (savedBase : ScopeBase) (savedOff : Int)
  deriving DecidableEq, Repr, Inhabited

/-- Value of a `Symbol*` scope pointer: a base object and the element offset
accumulated by `currentScope++` and `currentScope--`. -/
structure ScopePtr where
  base : ScopeBase
  off : Int
  deriving DecidableEq, Repr, Inhabited

/-- The C constant `NULL`. -/
def NULL : ScopePtr := { base := .null, off := 0 }

/-- Address `&tempScope` of the local whose `scope` field holds `saved`. -/
def addrOfTempScope (saved : ScopePtr) : ScopePtr :=
  { base := .tempScope saved.base saved.off, off := 0 }

/-- Modelled from the spec: the struct `Symbol` of `symbol.h` (section 3), with
the field names the sources use.  A field that a declaration leaves unassigned
is indeterminate in C; the embedding fixes it to 0 (resp. to `NULL`). -/
structure Symbol where
  type : SymbolType
  name : String
  value : Int
  level : Nat
  address : Int
  scope : ScopePtr
  deriving DecidableEq, Repr, Inhabited

/-- Number of values of an `unsigned int` (32 bits). -/
def wordSize : Nat := 4294967296

/-- Conversion of an `unsigned int` value to `int`. -/
def toInt32 (n : Nat) : Int :=
  if n % wordSize < 2147483648 then ((n % wordSize : Nat) : Int)
  else ((n % wordSize : Nat) : Int) - (wordSize : Int)

/-- Subtraction `a - b` of two `unsigned int` values. -/
def usub (a b : Nat) : Nat :=
  if b % wordSize ≤ a % wordSize then a % wordSize - b % wordSize
  else wordSize - (b % wordSize - a % wordSize)

/-- The C library predicate `isspace` (in the "C" locale): the space and the
characters `\t`, `\n`, `\v`, `\f`, `\r`. -/
def isspace (c : Char) : Bool :=
  c.toNat = 32 || (9 ≤ c.toNat && c.toNat ≤ 13)

/-- The C library predicate `isdigit`. -/
def isdigit (c : Char) : Bool :=
  48 ≤ c.toNat && c.toNat ≤ 57

/-- Digits loop of `atoi` and of `strtod`. -/
def atoiDigits : List Char → Int → Int
  | [], acc => acc
  | c :: cs, acc =>
    if isdigit c then atoiDigits cs (10 * acc + ((c.toNat - 48 : Nat) : Int)) else acc

/-- The integer that the text of a lexeme spells for `atoi` and `strtod`: white
space is skipped, an optional sign and the decimal digits behind it are read,
and what follows the digits is not read. -/
def spelledInt (lexeme : String) : Int :=
  match lexeme.toList.dropWhile isspace with
  | '-' :: r => - atoiDigits r 0
  | '+' :: r => atoiDigits r 0
  | r => atoiDigits r 0

/-- Conversion of a `long` value to `int`: the low 32 bits. -/
def longToInt (v : Int) : Int :=
  toInt32 (v % 4294967296).toNat

/-- The C library function `atoi` on a lexeme.  A value outside the range of
`int` has no defined result in C; the result is the one of the GNU C library,
`(int) strtol(lexeme, NULL, 10)`: the value, kept within the range of `long`,
converted to `int`. -/
def atoi (lexeme : String) : Int :=
  if -2147483648 ≤ spelledInt lexeme ∧ spelledInt lexeme ≤ 2147483647 then spelledInt lexeme
  else if 9223372036854775807 < spelledInt lexeme then longToInt 9223372036854775807
  else if spelledInt lexeme < -9223372036854775808 then longToInt (-9223372036854775808)
  else longToInt (spelledInt lexeme)

/-! ## Instructions -/

/-- Modelled from the spec: the op codes of `data.h` (section 6), with the
enumerators `code_generator.c` names; their integer values are not known. -/
inductive Opcode
  | LIT | LOD | STO | CAL | RTN | INC | JMP | JPC | NEG | ADD | SUB | MUL | DIV
  | ODD | EQL | NEQ | LSS | LEQ | GTR | GEQ | SIO_HALT | SIO_WRITE | SIO_READ
  deriving DecidableEq, Repr, Inhabited

/-- Modelled from the spec: the struct `Instruction` of `data.h` (section 3),
one slot of `vmCode`, with the field names `emit` uses. -/
structure Instruction where
  op : Opcode
  r : Int
  l : Int
  m : Int
  deriving DecidableEq, Repr, Inhabited

/-! ## Code generator (`code_generator.c`) -/

namespace CodeGenerator

/-- What the code generator takes from outside `code_generator.c`: the token
list, the constant `MAX_CODE_LENGTH` of `data.h`, and the lookup `findSymbol`
of `symbol.h` (`none` is the null pointer it returns when nothing is found). -/
structure Env where
  tokens : List Token
  maxCodeLength : Nat
  findSymbol : List Symbol → ScopePtr → String → Option Symbol

/-- The globals of `code_generator.c`. -/
structure State where
  currentTokenInd : Nat
  currentLevel : Nat
  currentScope : ScopePtr
  symbolTable : List Symbol
  vmCode : Nat → Instruction
  nextCodeIndex : Nat
  currentReg : Int

/-- How a call ends: `ret` when it returns the error code `err` and leaves the
globals `s`; `exit` when `emit` finds the buffer full and calls `exit(0)`;
`nullDeref` when a field is read through the null pointer that `findSymbol`
returned; `outOfBounds` when a slot past the end of `vmCode` is written;
`outOfFuel` when the fuel of the embedding is spent. -/
inductive Outcome
  | ret (err : Nat) (s : State)
  | exit
  | nullDeref
  | outOfBounds
  | outOfFuel

/-- Continue with `k` when the call returned 0 (`if(err) return err;`). -/
def Outcome.onOk (o : Outcome) (k : State → Outcome) : Outcome :=
  match o with
  | .ret err s => if err = 0 then k s else .ret err s
  | .exit => .exit
  | .nullDeref => .nullDeref
  | .outOfBounds => .outOfBounds
  | .outOfFuel => .outOfFuel

def getCurrentToken (env : Env) (s : State) : Token :=
  tokenAt env.tokens s.currentTokenInd

def getCurrentTokenType (env : Env) (s : State) : TokenType :=
  (getCurrentToken env s).id

def nextToken (s : State) : State :=
  { s with currentTokenInd := s.currentTokenInd + 1 }

/-- Modelled from the spec: `addSymbol` of `symbol.h` (section 2: the table is
insertion-ordered and supports append); a copy of the record is appended. -/
def addSymbol (sym : Symbol) (s : State) : State :=
  { s with symbolTable := s.symbolTable ++ [sym] }

/-- The statements `currentScope++; currentLevel++;` before a procedure body. -/
def enterProc (s : State) : State :=
  { s with currentScope := { s.currentScope with off := s.currentScope.off + 1 },
           currentLevel := (s.currentLevel + 1) % wordSize }

/-- The statements `currentLevel--; currentScope--;` after a procedure body. -/
def leaveProc (s : State) : State :=
  { s with currentLevel := usub s.currentLevel 1,
           currentScope := { s.currentScope with off := s.currentScope.off - 1 } }

/-- The assignment `currentScope = p;`. -/
def setScope (p : ScopePtr) (s : State) : State :=
  { s with currentScope := p }

/-- The function `emit`: `none` when the buffer is full (the process exits),
otherwise the index written and the new state. -/
def emit (env : Env) (OP : Opcode) (R L M : Int) (s : State) : Option (Nat × State) :=
  if s.nextCodeIndex = env.maxCodeLength then none
  else some (s.nextCodeIndex,
    { s with vmCode := Function.update s.vmCode s.nextCodeIndex { op := OP, r := R, l := L, m := M },
             nextCodeIndex := s.nextCodeIndex + 1 })

/-- A call `emit(OP, R, L, M);` whose result is dropped, followed by `k`. -/
def emitThen (env : Env) (OP : Opcode) (R L M : Int) (s : State) (k : State → Outcome) : Outcome :=
  match emit env OP R L M s with
  | none => .exit
  | some (_, s1) => k s1

/-- The assignment `vmCode[i].m = M;` followed by `k`. -/
def setM (env : Env) (i : Nat) (M : Int) (s : State) (k : State → Outcome) : Outcome :=
  if i < env.maxCodeLength then
    k { s with vmCode := Function.update s.vmCode i { s.vmCode i with m := M } }
  else .outOfBounds

/-- The emitted code, `vmCode[0 .. nextCodeIndex)`, as `printEmittedCodes` prints it. -/
def emitted (s : State) : List Instruction :=
  (List.range s.nextCodeIndex).map s.vmCode

/-- Level difference `currentLevel - level` in `unsigned int`, passed as `int`. -/
def levelDiff (currentLevel level : Nat) : Int :=
  toInt32 (usub currentLevel level)

/-- Address `4 * currentLevel + varNum` in `unsigned int`. -/
def varAddress (currentLevel : Nat) (varNum : Nat) : Int :=
  toInt32 ((4 * currentLevel + varNum) % wordSize)

/-- The `while(getCurrentTokenType() == commasym)` loop of `const_declaration`. -/
def constLoop : Nat → Env → Symbol → State → Outcome
  | 0, _, _, _ => .outOfFuel
  | n + 1, env, symbol, s =>
    if getCurrentTokenType env s = .commasym then
      let s := nextToken s
      if getCurrentTokenType env s ≠ .identsym then .ret 3 s
      else
        let symbol := { symbol with name := (getCurrentToken env s).lexeme }
        let s := nextToken s
        if getCurrentTokenType env s ≠ .eqsym then .ret 2 s
        else
          let s := nextToken s
          if getCurrentTokenType env s ≠ .numbersym then .ret 1 s
          else
            let symbol := { symbol with value := atoi (getCurrentToken env s).lexeme,
                                        scope := s.currentScope }
            let s := addSymbol symbol (nextToken s)
            constLoop n env symbol s
    else if getCurrentTokenType env s ≠ .semicolonsym then .ret 4 s
    else .ret 0 (nextToken s)

def const_declaration (n : Nat) (env : Env) (s : State) : Outcome :=
  let symbol : Symbol :=
    { type := .CONST, name := "", value := 0, level := s.currentLevel, address := 0, scope := NULL }
  if getCurrentTokenType env s ≠ .constsym then .ret 0 s
  else
    let s := nextToken s
    if getCurrentTokenType env s ≠ .identsym then .ret 3 s
    else
      let symbol := { symbol with name := (getCurrentToken env s).lexeme }
      let s := nextToken s
      if getCurrentTokenType env s ≠ .eqsym then .ret 2 s
      else
        let s := nextToken s
        if getCurrentTokenType env s ≠ .numbersym then .ret 1 s
        else
          let symbol := { symbol with value := atoi (getCurrentToken env s).lexeme,
                                      scope := s.currentScope }
          let s := addSymbol symbol (nextToken s)
          constLoop n env symbol s

/-- The `while(1)` loop of `var_declaration`; `varNum` and `symbol` are its locals. -/
def varLoop : Nat → Env → Symbol → Nat → State → Outcome
  | 0, _, _, _, _ => .outOfFuel
  | n + 1, env, symbol, varNum, s =>
    if getCurrentTokenType env s = .varsym ∨ getCurrentTokenType env s = .commasym then
      let varNum := varNum + 1
      let s := nextToken s
      if getCurrentTokenType env s = .identsym then
        let symbol := { symbol with name := (getCurrentToken env s).lexeme }
        let s := nextToken s
        if getCurrentTokenType env s = .eqsym then
          let s := nextToken s
          if getCurrentTokenType env s = .numbersym then
            let symbol := { symbol with value := atoi (getCurrentToken env s).lexeme,
                                        address := varAddress s.currentLevel varNum }
            let s := nextToken s
            if getCurrentTokenType env s = .semicolonsym then .ret 0 (nextToken s)
            else if getCurrentTokenType env s ≠ .commasym
                ∧ getCurrentTokenType env s ≠ .semicolonsym then .ret 4 s
            else varLoop n env symbol varNum (addSymbol symbol s)
          else .ret 1 s
        else if getCurrentTokenType env s = .semicolonsym then
          let s := nextToken s
          let symbol := { symbol with address := varAddress s.currentLevel varNum }
          .ret 0 (addSymbol symbol s)
        else if getCurrentTokenType env s = .commasym then
          let symbol := { symbol with address := varAddress s.currentLevel varNum }
          varLoop n env symbol varNum (addSymbol symbol s)
        else .ret 4 s
      else .ret 3 s
    else .ret 0 s

def var_declaration (n : Nat) (env : Env) (s : State) : Outcome :=
  if getCurrentTokenType env s ≠ .varsym then .ret 0 s
  else
    let symbol : Symbol :=
      { type := .VAR, name := "", value := 0, level := s.currentLevel, address := 0,
        scope := s.currentScope }
    emitThen env .INC 0 0 2 s fun s => varLoop n env symbol 0 s

mutual

def expression : Nat → Env → State → Outcome
  | 0, _, _ => .outOfFuel
  | n + 1, env, s =>
    let op := getCurrentTokenType env s
    let afterSign : Outcome :=
      if op = .plussym ∨ op = .minussym then
        (term n env (nextToken s)).onOk fun s =>
          if op = .minussym then emitThen env .NEG 0 0 0 s fun s => .ret 0 s
          else .ret 0 s
      else .ret 0 s
    afterSign.onOk fun s =>
      (term n env s).onOk fun s => expressionLoop n env op s

/-- The `while(op == plussym || op == minussym)` loop of `expression`;
`op` is the local read once on entry of `expression`. -/
def expressionLoop : Nat → Env → TokenType → State → Outcome
  | 0, _, _, _ => .outOfFuel
  | n + 1, env, op, s =>
    if op = .plussym ∨ op = .minussym then
      (term n env (nextToken s)).onOk fun s =>
        if op = .plussym then emitThen env .ADD 0 0 0 s fun s => expressionLoop n env op s
        else emitThen env .SUB 0 0 0 s fun s => expressionLoop n env op s
    else .ret 0 s

def term : Nat → Env → State → Outcome
  | 0, _, _ => .outOfFuel
  | n + 1, env, s =>
    let op := getCurrentTokenType env s
    (factor n env s).onOk fun s => termLoop n env op s

/-- The `while(op == multsym || op == slashsym)` loop of `term`;
`op` is the local read once on entry of `term`. -/
def termLoop : Nat → Env → TokenType → State → Outcome
  | 0, _, _, _ => .outOfFuel
  | n + 1, env, op, s =>
    if op = .multsym ∨ op = .slashsym then
      (factor n env (nextToken s)).onOk fun s =>
        if op = .multsym then emitThen env .MUL 0 0 0 s fun s => termLoop n env op s
        else emitThen env .DIV 0 0 0 s fun s => termLoop n env op s
    else .ret 0 s

def factor : Nat → Env → State → Outcome
  | 0, _, _ => .outOfFuel
  | n + 1, env, s =>
    match env.findSymbol s.symbolTable s.currentScope (getCurrentToken env s).lexeme with
    | none => .ret 15 s
    | some currSym =>
      if getCurrentTokenType env s = .identsym then
        if currSym.type = .PROC then .ret 14 s
        else if currSym.type = .CONST then
          emitThen env .LIT 0 0 currSym.value s fun s => .ret 0 (nextToken s)
        else
          emitThen env .LOD 0 (levelDiff s.currentLevel currSym.level) currSym.address s
            fun s => .ret 0 (nextToken s)
      else if getCurrentTokenType env s = .numbersym then
        let value := atoi (getCurrentToken env s).lexeme
        emitThen env .LIT 0 0 value s fun s => .ret 0 (nextToken s)
      else if getCurrentTokenType env s = .lparentsym then
        (expression n env (nextToken s)).onOk fun s =>
          if getCurrentTokenType env s ≠ .rparentsym then .ret 13 s
          else .ret 0 (nextToken s)
      else .ret 24 s

end

def condition (n : Nat) (env : Env) (s : State) : Outcome :=
  if getCurrentTokenType env s = .oddsym then
    (expression n env (nextToken s)).onOk fun s =>
      emitThen env .ODD s.currentReg 0 0 s fun s => .ret 0 s
  else
    (expression n env s).onOk fun s =>
      if getCurrentTokenType env s = .eqsym then
        emitThen env .EQL s.currentReg 0 0 s fun s => .ret 0 (nextToken s)
      else if getCurrentTokenType env s = .neqsym then
        emitThen env .NEQ s.currentReg 0 0 s fun s => .ret 0 (nextToken s)
      else if getCurrentTokenType env s = .lessym then
        emitThen env .LSS s.currentReg 0 0 s fun s => .ret 0 (nextToken s)
      else if getCurrentTokenType env s = .leqsym then
        emitThen env .LEQ s.currentReg 0 0 s fun s => .ret 0 (nextToken s)
      else if getCurrentTokenType env s = .gtrsym then
        emitThen env .GTR s.currentReg 0 0 s fun s => .ret 0 (nextToken s)
      else if getCurrentTokenType env s = .geqsym then
        emitThen env .GEQ s.currentReg 0 0 s fun s => .ret 0 (nextToken s)
      else .ret 12 s

mutual

def statement : Nat → Env → State → Outcome
  | 0, _, _ => .outOfFuel
  | n + 1, env, s =>
    if getCurrentTokenType env s = .identsym then
      match env.findSymbol s.symbolTable s.currentScope (getCurrentToken env s).lexeme with
      | none => .nullDeref
      | some currSym =>
        if currSym.scope ≠ s.currentScope then .ret 15 s
        else if currSym.type ≠ .VAR then .ret 16 s
        else
          let s := nextToken s
          if getCurrentTokenType env s ≠ .becomessym then .ret 7 s
          else (expression n env (nextToken s)).onOk fun s => .ret 0 s
    else if getCurrentTokenType env s = .callsym then
      let s := nextToken s
      if getCurrentTokenType env s ≠ .identsym then .ret 8 s
      else
        match env.findSymbol s.symbolTable s.currentScope (getCurrentToken env s).lexeme with
        | none => .nullDeref
        | some currSym =>
          if currSym.scope ≠ s.currentScope then .ret 15 s
          else if currSym.type = .PROC then
            emitThen env .CAL 0 (levelDiff s.currentLevel currSym.level) currSym.address s
              fun s => .ret 0 (nextToken s)
          else .ret 17 s
    else if getCurrentTokenType env s = .beginsym then
      (statement n env (nextToken s)).onOk fun s =>
        (beginLoop n env s).onOk fun s =>
          if getCurrentTokenType env s ≠ .endsym then .ret 10 s
          else .ret 0 (nextToken s)
    else if getCurrentTokenType env s = .ifsym then
      (condition n env (nextToken s)).onOk fun s =>
        if getCurrentTokenType env s ≠ .thensym then .ret 9 s
        else
          let s := nextToken s
          let jmp := s.nextCodeIndex
          emitThen env .JPC 0 0 0 s fun s =>
            (statement n env s).onOk fun s =>
              setM env jmp s.nextCodeIndex s fun s =>
                if getCurrentTokenType env s = .elsesym then
                  let jmp2 := s.nextCodeIndex
                  emitThen env .JMP 0 0 0 s fun s =>
                    let s := nextToken s
                    setM env jmp2 s.nextCodeIndex s fun s =>
                      (statement n env s).onOk fun s =>
                        setM env jmp s.nextCodeIndex s fun s => .ret 0 s
                else .ret 0 s
    else if getCurrentTokenType env s = .whilesym then
      let jmp := s.nextCodeIndex
      (condition n env (nextToken s)).onOk fun s =>
        let jmp2 := s.nextCodeIndex
        emitThen env .JPC 0 0 0 s fun s =>
          if getCurrentTokenType env s ≠ .dosym then .ret 11 s
          else
            (statement n env (nextToken s)).onOk fun s =>
              emitThen env .JMP 0 0 jmp s fun s =>
                setM env jmp2 s.nextCodeIndex s fun s => .ret 0 s
    else if getCurrentTokenType env s = .writesym then
      let s := nextToken s
      if getCurrentTokenType env s ≠ .identsym then .ret 3 s
      else
        match env.findSymbol s.symbolTable s.currentScope (getCurrentToken env s).lexeme with
        | none => .nullDeref
        | some currSym =>
          if currSym.scope ≠ s.currentScope then .ret 15 s
          else if currSym.type = .PROC then .ret 18 s
          else
            emitThen env .LOD 0 (levelDiff s.currentLevel currSym.level) currSym.address s
              fun s => emitThen env .SIO_WRITE 0 0 0 s fun s => .ret 0 (nextToken s)
    else if getCurrentTokenType env s = .readsym then
      emitThen env .SIO_READ 0 0 0 s fun s =>
        let s := nextToken s
        if getCurrentTokenType env s ≠ .identsym then .ret 3 s
        else
          match env.findSymbol s.symbolTable s.currentScope (getCurrentToken env s).lexeme with
          | none => .nullDeref
          | some currSym =>
            if currSym.scope ≠ s.currentScope then .ret 15 s
            else if currSym.type ≠ .VAR then .ret 19 s
            else
              let s := nextToken s
              emitThen env .STO 0 (levelDiff s.currentLevel currSym.level) currSym.address s
                fun s => .ret 0 s
    else .ret 0 s

/-- The `while (getCurrentTokenType() == semicolonsym)` loop of the `begin` branch. -/
def beginLoop : Nat → Env → State → Outcome
  | 0, _, _ => .outOfFuel
  | n + 1, env, s =>
    if getCurrentTokenType env s = .semicolonsym then
      (statement n env (nextToken s)).onOk fun s => beginLoop n env s
    else .ret 0 s

end

mutual

def block : Nat → Env → State → Outcome
  | 0, _, _ => .outOfFuel
  | n + 1, env, s =>
    let tempScope_scope := s.currentScope
    let entry (k : State → Outcome) : Outcome :=
      if s.currentScope ≠ NULL then emitThen env .INC 0 0 4 s k else k s
    entry fun s =>
      (const_declaration n env s).onOk fun s =>
        (var_declaration n env s).onOk fun s =>
          (proc_declaration n env s).onOk fun s =>
            let s := setScope (addrOfTempScope tempScope_scope) s
            (statement n env s).onOk fun s =>
              .ret 0 (setScope tempScope_scope s)

def proc_declaration : Nat → Env → State → Outcome
  | 0, _, _ => .outOfFuel
  | n + 1, env, s =>
    let symbol : Symbol :=
      { type := .PROC, name := "", value := 0, level := 0, address := 0, scope := NULL }
    let codeIndex := s.nextCodeIndex
    let procTrue : Bool := getCurrentTokenType env s = .procsym
    let entry (k : State → Outcome) : Outcome :=
      if getCurrentTokenType env s = .procsym then emitThen env .JMP 0 0 0 s k else k s
    entry fun s =>
      (procLoop n env symbol s).onOk fun s =>
        let close (k : State → Outcome) : Outcome :=
          if procTrue = true then emitThen env .RTN 0 0 0 s k else k s
        close fun s => setM env codeIndex s.nextCodeIndex s fun s => .ret 0 s

/-- The `while(getCurrentTokenType() == procsym)` loop of `proc_declaration`. -/
def procLoop : Nat → Env → Symbol → State → Outcome
  | 0, _, _, _ => .outOfFuel
  | n + 1, env, symbol, s =>
    if getCurrentTokenType env s = .procsym then
      let s := nextToken s
      if getCurrentTokenType env s ≠ .identsym then .ret 3 s
      else
        let symbol := { symbol with name := (getCurrentToken env s).lexeme }
        let s := nextToken s
        if getCurrentTokenType env s ≠ .semicolonsym then .ret 5 s
        else
          let s := nextToken s
          let symbol := { symbol with scope := s.currentScope, level := s.currentLevel,
                                      address := s.nextCodeIndex }
          let s := enterProc (addSymbol symbol s)
          match block n env s with
          | .ret err s =>
            let s := leaveProc s
            if err ≠ 0 then .ret err s
            else if getCurrentTokenType env s ≠ .semicolonsym then .ret 5 s
            else procLoop n env symbol (nextToken s)
          | .exit => .exit
          | .nullDeref => .nullDeref
          | .outOfBounds => .outOfBounds
          | .outOfFuel => .outOfFuel
    else .ret 0 s

end

def program (n : Nat) (env : Env) (s : State) : Outcome :=
  (block n env s).onOk fun s =>
    if getCurrentTokenType env s = .periodsym then
      emitThen env .SIO_HALT 0 0 3 (nextToken s) fun s => .ret 0 s
    else .ret 6 s

/-- State set up by `codeGenerator` before it calls `program`; `vmCode` keeps
whatever the global array held. -/
def initialState (vmCode : Nat → Instruction) : State :=
  { currentTokenInd := 0, currentLevel := 0, currentScope := NULL, symbolTable := [],
    vmCode := vmCode, nextCodeIndex := 0, currentReg := 0 }

/-- The function `codeGenerator`: how `program` ended, and the instruction
lines written to the output file (`printEmittedCodes`, only when `err` is 0). -/
def codeGenerator (n : Nat) (env : Env) (vmCode : Nat → Instruction) : Outcome × List Instruction :=
  match program n env (initialState vmCode) with
  | .ret err s => (.ret err s, if err = 0 then emitted s else [])
  | o => (o, [])

/-- Error code a call returned, if it returned. -/
def Outcome.code : Outcome → Option Nat
  | .ret err _ => some err
  | _ => none

/-- Modelled from the spec: `findSymbol` of `symbol.h`, whose source is not
available.  Section 4.2: the lookup takes a name and the current scope identity
and returns the matching record, requiring an exact scope-identity match; the
first such record in insertion order is taken, and `none` stands for the null
pointer returned when there is none. -/
def findSymbol (table : List Symbol) (scope : ScopePtr) (name : String) : Option Symbol :=
  table.find? fun sym => sym.name = name ∧ sym.scope = scope

/-- Buffer content before the first run: the zero-initialised global array
(the op code numbered 0 is not known; `LIT` stands for it). -/
def zeroCode : Nat → Instruction := fun _ => { op := .LIT, r := 0, l := 0, m := 0 }

end CodeGenerator

/-! ## Trace-mode parser (`parser.c`) -/

namespace Parser

/-- Modelled from the spec: the enumeration `NonTerminal` of `data.h` (section
6: one trace line per production entered), with the enumerators `parser.c`
names. -/
inductive NonTerminal
  | PROGRAM | BLOCK | CONST_DECLARATION | VAR_DECLARATION | PROC_DECLARATION
  | STATEMENT | CONDITION | REL_OP | EXPRESSION | TERM | FACTOR
  deriving DecidableEq, Repr, Inhabited

/-- One piece of the text written to the output file. -/
inductive TraceLine
  | header
  | nonterm (nonTerminal : NonTerminal)
  | token (id : TokenType) (lexeme : String)
  | symbolDump (table : List Symbol)
  deriving DecidableEq, Repr, Inhabited

/-- The globals of `parser.c` together with the text written so far. -/
structure State where
  currentTokenInd : Nat
  currentLevel : Nat
  symbolTable : List Symbol
  out : List TraceLine
  deriving DecidableEq, Repr, Inhabited

/-- Result of a call: `none` when the fuel ran out, otherwise the error code
returned and the state left behind. -/
abbrev Result := Option (Nat × State)

/-- Continue with `k` when the call returned 0 (`if (err) return err;`). -/
def Result.onOk (r : Result) (k : State → Result) : Result :=
  match r with
  | none => none
  | some (err, s) => if err = 0 then k s else some (err, s)

def getCurrentToken (ts : List Token) (s : State) : Token :=
  tokenAt ts s.currentTokenInd

def getCurrentTokenType (ts : List Token) (s : State) : TokenType :=
  (getCurrentToken ts s).id

def printCurrentToken (ts : List Token) (s : State) : State :=
  { s with out := s.out ++ [.token (getCurrentToken ts s).id (getCurrentToken ts s).lexeme] }

def nextToken (s : State) : State :=
  { s with currentTokenInd := s.currentTokenInd + 1 }

def printNonTerminal (nonTerminal : NonTerminal) (s : State) : State :=
  { s with out := s.out ++ [.nonterm nonTerminal] }

/-- The pair `printCurrentToken(); nextToken();`. -/
def consume (ts : List Token) (s : State) : State :=
  nextToken (printCurrentToken ts s)

/-- Modelled from the spec: `addSymbol` of `symbol.h` (section 2: the table is
insertion-ordered and supports append); a copy of the record is appended. -/
def addSymbol (sym : Symbol) (s : State) : State :=
  { s with symbolTable := s.symbolTable ++ [sym] }

/-- The statement `currentLevel++;` on the `unsigned int` global. -/
def levelUp (s : State) : State :=
  { s with currentLevel := (s.currentLevel + 1) % wordSize }

/-- The statement `currentLevel--;` on the `unsigned int` global. -/
def levelDown (s : State) : State :=
  { s with currentLevel := usub s.currentLevel 1 }

/-- The assignment `currentSymbol.value = strtod(lexeme, NULL);` for a lexeme
that is a row of decimal digits, as the numerals of the grammar are: the
`double` that `strtod` returns is converted to the `int` field.  A value inside
the range of `int` is stored as it is; outside that range the conversion has no
defined result in C, and the value is the one the conversion instruction of
x86-64 gives, -2147483648.  A lexeme in which a fraction, an exponent or a
hexadecimal prefix follows the digits is not covered: the embedding reads it up
to its leading digits, `strtod` reads on. -/
def strtodInt (lexeme : String) : Int :=
  if -2147483648 ≤ spelledInt lexeme ∧ spelledInt lexeme ≤ 2147483647 then spelledInt lexeme
  else -2147483648

/-- The `do ... while(getCurrentTokenType() == commasym)` loop of
`const_declaration`, entered at the token `const` or `,`. -/
def constLoop : Nat → List Token → Symbol → State → Result
  | 0, _, _, _ => none
  | n + 1, ts, currentSymbol, s =>
    let s := consume ts s
    if getCurrentTokenType ts s ≠ .identsym then some (3, s)
    else
      let currentSymbol := { currentSymbol with name := (getCurrentToken ts s).lexeme }
      let s := consume ts s
      if getCurrentTokenType ts s ≠ .eqsym then some (2, s)
      else
        let s := consume ts s
        if getCurrentTokenType ts s ≠ .numbersym then some (1, s)
        else
          let currentSymbol :=
            { currentSymbol with value := strtodInt (getCurrentToken ts s).lexeme }
          let s := consume ts (addSymbol currentSymbol s)
          if getCurrentTokenType ts s = .commasym then constLoop n ts currentSymbol s
          else some (0, s)

def const_declaration (n : Nat) (ts : List Token) (s : State) : Result :=
  let s := printNonTerminal .CONST_DECLARATION s
  if getCurrentTokenType ts s = .constsym then
    let currentSymbol : Symbol :=
      { type := .CONST, name := "", value := 0, level := s.currentLevel, address := 0,
        scope := NULL }
    (constLoop n ts currentSymbol s).onOk fun s =>
      if getCurrentTokenType ts s ≠ .semicolonsym then some (4, s)
      else some (0, consume ts s)
  else some (0, s)

/-- The `do ... while(getCurrentTokenType() == commasym)` loop of
`var_declaration`, entered at the token `var` or `,`. -/
def varLoop : Nat → List Token → Symbol → State → Result
  | 0, _, _, _ => none
  | n + 1, ts, currentSymbol, s =>
    let s := consume ts s
    if getCurrentTokenType ts s ≠ .identsym then some (3, s)
    else
      let currentSymbol := { currentSymbol with name := (getCurrentToken ts s).lexeme }
      let s := consume ts (addSymbol currentSymbol s)
      if getCurrentTokenType ts s = .commasym then varLoop n ts currentSymbol s
      else some (0, s)

def var_declaration (n : Nat) (ts : List Token) (s : State) : Result :=
  let s := printNonTerminal .VAR_DECLARATION s
  if getCurrentTokenType ts s = .varsym then
    let currentSymbol : Symbol :=
      { type := .VAR, name := "", value := 0, level := s.currentLevel, address := 0,
        scope := NULL }
    (varLoop n ts currentSymbol s).onOk fun s =>
      if getCurrentTokenType ts s ≠ .semicolonsym then some (4, s)
      else some (0, consume ts s)
  else some (0, s)

mutual

def expression : Nat → List Token → State → Result
  | 0, _, _ => none
  | n + 1, ts, s =>
    let s := printNonTerminal .EXPRESSION s
    let s :=
      if getCurrentTokenType ts s = .plussym ∨ getCurrentTokenType ts s = .minussym then
        consume ts s
      else s
    (term n ts s).onOk fun s => expressionLoop n ts s

/-- The `while` loop of `expression` over `+` and `-`. -/
def expressionLoop : Nat → List Token → State → Result
  | 0, _, _ => none
  | n + 1, ts, s =>
    if getCurrentTokenType ts s = .plussym ∨ getCurrentTokenType ts s = .minussym then
      (term n ts (consume ts s)).onOk fun s => expressionLoop n ts s
    else some (0, s)

def term : Nat → List Token → State → Result
  | 0, _, _ => none
  | n + 1, ts, s =>
    let s := printNonTerminal .TERM s
    (factor n ts s).onOk fun s => termLoop n ts s

/-- The `while` loop of `term` over `*` and `/`. -/
def termLoop : Nat → List Token → State → Result
  | 0, _, _ => none
  | n + 1, ts, s =>
    if getCurrentTokenType ts s = .multsym ∨ getCurrentTokenType ts s = .slashsym then
      (factor n ts (consume ts s)).onOk fun s => termLoop n ts s
    else some (0, s)

def factor : Nat → List Token → State → Result
  | 0, _, _ => none
  | n + 1, ts, s =>
    let s := printNonTerminal .FACTOR s
    if getCurrentTokenType ts s = .identsym then some (0, consume ts s)
    else if getCurrentTokenType ts s = .numbersym then some (0, consume ts s)
    else if getCurrentTokenType ts s = .lparentsym then
      (expression n ts (consume ts s)).onOk fun s =>
        if getCurrentTokenType ts s ≠ .rparentsym then some (13, s)
        else some (0, consume ts s)
    else some (14, s)

end

def relop (ts : List Token) (s : State) : Result :=
  let s := printNonTerminal .REL_OP s
  if getCurrentTokenType ts s = .eqsym ∨ getCurrentTokenType ts s = .neqsym
      ∨ getCurrentTokenType ts s = .lessym ∨ getCurrentTokenType ts s = .leqsym
      ∨ getCurrentTokenType ts s = .gtrsym ∨ getCurrentTokenType ts s = .geqsym then
    some (0, consume ts s)
  else some (12, s)

def condition (n : Nat) (ts : List Token) (s : State) : Result :=
  let s := printNonTerminal .CONDITION s
  if getCurrentTokenType ts s = .oddsym then
    (expression n ts (consume ts s)).onOk fun s => some (0, s)
  else
    (expression n ts s).onOk fun s =>
      (relop ts s).onOk fun s =>
        (expression n ts s).onOk fun s => some (0, s)

mutual

def statement : Nat → List Token → State → Result
  | 0, _, _ => none
  | n + 1, ts, s =>
    let s := printNonTerminal .STATEMENT s
    if getCurrentTokenType ts s = .identsym then
      let s := consume ts s
      if getCurrentTokenType ts s ≠ .becomessym then some (7, s)
      else (expression n ts (consume ts s)).onOk fun s => some (0, s)
    else if getCurrentTokenType ts s = .callsym then
      let s := consume ts s
      if getCurrentTokenType ts s ≠ .identsym then some (8, s)
      else some (0, consume ts s)
    else if getCurrentTokenType ts s = .beginsym then
      (statement n ts (consume ts s)).onOk fun s =>
        (beginLoop n ts s).onOk fun s =>
          if getCurrentTokenType ts s ≠ .endsym then some (10, s)
          else some (0, consume ts s)
    else if getCurrentTokenType ts s = .ifsym then
      (condition n ts (consume ts s)).onOk fun s =>
        if getCurrentTokenType ts s ≠ .thensym then some (9, s)
        else
          (statement n ts (consume ts s)).onOk fun s =>
            if getCurrentTokenType ts s = .elsesym then
              (statement n ts (consume ts s)).onOk fun s => some (0, s)
            else some (0, s)
    else if getCurrentTokenType ts s = .whilesym then
      (condition n ts (consume ts s)).onOk fun s =>
        if getCurrentTokenType ts s ≠ .dosym then some (11, s)
        else (statement n ts (consume ts s)).onOk fun s => some (0, s)
    else if getCurrentTokenType ts s = .writesym then
      let s := consume ts s
      if getCurrentTokenType ts s ≠ .identsym then some (3, s)
      else some (0, consume ts s)
    else if getCurrentTokenType ts s = .readsym then
      let s := consume ts s
      if getCurrentTokenType ts s ≠ .identsym then some (3, s)
      else some (0, consume ts s)
    else some (0, s)

/-- The `while (getCurrentTokenType() == semicolonsym)` loop of the `begin` branch. -/
def beginLoop : Nat → List Token → State → Result
  | 0, _, _ => none
  | n + 1, ts, s =>
    if getCurrentTokenType ts s = .semicolonsym then
      (statement n ts (consume ts s)).onOk fun s => beginLoop n ts s
    else some (0, s)

end

mutual

def block : Nat → List Token → State → Result
  | 0, _, _ => none
  | n + 1, ts, s =>
    let s := printNonTerminal .BLOCK s
    (const_declaration n ts s).onOk fun s =>
      (var_declaration n ts s).onOk fun s =>
        (proc_declaration n ts s).onOk fun s =>
          (statement n ts s).onOk fun s => some (0, s)

def proc_declaration : Nat → List Token → State → Result
  | 0, _, _ => none
  | n + 1, ts, s => procLoop n ts (printNonTerminal .PROC_DECLARATION s)

/-- The `while(getCurrentTokenType() == procsym)` loop of `proc_declaration`. -/
def procLoop : Nat → List Token → State → Result
  | 0, _, _ => none
  | n + 1, ts, s =>
    if getCurrentTokenType ts s = .procsym then
      let s := consume ts s
      if getCurrentTokenType ts s ≠ .identsym then some (3, s)
      else
        let currentSymbol : Symbol :=
          { type := .PROC, name := (getCurrentToken ts s).lexeme, value := 0,
            level := s.currentLevel, address := 0, scope := NULL }
        let s := consume ts (addSymbol currentSymbol s)
        if getCurrentTokenType ts s ≠ .semicolonsym then some (5, s)
        else
          let s := levelUp (consume ts s)
          (block n ts s).onOk fun s =>
            let s := levelDown s
            if getCurrentTokenType ts s ≠ .semicolonsym then some (5, s)
            else procLoop n ts (consume ts s)
    else some (0, s)

end

def program (n : Nat) (ts : List Token) (s : State) : Result :=
  let s := printNonTerminal .PROGRAM s
  (block n ts s).onOk fun s =>
    if getCurrentTokenType ts s ≠ .periodsym then some (6, s)
    else some (0, consume ts s)

/-- State set up by `parser` before it calls `program`. -/
def initialState : State :=
  { currentTokenInd := 0, currentLevel := 0, symbolTable := [], out := [.header] }

/-- The function `parser`: the error code and the text written to the output
file (the symbol table is dumped only when `err` is 0). -/
def parser (n : Nat) (ts : List Token) : Option (Nat × List TraceLine) :=
  match program n ts initialState with
  | none => none
  | some (err, s) => some (err, if err = 0 then s.out ++ [.symbolDump s.symbolTable] else s.out)

end Parser

/-! ## The grammar of section 4.1 -/

namespace Grammar

open TokenType

/-- Non-terminals of the grammar; `constTail`, `varTail`, `stmtTail`,
`exprTail` and `termTail` stand for the starred groups. -/
inductive GSym
  | program | block | const_decl | constTail | var_decl | varTail | proc_decl
  | statement | stmtTail | condition | relop | expression | exprTail | term | termTail
  | factor
  deriving DecidableEq, Repr

/-- Derivability of a string of token kinds from a non-terminal, one rule per
alternative of the grammar as the specification writes it. -/
inductive Derives : GSym → List TokenType → Prop
  | program {b : List TokenType} :
      Derives .block b → Derives .program (b ++ [periodsym])
  | block {c v p s : List TokenType} :
      Derives .const_decl c → Derives .var_decl v → Derives .proc_decl p →
      Derives .statement s → Derives .block (c ++ (v ++ (p ++ s)))
  | const_none : Derives .const_decl []
  | const_some {t : List TokenType} :
      Derives .constTail t →
      Derives .const_decl (constsym :: identsym :: eqsym :: numbersym :: (t ++ [semicolonsym]))
  | constTail_nil : Derives .constTail []
  | constTail_cons {t : List TokenType} :
      Derives .constTail t →
      Derives .constTail (commasym :: identsym :: eqsym :: numbersym :: t)
  | var_none : Derives .var_decl []
  | var_some {t : List TokenType} :
      Derives .varTail t → Derives .var_decl (varsym :: identsym :: (t ++ [semicolonsym]))
  | varTail_nil : Derives .varTail []
  | varTail_cons {t : List TokenType} :
      Derives .varTail t → Derives .varTail (commasym :: identsym :: t)
  | proc_nil : Derives .proc_decl []
  | proc_cons {b p : List TokenType} :
      Derives .block b → Derives .proc_decl p →
      Derives .proc_decl (procsym :: identsym :: semicolonsym :: (b ++ (semicolonsym :: p)))
  | stmt_assign {e : List TokenType} :
      Derives .expression e → Derives .statement (identsym :: becomessym :: e)
  | stmt_call : Derives .statement [callsym, identsym]
  | stmt_begin {s t : List TokenType} :
      Derives .statement s → Derives .stmtTail t →
      Derives .statement (beginsym :: (s ++ (t ++ [endsym])))
  | stmt_if {c s : List TokenType} :
      Derives .condition c → Derives .statement s →
      Derives .statement (ifsym :: (c ++ (thensym :: s)))
  | stmt_if_else {c s1 s2 : List TokenType} :
      Derives .condition c → Derives .statement s1 → Derives .statement s2 →
      Derives .statement (ifsym :: (c ++ (thensym :: (s1 ++ (elsesym :: s2)))))
  | stmt_while {c s : List TokenType} :
      Derives .condition c → Derives .statement s →
      Derives .statement (whilesym :: (c ++ (dosym :: s)))
  | stmt_write : Derives .statement [writesym, identsym]
  | stmt_read : Derives .statement [readsym, identsym]
  | stmt_empty : Derives .statement []
  | stmtTail_nil : Derives .stmtTail []
  | stmtTail_cons {s t : List TokenType} :
      Derives .statement s → Derives .stmtTail t → Derives .stmtTail (semicolonsym :: (s ++ t))
  | cond_odd {e : List TokenType} :
      Derives .expression e → Derives .condition (oddsym :: e)
  | cond_rel {e1 r e2 : List TokenType} :
      Derives .expression e1 → Derives .relop r → Derives .expression e2 →
      Derives .condition (e1 ++ (r ++ e2))
  | relop_eq : Derives .relop [eqsym]
  | relop_neq : Derives .relop [neqsym]
  | relop_les : Derives .relop [lessym]
  | relop_leq : Derives .relop [leqsym]
  | relop_gtr : Derives .relop [gtrsym]
  | relop_geq : Derives .relop [geqsym]
  | expr_term {t tl : List TokenType} :
      Derives .term t → Derives .exprTail tl → Derives .expression (t ++ tl)
  | expr_plus {t tl : List TokenType} :
      Derives .term t → Derives .exprTail tl → Derives .expression (plussym :: (t ++ tl))
  | expr_minus {t tl : List TokenType} :
      Derives .term t → Derives .exprTail tl → Derives .expression (minussym :: (t ++ tl))
  | exprTail_nil : Derives .exprTail []
  | exprTail_plus {t tl : List TokenType} :
      Derives .term t → Derives .exprTail tl → Derives .exprTail (plussym :: (t ++ tl))
  | exprTail_minus {t tl : List TokenType} :
      Derives .term t → Derives .exprTail tl → Derives .exprTail (minussym :: (t ++ tl))
  | term {f tl : List TokenType} :
      Derives .factor f → Derives .termTail tl → Derives .term (f ++ tl)
  | termTail_nil : Derives .termTail []
  | termTail_mult {f tl : List TokenType} :
      Derives .factor f → Derives .termTail tl → Derives .termTail (multsym :: (f ++ tl))
  | termTail_slash {f tl : List TokenType} :
      Derives .factor f → Derives .termTail tl → Derives .termTail (slashsym :: (f ++ tl))
  | factor_ident : Derives .factor [identsym]
  | factor_number : Derives .factor [numbersym]
  | factor_paren {e : List TokenType} :
      Derives .expression e → Derives .factor (lparentsym :: (e ++ [rparentsym]))

end Grammar

/-- Kind of the token at position `p` (`nulsym` past the end). -/
def kindAt (ts : List Token) (p : Nat) : TokenType := (tokenAt ts p).id

/-- Kinds of the tokens from position `p` on. -/
def kindsFrom (ts : List Token) (p : Nat) : List TokenType := (ts.drop p).map Token.id

/-- The tokens between positions `p` and `q` have the kinds `w`. -/
def Consumed (ts : List Token) (p q : Nat) (w : List TokenType) : Prop :=
  q = p + w.length ∧ kindsFrom ts p = w ++ kindsFrom ts q

/-! ## Example inputs -/

/-- Token stream of `const m = 7; var x; begin x := m + 1; write x end.` -/
def exampleProgram : List Token :=
  [⟨.constsym, "const"⟩, ⟨.identsym, "m"⟩, ⟨.eqsym, "="⟩, ⟨.numbersym, "7"⟩,
   ⟨.semicolonsym, ";"⟩, ⟨.varsym, "var"⟩, ⟨.identsym, "x"⟩, ⟨.semicolonsym, ";"⟩,
   ⟨.beginsym, "begin"⟩, ⟨.identsym, "x"⟩, ⟨.becomessym, ":="⟩, ⟨.identsym, "m"⟩,
   ⟨.plussym, "+"⟩, ⟨.numbersym, "1"⟩, ⟨.semicolonsym, ";"⟩, ⟨.writesym, "write"⟩,
   ⟨.identsym, "x"⟩, ⟨.endsym, "end"⟩, ⟨.periodsym, "."⟩]

/-- State in which the parser leaves `exampleProgram`. -/
def exampleProgramParsed : Parser.State :=
  ((Parser.program 12 exampleProgram Parser.initialState).getD (1, Parser.initialState)).2

namespace CodeGenerator

/-- Summary of an outcome: the error code returned, the token position and the
emitted code `vmCode[0 .. nextCodeIndex)` it leaves, or the way the run stopped. -/
inductive Ending
  | returned (err : Nat) (currentTokenInd : Nat) (code : List Instruction)
  | exit
  | nullDeref
  | outOfBounds
  | outOfFuel
  deriving DecidableEq, Repr

def Outcome.ending : Outcome → Ending
  | .ret err s => .returned err s.currentTokenInd (emitted s)
  | .exit => .exit
  | .nullDeref => .nullDeref
  | .outOfBounds => .outOfBounds
  | .outOfFuel => .outOfFuel

/-- Environment of the example runs: the lookup as the specification describes
it, and a buffer of 500 slots standing for `MAX_CODE_LENGTH` (the constant of
`data.h` is not known; the example runs emit at most a handful of instructions). -/
def specEnv (tokens : List Token) : Env :=
  { tokens := tokens, maxCodeLength := 500, findSymbol := findSymbol }

/-- State at the first token, at level 0 in the scope `NULL`, with the given
symbol table and an empty buffer. -/
def stateWith (table : List Symbol) : State :=
  { currentTokenInd := 0, currentLevel := 0, currentScope := NULL, symbolTable := table,
    vmCode := zeroCode, nextCodeIndex := 0, currentReg := 0 }

/-- Records of `const m = 7; var x;` declared at level 0 in the scope `NULL`. -/
def tableMX : List Symbol :=
  [{ type := .CONST, name := "m", value := 7, level := 0, address := 0, scope := NULL },
   { type := .VAR, name := "x", value := 0, level := 0, address := 1, scope := NULL }]

/-- Records of `var a, b;` declared at level 0 in the scope `NULL`. -/
def tableAB : List Symbol :=
  [{ type := .VAR, name := "a", value := 0, level := 0, address := 1, scope := NULL },
   { type := .VAR, name := "b", value := 0, level := 0, address := 2, scope := NULL }]

end CodeGenerator

/-- Token stream of `x := m + 1`. -/
def exampleAssign : List Token :=
  [⟨.identsym, "x"⟩, ⟨.becomessym, ":="⟩, ⟨.identsym, "m"⟩, ⟨.plussym, "+"⟩, ⟨.numbersym, "1"⟩]

/-- Token stream of `a + b`. -/
def exampleSum : List Token := [⟨.identsym, "a"⟩, ⟨.plussym, "+"⟩, ⟨.identsym, "b"⟩]

/-- Token stream of `a * b`. -/
def exampleProduct : List Token := [⟨.identsym, "a"⟩, ⟨.multsym, "*"⟩, ⟨.identsym, "b"⟩]

/-- Token stream of `a = b`. -/
def exampleRelation : List Token := [⟨.identsym, "a"⟩, ⟨.eqsym, "="⟩, ⟨.identsym, "b"⟩]

/-- Token stream of `odd a`. -/
def exampleOdd : List Token := [⟨.oddsym, "odd"⟩, ⟨.identsym, "a"⟩]

/-- Token stream of `- a ;`. -/
def exampleNegation : List Token :=
  [⟨.minussym, "-"⟩, ⟨.identsym, "a"⟩, ⟨.semicolonsym, ";"⟩]

/-- Token stream of `+ a ;`. -/
def examplePlusSign : List Token :=
  [⟨.plussym, "+"⟩, ⟨.identsym, "a"⟩, ⟨.semicolonsym, ";"⟩]

/-- Token stream of the number `7`. -/
def exampleNumber : List Token := [⟨.numbersym, "7"⟩]

/-- Token stream of `x := 1`. -/
def exampleAssignOne : List Token := [⟨.identsym, "x"⟩, ⟨.becomessym, ":="⟩, ⟨.numbersym, "1"⟩]

/-- Token stream of `call p`. -/
def exampleCall : List Token := [⟨.callsym, "call"⟩, ⟨.identsym, "p"⟩]

/-- Token stream of `write x`. -/
def exampleWrite : List Token := [⟨.writesym, "write"⟩, ⟨.identsym, "x"⟩]

/-- Token stream of `read x`. -/
def exampleRead : List Token := [⟨.readsym, "read"⟩, ⟨.identsym, "x"⟩]

/-- Token stream of the identifier `x`. -/
def exampleIdent : List Token := [⟨.identsym, "x"⟩]

/-- Token stream of `var x; x := 1 + end.` -/
def exampleBadFactor : List Token :=
  [⟨.varsym, "var"⟩, ⟨.identsym, "x"⟩, ⟨.semicolonsym, ";"⟩, ⟨.identsym, "x"⟩,
   ⟨.becomessym, ":="⟩, ⟨.numbersym, "1"⟩, ⟨.plussym, "+"⟩, ⟨.endsym, "end"⟩,
   ⟨.periodsym, "."⟩]

/-- Token stream of `var x = 5; .` -/
def exampleVarInit : List Token :=
  [⟨.varsym, "var"⟩, ⟨.identsym, "x"⟩, ⟨.eqsym, "="⟩, ⟨.numbersym, "5"⟩,
   ⟨.semicolonsym, ";"⟩, ⟨.periodsym, "."⟩]

/-! ## Notions used to state what the parser accepts -/

/-- The string `w` of token kinds stands in `ts` at position `p`. -/
def Occurs (ts : List Token) : Nat → List TokenType → Prop
  | _, [] => True
  | p, t :: w => kindAt ts p = t ∧ Occurs ts (p + 1) w

/-- The token at position `q` is neither `*` nor `/`. -/
def NoMul (ts : List Token) (q : Nat) : Prop :=
  kindAt ts q ≠ .multsym ∧ kindAt ts q ≠ .slashsym

/-- The token at position `q` is none of `+`, `-`, `*`, `/`. -/
def NoOp (ts : List Token) (q : Nat) : Prop :=
  kindAt ts q ≠ .plussym ∧ kindAt ts q ≠ .minussym ∧ NoMul ts q

/-- Kinds with which a factor, and so a term, begins. -/
def StartsFactor (t : TokenType) : Prop :=
  t = .identsym ∨ t = .numbersym ∨ t = .lparentsym

/-- Kinds with which a non-empty statement begins. -/
def StartsStatement (t : TokenType) : Prop :=
  t = .identsym ∨ t = .callsym ∨ t = .beginsym ∨ t = .ifsym ∨ t = .whilesym ∨ t = .writesym
    ∨ t = .readsym

namespace Parser

/-- What a successful run of a production function means: the tokens between
the entry and the exit position spell a string derivable from `X`. -/
def Sound (f : List Token → State → Result) (X : Grammar.GSym) : Prop :=
  ∀ ts s s', f ts s = some (0, s') →
    ∃ w, Grammar.Derives X w ∧ Consumed ts s.currentTokenInd s'.currentTokenInd w

/-- With enough fuel the call returns 0 and leaves the state `s'`. -/
def Returns (f : Nat → Result) (s' : State) : Prop :=
  ∃ n, ∀ m, n ≤ m → f m = some (0, s')

/-- Entered at position `p` in any state, the production function returns 0 at
position `q`, given enough fuel. -/
def Accepts (f : Nat → List Token → State → Result) (ts : List Token) (p q : Nat) : Prop :=
  ∀ s, s.currentTokenInd = p →
    ∃ s', s'.currentTokenInd = q ∧ Returns (fun m => f m ts s) s'

/-- Positions at which a statement may end: before `;`, `end` or `.`, or
before an `else` whose statement is accepted and ends at such a position. -/
inductive Tail (ts : List Token) : Nat → Prop
  | base {p : Nat} :
      kindAt ts p = .semicolonsym ∨ kindAt ts p = .endsym ∨ kindAt ts p = .periodsym →
      Tail ts p
  | els {p q : Nat} :
      kindAt ts p = .elsesym → Accepts statement ts (p + 1) q → Tail ts q → Tail ts p

/-- Positions reached from `p` by reading zero or more `else statement` groups. -/
inductive Reach (ts : List Token) : Nat → Nat → Prop
  | refl (p : Nat) : Reach ts p p
  | step {p q r : Nat} :
      kindAt ts p = .elsesym → Accepts statement ts (p + 1) q → Reach ts q r → Reach ts p r

/-- Completeness of the production function of each non-terminal: wherever a
derivable string stands in the token list, followed by a token that cannot
extend it, the function accepts it. -/
def Complete (ts : List Token) : Grammar.GSym → List TokenType → Prop
  | .factor, w => ∀ p, Occurs ts p w → Accepts factor ts p (p + w.length)
  | .termTail, w => ∀ p, Occurs ts p w → NoMul ts (p + w.length) →
      Accepts termLoop ts p (p + w.length)
  | .term, w => ∀ p, Occurs ts p w → NoMul ts (p + w.length) →
      Accepts term ts p (p + w.length)
  | .exprTail, w => ∀ p, Occurs ts p w → NoOp ts (p + w.length) →
      Accepts expressionLoop ts p (p + w.length)
  | .expression, w => ∀ p, Occurs ts p w → NoOp ts (p + w.length) →
      Accepts expression ts p (p + w.length)
  | .relop, w => ∀ p, Occurs ts p w → Accepts (fun _ => relop) ts p (p + w.length)
  | .condition, w => ∀ p, Occurs ts p w → NoOp ts (p + w.length) →
      Accepts condition ts p (p + w.length)
  | .statement, w => ∀ p, Occurs ts p w → Tail ts (p + w.length) →
      ∃ q, Accepts statement ts p q ∧ Reach ts (p + w.length) q ∧ Tail ts q
  | .stmtTail, w => ∀ p, Occurs ts p w → kindAt ts (p + w.length) = .endsym →
      Accepts beginLoop ts p (p + w.length)
  | .constTail, w => ∀ p, Occurs ts (p + 4) w → kindAt ts (p + 4 + w.length) ≠ .commasym →
      kindAt ts (p + 1) = .identsym → kindAt ts (p + 2) = .eqsym →
      kindAt ts (p + 3) = .numbersym →
      ∀ sym, Accepts (fun n ts s => constLoop n ts sym s) ts p (p + 4 + w.length)
  | .const_decl, w => ∀ p, Occurs ts p w → (w = [] → kindAt ts p ≠ .constsym) →
      Accepts const_declaration ts p (p + w.length)
  | .varTail, w => ∀ p, Occurs ts (p + 2) w → kindAt ts (p + 2 + w.length) ≠ .commasym →
      kindAt ts (p + 1) = .identsym →
      ∀ sym, Accepts (fun n ts s => varLoop n ts sym s) ts p (p + 2 + w.length)
  | .var_decl, w => ∀ p, Occurs ts p w → (w = [] → kindAt ts p ≠ .varsym) →
      Accepts var_declaration ts p (p + w.length)
  | .proc_decl, w => ∀ p, Occurs ts p w → kindAt ts (p + w.length) ≠ .procsym →
      Accepts procLoop ts p (p + w.length)
  | .block, w => ∀ p, Occurs ts p w →
      (kindAt ts (p + w.length) = .periodsym ∨ kindAt ts (p + w.length) = .semicolonsym) →
      Accepts block ts p (p + w.length)
  | .program, w => ∀ p, Occurs ts p w → Accepts program ts p (p + w.length)

end Parser

/-! ## Notions used to state what the code generator emits -/

namespace CodeGenerator

/-- State after a successful `emit(OP, R, L, M)`. -/
def pushed (OP : Opcode) (R L M : Int) (s : State) : State :=
  { s with vmCode := Function.update s.vmCode s.nextCodeIndex { op := OP, r := R, l := L, m := M },
           nextCodeIndex := s.nextCodeIndex + 1 }

/-- State after the assignment `vmCode[i].m = M;`. -/
def patched (i : Nat) (M : Int) (s : State) : State :=
  { s with vmCode := Function.update s.vmCode i { s.vmCode i with m := M } }

/-- The buffer of `s` has at least `lo` emitted slots and agrees with `c` on the
first `lo` of them. -/
def Keeps (lo : Nat) (c : Nat → Instruction) (s : State) : Prop :=
  lo ≤ s.nextCodeIndex ∧ ∀ i, i < lo → s.vmCode i = c i

/-- Every state that the call can leave on return, with whatever error code,
satisfies `P`. -/
def Outcome.Leaves (o : Outcome) (P : State → Prop) : Prop :=
  ∀ err s', o = .ret err s' → P s'

/-- The call `f` has the frame property: whatever state it returns in, it has
left every slot below the index it was entered with as it was, and has not
moved `nextCodeIndex` below that index. -/
def Framed (f : State → Outcome) : Prop :=
  ∀ (lo : Nat) (c : Nat → Instruction) (s : State), Keeps lo c s → (f s).Leaves (Keeps lo c)

end CodeGenerator

/-! ## Notions used to state where the emitted jumps lead -/

namespace CodeGenerator

/-- The instruction at index `i` has the shape of the `JMP` that closes a
`while` loop begun at or after index `lo`: its modifier is an index `a` with
`lo ≤ a`, and at some index `j` with `a ≤ j < i` stands the `JPC` of the loop,
whose modifier is `i + 1`, the index just behind the `JMP`. -/
def ClosesWhile (code : Nat → Instruction) (lo i : Nat) : Prop :=
  ∃ a j : Nat, (code i).m = (a : Int) ∧ lo ≤ a ∧ a ≤ j ∧ j < i ∧
    code j = { op := .JPC, r := 0, l := 0, m := ((i + 1 : Nat) : Int) }

/-- Jump discipline of the instruction at index `i` inside the segment
`[lo, hi)`: a `JPC` leads forward to an index up to `hi`; a `JMP` does so too,
or it closes a `while` loop of the segment. -/
def JumpOK (code : Nat → Instruction) (lo hi i : Nat) : Prop :=
  ((code i).op = .JPC → (i : Int) < (code i).m ∧ (code i).m ≤ (hi : Int)) ∧
    ((code i).op = .JMP →
      ((i : Int) < (code i).m ∧ (code i).m ≤ (hi : Int)) ∨ ClosesWhile code lo i)

/-- Every instruction of the segment `[lo, hi)` keeps the jump discipline. -/
def SegOK (code : Nat → Instruction) (lo hi : Nat) : Prop :=
  ∀ i, lo ≤ i → i < hi → JumpOK code lo hi i

/-- The outcome `o` of a call entered in the state `s` is good: when the call
has returned 0, it has left the code below the entry index as it was, and the
segment it has emitted keeps the jump discipline. -/
def Good (s : State) (o : Outcome) : Prop :=
  ∀ s', o = .ret 0 s' →
    Keeps s.nextCodeIndex s.vmCode s' ∧ SegOK s'.vmCode s.nextCodeIndex s'.nextCodeIndex

end CodeGenerator

/-! ## Notions used to state what a variable declaration records -/

/-- The tokens from position `p` on are `id1 , id2 , ... , idN ;` with the
names `ids` (at least one). -/
def VarList (ts : List Token) : Nat → List String → Prop
  | _, [] => False
  | p, [x] =>
    kindAt ts p = .identsym ∧ (tokenAt ts p).lexeme = x ∧ kindAt ts (p + 1) = .semicolonsym
  | p, x :: y :: r =>
    kindAt ts p = .identsym ∧ (tokenAt ts p).lexeme = x ∧ kindAt ts (p + 1) = .commasym
      ∧ VarList ts (p + 2) (y :: r)

/-- The fields of a record that a variable declaration assigns: kind, name,
level, scope and address (`value` is left indeterminate). -/
def Symbol.declared (y : Symbol) : SymbolType × String × Nat × ScopePtr × Int :=
  (y.type, y.name, y.level, y.scope, y.address)

/-- The fields of the variable records for the names `ids` at level `L` in the
scope `scope`, in order, the first name having the ordinal `k + 1`: the record
with the ordinal `i` has the address `4 * L + i`. -/
def varRecords (L : Nat) (scope : ScopePtr) :
    Nat → List String → List (SymbolType × String × Nat × ScopePtr × Int)
  | _, [] => []
  | k, x :: r =>
    (.VAR, x, L, scope, 4 * (L : Int) + ((k + 1 : Nat) : Int)) :: varRecords L scope (k + 1) r

instance VarList.decidable (ts : List Token) :
    ∀ (p : Nat) (ids : List String), Decidable (VarList ts p ids)
  | _, [] => inferInstanceAs (Decidable False)
  | p, [x] =>
    inferInstanceAs (Decidable (kindAt ts p = .identsym ∧ (tokenAt ts p).lexeme = x
      ∧ kindAt ts (p + 1) = .semicolonsym))
  | p, x :: y :: r =>
    have := VarList.decidable ts (p + 2) (y :: r)
    inferInstanceAs (Decidable (kindAt ts p = .identsym ∧ (tokenAt ts p).lexeme = x
      ∧ kindAt ts (p + 1) = .commasym ∧ VarList ts (p + 2) (y :: r)))

/-! ## Example inputs of the code generator -/

/-- Token stream of `var x ;`. -/
def exampleVarOne : List Token :=
  [⟨.varsym, "var"⟩, ⟨.identsym, "x"⟩, ⟨.semicolonsym, ";"⟩]

/-- Token stream of `var a , b , c ;`. -/
def exampleVarThree : List Token :=
  [⟨.varsym, "var"⟩, ⟨.identsym, "a"⟩, ⟨.commasym, ","⟩, ⟨.identsym, "b"⟩,
   ⟨.commasym, ","⟩, ⟨.identsym, "c"⟩, ⟨.semicolonsym, ";"⟩]

/-- Token stream of `var a , b , c ; .` -/
def exampleVarThreeProgram : List Token :=
  exampleVarThree ++ [⟨.periodsym, "."⟩]

/-- Token stream of `procedure p ; ; procedure q ; ; .` -/
def exampleTwoProcs : List Token :=
  [⟨.procsym, "procedure"⟩, ⟨.identsym, "p"⟩, ⟨.semicolonsym, ";"⟩, ⟨.semicolonsym, ";"⟩,
   ⟨.procsym, "procedure"⟩, ⟨.identsym, "q"⟩, ⟨.semicolonsym, ";"⟩, ⟨.semicolonsym, ";"⟩,
   ⟨.periodsym, "."⟩]

/-- Token stream of `procedure p ; ; .` -/
def exampleOneProc : List Token :=
  [⟨.procsym, "procedure"⟩, ⟨.identsym, "p"⟩, ⟨.semicolonsym, ";"⟩, ⟨.semicolonsym, ";"⟩,
   ⟨.periodsym, "."⟩]

/-- Token stream of `if odd a then read a else read b`. -/
def exampleIfElse : List Token :=
  [⟨.ifsym, "if"⟩, ⟨.oddsym, "odd"⟩, ⟨.identsym, "a"⟩, ⟨.thensym, "then"⟩,
   ⟨.readsym, "read"⟩, ⟨.identsym, "a"⟩, ⟨.elsesym, "else"⟩, ⟨.readsym, "read"⟩,
   ⟨.identsym, "b"⟩]

/-- Token stream of `if odd a then read a`. -/
def exampleIf : List Token :=
  [⟨.ifsym, "if"⟩, ⟨.oddsym, "odd"⟩, ⟨.identsym, "a"⟩, ⟨.thensym, "then"⟩,
   ⟨.readsym, "read"⟩, ⟨.identsym, "a"⟩]

/-- Token stream of `while odd a do begin if odd b then while odd a do read b end`. -/
def exampleNestedLoops : List Token :=
  [⟨.whilesym, "while"⟩, ⟨.oddsym, "odd"⟩, ⟨.identsym, "a"⟩, ⟨.dosym, "do"⟩,
   ⟨.beginsym, "begin"⟩, ⟨.ifsym, "if"⟩, ⟨.oddsym, "odd"⟩, ⟨.identsym, "b"⟩,
   ⟨.thensym, "then"⟩, ⟨.whilesym, "while"⟩, ⟨.oddsym, "odd"⟩, ⟨.identsym, "a"⟩,
   ⟨.dosym, "do"⟩, ⟨.readsym, "read"⟩, ⟨.identsym, "b"⟩, ⟨.endsym, "end"⟩]

namespace CodeGenerator

/-- Record of a procedure `p` declared at level 3 in the scope `NULL`, its body
starting at instruction 7. -/
def tableDeepP : List Symbol :=
  [{ type := .PROC, name := "p", value := 0, level := 3, address := 7, scope := NULL }]

/-- State at the first token, at the given level in the scope `NULL`, with the
given symbol table and an empty buffer. -/
def stateAtLevel (level : Nat) (table : List Symbol) : State :=
  { currentTokenInd := 0, currentLevel := level, currentScope := NULL, symbolTable := table,
    vmCode := zeroCode, nextCodeIndex := 0, currentReg := 0 }

/-- State at the first token in which the buffer of `env` is full. -/
def stateFull (env : Env) : State :=
  { currentTokenInd := 0, currentLevel := 0, currentScope := NULL, symbolTable := [],
    vmCode := zeroCode, nextCodeIndex := env.maxCodeLength, currentReg := 0 }

/-- State in which `proc_declaration` enters the body of a procedure declared
in the global block: one step into the scope and one level up. -/
def stateInProc : State := enterProc (initialState zeroCode)

end CodeGenerator

namespace CodeGenerator

/-- Symbol table a call leaves when it returns (empty when it does not return). -/
def Outcome.symbols : Outcome → List Symbol
  | .ret _ s => s.symbolTable
  | _ => []

end CodeGenerator

/-- Token stream of
`var a ; while odd a do if odd a then begin end else begin end .` -/
def exampleJumps : List Token :=
  [⟨.varsym, "var"⟩, ⟨.identsym, "a"⟩, ⟨.semicolonsym, ";"⟩, ⟨.whilesym, "while"⟩,
   ⟨.oddsym, "odd"⟩, ⟨.identsym, "a"⟩, ⟨.dosym, "do"⟩, ⟨.ifsym, "if"⟩, ⟨.oddsym, "odd"⟩,
   ⟨.identsym, "a"⟩, ⟨.thensym, "then"⟩, ⟨.beginsym, "begin"⟩, ⟨.endsym, "end"⟩,
   ⟨.elsesym, "else"⟩, ⟨.beginsym, "begin"⟩, ⟨.endsym, "end"⟩, ⟨.periodsym, "."⟩]

namespace CodeGenerator

/-- A lookup that takes the first record with the name, whatever its scope. -/
def findByName (table : List Symbol) (_scope : ScopePtr) (name : String) : Option Symbol :=
  table.find? fun sym => sym.name = name

/-- Environment with the lookup by name alone and a buffer of 500 slots: under
it the identifiers of a block's statement are found, which the exact-scope
lookup of `specEnv` never does. -/
def byNameEnv (tokens : List Token) : Env :=
  { tokens := tokens, maxCodeLength := 500, findSymbol := findByName }

end CodeGenerator

/-! ## Notions and inputs used for the empty statement, the registers and the patches -/

/-- Token stream of `procedure p ; ; .` is `exampleOneProc`; this is the one of `;`,
the rest of a procedure body that declares nothing and has an empty statement. -/
def exampleSemicolon : List Token := [⟨.semicolonsym, ";"⟩]

namespace CodeGenerator

/-- The first slot that is not emitted when a call has returned: `nextCodeIndex`
and the content of `vmCode[nextCodeIndex]`. -/
def Outcome.nextSlot : Outcome → Option (Nat × Instruction)
  | .ret _ s => some (s.nextCodeIndex, s.vmCode s.nextCodeIndex)
  | _ => none

/-- State in which the loop of `proc_declaration()` calls `block()` for the
body of `p` when the program is `procedure p ; ; .`: the `JMP` is emitted, the
three tokens `procedure p ;` are read, the record of `p` is appended, and scope
and level are one step up. -/
def stateAtBodyOfP : State :=
  enterProc (addSymbol
    { type := .PROC, name := "p", value := 0, level := 0, address := 1, scope := NULL }
    (nextToken (nextToken (nextToken (pushed .JMP 0 0 0 (initialState zeroCode))))))

/-- The register discipline of a state: `currentReg` is 0 and every emitted
instruction has the register field 0. -/
def RegOK (s : State) : Prop :=
  s.currentReg = 0 ∧ ∀ i, i < s.nextCodeIndex → (s.vmCode i).r = 0

end CodeGenerator

instance StartsStatement.decidable (t : TokenType) : Decidable (StartsStatement t) :=
  inferInstanceAs (Decidable (t = .identsym ∨ t = .callsym ∨ t = .beginsym ∨ t = .ifsym
    ∨ t = .whilesym ∨ t = .writesym ∨ t = .readsym))

instance StartsFactor.decidable (t : TokenType) : Decidable (StartsFactor t) :=
  inferInstanceAs (Decidable (t = .identsym ∨ t = .numbersym ∨ t = .lparentsym))

/-- Token stream of `end`. -/
def exampleEnd : List Token := [⟨.endsym, "end"⟩]

/-- Token stream of `var a ; procedure p ; var x ; ; .` -/
def exampleVarInProc : List Token :=
  [⟨.varsym, "var"⟩, ⟨.identsym, "a"⟩, ⟨.semicolonsym, ";"⟩, ⟨.procsym, "procedure"⟩,
   ⟨.identsym, "p"⟩, ⟨.semicolonsym, ";"⟩, ⟨.varsym, "var"⟩, ⟨.identsym, "x"⟩,
   ⟨.semicolonsym, ";"⟩, ⟨.semicolonsym, ";"⟩, ⟨.periodsym, "."⟩]

/-- Environment of `specEnv` with a buffer of four slots, which the four
instructions emitted for `var a ; procedure p ; var x ;` fill. -/
def smallEnv (tokens : List Token) : CodeGenerator.Env :=
  { tokens := tokens, maxCodeLength := 4, findSymbol := CodeGenerator.findSymbol }

namespace CodeGenerator

/-- The call `f` keeps the register discipline: entered in a state that has it,
it returns, with whatever error code, in a state that has it. -/
def Regs (f : State → Outcome) : Prop :=
  ∀ s : State, RegOK s → (f s).Leaves RegOK

end CodeGenerator

/-! ## Notions used to state what the parser prints and that it returns -/

namespace Parser

/-- The `TOKEN` lines of a text, in order: the kind and the lexeme each shows. -/
def tokenLines (out : List TraceLine) : List (TokenType × String) :=
  out.filterMap fun l =>
    match l with
    | .token id lexeme => some (id, lexeme)
    | _ => none

/-- The position is inside the list or just behind it, and the `TOKEN` lines
written so far are the tokens before the position, in order, one line each. -/
def Traced (ts : List Token) (s : State) : Prop :=
  s.currentTokenInd ≤ ts.length ∧
    tokenLines s.out = (ts.take s.currentTokenInd).map fun t => (t.id, t.lexeme)

/-- The state is `Traced` and its position is `p` or beyond. -/
def At (ts : List Token) (p : Nat) (s : State) : Prop :=
  Traced ts s ∧ p ≤ s.currentTokenInd

/-- The call has returned, with whatever error code, in a state that is
`Traced`, at the position `p` or beyond. -/
def Result.Fine (ts : List Token) (p : Nat) (r : Result) : Prop :=
  ∃ err s', r = some (err, s') ∧ At ts p s'

/-- With `4 * r + o` units of fuel, where `r` tokens stand from the position
`p` on, the production function returns when it is entered at `p` or beyond,
it does so at `p` or beyond, and it keeps `Traced`. -/
def Total (ts : List Token) (o : Nat) (f : Nat → State → Result) : Prop :=
  ∀ (n : Nat) (s : State) (p : Nat), At ts p s → 4 * (ts.length - p) + o ≤ n →
    (f n s).Fine ts p

end Parser

/-- Token stream of `x := 1 .` -/
def exampleAssignOneProgram : List Token := exampleAssignOne ++ [⟨.periodsym, "."⟩]

/-! ## Notions used to state that the code generator comes to an end -/

namespace CodeGenerator

/-- The call did not stop for lack of fuel, and every state it leaves when it
returns 0 satisfies `Q`. -/
def Outcome.Safe (o : Outcome) (Q : State → Prop) : Prop :=
  o ≠ .outOfFuel ∧ ∀ s', o = .ret 0 s' → Q s'

/-- The token position of the state is `p` or beyond. -/
def Pos (p : Nat) (s : State) : Prop := p ≤ s.currentTokenInd

/-- A token of the list stands at `p`, and the state is beyond `p`. -/
def Gain (env : Env) (p : Nat) (s : State) : Prop :=
  p < env.tokens.length ∧ Pos (p + 1) s

end CodeGenerator

/-! ## Notions used to state what the parser records -/

/-- What is said of a record: its kind, its name, its level, and the value when
it is a constant. -/
def Symbol.entry (y : Symbol) : SymbolType × String × Nat × Option Int :=
  (y.type, y.name, y.level, if y.type = .CONST then some y.value else none)

/-- The lexeme is an unsigned decimal numeral: one decimal digit or more, and
nothing else. -/
def Numeral (lexeme : String) : Prop :=
  lexeme.toList ≠ [] ∧ ∀ c ∈ lexeme.toList, isdigit c = true

/-- Value of a row of decimal digits that follows digits of the value `acc`. -/
def digitsValue : List Char → Int → Int
  | [], acc => acc
  | c :: cs, acc => digitsValue cs (10 * acc + ((c.toNat - 48 : Nat) : Int))

/-- The number that a decimal numeral denotes. -/
def numeralValue (lexeme : String) : Int := digitsValue lexeme.toList 0

/-- Every number token of the list is an unsigned decimal numeral that denotes
a number of at most 2147483647, the largest value of an `int`. -/
def NumbersFit (ts : List Token) : Prop :=
  ∀ t ∈ ts, t.id = .numbersym → Numeral t.lexeme ∧ numeralValue t.lexeme ≤ 2147483647

instance Numeral.decidable (lexeme : String) : Decidable (Numeral lexeme) :=
  inferInstanceAs (Decidable (lexeme.toList ≠ [] ∧ ∀ c ∈ lexeme.toList, isdigit c = true))

instance NumbersFit.decidable (ts : List Token) : Decidable (NumbersFit ts) :=
  inferInstanceAs (Decidable (∀ t ∈ ts, t.id = .numbersym →
    Numeral t.lexeme ∧ numeralValue t.lexeme ≤ 2147483647))

namespace Parser

/-- Every state that the call can leave on return, with whatever error code,
satisfies `P`. -/
def Result.Leaves (r : Result) (P : State → Prop) : Prop :=
  ∀ e s', r = some (e, s') → P s'

/-- The records of the symbol table, as `Symbol.entry` shows them. -/
def entries (s : State) : List (SymbolType × String × Nat × Option Int) :=
  s.symbolTable.map Symbol.entry

end Parser

namespace CodeGenerator

/-- The lookup hands out records of the table it is given, whatever its rule
for the name and the scope is. -/
def FromTable (env : Env) : Prop :=
  ∀ (table : List Symbol) (scope : ScopePtr) (name : String) (sym : Symbol),
    env.findSymbol table scope name = some sym → sym ∈ table

/-- Every record of the symbol table carries a scope of the form `NULL + k`,
the values that `currentScope` takes while declarations are read. -/
def NullBased (s : State) : Prop :=
  ∀ y ∈ s.symbolTable, y.scope.base = .null

/-- No emitted instruction is a `CAL`. -/
def NoCal (s : State) : Prop :=
  ∀ i, i < s.nextCodeIndex → (s.vmCode i).op ≠ .CAL

/-- The state has the current scope `c`, records with scopes `NULL + k` only,
and no `CAL` in the emitted code. -/
def Settled (c : ScopePtr) (s : State) : Prop :=
  s.currentScope = c ∧ NullBased s ∧ NoCal s

/-- Whatever the call returns, it leaves records with scopes `NULL + k` only
and no `CAL` in the emitted code, and when it returns 0 the current scope is
`c`. -/
def Outcome.Wraps (o : Outcome) (c : ScopePtr) : Prop :=
  ∀ err s', o = .ret err s' → NullBased s' ∧ NoCal s' ∧ (err = 0 → s'.currentScope = c)

end CodeGenerator

/-- Token stream of `procedure p ; ; call p .` -/
def exampleProcCall : List Token :=
  [⟨.procsym, "procedure"⟩, ⟨.identsym, "p"⟩, ⟨.semicolonsym, ";"⟩, ⟨.semicolonsym, ";"⟩,
   ⟨.callsym, "call"⟩, ⟨.identsym, "p"⟩, ⟨.periodsym, "."⟩]

namespace CodeGenerator

/-- State in which `block()` calls `statement()` for `call p` when the program
is `procedure p ; ; call p .`: the state that `proc_declaration()` leaves, with
the record of `p` in the table, and with `currentScope = &tempScope`. -/
def stateAtCallOfP : State :=
  match proc_declaration 10 (byNameEnv exampleProcCall) (initialState zeroCode) with
  | .ret _ s => setScope (addrOfTempScope NULL) s
  | _ => initialState zeroCode

instance NullBased.decidable (s : State) : Decidable (NullBased s) :=
  inferInstanceAs (Decidable (∀ y ∈ s.symbolTable, y.scope.base = .null))

end CodeGenerator
/-! ## Soundness of the parser -/

namespace Parser
open Grammar TokenType

@[simp] theorem getCurrentTokenType_eq (ts : List Token) (s : State) :
    getCurrentTokenType ts s = kindAt ts s.currentTokenInd := rfl

@[simp] theorem printNonTerminal_ind (nt : NonTerminal) (s : State) :
    (printNonTerminal nt s).currentTokenInd = s.currentTokenInd := rfl

@[simp] theorem consume_ind (ts : List Token) (s : State) :
    (consume ts s).currentTokenInd = s.currentTokenInd + 1 := rfl

@[simp] theorem addSymbol_ind (sym : Symbol) (s : State) :
    (addSymbol sym s).currentTokenInd = s.currentTokenInd := rfl

@[simp] theorem levelUp_ind (s : State) :
    (levelUp s).currentTokenInd = s.currentTokenInd := rfl

@[simp] theorem levelDown_ind (s : State) :
    (levelDown s).currentTokenInd = s.currentTokenInd := rfl

end Parser

theorem Consumed.refl (ts : List Token) (p : Nat) : Consumed ts p p [] := by
  simp [Consumed]

theorem Consumed.seq {ts : List Token} {p q r : Nat} {u v : List TokenType}
    (h1 : Consumed ts p q u) (h2 : Consumed ts q r v) : Consumed ts p r (u ++ v) := by
  obtain ⟨a1, b1⟩ := h1
  obtain ⟨a2, b2⟩ := h2
  refine ⟨?_, ?_⟩
  · simp [a2, a1, Nat.add_assoc]
  · rw [b1, b2, List.append_assoc]

theorem Consumed.one {ts : List Token} {p : Nat} {t : TokenType}
    (h : kindAt ts p = t) (ht : t ≠ .nulsym) : Consumed ts p (p + 1) [t] := by
  unfold kindAt tokenAt at h
  cases hg : ts.get? p with
  | none => rw [hg] at h; simp [nulToken] at h; exact absurd h.symm ht
  | some tok =>
    rw [hg] at h
    simp at h
    refine ⟨rfl, ?_⟩
    have hlt : p < ts.length := by
      rw [List.get?_eq_some] at hg
      exact hg.1
    have : ts.drop p = tok :: ts.drop (p + 1) := by
      rw [List.get?_eq_some] at hg
      obtain ⟨h1, h2⟩ := hg
      rw [← h2]
      exact List.drop_eq_getElem_cons h1
    simp [kindsFrom, this, h]

theorem Consumed.cons {ts : List Token} {p q : Nat} {t : TokenType} {w : List TokenType}
    (h : kindAt ts p = t) (ht : t ≠ .nulsym) (h2 : Consumed ts (p + 1) q w) :
    Consumed ts p q (t :: w) :=
  Consumed.seq (Consumed.one h ht) h2

namespace Parser
open Grammar TokenType

theorem Result.onOk_eq_ok {r : Result} {k : State → Result} {s' : State} :
    r.onOk k = some (0, s') ↔ ∃ s1, r = some (0, s1) ∧ k s1 = some (0, s') := by
  cases r with
  | none => simp [Result.onOk]
  | some v =>
    obtain ⟨e, s⟩ := v
    by_cases he : e = 0
    · subst he; simp [Result.onOk]
    · simp [Result.onOk, he]

theorem expression_group_sound (n : Nat) :
    Sound (expression n) .expression ∧ Sound (expressionLoop n) .exprTail ∧
    Sound (term n) .term ∧ Sound (termLoop n) .termTail ∧ Sound (factor n) .factor := by
  induction n with
  | zero =>
    refine ⟨?_, ?_, ?_, ?_, ?_⟩ <;> intro ts s s' h
    · simp [expression] at h
    · simp [expressionLoop] at h
    · simp [term] at h
    · simp [termLoop] at h
    · simp [factor] at h
  | succ n ih =>
    obtain ⟨ihE, ihEL, ihT, ihTL, ihF⟩ := ih
    refine ⟨?_, ?_, ?_, ?_, ?_⟩ <;> intro ts s s' h
    · -- expression
      rw [expression] at h
      simp only [Result.onOk_eq_ok] at h
      obtain ⟨s1, h1, h2⟩ := h
      obtain ⟨wt, dt, ct⟩ := ihT _ _ _ h1
      obtain ⟨wl, dl, cl⟩ := ihEL _ _ _ h2
      by_cases hp : kindAt ts s.currentTokenInd = plussym
      · simp [hp] at ct
        exact ⟨_, Derives.expr_plus dt dl, Consumed.cons hp (by decide) (ct.seq cl)⟩
      · by_cases hm : kindAt ts s.currentTokenInd = minussym
        · simp [hm] at ct
          exact ⟨_, Derives.expr_minus dt dl, Consumed.cons hm (by decide) (ct.seq cl)⟩
        · simp [hp, hm] at ct
          exact ⟨_, Derives.expr_term dt dl, ct.seq cl⟩
    · -- expressionLoop
      rw [expressionLoop] at h
      by_cases hp : kindAt ts s.currentTokenInd = plussym
      · simp only [getCurrentTokenType_eq, hp, true_or, if_true, Result.onOk_eq_ok] at h
        obtain ⟨s1, h1, h2⟩ := h
        obtain ⟨wt, dt, ct⟩ := ihT _ _ _ h1
        obtain ⟨wl, dl, cl⟩ := ihEL _ _ _ h2
        exact ⟨_, Derives.exprTail_plus dt dl, Consumed.cons hp (by decide) (ct.seq cl)⟩
      · by_cases hm : kindAt ts s.currentTokenInd = minussym
        · simp only [getCurrentTokenType_eq, hm, or_true, if_true, Result.onOk_eq_ok] at h
          obtain ⟨s1, h1, h2⟩ := h
          obtain ⟨wt, dt, ct⟩ := ihT _ _ _ h1
          obtain ⟨wl, dl, cl⟩ := ihEL _ _ _ h2
          exact ⟨_, Derives.exprTail_minus dt dl, Consumed.cons hm (by decide) (ct.seq cl)⟩
        · simp [hp, hm] at h
          subst h
          exact ⟨[], Derives.exprTail_nil, Consumed.refl _ _⟩
    · -- term
      rw [term] at h
      simp only [Result.onOk_eq_ok] at h
      obtain ⟨s1, h1, h2⟩ := h
      obtain ⟨wf, df, cf⟩ := ihF _ _ _ h1
      obtain ⟨wl, dl, cl⟩ := ihTL _ _ _ h2
      exact ⟨_, Derives.term df dl, cf.seq cl⟩
    · -- termLoop
      rw [termLoop] at h
      by_cases hp : kindAt ts s.currentTokenInd = multsym
      · simp only [getCurrentTokenType_eq, hp, true_or, if_true, Result.onOk_eq_ok] at h
        obtain ⟨s1, h1, h2⟩ := h
        obtain ⟨wt, dt, ct⟩ := ihF _ _ _ h1
        obtain ⟨wl, dl, cl⟩ := ihTL _ _ _ h2
        exact ⟨_, Derives.termTail_mult dt dl, Consumed.cons hp (by decide) (ct.seq cl)⟩
      · by_cases hm : kindAt ts s.currentTokenInd = slashsym
        · simp only [getCurrentTokenType_eq, hm, or_true, if_true, Result.onOk_eq_ok] at h
          obtain ⟨s1, h1, h2⟩ := h
          obtain ⟨wt, dt, ct⟩ := ihF _ _ _ h1
          obtain ⟨wl, dl, cl⟩ := ihTL _ _ _ h2
          exact ⟨_, Derives.termTail_slash dt dl, Consumed.cons hm (by decide) (ct.seq cl)⟩
        · simp [hp, hm] at h
          subst h
          exact ⟨[], Derives.termTail_nil, Consumed.refl _ _⟩
    · -- factor
      rw [factor] at h
      by_cases hi : kindAt ts s.currentTokenInd = identsym
      · simp [hi] at h
        subst h
        exact ⟨_, Derives.factor_ident, Consumed.one hi (by decide)⟩
      · by_cases hn : kindAt ts s.currentTokenInd = numbersym
        · simp [hn] at h
          subst h
          exact ⟨_, Derives.factor_number, Consumed.one hn (by decide)⟩
        · by_cases hl : kindAt ts s.currentTokenInd = lparentsym
          · simp only [getCurrentTokenType_eq, printNonTerminal_ind, hl, if_true, if_false,
              Result.onOk_eq_ok, reduceCtorEq] at h
            obtain ⟨s1, h1, h2⟩ := h
            obtain ⟨we, de, ce⟩ := ihE _ _ _ h1
            by_cases hr : kindAt ts s1.currentTokenInd = rparentsym
            · simp [hr] at h2
              subst h2
              refine ⟨_, Derives.factor_paren de, Consumed.cons hl (by decide) ?_⟩
              exact ce.seq (Consumed.one hr (by decide))
            · simp [hr] at h2
          · simp [hi, hn, hl] at h

theorem relop_sound : Sound relop .relop := by
  intro ts s s' h
  unfold relop at h
  simp only [getCurrentTokenType_eq, printNonTerminal_ind] at h
  split at h
  · rename_i hc
    simp at h
    subst h
    rcases hc with hc | hc | hc | hc | hc | hc
    · exact ⟨_, Derives.relop_eq, Consumed.one hc (by decide)⟩
    · exact ⟨_, Derives.relop_neq, Consumed.one hc (by decide)⟩
    · exact ⟨_, Derives.relop_les, Consumed.one hc (by decide)⟩
    · exact ⟨_, Derives.relop_leq, Consumed.one hc (by decide)⟩
    · exact ⟨_, Derives.relop_gtr, Consumed.one hc (by decide)⟩
    · exact ⟨_, Derives.relop_geq, Consumed.one hc (by decide)⟩
  · simp at h

theorem condition_sound (n : Nat) : Sound (condition n) .condition := by
  intro ts s s' h
  have ihE := (expression_group_sound n).1
  unfold condition at h
  by_cases ho : kindAt ts s.currentTokenInd = oddsym
  · simp only [getCurrentTokenType_eq, printNonTerminal_ind, ho, if_true, Result.onOk_eq_ok] at h
    obtain ⟨s1, h1, h2⟩ := h
    simp at h2
    subst h2
    obtain ⟨we, de, ce⟩ := ihE _ _ _ h1
    exact ⟨_, Derives.cond_odd de, Consumed.cons ho (by decide) ce⟩
  · simp only [getCurrentTokenType_eq, printNonTerminal_ind, ho, if_false, Result.onOk_eq_ok] at h
    obtain ⟨s1, h1, s2, h2, s3, h3, h4⟩ := h
    simp at h4
    subst h4
    obtain ⟨w1, d1, c1⟩ := ihE _ _ _ h1
    obtain ⟨w2, d2, c2⟩ := relop_sound _ _ _ h2
    obtain ⟨w3, d3, c3⟩ := ihE _ _ _ h3
    exact ⟨_, Derives.cond_rel d1 d2 d3, c1.seq (c2.seq c3)⟩

theorem statement_group_sound (n : Nat) :
    Sound (statement n) .statement ∧ Sound (beginLoop n) .stmtTail := by
  induction n with
  | zero =>
    refine ⟨?_, ?_⟩ <;> intro ts s s' h
    · simp [statement] at h
    · simp [beginLoop] at h
  | succ n ih =>
    obtain ⟨ihS, ihL⟩ := ih
    have ihE := (expression_group_sound n).1
    have ihC := condition_sound n
    refine ⟨?_, ?_⟩ <;> intro ts s s' h
    · rw [statement] at h
      simp only [getCurrentTokenType_eq, printNonTerminal_ind] at h
      split at h
      · -- assignment
        rename_i hk
        split at h
        · simp at h
        · rename_i hb
          simp only [not_not] at hb
          simp only [consume_ind, Result.onOk_eq_ok] at h hb
          obtain ⟨s1, h1, h2⟩ := h
          simp at h2
          subst h2
          obtain ⟨we, de, ce⟩ := ihE _ _ _ h1
          exact ⟨_, Derives.stmt_assign de,
            Consumed.cons hk (by decide) (Consumed.cons hb (by decide) ce)⟩
      · split at h
        · -- call
          rename_i hk
          split at h
          · simp at h
          · rename_i hb
            simp only [not_not, consume_ind] at hb
            simp at h
            subst h
            exact ⟨_, Derives.stmt_call,
              Consumed.cons hk (by decide) (Consumed.one hb (by decide))⟩
        · split at h
          · -- begin
            rename_i hk
            simp only [Result.onOk_eq_ok] at h
            obtain ⟨s1, h1, s2, h2, h3⟩ := h
            obtain ⟨w1, d1, c1⟩ := ihS _ _ _ h1
            obtain ⟨w2, d2, c2⟩ := ihL _ _ _ h2
            split at h3
            · simp at h3
            · rename_i he
              simp only [not_not] at he
              simp at h3
              subst h3
              exact ⟨_, Derives.stmt_begin d1 d2, Consumed.cons hk (by decide)
                (c1.seq (c2.seq (Consumed.one he (by decide))))⟩
          · split at h
            · -- if
              rename_i hk
              simp only [Result.onOk_eq_ok] at h
              obtain ⟨s1, h1, h2⟩ := h
              obtain ⟨wc, dc, cc⟩ := ihC _ _ _ h1
              split at h2
              · simp at h2
              · rename_i ht
                simp only [not_not] at ht
                simp only [Result.onOk_eq_ok] at h2
                obtain ⟨s2, h3, h4⟩ := h2
                obtain ⟨w1, d1, c1⟩ := ihS _ _ _ h3
                split at h4
                · rename_i hel
                  simp only [Result.onOk_eq_ok] at h4
                  obtain ⟨s3, h5, h6⟩ := h4
                  simp at h6
                  subst h6
                  obtain ⟨w2, d2, c2⟩ := ihS _ _ _ h5
                  exact ⟨_, Derives.stmt_if_else dc d1 d2, Consumed.cons hk (by decide)
                    (cc.seq (Consumed.cons ht (by decide)
                      (c1.seq (Consumed.cons hel (by decide) c2))))⟩
                · simp at h4
                  subst h4
                  exact ⟨_, Derives.stmt_if dc d1, Consumed.cons hk (by decide)
                    (cc.seq (Consumed.cons ht (by decide) c1))⟩
            · split at h
              · -- while
                rename_i hk
                simp only [Result.onOk_eq_ok] at h
                obtain ⟨s1, h1, h2⟩ := h
                obtain ⟨wc, dc, cc⟩ := ihC _ _ _ h1
                split at h2
                · simp at h2
                · rename_i ht
                  simp only [not_not] at ht
                  simp only [Result.onOk_eq_ok] at h2
                  obtain ⟨s2, h3, h4⟩ := h2
                  simp at h4
                  subst h4
                  obtain ⟨w1, d1, c1⟩ := ihS _ _ _ h3
                  exact ⟨_, Derives.stmt_while dc d1, Consumed.cons hk (by decide)
                    (cc.seq (Consumed.cons ht (by decide) c1))⟩
              · split at h
                · -- write
                  rename_i hk
                  split at h
                  · simp at h
                  · rename_i hb
                    simp only [not_not, consume_ind] at hb
                    simp at h
                    subst h
                    exact ⟨_, Derives.stmt_write,
                      Consumed.cons hk (by decide) (Consumed.one hb (by decide))⟩
                · split at h
                  · -- read
                    rename_i hk
                    split at h
                    · simp at h
                    · rename_i hb
                      simp only [not_not, consume_ind] at hb
                      simp at h
                      subst h
                      exact ⟨_, Derives.stmt_read,
                        Consumed.cons hk (by decide) (Consumed.one hb (by decide))⟩
                  · simp at h
                    subst h
                    exact ⟨_, Derives.stmt_empty, Consumed.refl _ _⟩
    · rw [beginLoop] at h
      simp only [getCurrentTokenType_eq] at h
      split at h
      · rename_i hk
        simp only [Result.onOk_eq_ok] at h
        obtain ⟨s1, h1, h2⟩ := h
        obtain ⟨w1, d1, c1⟩ := ihS _ _ _ h1
        obtain ⟨w2, d2, c2⟩ := ihL _ _ _ h2
        exact ⟨_, Derives.stmtTail_cons d1 d2, Consumed.cons hk (by decide) (c1.seq c2)⟩
      · simp at h
        subst h
        exact ⟨_, Derives.stmtTail_nil, Consumed.refl _ _⟩

theorem constLoop_sound (n : Nat) : ∀ ts sym s s', constLoop n ts sym s = some (0, s') →
    (kindAt ts s.currentTokenInd = constsym →
      ∃ w, Derives .constTail w ∧ Consumed ts s.currentTokenInd s'.currentTokenInd
        (constsym :: identsym :: eqsym :: numbersym :: w)) ∧
    (kindAt ts s.currentTokenInd = commasym →
      ∃ w, Derives .constTail w ∧ Consumed ts s.currentTokenInd s'.currentTokenInd
        (commasym :: identsym :: eqsym :: numbersym :: w)) := by
  induction n with
  | zero => intro ts sym s s' h; simp [constLoop] at h
  | succ n ih =>
    intro ts sym s s' h
    rw [constLoop] at h
    simp only [getCurrentTokenType_eq, consume_ind, addSymbol_ind] at h
    split at h
    · simp at h
    · rename_i h1
      split at h
      · simp at h
      · rename_i h2
        split at h
        · simp at h
        · rename_i h3
          simp only [not_not] at h1 h2 h3
          have tail : ∃ w, Derives .constTail w ∧
              Consumed ts (s.currentTokenInd + 1 + 1 + 1 + 1) s'.currentTokenInd w := by
            split at h
            · rename_i h4
              obtain ⟨w, dw, cw⟩ := (ih _ _ _ _ h).2 (by simpa using h4)
              exact ⟨_, Derives.constTail_cons dw, by simpa using cw⟩
            · simp at h
              subst h
              exact ⟨[], Derives.constTail_nil, by simpa using Consumed.refl _ _⟩
          obtain ⟨w, dw, cw⟩ := tail
          have rest : Consumed ts (s.currentTokenInd + 1) s'.currentTokenInd
              (identsym :: eqsym :: numbersym :: w) :=
            Consumed.cons h1 (by decide) (Consumed.cons h2 (by decide)
              (Consumed.cons h3 (by decide) cw))
          exact ⟨fun hc => ⟨w, dw, Consumed.cons hc (by decide) rest⟩,
                 fun hc => ⟨w, dw, Consumed.cons hc (by decide) rest⟩⟩

theorem const_declaration_sound (n : Nat) : Sound (const_declaration n) .const_decl := by
  intro ts s s' h
  unfold const_declaration at h
  simp only [getCurrentTokenType_eq, printNonTerminal_ind] at h
  split at h
  · rename_i hc
    simp only [Result.onOk_eq_ok] at h
    obtain ⟨s1, h1, h2⟩ := h
    obtain ⟨w, dw, cw⟩ := (constLoop_sound n _ _ _ _ h1).1 (by simpa using hc)
    split at h2
    · simp at h2
    · rename_i hs
      simp only [not_not] at hs
      simp at h2
      subst h2
      refine ⟨_, Derives.const_some dw, ?_⟩
      have := Consumed.seq cw (Consumed.one hs (by decide))
      simpa using this
  · simp at h
    subst h
    exact ⟨[], Derives.const_none, Consumed.refl _ _⟩

theorem varLoop_sound (n : Nat) : ∀ ts sym s s', varLoop n ts sym s = some (0, s') →
    (kindAt ts s.currentTokenInd = varsym →
      ∃ w, Derives .varTail w ∧ Consumed ts s.currentTokenInd s'.currentTokenInd
        (varsym :: identsym :: w)) ∧
    (kindAt ts s.currentTokenInd = commasym →
      ∃ w, Derives .varTail w ∧ Consumed ts s.currentTokenInd s'.currentTokenInd
        (commasym :: identsym :: w)) := by
  induction n with
  | zero => intro ts sym s s' h; simp [varLoop] at h
  | succ n ih =>
    intro ts sym s s' h
    rw [varLoop] at h
    simp only [getCurrentTokenType_eq, consume_ind, addSymbol_ind] at h
    split at h
    · simp at h
    · rename_i h1
      simp only [not_not] at h1
      have tail : ∃ w, Derives .varTail w ∧
          Consumed ts (s.currentTokenInd + 1 + 1) s'.currentTokenInd w := by
        split at h
        · rename_i h4
          obtain ⟨w, dw, cw⟩ := (ih _ _ _ _ h).2 (by simpa using h4)
          exact ⟨_, Derives.varTail_cons dw, by simpa using cw⟩
        · simp at h
          subst h
          exact ⟨[], Derives.varTail_nil, by simpa using Consumed.refl _ _⟩
      obtain ⟨w, dw, cw⟩ := tail
      have rest : Consumed ts (s.currentTokenInd + 1) s'.currentTokenInd (identsym :: w) :=
        Consumed.cons h1 (by decide) cw
      exact ⟨fun hc => ⟨w, dw, Consumed.cons hc (by decide) rest⟩,
             fun hc => ⟨w, dw, Consumed.cons hc (by decide) rest⟩⟩

theorem var_declaration_sound (n : Nat) : Sound (var_declaration n) .var_decl := by
  intro ts s s' h
  unfold var_declaration at h
  simp only [getCurrentTokenType_eq, printNonTerminal_ind] at h
  split at h
  · rename_i hc
    simp only [Result.onOk_eq_ok] at h
    obtain ⟨s1, h1, h2⟩ := h
    obtain ⟨w, dw, cw⟩ := (varLoop_sound n _ _ _ _ h1).1 (by simpa using hc)
    split at h2
    · simp at h2
    · rename_i hs
      simp only [not_not] at hs
      simp at h2
      subst h2
      refine ⟨_, Derives.var_some dw, ?_⟩
      have := Consumed.seq cw (Consumed.one hs (by decide))
      simpa using this
  · simp at h
    subst h
    exact ⟨[], Derives.var_none, Consumed.refl _ _⟩

theorem block_group_sound (n : Nat) :
    Sound (block n) .block ∧ Sound (proc_declaration n) .proc_decl ∧
    Sound (procLoop n) .proc_decl := by
  induction n with
  | zero =>
    refine ⟨?_, ?_, ?_⟩ <;> intro ts s s' h
    · simp [block] at h
    · simp [proc_declaration] at h
    · simp [procLoop] at h
  | succ n ih =>
    obtain ⟨ihB, ihP, ihL⟩ := ih
    refine ⟨?_, ?_, ?_⟩ <;> intro ts s s' h
    · rw [block] at h
      simp only [Result.onOk_eq_ok] at h
      obtain ⟨s1, h1, s2, h2, s3, h3, s4, h4, h5⟩ := h
      simp at h5
      subst h5
      obtain ⟨w1, d1, c1⟩ := const_declaration_sound n _ _ _ h1
      obtain ⟨w2, d2, c2⟩ := var_declaration_sound n _ _ _ h2
      obtain ⟨w3, d3, c3⟩ := ihP _ _ _ h3
      obtain ⟨w4, d4, c4⟩ := (statement_group_sound n).1 _ _ _ h4
      exact ⟨_, Derives.block d1 d2 d3 d4, c1.seq (c2.seq (c3.seq c4))⟩
    · rw [proc_declaration] at h
      obtain ⟨w, dw, cw⟩ := ihL _ _ _ h
      exact ⟨w, dw, by simpa using cw⟩
    · rw [procLoop] at h
      simp only [getCurrentTokenType_eq, consume_ind, addSymbol_ind, levelDown_ind] at h
      split at h
      · rename_i hp
        split at h
        · simp at h
        · rename_i hi
          split at h
          · simp at h
          · rename_i hs
            simp only [not_not] at hi hs
            simp only [Result.onOk_eq_ok] at h
            obtain ⟨s1, h1, h2⟩ := h
            obtain ⟨wb, db, cb⟩ := ihB _ _ _ h1
            split at h2
            · simp at h2
            · rename_i hs2
              simp only [not_not] at hs2
              obtain ⟨wp, dp, cp⟩ := ihL _ _ _ h2
              refine ⟨_, Derives.proc_cons db dp, ?_⟩
              simp only [consume_ind, levelUp_ind, levelDown_ind, addSymbol_ind] at cb cp
              have c1 : Consumed ts s1.currentTokenInd s'.currentTokenInd (semicolonsym :: wp) :=
                Consumed.cons hs2 (by decide) cp
              have c2 := Consumed.seq cb c1
              exact Consumed.cons hp (by decide) (Consumed.cons hi (by decide)
                (Consumed.cons hs (by decide) c2))
      · simp at h
        subst h
        exact ⟨[], Derives.proc_nil, Consumed.refl _ _⟩

theorem program_sound (n : Nat) : Sound (program n) .program := by
  intro ts s s' h
  unfold program at h
  simp only [Result.onOk_eq_ok] at h
  obtain ⟨s1, h1, h2⟩ := h
  obtain ⟨wb, db, cb⟩ := (block_group_sound n).1 _ _ _ h1
  simp only [getCurrentTokenType_eq] at h2
  split at h2
  · simp at h2
  · rename_i hp
    simp only [not_not] at hp
    simp at h2
    subst h2
    exact ⟨_, Derives.program db, cb.seq (Consumed.one hp (by decide))⟩

theorem Consumed.from_start {ts : List Token} {q : Nat} {w : List TokenType}
    (h : Consumed ts 0 q w) : q ≤ ts.length ∧ (ts.take q).map Token.id = w := by
  obtain ⟨hq, hk⟩ := h
  simp only [kindsFrom, List.drop_zero, Nat.zero_add] at hk hq
  have hlen : (ts.map Token.id).length = (w ++ (ts.drop q).map Token.id).length := by rw [hk]
  simp only [List.length_map, List.length_append, List.length_drop] at hlen
  have hle : q ≤ ts.length := by omega
  refine ⟨hle, ?_⟩
  have h1 : ((ts.map Token.id).take q) = w := by
    rw [hk, hq]
    simp
  rw [← h1, List.map_take]

end Parser

/-- C8 (soundness of the trace-mode parser): whenever `program()` returns 0 on a
token list, the final iterator position lies inside the list and the kinds of
the tokens before it form a string derivable from `program` in the grammar of
section 4.1. -/
theorem parser_program_sound (n : Nat) (ts : List Token) (s' : Parser.State)
    (h : Parser.program n ts Parser.initialState = some (0, s')) :
    s'.currentTokenInd ≤ ts.length ∧
      Grammar.Derives .program ((ts.take s'.currentTokenInd).map Token.id) := by
  obtain ⟨w, dw, cw⟩ := Parser.program_sound n ts _ _ h
  have hc : Consumed ts 0 s'.currentTokenInd w := cw
  obtain ⟨hle, hw⟩ := Parser.Consumed.from_start hc
  exact ⟨hle, hw ▸ dw⟩

theorem parser_program_sound_witness :
    Parser.program 12 exampleProgram Parser.initialState = some (0, exampleProgramParsed) ∧
    exampleProgramParsed.currentTokenInd = 19 ∧
    (exampleProgramParsed.currentTokenInd ≤ exampleProgram.length ∧
      Grammar.Derives .program
        ((exampleProgram.take exampleProgramParsed.currentTokenInd).map Token.id)) :=
  ⟨by decide, by decide, parser_program_sound 12 exampleProgram exampleProgramParsed (by decide)⟩

/-! ## Completeness of the parser -/

theorem Occurs.append {ts : List Token} {u v : List TokenType} :
    ∀ {p : Nat}, Occurs ts p (u ++ v) ↔ Occurs ts p u ∧ Occurs ts (p + u.length) v := by
  induction u with
  | nil => intro p; simp [Occurs]
  | cons t u ih =>
    intro p
    have e : p + (t :: u).length = p + 1 + u.length := by simp; omega
    rw [e]
    show (kindAt ts p = t ∧ Occurs ts (p + 1) (u ++ v)) ↔
      (kindAt ts p = t ∧ Occurs ts (p + 1) u) ∧ Occurs ts (p + 1 + u.length) v
    rw [ih, and_assoc]

namespace Parser
open Grammar TokenType

theorem Returns.same {f : Nat → Result} {s1 s2 : State}
    (h1 : Returns f s1) (h2 : Returns f s2) : s1 = s2 := by
  obtain ⟨n1, h1⟩ := h1
  obtain ⟨n2, h2⟩ := h2
  have e1 := h1 (max n1 n2) (le_max_left _ _)
  have e2 := h2 (max n1 n2) (le_max_right _ _)
  rw [e1] at e2
  simpa using e2

theorem Accepts.det {f : Nat → List Token → State → Result} {ts : List Token}
    {p q1 q2 : Nat} (h1 : Accepts f ts p q1) (h2 : Accepts f ts p q2) : q1 = q2 := by
  obtain ⟨s1, e1, r1⟩ := h1 { currentTokenInd := p, currentLevel := 0, symbolTable := [], out := [] } rfl
  obtain ⟨s2, e2, r2⟩ := h2 { currentTokenInd := p, currentLevel := 0, symbolTable := [], out := [] } rfl
  have := Returns.same r1 r2
  subst this
  rw [← e1, ← e2]

theorem factor_first {ts : List Token} {w : List TokenType} (h : Derives .factor w)
    {p : Nat} (ho : Occurs ts p w) : StartsFactor (kindAt ts p) := by
  cases h with
  | factor_ident => exact Or.inl ho.1
  | factor_number => exact Or.inr (Or.inl ho.1)
  | factor_paren _ => exact Or.inr (Or.inr ho.1)

theorem term_first {ts : List Token} {w : List TokenType} (h : Derives .term w)
    {p : Nat} (ho : Occurs ts p w) : StartsFactor (kindAt ts p) := by
  cases h with
  | term hf _ => exact factor_first hf (Occurs.append.1 ho).1

theorem exprTail_follow {ts : List Token} {w : List TokenType} (h : Derives .exprTail w)
    {p : Nat} (ho : Occurs ts p w) (hf : NoOp ts (p + w.length)) : NoMul ts p := by
  cases h with
  | exprTail_nil => simpa using hf.2.2
  | exprTail_plus _ _ => have := ho.1; simp [NoMul, this]
  | exprTail_minus _ _ => have := ho.1; simp [NoMul, this]

theorem complete_factor_ident (ts : List Token) : Complete ts .factor [identsym] := by
  simp only [Complete]
  intro p ho s hs
  subst hs
  have hk : kindAt ts s.currentTokenInd = identsym := ho.1
  refine ⟨consume ts (printNonTerminal .FACTOR s), by simp, 1, fun m hm => ?_⟩
  obtain ⟨k, rfl⟩ : ∃ k, m = k + 1 := ⟨m - 1, by omega⟩
  show factor (k + 1) ts s = _
  rw [factor]
  simp [hk]

theorem complete_factor_number (ts : List Token) : Complete ts .factor [numbersym] := by
  simp only [Complete]
  intro p ho s hs
  subst hs
  have hk : kindAt ts s.currentTokenInd = numbersym := ho.1
  refine ⟨consume ts (printNonTerminal .FACTOR s), by simp, 1, fun m hm => ?_⟩
  obtain ⟨k, rfl⟩ : ∃ k, m = k + 1 := ⟨m - 1, by omega⟩
  show factor (k + 1) ts s = _
  rw [factor]
  simp [hk]

theorem complete_factor_paren {ts : List Token} {e : List TokenType}
    (ihe : Complete ts .expression e) :
    Complete ts .factor (lparentsym :: (e ++ [rparentsym])) := by
  simp only [Complete] at ihe ⊢
  intro p ho s hs
  subst hs
  have hk : kindAt ts s.currentTokenInd = lparentsym := ho.1
  obtain ⟨hoe, hor⟩ := Occurs.append.1 ho.2
  have hr : kindAt ts (s.currentTokenInd + 1 + e.length) = rparentsym := hor.1
  have hno : NoOp ts (s.currentTokenInd + 1 + e.length) := by simp [NoOp, NoMul, hr]
  obtain ⟨s1, hp1, n1, h1⟩ := ihe _ hoe hno (consume ts (printNonTerminal .FACTOR s)) (by simp)
  refine ⟨consume ts s1, by simp [hp1]; omega, n1 + 1, fun m hm => ?_⟩
  obtain ⟨k, rfl⟩ : ∃ k, m = k + 1 := ⟨m - 1, by omega⟩
  show factor (k + 1) ts s = _
  rw [factor]
  simp [hk, h1 k (by omega), Result.onOk, hp1, hr]

theorem complete_termTail_nil (ts : List Token) : Complete ts .termTail [] := by
  simp only [Complete]
  intro p _ hno s hs
  subst hs
  simp only [List.length_nil, Nat.add_zero] at hno ⊢
  refine ⟨s, rfl, 1, fun m hm => ?_⟩
  obtain ⟨k, rfl⟩ : ∃ k, m = k + 1 := ⟨m - 1, by omega⟩
  show termLoop (k + 1) ts s = _
  rw [termLoop]
  simp [hno.1, hno.2]

theorem complete_termTail_op {ts : List Token} {f tl : List TokenType} {t : TokenType}
    (ht : t = multsym ∨ t = slashsym)
    (ihf : Complete ts .factor f) (ihtl : Complete ts .termTail tl) :
    Complete ts .termTail (t :: (f ++ tl)) := by
  simp only [Complete] at ihf ihtl ⊢
  intro p ho hno s hs
  subst hs
  have hk : kindAt ts s.currentTokenInd = t := ho.1
  obtain ⟨hof, hotl⟩ := Occurs.append.1 ho.2
  have hlen : s.currentTokenInd + (t :: (f ++ tl)).length
      = s.currentTokenInd + 1 + f.length + tl.length := by simp; omega
  rw [hlen] at hno ⊢
  obtain ⟨s1, hp1, n1, h1⟩ := ihf _ hof (consume ts s) (by simp)
  obtain ⟨s2, hp2, n2, h2⟩ := ihtl _ hotl hno s1 hp1
  refine ⟨s2, hp2, n1 + n2 + 1, fun m hm => ?_⟩
  obtain ⟨k, rfl⟩ : ∃ k, m = k + 1 := ⟨m - 1, by omega⟩
  show termLoop (k + 1) ts s = _
  rw [termLoop]
  have hc : kindAt ts s.currentTokenInd = multsym ∨ kindAt ts s.currentTokenInd = slashsym := by
    rw [hk]; exact ht
  simp [hc, h1 k (by omega), h2 k (by omega), Result.onOk]

theorem complete_term {ts : List Token} {f tl : List TokenType}
    (ihf : Complete ts .factor f) (ihtl : Complete ts .termTail tl) :
    Complete ts .term (f ++ tl) := by
  simp only [Complete] at ihf ihtl ⊢
  intro p ho hno s hs
  subst hs
  obtain ⟨hof, hotl⟩ := Occurs.append.1 ho
  have hlen : s.currentTokenInd + (f ++ tl).length
      = s.currentTokenInd + f.length + tl.length := by simp; omega
  rw [hlen] at hno ⊢
  obtain ⟨s1, hp1, n1, h1⟩ := ihf _ hof (printNonTerminal .TERM s) (by simp)
  obtain ⟨s2, hp2, n2, h2⟩ := ihtl _ hotl hno s1 hp1
  refine ⟨s2, hp2, n1 + n2 + 1, fun m hm => ?_⟩
  obtain ⟨k, rfl⟩ : ∃ k, m = k + 1 := ⟨m - 1, by omega⟩
  show term (k + 1) ts s = _
  rw [term]
  simp [h1 k (by omega), h2 k (by omega), Result.onOk]

theorem complete_exprTail_nil (ts : List Token) : Complete ts .exprTail [] := by
  simp only [Complete]
  intro p _ hno s hs
  subst hs
  simp only [List.length_nil, Nat.add_zero] at hno ⊢
  refine ⟨s, rfl, 1, fun m hm => ?_⟩
  obtain ⟨k, rfl⟩ : ∃ k, m = k + 1 := ⟨m - 1, by omega⟩
  show expressionLoop (k + 1) ts s = _
  rw [expressionLoop]
  simp [hno.1, hno.2.1]

theorem complete_exprTail_op {ts : List Token} {t' tl : List TokenType} {t : TokenType}
    (ht : t = plussym ∨ t = minussym) (dtl : Derives .exprTail tl)
    (iht : Complete ts .term t') (ihtl : Complete ts .exprTail tl) :
    Complete ts .exprTail (t :: (t' ++ tl)) := by
  simp only [Complete] at iht ihtl ⊢
  intro p ho hno s hs
  subst hs
  have hk : kindAt ts s.currentTokenInd = t := ho.1
  obtain ⟨hot, hotl⟩ := Occurs.append.1 ho.2
  have hlen : s.currentTokenInd + (t :: (t' ++ tl)).length
      = s.currentTokenInd + 1 + t'.length + tl.length := by simp; omega
  rw [hlen] at hno ⊢
  have hnm : NoMul ts (s.currentTokenInd + 1 + t'.length) := exprTail_follow dtl hotl hno
  obtain ⟨s1, hp1, n1, h1⟩ := iht _ hot hnm (consume ts s) (by simp)
  obtain ⟨s2, hp2, n2, h2⟩ := ihtl _ hotl hno s1 hp1
  refine ⟨s2, hp2, n1 + n2 + 1, fun m hm => ?_⟩
  obtain ⟨k, rfl⟩ : ∃ k, m = k + 1 := ⟨m - 1, by omega⟩
  show expressionLoop (k + 1) ts s = _
  rw [expressionLoop]
  have hc : kindAt ts s.currentTokenInd = plussym ∨ kindAt ts s.currentTokenInd = minussym := by
    rw [hk]; exact ht
  simp [hc, h1 k (by omega), h2 k (by omega), Result.onOk]

theorem complete_expr_term {ts : List Token} {t' tl : List TokenType}
    (dt : Derives .term t') (dtl : Derives .exprTail tl)
    (iht : Complete ts .term t') (ihtl : Complete ts .exprTail tl) :
    Complete ts .expression (t' ++ tl) := by
  simp only [Complete] at iht ihtl ⊢
  intro p ho hno s hs
  subst hs
  obtain ⟨hot, hotl⟩ := Occurs.append.1 ho
  have hlen : s.currentTokenInd + (t' ++ tl).length
      = s.currentTokenInd + t'.length + tl.length := by simp; omega
  rw [hlen] at hno ⊢
  have hnm : NoMul ts (s.currentTokenInd + t'.length) := exprTail_follow dtl hotl hno
  have hfirst := term_first dt hot
  have hc : ¬ (kindAt ts s.currentTokenInd = plussym ∨ kindAt ts s.currentTokenInd = minussym) := by
    rcases hfirst with h | h | h <;> simp [h]
  obtain ⟨s1, hp1, n1, h1⟩ := iht _ hot hnm (printNonTerminal .EXPRESSION s) (by simp)
  obtain ⟨s2, hp2, n2, h2⟩ := ihtl _ hotl hno s1 hp1
  refine ⟨s2, hp2, n1 + n2 + 1, fun m hm => ?_⟩
  obtain ⟨k, rfl⟩ : ∃ k, m = k + 1 := ⟨m - 1, by omega⟩
  show expression (k + 1) ts s = _
  rw [expression]
  simp [hc, h1 k (by omega), h2 k (by omega), Result.onOk]

theorem complete_expr_signed {ts : List Token} {t' tl : List TokenType} {t : TokenType}
    (ht : t = plussym ∨ t = minussym) (dtl : Derives .exprTail tl)
    (iht : Complete ts .term t') (ihtl : Complete ts .exprTail tl) :
    Complete ts .expression (t :: (t' ++ tl)) := by
  simp only [Complete] at iht ihtl ⊢
  intro p ho hno s hs
  subst hs
  have hk : kindAt ts s.currentTokenInd = t := ho.1
  obtain ⟨hot, hotl⟩ := Occurs.append.1 ho.2
  have hlen : s.currentTokenInd + (t :: (t' ++ tl)).length
      = s.currentTokenInd + 1 + t'.length + tl.length := by simp; omega
  rw [hlen] at hno ⊢
  have hnm : NoMul ts (s.currentTokenInd + 1 + t'.length) := exprTail_follow dtl hotl hno
  obtain ⟨s1, hp1, n1, h1⟩ := iht _ hot hnm (consume ts (printNonTerminal .EXPRESSION s)) (by simp)
  obtain ⟨s2, hp2, n2, h2⟩ := ihtl _ hotl hno s1 hp1
  refine ⟨s2, hp2, n1 + n2 + 1, fun m hm => ?_⟩
  obtain ⟨k, rfl⟩ : ∃ k, m = k + 1 := ⟨m - 1, by omega⟩
  show expression (k + 1) ts s = _
  rw [expression]
  have hc : kindAt ts s.currentTokenInd = plussym ∨ kindAt ts s.currentTokenInd = minussym := by
    rw [hk]; exact ht
  simp [hc, h1 k (by omega), h2 k (by omega), Result.onOk]

theorem complete_relop {ts : List Token} {t : TokenType}
    (ht : t = eqsym ∨ t = neqsym ∨ t = lessym ∨ t = leqsym ∨ t = gtrsym ∨ t = geqsym) :
    Complete ts .relop [t] := by
  simp only [Complete]
  intro p ho s hs
  subst hs
  have hk : kindAt ts s.currentTokenInd = t := ho.1
  refine ⟨consume ts (printNonTerminal .REL_OP s), by simp, 0, fun m _ => ?_⟩
  show relop ts s = _
  unfold relop
  have hc : kindAt ts s.currentTokenInd = eqsym ∨ kindAt ts s.currentTokenInd = neqsym
      ∨ kindAt ts s.currentTokenInd = lessym ∨ kindAt ts s.currentTokenInd = leqsym
      ∨ kindAt ts s.currentTokenInd = gtrsym ∨ kindAt ts s.currentTokenInd = geqsym := by
    rw [hk]; exact ht
  simp [hc]

theorem relop_first {ts : List Token} {r : List TokenType} (h : Derives .relop r)
    {p : Nat} (ho : Occurs ts p r) : NoOp ts p ∧ r.length = 1 := by
  cases h <;> simp [NoOp, NoMul, ho.1]

theorem expression_first {ts : List Token} {e : List TokenType} (h : Derives .expression e)
    {p : Nat} (ho : Occurs ts p e) : kindAt ts p ≠ oddsym := by
  cases h with
  | expr_term dt _ =>
    rcases term_first dt (Occurs.append.1 ho).1 with h | h | h <;> simp [h]
  | expr_plus _ _ => have := ho.1; simp [this]
  | expr_minus _ _ => have := ho.1; simp [this]

theorem complete_cond_odd {ts : List Token} {e : List TokenType}
    (ihe : Complete ts .expression e) : Complete ts .condition (oddsym :: e) := by
  simp only [Complete] at ihe ⊢
  intro p ho hno s hs
  subst hs
  have hk : kindAt ts s.currentTokenInd = oddsym := ho.1
  have hlen : s.currentTokenInd + (oddsym :: e).length = s.currentTokenInd + 1 + e.length := by
    simp; omega
  rw [hlen] at hno ⊢
  obtain ⟨s1, hp1, n1, h1⟩ := ihe _ ho.2 hno (consume ts (printNonTerminal .CONDITION s)) (by simp)
  refine ⟨s1, hp1, n1, fun m hm => ?_⟩
  show condition m ts s = _
  unfold condition
  simp [hk, h1 m hm, Result.onOk]

theorem complete_cond_rel {ts : List Token} {e1 r e2 : List TokenType}
    (d1 : Derives .expression e1) (dr : Derives .relop r)
    (ih1 : Complete ts .expression e1) (ihr : Complete ts .relop r)
    (ih2 : Complete ts .expression e2) : Complete ts .condition (e1 ++ (r ++ e2)) := by
  simp only [Complete] at ih1 ihr ih2 ⊢
  intro p ho hno s hs
  subst hs
  obtain ⟨ho1, ho'⟩ := Occurs.append.1 ho
  obtain ⟨hor, ho2⟩ := Occurs.append.1 ho'
  have hk : kindAt ts s.currentTokenInd ≠ oddsym := expression_first d1 ho1
  have hlen : s.currentTokenInd + (e1 ++ (r ++ e2)).length
      = s.currentTokenInd + e1.length + r.length + e2.length := by simp; omega
  rw [hlen] at hno ⊢
  obtain ⟨s1, hp1, n1, h1⟩ :=
    ih1 _ ho1 (relop_first dr hor).1 (printNonTerminal .CONDITION s) (by simp)
  obtain ⟨s2, hp2, n2, h2⟩ := ihr _ hor s1 hp1
  obtain ⟨s3, hp3, n3, h3⟩ := ih2 _ ho2 hno s2 hp2
  refine ⟨s3, hp3, n1 + n2 + n3, fun m hm => ?_⟩
  show condition m ts s = _
  unfold condition
  have e2 : relop ts s1 = some (0, s2) := h2 m (by omega)
  simp [hk, h1 m (by omega), e2, h3 m (by omega), Result.onOk]

theorem Tail.noOp {ts : List Token} {q : Nat} (h : Tail ts q) : NoOp ts q := by
  cases h with
  | base hk => rcases hk with hk | hk | hk <;> simp [NoOp, NoMul, hk]
  | els hk _ _ => simp [NoOp, NoMul, hk]

theorem Tail.notStart {ts : List Token} {q : Nat} (h : Tail ts q) :
    ¬ StartsStatement (kindAt ts q) := by
  cases h with
  | base hk => rcases hk with hk | hk | hk <;> simp [StartsStatement, hk]
  | els hk _ _ => simp [StartsStatement, hk]

theorem Reach.chain {ts : List Token} {p q r : Nat} (h1 : Reach ts p q) (h2 : Reach ts q r) :
    Reach ts p r := by
  induction h1 with
  | refl _ => exact h2
  | step hk ha _ ih => exact Reach.step hk ha (ih h2)

theorem Reach.eq_of_not_else {ts : List Token} {p q : Nat} (h : Reach ts p q)
    (hk : kindAt ts p ≠ elsesym) : q = p := by
  cases h with
  | refl _ => rfl
  | step hk' _ _ => exact absurd hk' hk

theorem statement_skip {ts : List Token} {p : Nat}
    (h : ¬ StartsStatement (kindAt ts p)) : Accepts statement ts p p := by
  intro s hs
  subst hs
  simp only [StartsStatement, not_or] at h
  obtain ⟨h1, h2, h3, h4, h5, h6, h7⟩ := h
  refine ⟨printNonTerminal .STATEMENT s, by simp, 1, fun m hm => ?_⟩
  obtain ⟨k, rfl⟩ : ∃ k, m = k + 1 := ⟨m - 1, by omega⟩
  show statement (k + 1) ts s = _
  rw [statement]
  simp [h1, h2, h3, h4, h5, h6, h7]

theorem complete_stmt_empty (ts : List Token) : Complete ts .statement [] := by
  simp only [Complete]
  intro p _ ht
  simp only [List.length_nil, Nat.add_zero] at ht ⊢
  exact ⟨p, statement_skip ht.notStart, Reach.refl p, ht⟩

theorem complete_stmt_assign {ts : List Token} {e : List TokenType}
    (ihe : Complete ts .expression e) :
    Complete ts .statement (identsym :: becomessym :: e) := by
  simp only [Complete] at ihe ⊢
  intro p ho ht
  have hlen : p + (identsym :: becomessym :: e).length = p + 1 + 1 + e.length := by
    simp; omega
  rw [hlen] at ht ⊢
  refine ⟨_, ?_, Reach.refl _, ht⟩
  intro s hs
  subst hs
  have hk1 : kindAt ts s.currentTokenInd = identsym := ho.1
  have hk2 : kindAt ts (s.currentTokenInd + 1) = becomessym := ho.2.1
  obtain ⟨s1, hp1, n1, h1⟩ := ihe _ ho.2.2 ht.noOp
    (consume ts (consume ts (printNonTerminal .STATEMENT s))) (by simp)
  refine ⟨s1, hp1, n1 + 1, fun m hm => ?_⟩
  obtain ⟨k, rfl⟩ : ∃ k, m = k + 1 := ⟨m - 1, by omega⟩
  show statement (k + 1) ts s = _
  rw [statement]
  simp [hk1, hk2, h1 k (by omega), Result.onOk]

theorem complete_stmt_two {ts : List Token} {t : TokenType}
    (ht : t = callsym ∨ t = writesym ∨ t = readsym) :
    Complete ts .statement [t, identsym] := by
  simp only [Complete]
  intro p ho htl
  have hlen : p + [t, identsym].length = p + 1 + 1 := by simp
  rw [hlen] at htl ⊢
  refine ⟨_, ?_, Reach.refl _, htl⟩
  intro s hs
  subst hs
  have hk1 : kindAt ts s.currentTokenInd = t := ho.1
  have hk2 : kindAt ts (s.currentTokenInd + 1) = identsym := ho.2.1
  refine ⟨consume ts (consume ts (printNonTerminal .STATEMENT s)), by simp, 1, fun m hm => ?_⟩
  obtain ⟨k, rfl⟩ : ∃ k, m = k + 1 := ⟨m - 1, by omega⟩
  show statement (k + 1) ts s = _
  rw [statement]
  rcases ht with ht | ht | ht <;> subst ht <;> simp [hk1, hk2]

theorem stmtTail_follow {ts : List Token} {t : List TokenType} (h : Derives .stmtTail t)
    {q : Nat} (ho : Occurs ts q t) (he : kindAt ts (q + t.length) = endsym) :
    kindAt ts q = semicolonsym ∨ kindAt ts q = endsym := by
  cases h with
  | stmtTail_nil => exact Or.inr (by simpa using he)
  | stmtTail_cons _ _ => exact Or.inl ho.1

/-- A statement followed by `;` or `end` is accepted exactly. -/
theorem Complete.statement_exact {ts : List Token} {w : List TokenType}
    (ih : Complete ts .statement w) {p : Nat} (ho : Occurs ts p w)
    (hk : kindAt ts (p + w.length) = semicolonsym ∨ kindAt ts (p + w.length) = endsym
      ∨ kindAt ts (p + w.length) = periodsym) :
    Accepts statement ts p (p + w.length) := by
  simp only [Complete] at ih
  obtain ⟨q, ha, hr, _⟩ := ih p ho (Tail.base hk)
  have hne : kindAt ts (p + w.length) ≠ elsesym := by
    rcases hk with hk | hk | hk <;> simp [hk]
  rw [hr.eq_of_not_else hne] at ha
  exact ha

theorem complete_stmtTail_nil (ts : List Token) : Complete ts .stmtTail [] := by
  simp only [Complete]
  intro p _ he s hs
  subst hs
  simp only [List.length_nil, Nat.add_zero] at he ⊢
  refine ⟨s, rfl, 1, fun m hm => ?_⟩
  obtain ⟨k, rfl⟩ : ∃ k, m = k + 1 := ⟨m - 1, by omega⟩
  show beginLoop (k + 1) ts s = _
  rw [beginLoop]
  simp [he]

theorem complete_stmtTail_cons {ts : List Token} {w t : List TokenType}
    (dt : Derives .stmtTail t)
    (ihs : Complete ts .statement w) (iht : Complete ts .stmtTail t) :
    Complete ts .stmtTail (semicolonsym :: (w ++ t)) := by
  simp only [Complete] at iht ⊢
  intro p ho he s hs
  subst hs
  have hk : kindAt ts s.currentTokenInd = semicolonsym := ho.1
  obtain ⟨how, hot⟩ := Occurs.append.1 ho.2
  have hlen : s.currentTokenInd + (semicolonsym :: (w ++ t)).length
      = s.currentTokenInd + 1 + w.length + t.length := by simp; omega
  rw [hlen] at he ⊢
  have hf := stmtTail_follow dt hot he
  have hacc := Complete.statement_exact ihs how
    (hf.elim Or.inl (fun h => Or.inr (Or.inl h)))
  obtain ⟨s1, hp1, n1, h1⟩ := hacc (consume ts s) (by simp)
  obtain ⟨s2, hp2, n2, h2⟩ := iht _ hot he s1 hp1
  refine ⟨s2, hp2, n1 + n2 + 1, fun m hm => ?_⟩
  obtain ⟨k, rfl⟩ : ∃ k, m = k + 1 := ⟨m - 1, by omega⟩
  show beginLoop (k + 1) ts s = _
  rw [beginLoop]
  simp [hk, h1 k (by omega), h2 k (by omega), Result.onOk]

theorem complete_stmt_begin {ts : List Token} {w t : List TokenType}
    (dt : Derives .stmtTail t)
    (ihs : Complete ts .statement w) (iht : Complete ts .stmtTail t) :
    Complete ts .statement (beginsym :: (w ++ (t ++ [endsym]))) := by
  simp only [Complete] at iht ⊢
  intro p ho htl
  have hlen : p + (beginsym :: (w ++ (t ++ [endsym]))).length
      = p + 1 + w.length + t.length + 1 := by simp; omega
  rw [hlen] at htl ⊢
  refine ⟨_, ?_, Reach.refl _, htl⟩
  intro s hs
  subst hs
  have hk : kindAt ts s.currentTokenInd = beginsym := ho.1
  obtain ⟨how, ho'⟩ := Occurs.append.1 ho.2
  obtain ⟨hot, hoe⟩ := Occurs.append.1 ho'
  have he : kindAt ts (s.currentTokenInd + 1 + w.length + t.length) = endsym := hoe.1
  have hf := stmtTail_follow dt hot he
  have hacc := Complete.statement_exact ihs how
    (hf.elim Or.inl (fun h => Or.inr (Or.inl h)))
  obtain ⟨s1, hp1, n1, h1⟩ := hacc (consume ts (printNonTerminal .STATEMENT s)) (by simp)
  obtain ⟨s2, hp2, n2, h2⟩ := iht _ hot he s1 hp1
  refine ⟨consume ts s2, by simp [hp2], n1 + n2 + 1, fun m hm => ?_⟩
  obtain ⟨k, rfl⟩ : ∃ k, m = k + 1 := ⟨m - 1, by omega⟩
  show statement (k + 1) ts s = _
  rw [statement]
  simp [hk, h1 k (by omega), h2 k (by omega), Result.onOk, hp2, he]

theorem complete_stmt_while {ts : List Token} {c w : List TokenType}
    (ihc : Complete ts .condition c) (ihs : Complete ts .statement w) :
    Complete ts .statement (whilesym :: (c ++ (dosym :: w))) := by
  simp only [Complete] at ihc ihs ⊢
  intro p ho htl
  have hlen : p + (whilesym :: (c ++ (dosym :: w))).length
      = p + 1 + c.length + 1 + w.length := by simp; omega
  rw [hlen] at htl ⊢
  obtain ⟨hoc, ho'⟩ := Occurs.append.1 ho.2
  have hd : kindAt ts (p + 1 + c.length) = dosym := ho'.1
  obtain ⟨q, hacc, hreach, hq⟩ := ihs _ ho'.2 htl
  refine ⟨q, ?_, hreach, hq⟩
  intro s hs
  subst hs
  have hk : kindAt ts s.currentTokenInd = whilesym := ho.1
  have hno : NoOp ts (s.currentTokenInd + 1 + c.length) := by simp [NoOp, NoMul, hd]
  obtain ⟨s1, hp1, n1, h1⟩ := ihc _ hoc hno (consume ts (printNonTerminal .STATEMENT s)) (by simp)
  obtain ⟨s2, hp2, n2, h2⟩ := hacc (consume ts s1) (by simp [hp1])
  refine ⟨s2, hp2, n1 + n2 + 1, fun m hm => ?_⟩
  obtain ⟨k, rfl⟩ : ∃ k, m = k + 1 := ⟨m - 1, by omega⟩
  show statement (k + 1) ts s = _
  rw [statement]
  simp [hk, h1 k (by omega), h2 k (by omega), Result.onOk, hp1, hd]

theorem Tail.else_inv {ts : List Token} {p : Nat} (h : Tail ts p)
    (hk : kindAt ts p = elsesym) : ∃ q, Accepts statement ts (p + 1) q ∧ Tail ts q := by
  cases h with
  | base hb => rcases hb with hb | hb | hb <;> simp [hb] at hk
  | els _ hacc hq => exact ⟨_, hacc, hq⟩

/-- The `if` branch of `statement`, once the condition and `then` are known to
be accepted and the `then` statement to be accepted up to `q1`: the call ends
at `q1` when no `else` stands there, and after the `else` statement otherwise. -/
theorem statement_if_accepts {ts : List Token} {p q1 : Nat} {c : List TokenType}
    (ihc : Complete ts .condition c) (hk : kindAt ts p = ifsym)
    (hoc : Occurs ts (p + 1) c) (ht : kindAt ts (p + 1 + c.length) = thensym)
    (hacc : Accepts statement ts (p + 1 + c.length + 1) q1) (hq1 : Tail ts q1) :
    ∃ q, Accepts statement ts p q ∧ Tail ts q ∧
      ((kindAt ts q1 ≠ elsesym ∧ q = q1) ∨
       (kindAt ts q1 = elsesym ∧ Accepts statement ts (q1 + 1) q)) := by
  simp only [Complete] at ihc
  have hno : NoOp ts (p + 1 + c.length) := by simp [NoOp, NoMul, ht]
  by_cases hel : kindAt ts q1 = elsesym
  · -- the parser reads `else` and one more statement
    obtain ⟨q2, hacc2, hq2⟩ := hq1.else_inv hel
    refine ⟨q2, ?_, hq2, Or.inr ⟨hel, hacc2⟩⟩
    intro s hs
    subst hs
    obtain ⟨s1, hp1, n1, h1⟩ :=
      ihc _ hoc hno (consume ts (printNonTerminal .STATEMENT s)) (by simp)
    obtain ⟨s2, hp2, n2, h2⟩ := hacc (consume ts s1) (by simp [hp1])
    obtain ⟨s3, hp3, n3, h3⟩ := hacc2 (consume ts s2) (by simp [hp2])
    refine ⟨s3, hp3, n1 + n2 + n3 + 1, fun m hm => ?_⟩
    obtain ⟨k, rfl⟩ : ∃ k, m = k + 1 := ⟨m - 1, by omega⟩
    show statement (k + 1) ts s = _
    rw [statement]
    simp [hk, h1 k (by omega), h2 k (by omega), h3 k (by omega), Result.onOk, hp1, hp2,
      ht, hel]
  · refine ⟨q1, ?_, hq1, Or.inl ⟨hel, rfl⟩⟩
    intro s hs
    subst hs
    obtain ⟨s1, hp1, n1, h1⟩ :=
      ihc _ hoc hno (consume ts (printNonTerminal .STATEMENT s)) (by simp)
    obtain ⟨s2, hp2, n2, h2⟩ := hacc (consume ts s1) (by simp [hp1])
    refine ⟨s2, hp2, n1 + n2 + 1, fun m hm => ?_⟩
    obtain ⟨k, rfl⟩ : ∃ k, m = k + 1 := ⟨m - 1, by omega⟩
    show statement (k + 1) ts s = _
    rw [statement]
    simp [hk, h1 k (by omega), h2 k (by omega), Result.onOk, hp1, hp2, ht, hel]

theorem complete_stmt_if {ts : List Token} {c w : List TokenType}
    (ihc : Complete ts .condition c) (ihs : Complete ts .statement w) :
    Complete ts .statement (ifsym :: (c ++ (thensym :: w))) := by
  simp only [Complete] at ihs ⊢
  intro p ho htl
  have hlen : p + (ifsym :: (c ++ (thensym :: w))).length
      = p + 1 + c.length + 1 + w.length := by simp; omega
  rw [hlen] at htl ⊢
  obtain ⟨hoc, ho'⟩ := Occurs.append.1 ho.2
  obtain ⟨q1, hacc, hreach, hq1⟩ := ihs _ ho'.2 htl
  obtain ⟨q, ha, hq, hcase⟩ := statement_if_accepts ihc ho.1 hoc ho'.1 hacc hq1
  refine ⟨q, ha, ?_, hq⟩
  rcases hcase with ⟨_, rfl⟩ | ⟨hel, hacc2⟩
  · exact hreach
  · exact hreach.chain (Reach.step hel hacc2 (Reach.refl _))

theorem complete_stmt_if_else {ts : List Token} {c w1 w2 : List TokenType}
    (ihc : Complete ts .condition c) (ih1 : Complete ts .statement w1)
    (ih2 : Complete ts .statement w2) :
    Complete ts .statement (ifsym :: (c ++ (thensym :: (w1 ++ (elsesym :: w2))))) := by
  simp only [Complete] at ih1 ih2 ⊢
  intro p ho htl
  have hlen : p + (ifsym :: (c ++ (thensym :: (w1 ++ (elsesym :: w2))))).length
      = p + 1 + c.length + 1 + w1.length + 1 + w2.length := by simp; omega
  rw [hlen] at htl ⊢
  obtain ⟨hoc, ho'⟩ := Occurs.append.1 ho.2
  obtain ⟨ho1, ho''⟩ := Occurs.append.1 ho'.2
  have hel : kindAt ts (p + 1 + c.length + 1 + w1.length) = elsesym := ho''.1
  -- the statement after `else`
  obtain ⟨q2, hacc2, hreach2, hq2⟩ := ih2 _ ho''.2 htl
  -- the `then` statement, which may or may not take the `else` itself
  obtain ⟨q1, hacc1, hreach1, hq1⟩ := ih1 _ ho1 (Tail.els hel hacc2 hq2)
  obtain ⟨q, ha, hq, hcase⟩ := statement_if_accepts ihc ho.1 hoc ho'.1 hacc1 hq1
  refine ⟨q, ha, ?_, hq⟩
  cases hreach1 with
  | refl _ =>
    -- the `then` statement stopped before `else`: the outer `if` reads it
    rcases hcase with ⟨hne, _⟩ | ⟨_, hacc3⟩
    · exact absurd hel hne
    · have := Accepts.det hacc2 hacc3
      subst this
      exact hreach2
  | step _ hacc3 hr3 =>
    -- the `then` statement read the `else` itself
    have := Accepts.det hacc2 hacc3
    subst this
    rcases hcase with ⟨_, rfl⟩ | ⟨hel1, hacc4⟩
    · exact hreach2.chain hr3
    · exact hreach2.chain (hr3.chain (Reach.step hel1 hacc4 (Reach.refl _)))

/-- One pass through the body of the loop of `const_declaration`. -/
theorem constLoop_step {ts : List Token} (sym : Symbol) (s : State)
    (h1 : kindAt ts (s.currentTokenInd + 1) = identsym)
    (h2 : kindAt ts (s.currentTokenInd + 2) = eqsym)
    (h3 : kindAt ts (s.currentTokenInd + 3) = numbersym) :
    ∃ sym' s', s'.currentTokenInd = s.currentTokenInd + 4 ∧
      ∀ k, constLoop (k + 1) ts sym s =
        if kindAt ts (s.currentTokenInd + 4) = commasym then constLoop k ts sym' s'
        else some (0, s') := by
  refine ⟨{ sym with
              name := (getCurrentToken ts (consume ts s)).lexeme,
              value := strtodInt (getCurrentToken ts (consume ts (consume ts (consume ts s)))).lexeme },
          consume ts (addSymbol
            { sym with
              name := (getCurrentToken ts (consume ts s)).lexeme,
              value := strtodInt (getCurrentToken ts (consume ts (consume ts (consume ts s)))).lexeme }
            (consume ts (consume ts (consume ts s)))), by simp, fun k => ?_⟩
  rw [constLoop]
  simp [h1, h2, h3]

theorem complete_constTail_nil (ts : List Token) : Complete ts .constTail [] := by
  simp only [Complete]
  intro p _ hc h1 h2 h3 sym s hs
  subst hs
  simp only [List.length_nil, Nat.add_zero] at hc ⊢
  obtain ⟨sym', s', hp, he⟩ := constLoop_step sym s h1 h2 h3
  refine ⟨s', hp, 1, fun m hm => ?_⟩
  obtain ⟨k, rfl⟩ : ∃ k, m = k + 1 := ⟨m - 1, by omega⟩
  show constLoop (k + 1) ts sym s = _
  rw [he, if_neg hc]

theorem complete_constTail_cons {ts : List Token} {t : List TokenType}
    (iht : Complete ts .constTail t) :
    Complete ts .constTail (commasym :: identsym :: eqsym :: numbersym :: t) := by
  simp only [Complete] at iht ⊢
  intro p ho hc h1 h2 h3 sym s hs
  subst hs
  have hlen : s.currentTokenInd + 4 + (commasym :: identsym :: eqsym :: numbersym :: t).length
      = s.currentTokenInd + 4 + 4 + t.length := by simp; omega
  rw [hlen] at hc ⊢
  obtain ⟨sym', s', hp, he⟩ := constLoop_step sym s h1 h2 h3
  have hk : kindAt ts (s.currentTokenInd + 4) = commasym := ho.1
  obtain ⟨s2, hp2, n2, hr2⟩ :=
    iht (s.currentTokenInd + 4) ho.2.2.2.2 hc ho.2.1 ho.2.2.1 ho.2.2.2.1 sym' s' hp
  refine ⟨s2, hp2, n2 + 1, fun m hm => ?_⟩
  obtain ⟨k, rfl⟩ : ∃ k, m = k + 1 := ⟨m - 1, by omega⟩
  show constLoop (k + 1) ts sym s = _
  rw [he, if_pos hk]
  exact hr2 k (by omega)

theorem complete_const_none (ts : List Token) : Complete ts .const_decl [] := by
  simp only [Complete]
  intro p _ hc s hs
  subst hs
  have hk := hc trivial
  refine ⟨printNonTerminal .CONST_DECLARATION s, by simp, 0, fun m _ => ?_⟩
  show const_declaration m ts s = _
  unfold const_declaration
  simp [hk]

theorem complete_const_some {ts : List Token} {t : List TokenType}
    (iht : Complete ts .constTail t) :
    Complete ts .const_decl
      (constsym :: identsym :: eqsym :: numbersym :: (t ++ [semicolonsym])) := by
  simp only [Complete] at iht ⊢
  intro p ho _ s hs
  subst hs
  have hlen : s.currentTokenInd
        + (constsym :: identsym :: eqsym :: numbersym :: (t ++ [semicolonsym])).length
      = s.currentTokenInd + 4 + t.length + 1 := by simp; omega
  rw [hlen]
  have hk : kindAt ts s.currentTokenInd = constsym := ho.1
  obtain ⟨hot, hos⟩ := Occurs.append.1 ho.2.2.2.2
  have hsemi : kindAt ts (s.currentTokenInd + 4 + t.length) = semicolonsym := hos.1
  obtain ⟨s1, hp1, n1, h1⟩ := iht s.currentTokenInd hot (by simp [hsemi]) ho.2.1 ho.2.2.1 ho.2.2.2.1
    { type := .CONST, name := "", value := 0,
      level := (printNonTerminal .CONST_DECLARATION s).currentLevel, address := 0,
      scope := NULL } (printNonTerminal .CONST_DECLARATION s) (by simp)
  refine ⟨consume ts s1, by simp [hp1], n1, fun m hm => ?_⟩
  show const_declaration m ts s = _
  unfold const_declaration
  have e1 := h1 m hm
  simp only [] at e1
  simp [hk, e1, Result.onOk, hp1, hsemi]

/-- One pass through the body of the loop of `var_declaration`. -/
theorem varLoop_step {ts : List Token} (sym : Symbol) (s : State)
    (h1 : kindAt ts (s.currentTokenInd + 1) = identsym) :
    ∃ sym' s', s'.currentTokenInd = s.currentTokenInd + 2 ∧
      ∀ k, varLoop (k + 1) ts sym s =
        if kindAt ts (s.currentTokenInd + 2) = commasym then varLoop k ts sym' s'
        else some (0, s') := by
  refine ⟨{ sym with name := (getCurrentToken ts (consume ts s)).lexeme },
          consume ts (addSymbol { sym with name := (getCurrentToken ts (consume ts s)).lexeme }
            (consume ts s)), by simp, fun k => ?_⟩
  rw [varLoop]
  simp [h1]

theorem complete_varTail_nil (ts : List Token) : Complete ts .varTail [] := by
  simp only [Complete]
  intro p _ hc h1 sym s hs
  subst hs
  simp only [List.length_nil, Nat.add_zero] at hc ⊢
  obtain ⟨sym', s', hp, he⟩ := varLoop_step sym s h1
  refine ⟨s', hp, 1, fun m hm => ?_⟩
  obtain ⟨k, rfl⟩ : ∃ k, m = k + 1 := ⟨m - 1, by omega⟩
  show varLoop (k + 1) ts sym s = _
  rw [he, if_neg hc]

theorem complete_varTail_cons {ts : List Token} {t : List TokenType}
    (iht : Complete ts .varTail t) :
    Complete ts .varTail (commasym :: identsym :: t) := by
  simp only [Complete] at iht ⊢
  intro p ho hc h1 sym s hs
  subst hs
  have hlen : s.currentTokenInd + 2 + (commasym :: identsym :: t).length
      = s.currentTokenInd + 2 + 2 + t.length := by simp; omega
  rw [hlen] at hc ⊢
  obtain ⟨sym', s', hp, he⟩ := varLoop_step sym s h1
  have hk : kindAt ts (s.currentTokenInd + 2) = commasym := ho.1
  obtain ⟨s2, hp2, n2, hr2⟩ := iht (s.currentTokenInd + 2) ho.2.2 hc ho.2.1 sym' s' hp
  refine ⟨s2, hp2, n2 + 1, fun m hm => ?_⟩
  obtain ⟨k, rfl⟩ : ∃ k, m = k + 1 := ⟨m - 1, by omega⟩
  show varLoop (k + 1) ts sym s = _
  rw [he, if_pos hk]
  exact hr2 k (by omega)

theorem complete_var_none (ts : List Token) : Complete ts .var_decl [] := by
  simp only [Complete]
  intro p _ hc s hs
  subst hs
  have hk := hc trivial
  refine ⟨printNonTerminal .VAR_DECLARATION s, by simp, 0, fun m _ => ?_⟩
  show var_declaration m ts s = _
  unfold var_declaration
  simp [hk]

theorem complete_var_some {ts : List Token} {t : List TokenType}
    (iht : Complete ts .varTail t) :
    Complete ts .var_decl (varsym :: identsym :: (t ++ [semicolonsym])) := by
  simp only [Complete] at iht ⊢
  intro p ho _ s hs
  subst hs
  have hlen : s.currentTokenInd + (varsym :: identsym :: (t ++ [semicolonsym])).length
      = s.currentTokenInd + 2 + t.length + 1 := by simp; omega
  rw [hlen]
  have hk : kindAt ts s.currentTokenInd = varsym := ho.1
  obtain ⟨hot, hos⟩ := Occurs.append.1 ho.2.2
  have hsemi : kindAt ts (s.currentTokenInd + 2 + t.length) = semicolonsym := hos.1
  obtain ⟨s1, hp1, n1, h1⟩ := iht s.currentTokenInd hot (by simp [hsemi]) ho.2.1
    { type := .VAR, name := "", value := 0,
      level := (printNonTerminal .VAR_DECLARATION s).currentLevel, address := 0,
      scope := NULL } (printNonTerminal .VAR_DECLARATION s) (by simp)
  refine ⟨consume ts s1, by simp [hp1], n1, fun m hm => ?_⟩
  show var_declaration m ts s = _
  unfold var_declaration
  have e1 := h1 m hm
  simp only [] at e1
  simp [hk, e1, Result.onOk, hp1, hsemi]

theorem statement_first {ts : List Token} {w : List TokenType} (h : Derives .statement w)
    {q : Nat} (ho : Occurs ts q w)
    (hf : kindAt ts (q + w.length) = periodsym ∨ kindAt ts (q + w.length) = semicolonsym) :
    kindAt ts q ≠ constsym ∧ kindAt ts q ≠ varsym ∧ kindAt ts q ≠ procsym := by
  cases h with
  | stmt_empty =>
    simp only [List.length_nil, Nat.add_zero] at hf
    rcases hf with hf | hf <;> simp [hf]
  | stmt_assign _ => have := ho.1; simp [this]
  | stmt_call => have := ho.1; simp [this]
  | stmt_begin _ _ => have := ho.1; simp [this]
  | stmt_if _ _ => have := ho.1; simp [this]
  | stmt_if_else _ _ _ => have := ho.1; simp [this]
  | stmt_while _ _ => have := ho.1; simp [this]
  | stmt_write => have := ho.1; simp [this]
  | stmt_read => have := ho.1; simp [this]

theorem proc_first {ts : List Token} {pr w : List TokenType} (hp : Derives .proc_decl pr)
    (hw : Derives .statement w) {q : Nat} (ho : Occurs ts q (pr ++ w))
    (hf : kindAt ts (q + pr.length + w.length) = periodsym
      ∨ kindAt ts (q + pr.length + w.length) = semicolonsym) :
    kindAt ts q ≠ constsym ∧ kindAt ts q ≠ varsym := by
  cases hp with
  | proc_nil =>
    simp only [List.nil_append, List.length_nil, Nat.add_zero] at ho hf
    exact ⟨(statement_first hw ho hf).1, (statement_first hw ho hf).2.1⟩
  | proc_cons _ _ => have := ho.1; simp [this]

theorem var_first {ts : List Token} {v pr w : List TokenType} (hv : Derives .var_decl v)
    (hp : Derives .proc_decl pr) (hw : Derives .statement w) {q : Nat}
    (ho : Occurs ts q (v ++ (pr ++ w)))
    (hf : kindAt ts (q + v.length + pr.length + w.length) = periodsym
      ∨ kindAt ts (q + v.length + pr.length + w.length) = semicolonsym) :
    kindAt ts q ≠ constsym := by
  cases hv with
  | var_none =>
    simp only [List.nil_append, List.length_nil, Nat.add_zero] at ho hf
    exact (proc_first hp hw ho hf).1
  | var_some _ => have := ho.1; simp [this]

theorem complete_proc_nil (ts : List Token) : Complete ts .proc_decl [] := by
  simp only [Complete]
  intro p _ hc s hs
  subst hs
  simp only [List.length_nil, Nat.add_zero] at hc ⊢
  refine ⟨s, rfl, 1, fun m hm => ?_⟩
  obtain ⟨k, rfl⟩ : ∃ k, m = k + 1 := ⟨m - 1, by omega⟩
  show procLoop (k + 1) ts s = _
  rw [procLoop]
  simp [hc]

theorem complete_proc_cons {ts : List Token} {b pr : List TokenType}
    (ihb : Complete ts .block b) (ihp : Complete ts .proc_decl pr) :
    Complete ts .proc_decl
      (procsym :: identsym :: semicolonsym :: (b ++ (semicolonsym :: pr))) := by
  simp only [Complete] at ihb ihp ⊢
  intro p ho hc s hs
  subst hs
  have hlen : s.currentTokenInd
        + (procsym :: identsym :: semicolonsym :: (b ++ (semicolonsym :: pr))).length
      = s.currentTokenInd + 3 + b.length + 1 + pr.length := by simp; omega
  rw [hlen] at hc ⊢
  have hk1 : kindAt ts s.currentTokenInd = procsym := ho.1
  have hk2 : kindAt ts (s.currentTokenInd + 1) = identsym := ho.2.1
  have hk3 : kindAt ts (s.currentTokenInd + 2) = semicolonsym := ho.2.2.1
  obtain ⟨hob, ho'⟩ := Occurs.append.1 ho.2.2.2
  have hk4 : kindAt ts (s.currentTokenInd + 3 + b.length) = semicolonsym := ho'.1
  obtain ⟨s1, hp1, n1, h1⟩ := ihb (s.currentTokenInd + 3) hob (Or.inr hk4)
    (levelUp (consume ts (consume ts (addSymbol
      { type := .PROC, name := (getCurrentToken ts (consume ts s)).lexeme, value := 0,
        level := (consume ts s).currentLevel, address := 0, scope := NULL }
      (consume ts s))))) (by simp)
  obtain ⟨s2, hp2, n2, h2⟩ := ihp (s.currentTokenInd + 3 + b.length + 1) ho'.2 hc
    (consume ts (levelDown s1)) (by simp [hp1])
  refine ⟨s2, hp2, n1 + n2 + 1, fun m hm => ?_⟩
  obtain ⟨k, rfl⟩ : ∃ k, m = k + 1 := ⟨m - 1, by omega⟩
  show procLoop (k + 1) ts s = _
  rw [procLoop]
  have e1 := h1 k (by omega)
  have e2 := h2 k (by omega)
  simp only [] at e1 e2
  simp [hk1, hk2, hk3, e1, e2, Result.onOk, hp1, hk4]

theorem complete_block {ts : List Token} {c v pr w : List TokenType}
    (dv : Derives .var_decl v) (dp : Derives .proc_decl pr) (dw : Derives .statement w)
    (ihc : Complete ts .const_decl c) (ihv : Complete ts .var_decl v)
    (ihp : Complete ts .proc_decl pr) (ihw : Complete ts .statement w) :
    Complete ts .block (c ++ (v ++ (pr ++ w))) := by
  simp only [Complete] at ihc ihv ihp ⊢
  intro p ho hf s hs
  subst hs
  have hlen : s.currentTokenInd + (c ++ (v ++ (pr ++ w))).length
      = s.currentTokenInd + c.length + v.length + pr.length + w.length := by simp; omega
  rw [hlen] at hf ⊢
  obtain ⟨hoc, ho1⟩ := Occurs.append.1 ho
  obtain ⟨hov, ho2⟩ := Occurs.append.1 ho1
  obtain ⟨hop, how⟩ := Occurs.append.1 ho2
  have hcfirst : c = [] → kindAt ts s.currentTokenInd ≠ constsym := by
    intro hc
    subst hc
    simp only [List.length_nil, Nat.add_zero] at ho1 hf
    exact var_first dv dp dw ho1 hf
  have hvfirst : v = [] → kindAt ts (s.currentTokenInd + c.length) ≠ varsym := by
    intro hv
    subst hv
    simp only [List.length_nil, Nat.add_zero] at ho2 hf
    exact (proc_first dp dw ho2 hf).2
  have hpfollow : kindAt ts (s.currentTokenInd + c.length + v.length + pr.length) ≠ procsym :=
    (statement_first dw how hf).2.2
  have hwacc := Complete.statement_exact ihw how
    (hf.elim (fun h => Or.inr (Or.inr h)) Or.inl)
  obtain ⟨s1, hp1, n1, h1⟩ := ihc _ hoc hcfirst (printNonTerminal .BLOCK s) (by simp)
  obtain ⟨s2, hp2, n2, h2⟩ := ihv _ hov hvfirst s1 hp1
  obtain ⟨s3, hp3, n3, h3⟩ := ihp _ hop hpfollow (printNonTerminal .PROC_DECLARATION s2)
    (by simp [hp2])
  obtain ⟨s4, hp4, n4, h4⟩ := hwacc s3 hp3
  refine ⟨s4, hp4, n1 + n2 + n3 + n4 + 2, fun m hm => ?_⟩
  obtain ⟨k, rfl⟩ : ∃ k, m = k + 1 := ⟨m - 1, by omega⟩
  obtain ⟨j, rfl⟩ : ∃ j, k = j + 1 := ⟨k - 1, by omega⟩
  show block (j + 1 + 1) ts s = _
  rw [block]
  have e1 := h1 (j + 1) (by omega)
  have e2 := h2 (j + 1) (by omega)
  have e3 := h3 j (by omega)
  have e4 := h4 (j + 1) (by omega)
  simp only [] at e1 e2 e3 e4
  have e3' : proc_declaration (j + 1) ts s2 = some (0, s3) := by
    rw [proc_declaration]; exact e3
  simp [e1, e2, e3', e4, Result.onOk]

theorem complete_program {ts : List Token} {b : List TokenType}
    (ihb : Complete ts .block b) : Complete ts .program (b ++ [periodsym]) := by
  simp only [Complete] at ihb ⊢
  intro p ho s hs
  subst hs
  have hlen : s.currentTokenInd + (b ++ [periodsym]).length
      = s.currentTokenInd + b.length + 1 := by simp; omega
  rw [hlen]
  obtain ⟨hob, hop⟩ := Occurs.append.1 ho
  have hk : kindAt ts (s.currentTokenInd + b.length) = periodsym := hop.1
  obtain ⟨s1, hp1, n1, h1⟩ := ihb _ hob (Or.inl hk) (printNonTerminal .PROGRAM s) (by simp)
  refine ⟨consume ts s1, by simp [hp1], n1, fun m hm => ?_⟩
  show program m ts s = _
  unfold program
  have e1 := h1 m hm
  simp only [] at e1
  simp [e1, Result.onOk, hp1, hk]

/-- Every derivable string is accepted by the production function of its
non-terminal, wherever it stands in the token list. -/
theorem complete_all (ts : List Token) {X : GSym} {w : List TokenType}
    (h : Derives X w) : Complete ts X w := by
  induction h with
  | program _ ihb => exact complete_program ihb
  | block _ dv dp dw ihc ihv ihp ihw => exact complete_block dv dp dw ihc ihv ihp ihw
  | const_none => exact complete_const_none ts
  | const_some _ iht => exact complete_const_some iht
  | constTail_nil => exact complete_constTail_nil ts
  | constTail_cons _ iht => exact complete_constTail_cons iht
  | var_none => exact complete_var_none ts
  | var_some _ iht => exact complete_var_some iht
  | varTail_nil => exact complete_varTail_nil ts
  | varTail_cons _ iht => exact complete_varTail_cons iht
  | proc_nil => exact complete_proc_nil ts
  | proc_cons _ _ ihb ihp => exact complete_proc_cons ihb ihp
  | stmt_assign _ ihe => exact complete_stmt_assign ihe
  | stmt_call => exact complete_stmt_two (Or.inl rfl)
  | stmt_begin _ dt ihs iht => exact complete_stmt_begin dt ihs iht
  | stmt_if _ _ ihc ihs => exact complete_stmt_if ihc ihs
  | stmt_if_else _ _ _ ihc ih1 ih2 => exact complete_stmt_if_else ihc ih1 ih2
  | stmt_while _ _ ihc ihs => exact complete_stmt_while ihc ihs
  | stmt_write => exact complete_stmt_two (Or.inr (Or.inl rfl))
  | stmt_read => exact complete_stmt_two (Or.inr (Or.inr rfl))
  | stmt_empty => exact complete_stmt_empty ts
  | stmtTail_nil => exact complete_stmtTail_nil ts
  | stmtTail_cons _ dt ihs iht => exact complete_stmtTail_cons dt ihs iht
  | cond_odd _ ihe => exact complete_cond_odd ihe
  | cond_rel d1 dr _ ih1 ihr ih2 => exact complete_cond_rel d1 dr ih1 ihr ih2
  | relop_eq => exact complete_relop (Or.inl rfl)
  | relop_neq => exact complete_relop (Or.inr (Or.inl rfl))
  | relop_les => exact complete_relop (Or.inr (Or.inr (Or.inl rfl)))
  | relop_leq => exact complete_relop (Or.inr (Or.inr (Or.inr (Or.inl rfl))))
  | relop_gtr => exact complete_relop (Or.inr (Or.inr (Or.inr (Or.inr (Or.inl rfl)))))
  | relop_geq => exact complete_relop (Or.inr (Or.inr (Or.inr (Or.inr (Or.inr rfl)))))
  | expr_term dt dtl iht ihtl => exact complete_expr_term dt dtl iht ihtl
  | expr_plus _ dtl iht ihtl => exact complete_expr_signed (Or.inl rfl) dtl iht ihtl
  | expr_minus _ dtl iht ihtl => exact complete_expr_signed (Or.inr rfl) dtl iht ihtl
  | exprTail_nil => exact complete_exprTail_nil ts
  | exprTail_plus _ dtl iht ihtl => exact complete_exprTail_op (Or.inl rfl) dtl iht ihtl
  | exprTail_minus _ dtl iht ihtl => exact complete_exprTail_op (Or.inr rfl) dtl iht ihtl
  | term _ _ ihf ihtl => exact complete_term ihf ihtl
  | termTail_nil => exact complete_termTail_nil ts
  | termTail_mult _ _ ihf ihtl => exact complete_termTail_op (Or.inl rfl) ihf ihtl
  | termTail_slash _ _ ihf ihtl => exact complete_termTail_op (Or.inr rfl) ihf ihtl
  | factor_ident => exact complete_factor_ident ts
  | factor_number => exact complete_factor_number ts
  | factor_paren _ ihe => exact complete_factor_paren ihe

theorem occurs_of_kindsFrom {ts : List Token} {w : List TokenType} :
    ∀ (p : Nat) (rest : List TokenType), kindsFrom ts p = w ++ rest → Occurs ts p w := by
  induction w with
  | nil => intro p rest _; trivial
  | cons t w ih =>
    intro p rest h
    have hlt : p < ts.length := by
      by_contra hge
      have : ts.drop p = [] := List.drop_eq_nil_of_le (by omega)
      simp [kindsFrom, this] at h
    have hd : ts.drop p = ts[p] :: ts.drop (p + 1) := List.drop_eq_getElem_cons hlt
    simp only [kindsFrom, hd, List.map_cons, List.cons_append, List.cons.injEq] at h
    refine ⟨?_, ih (p + 1) rest h.2⟩
    simp [kindAt, tokenAt, List.get?_eq_getElem?, List.getElem?_eq_getElem hlt, h.1]

end Parser

/-- C9 (completeness of the trace-mode parser): for every string `w` of token
kinds derivable from `program` and every token list that begins with `w`,
`program()`, given enough fuel, returns 0, having read exactly `w`. -/
theorem parser_program_complete (w : List TokenType) (ts : List Token)
    (hw : Grammar.Derives .program w) (hts : w <+: ts.map Token.id) :
    ∃ n s', s'.currentTokenInd = w.length ∧
      ∀ m, n ≤ m → Parser.program m ts Parser.initialState = some (0, s') := by
  obtain ⟨rest, hrest⟩ := hts
  have ho : Occurs ts 0 w := Parser.occurs_of_kindsFrom 0 rest (by
    simp [kindsFrom, hrest])
  have hc := Parser.complete_all ts hw
  simp only [Parser.Complete] at hc
  obtain ⟨s', hp, n, hn⟩ := hc 0 ho Parser.initialState rfl
  exact ⟨n, s', by simpa using hp, hn⟩

theorem parser_program_complete_witness :
    Grammar.Derives .program (exampleProgram.map Token.id) ∧
    exampleProgram.map Token.id <+: exampleProgram.map Token.id ∧
    (Parser.program 12 exampleProgram Parser.initialState).map Prod.fst = some 0 ∧
    ∃ n s', s'.currentTokenInd = (exampleProgram.map Token.id).length ∧
      ∀ m, n ≤ m → Parser.program m exampleProgram Parser.initialState = some (0, s') := by
  have hd : Grammar.Derives .program (exampleProgram.map Token.id) := by
    obtain ⟨w, dw, cw⟩ := Parser.program_sound 12 exampleProgram Parser.initialState
      exampleProgramParsed (by decide)
    have hc : Consumed exampleProgram 0 19 w := cw
    have hw := (Parser.Consumed.from_start hc).2
    have hw' : w = exampleProgram.map Token.id := by rw [← hw]; decide
    exact hw' ▸ dw
  exact ⟨hd, List.prefix_refl _, by decide,
    parser_program_complete _ exampleProgram hd (List.prefix_refl _)⟩

/-! ## Code generator: which error codes a call can return -/

namespace CodeGenerator

theorem Outcome.onOk_code_ne {o : Outcome} {k : State → Outcome} {c : Nat}
    (ho : o.code ≠ some c) (hk : ∀ s, o = .ret 0 s → (k s).code ≠ some c) :
    (o.onOk k).code ≠ some c := by
  cases o with
  | ret err s =>
    by_cases he : err = 0
    · subst he
      simpa [Outcome.onOk] using hk s rfl
    · simpa [Outcome.onOk, he] using ho
  | exit => simp [Outcome.onOk, Outcome.code]
  | nullDeref => simp [Outcome.onOk, Outcome.code]
  | outOfBounds => simp [Outcome.onOk, Outcome.code]
  | outOfFuel => simp [Outcome.onOk, Outcome.code]

theorem emitThen_code_ne {env : Env} {op : Opcode} {r l m : Int} {s : State}
    {k : State → Outcome} {c : Nat} (hk : ∀ s, (k s).code ≠ some c) :
    (emitThen env op r l m s k).code ≠ some c := by
  unfold emitThen
  cases emit env op r l m s with
  | none => simp [Outcome.code]
  | some v => exact hk _

theorem setM_code_ne {env : Env} {i : Nat} {m : Int} {s : State}
    {k : State → Outcome} {c : Nat} (hk : ∀ s, (k s).code ≠ some c) :
    (setM env i m s k).code ≠ some c := by
  unfold setM
  split
  · exact hk _
  · simp [Outcome.code]

theorem ret_code_ne {e c : Nat} {s : State} (h : e ≠ c) : (Outcome.ret e s).code ≠ some c := by
  simp [Outcome.code, h]

theorem Outcome.onOk_code_zero {o : Outcome} {k : State → Outcome}
    (h : (o.onOk k).code = some 0) : ∃ s, o = .ret 0 s ∧ (k s).code = some 0 := by
  cases o with
  | ret err s =>
    by_cases he : err = 0
    · subst he
      exact ⟨s, rfl, by simpa [Outcome.onOk] using h⟩
    · simp [Outcome.onOk, he, Outcome.code] at h
  | exit => simp [Outcome.onOk, Outcome.code] at h
  | nullDeref => simp [Outcome.onOk, Outcome.code] at h
  | outOfBounds => simp [Outcome.onOk, Outcome.code] at h
  | outOfFuel => simp [Outcome.onOk, Outcome.code] at h

/-- Entered with `op` a sign, the loop of `expression` never ends with 0: it
leaves only through a failing `term()`. -/
theorem expressionLoop_sign_ne_zero (n : Nat) (env : Env) (op : TokenType)
    (hop : op = .plussym ∨ op = .minussym) :
    ∀ s, (expressionLoop n env op s).code ≠ some 0 := by
  induction n with
  | zero => intro s; simp [expressionLoop, Outcome.code]
  | succ n ih =>
    intro s h
    rw [expressionLoop, if_pos hop] at h
    obtain ⟨s1, _, h1⟩ := Outcome.onOk_code_zero h
    split at h1
    · exact emitThen_code_ne (fun s => ih s) h1
    · exact emitThen_code_ne (fun s => ih s) h1

/-- Entered at a sign, `expression()` never returns 0, whatever the tokens, the
symbol table and the lookup are. -/
theorem expression_sign_ne_zero (n : Nat) (env : Env) (s : State)
    (hop : getCurrentTokenType env s = .plussym ∨ getCurrentTokenType env s = .minussym) :
    (expression n env s).code ≠ some 0 := by
  cases n with
  | zero => simp [expression, Outcome.code]
  | succ n =>
    intro h
    rw [expression] at h
    obtain ⟨s1, _, h1⟩ := Outcome.onOk_code_zero h
    obtain ⟨s2, _, h2⟩ := Outcome.onOk_code_zero h1
    exact expressionLoop_sign_ne_zero n env _ hop s2 h2

theorem factor_number_ne_24 (n : Nat) (env : Env) (s : State)
    (hk : getCurrentTokenType env s = .numbersym) : (factor n env s).code ≠ some 24 := by
  cases n with
  | zero => simp [factor, Outcome.code]
  | succ n =>
    rw [factor]
    split
    · exact ret_code_ne (by decide)
    · simp only [hk, reduceCtorEq, if_false, if_true]
      exact emitThen_code_ne (fun s => ret_code_ne (by decide))

theorem termLoop_other_ne_24 (n : Nat) (env : Env) (op : TokenType) (s : State)
    (hop : ¬ (op = .multsym ∨ op = .slashsym)) : (termLoop n env op s).code ≠ some 24 := by
  cases n with
  | zero => simp [termLoop, Outcome.code]
  | succ n =>
    rw [termLoop, if_neg hop]
    exact ret_code_ne (by decide)

theorem expressionLoop_other_ne_24 (n : Nat) (env : Env) (op : TokenType) (s : State)
    (hop : ¬ (op = .plussym ∨ op = .minussym)) :
    (expressionLoop n env op s).code ≠ some 24 := by
  cases n with
  | zero => simp [expressionLoop, Outcome.code]
  | succ n =>
    rw [expressionLoop, if_neg hop]
    exact ret_code_ne (by decide)

theorem term_number_ne_24 (n : Nat) (env : Env) (s : State)
    (hk : getCurrentTokenType env s = .numbersym) : (term n env s).code ≠ some 24 := by
  cases n with
  | zero => simp [term, Outcome.code]
  | succ n =>
    rw [term]
    exact Outcome.onOk_code_ne (factor_number_ne_24 n env s hk)
      (fun s1 _ => termLoop_other_ne_24 n env _ s1 (by simp [hk]))

theorem expression_number_ne_24 (n : Nat) (env : Env) (s : State)
    (hk : getCurrentTokenType env s = .numbersym) : (expression n env s).code ≠ some 24 := by
  cases n with
  | zero => simp [expression, Outcome.code]
  | succ n =>
    rw [expression]
    simp only [hk, reduceCtorEq, or_self, if_false]
    refine Outcome.onOk_code_ne (ret_code_ne (by decide)) (fun s1 h1 => ?_)
    have hs : s1 = s := by
      simp only [Outcome.ret.injEq, true_and] at h1
      exact h1.symm
    subst hs
    exact Outcome.onOk_code_ne (term_number_ne_24 n env s1 hk)
      (fun s2 _ => expressionLoop_other_ne_24 n env _ s2 (by simp))

/-- An assignment whose right-hand side begins with a number never makes
`statement()` return 24. -/
theorem statement_assign_number_ne_24 (n : Nat) (env : Env) (s : State)
    (h0 : getCurrentTokenType env s = .identsym)
    (h2 : getCurrentTokenType env (nextToken (nextToken s)) = .numbersym) :
    (statement n env s).code ≠ some 24 := by
  cases n with
  | zero => simp [statement, Outcome.code]
  | succ n =>
    rw [statement]
    simp only [h0, if_true]
    split
    · simp [Outcome.code]
    · split
      · exact ret_code_ne (by decide)
      · split
        · exact ret_code_ne (by decide)
        · split
          · exact ret_code_ne (by decide)
          · exact Outcome.onOk_code_ne (expression_number_ne_24 n env _ h2)
              (fun _ _ => ret_code_ne (by decide))

theorem varLoop_ne_24 (n : Nat) (env : Env) :
    ∀ sym varNum s, (varLoop n env sym varNum s).code ≠ some 24 := by
  induction n with
  | zero => intro sym varNum s; simp [varLoop, Outcome.code]
  | succ n ih =>
    intro sym varNum s
    rw [varLoop]
    dsimp only
    split_ifs <;> first | exact ret_code_ne (by decide) | exact ih _ _ _

theorem var_declaration_ne_24 (n : Nat) (env : Env) (s : State) :
    (var_declaration n env s).code ≠ some 24 := by
  unfold var_declaration
  split
  · exact ret_code_ne (by decide)
  · exact emitThen_code_ne (fun s => varLoop_ne_24 n env _ _ s)

theorem kind_at (env : Env) (s : State) (p : Nat) (hp : s.currentTokenInd = p) :
    getCurrentTokenType env s = (tokenAt env.tokens p).id := by
  rw [← hp]; rfl

theorem emitThen_ret {env : Env} {op : Opcode} {r l m : Int} {s : State}
    {k : State → Outcome} {e : Nat} {s' : State}
    (h : emitThen env op r l m s k = .ret e s') :
    ∃ s1, s1.currentTokenInd = s.currentTokenInd ∧ k s1 = .ret e s' := by
  unfold emitThen emit at h
  split at h
  · cases h
  · rename_i x s1 he
    split at he
    · cases he
    · simp only [Option.some.injEq, Prod.mk.injEq] at he
      exact ⟨s1, by rw [← he.2], h⟩

theorem setM_ret {env : Env} {i : Nat} {m : Int} {s : State}
    {k : State → Outcome} {e : Nat} {s' : State}
    (h : setM env i m s k = .ret e s') :
    ∃ s1, s1.currentTokenInd = s.currentTokenInd ∧ k s1 = .ret e s' := by
  unfold setM at h
  split at h
  · exact ⟨_, by rfl, h⟩
  · cases h

theorem Outcome.onOk_ret_zero {o : Outcome} {k : State → Outcome} {s' : State}
    (h : o.onOk k = .ret 0 s') : ∃ s, o = .ret 0 s ∧ k s = .ret 0 s' := by
  cases o with
  | ret err s =>
    by_cases he : err = 0
    · subst he
      exact ⟨s, rfl, by simpa [Outcome.onOk] using h⟩
    · simp only [Outcome.onOk, he, if_false, Outcome.ret.injEq] at h
      exact h.1.elim
  | exit => simp [Outcome.onOk] at h
  | nullDeref => simp [Outcome.onOk] at h
  | outOfBounds => simp [Outcome.onOk] at h
  | outOfFuel => simp [Outcome.onOk] at h

theorem Outcome.onOk_code_ne_zero {o : Outcome} {k : State → Outcome}
    (ho : ∀ s, o = .ret 0 s → (k s).code ≠ some 0) : (o.onOk k).code ≠ some 0 := by
  intro h
  obtain ⟨s, hs, hk⟩ := Outcome.onOk_code_zero h
  exact ho s hs hk

theorem factor_ident_pos (n : Nat) (env : Env) (s s' : State)
    (hk : getCurrentTokenType env s = .identsym) (h : factor n env s = .ret 0 s') :
    s'.currentTokenInd = s.currentTokenInd + 1 := by
  cases n with
  | zero => simp [factor] at h
  | succ n =>
    rw [factor] at h
    split at h
    · cases h
    · simp only [hk, if_true] at h
      split_ifs at h
      · exact absurd h (by simp)
      · obtain ⟨s1, hp1, h1⟩ := emitThen_ret h
        simp only [Outcome.ret.injEq, true_and] at h1
        rw [← h1]; simp [nextToken, hp1]
      · obtain ⟨s1, hp1, h1⟩ := emitThen_ret h
        simp only [Outcome.ret.injEq, true_and] at h1
        rw [← h1]; simp [nextToken, hp1]

theorem term_ident_pos (n : Nat) (env : Env) (s s' : State)
    (hk : getCurrentTokenType env s = .identsym) (h : term n env s = .ret 0 s') :
    s'.currentTokenInd = s.currentTokenInd + 1 := by
  cases n with
  | zero => simp [term] at h
  | succ n =>
    rw [term] at h
    obtain ⟨s1, h1, h2⟩ := Outcome.onOk_ret_zero h
    have hp1 := factor_ident_pos n env s s1 hk h1
    cases n with
    | zero => simp [termLoop] at h2
    | succ n =>
      rw [termLoop] at h2
      simp only [hk, reduceCtorEq, or_self, if_false, Outcome.ret.injEq, true_and] at h2
      rw [← h2, hp1]

theorem expression_ident_pos (n : Nat) (env : Env) (s s' : State)
    (hk : getCurrentTokenType env s = .identsym) (h : expression n env s = .ret 0 s') :
    s'.currentTokenInd = s.currentTokenInd + 1 := by
  cases n with
  | zero => simp [expression] at h
  | succ n =>
    rw [expression] at h
    simp only [hk, reduceCtorEq, or_self, if_false, Outcome.onOk, if_true] at h
    obtain ⟨s1, h1, h2⟩ := Outcome.onOk_ret_zero h
    have hp1 := term_ident_pos n env s s1 hk h1
    cases n with
    | zero => simp [expressionLoop] at h2
    | succ n =>
      rw [expressionLoop] at h2
      simp only [reduceCtorEq, or_self, if_false, Outcome.ret.injEq, true_and] at h2
      rw [← h2, hp1]

/-- A successful assignment whose right-hand side begins with an identifier
reads three tokens only: the target, `:=` and that identifier. -/
theorem statement_assign_ident_pos (n : Nat) (env : Env) (s s' : State)
    (h0 : getCurrentTokenType env s = .identsym)
    (h2 : getCurrentTokenType env (nextToken (nextToken s)) = .identsym)
    (h : statement n env s = .ret 0 s') :
    s'.currentTokenInd = s.currentTokenInd + 3 := by
  cases n with
  | zero => simp [statement] at h
  | succ n =>
    rw [statement] at h
    simp only [h0, if_true] at h
    split at h
    · cases h
    · split_ifs at h
      · exact absurd h (by simp)
      · exact absurd h (by simp)
      · exact absurd h (by simp)
      · obtain ⟨s1, h1, h3⟩ := Outcome.onOk_ret_zero h
        simp only [Outcome.ret.injEq, true_and] at h3
        have := expression_ident_pos n env _ s1 h2 h1
        rw [← h3, this]
        simp [nextToken]

/-- A `begin` whose first statement is such an assignment followed by `+` does
not return 0: the operator is met where `;` or `end` is required. -/
theorem statement_begin_assign_plus_ne_zero (n : Nat) (env : Env) (s : State)
    (h0 : getCurrentTokenType env s = .beginsym)
    (h1 : getCurrentTokenType env (nextToken s) = .identsym)
    (h3 : getCurrentTokenType env (nextToken (nextToken (nextToken s))) = .identsym)
    (h4 : (tokenAt env.tokens (s.currentTokenInd + 4)).id = .plussym) :
    (statement n env s).code ≠ some 0 := by
  cases n with
  | zero => simp [statement, Outcome.code]
  | succ n =>
    rw [statement]
    simp only [h0, reduceCtorEq, if_false, if_true]
    refine Outcome.onOk_code_ne_zero (fun s1 hs1 => ?_)
    have hp1 := statement_assign_ident_pos n env _ s1 h1 h3 hs1
    have hk1 : getCurrentTokenType env s1 = .plussym := by
      rw [kind_at env s1 (s.currentTokenInd + 4) (by rw [hp1]; simp [nextToken]), h4]
    refine Outcome.onOk_code_ne_zero (fun s2 hs2 => ?_)
    cases n with
    | zero => simp [beginLoop] at hs2
    | succ n =>
      rw [beginLoop] at hs2
      simp only [hk1, reduceCtorEq, if_false, Outcome.ret.injEq, true_and] at hs2
      subst hs2
      simp [hk1, Outcome.code]

/-- A successful `const_declaration()` on `const ident = number ;` reads these
five tokens. -/
theorem const_declaration_single_pos (n : Nat) (env : Env) (s s' : State)
    (h0 : getCurrentTokenType env s = .constsym)
    (h1 : getCurrentTokenType env (nextToken s) = .identsym)
    (h2 : getCurrentTokenType env (nextToken (nextToken s)) = .eqsym)
    (h3 : getCurrentTokenType env (nextToken (nextToken (nextToken s))) = .numbersym)
    (h4 : (tokenAt env.tokens (s.currentTokenInd + 4)).id = .semicolonsym)
    (h : const_declaration n env s = .ret 0 s') :
    s'.currentTokenInd = s.currentTokenInd + 5 := by
  unfold const_declaration at h
  simp only [h0, h1, h2, h3, ne_eq, not_true_eq_false, if_false] at h
  cases n with
  | zero => simp [constLoop] at h
  | succ n =>
    rw [constLoop] at h
    have hk : ∀ sym, getCurrentTokenType env
        (addSymbol sym (nextToken (nextToken (nextToken (nextToken s))))) = .semicolonsym := by
      intro sym
      rw [kind_at env _ (s.currentTokenInd + 4) (by simp [addSymbol, nextToken]), h4]
    simp only [hk, reduceCtorEq, if_false, ne_eq, not_true_eq_false, Outcome.ret.injEq,
      true_and] at h
    rw [← h]
    simp [addSymbol, nextToken]

/-- A successful `var_declaration()` on `var ident ;` reads these three tokens. -/
theorem var_declaration_single_pos (n : Nat) (env : Env) (s s' : State)
    (h0 : getCurrentTokenType env s = .varsym)
    (h1 : (tokenAt env.tokens (s.currentTokenInd + 1)).id = .identsym)
    (h2 : (tokenAt env.tokens (s.currentTokenInd + 2)).id = .semicolonsym)
    (h : var_declaration n env s = .ret 0 s') :
    s'.currentTokenInd = s.currentTokenInd + 3 := by
  unfold var_declaration at h
  simp only [h0, ne_eq, not_true_eq_false, if_false] at h
  obtain ⟨s1, hp1, hl⟩ := emitThen_ret h
  cases n with
  | zero => simp [varLoop] at hl
  | succ n =>
    rw [varLoop] at hl
    have k0 : getCurrentTokenType env s1 = .varsym := by
      rw [kind_at env s1 _ hp1]; exact h0
    have k1 : getCurrentTokenType env (nextToken s1) = .identsym := by
      rw [kind_at env _ (s.currentTokenInd + 1) (by simp [nextToken, hp1]), h1]
    have k2 : getCurrentTokenType env (nextToken (nextToken s1)) = .semicolonsym := by
      rw [kind_at env _ (s.currentTokenInd + 2) (by simp [nextToken, hp1]), h2]
    simp only [k0, k1, k2, true_or, if_true, reduceCtorEq, if_false, Outcome.ret.injEq,
      true_and] at hl
    rw [← hl]
    simp [addSymbol, nextToken, hp1]

/-- Entered at a token other than `procedure`, `proc_declaration()` returns no
code but 0 and reads nothing. -/
theorem proc_declaration_none (n : Nat) (env : Env) (s : State)
    (hk : getCurrentTokenType env s ≠ .procsym) :
    (∀ c, c ≠ 0 → (proc_declaration n env s).code ≠ some c) ∧
      ∀ s', proc_declaration n env s = .ret 0 s' → s'.currentTokenInd = s.currentTokenInd := by
  cases n with
  | zero => simp [proc_declaration, Outcome.code]
  | succ n =>
    rw [proc_declaration]
    simp only [hk, if_false, decide_False, Bool.false_eq_true]
    cases n with
    | zero => simp [procLoop, Outcome.onOk, Outcome.code]
    | succ n =>
      rw [procLoop]
      simp only [hk, if_false, Outcome.onOk, if_true]
      refine ⟨fun c hc => setM_code_ne (fun s => ret_code_ne (Ne.symm hc)), fun s' h => ?_⟩
      obtain ⟨s1, hp1, h1⟩ := setM_ret h
      simp only [Outcome.ret.injEq, true_and] at h1
      rw [← h1, hp1]

theorem Outcome.onOk_code_ne_zero_of {o : Outcome} {k : State → Outcome}
    (ho : o.code ≠ some 0) : (o.onOk k).code ≠ some 0 := by
  intro h
  obtain ⟨s, hs, _⟩ := Outcome.onOk_code_zero h
  rw [hs] at ho
  exact ho rfl

theorem const_declaration_none (n : Nat) (env : Env) (s : State)
    (hk : getCurrentTokenType env s ≠ .constsym) : const_declaration n env s = .ret 0 s := by
  unfold const_declaration
  simp [hk]

/-- On `var x; x := 1 + end.` the code generator never returns 24, whatever
the lookup `findSymbol`, the buffer size and the buffer content are. -/
theorem badFactor_never_24 (n : Nat) (env : Env) (vmCode : Nat → Instruction)
    (ht : env.tokens = exampleBadFactor) :
    (codeGenerator n env vmCode).1.code ≠ some 24 := by
  have hprog : (program n env (initialState vmCode)).code ≠ some 24 := by
    unfold program
    refine Outcome.onOk_code_ne ?_ (fun s _ => ?_)
    · cases n with
      | zero => simp [block, Outcome.code]
      | succ n =>
        rw [block]
        have hnull : (initialState vmCode).currentScope = NULL := rfl
        simp only [hnull, ne_eq, not_true_eq_false, if_false]
        have k0 : getCurrentTokenType env (initialState vmCode) = .varsym := by
          rw [kind_at env _ 0 rfl, ht]; rfl
        rw [const_declaration_none n env _ (by rw [k0]; decide)]
        simp only [Outcome.onOk, if_true]
        refine Outcome.onOk_code_ne (var_declaration_ne_24 n env _) (fun s1 h1 => ?_)
        have hp1 : s1.currentTokenInd = 3 :=
          var_declaration_single_pos n env _ s1 k0 (by rw [ht]; rfl) (by rw [ht]; rfl) h1
        have k3 : getCurrentTokenType env s1 = .identsym := by
          rw [kind_at env s1 3 hp1, ht]; rfl
        obtain ⟨hpc, hpp⟩ := proc_declaration_none n env s1 (by rw [k3]; decide)
        refine Outcome.onOk_code_ne (hpc 24 (by decide)) (fun s2 h2 => ?_)
        have hp2 : s2.currentTokenInd = 3 := by rw [hpp s2 h2, hp1]
        refine Outcome.onOk_code_ne ?_ (fun _ _ => ret_code_ne (by decide))
        apply statement_assign_number_ne_24
        · rw [kind_at env _ 3 (by simpa [setScope] using hp2), ht]; rfl
        · rw [kind_at env _ 5 (by simp [setScope, nextToken, hp2]), ht]; rfl
    · split
      · exact emitThen_code_ne (fun s => ret_code_ne (by decide))
      · exact ret_code_ne (by decide)
  unfold codeGenerator
  split
  · rename_i err s h
    rw [h] at hprog
    exact hprog
  · exact hprog

/-- On `const m = 7; var x; begin x := m + 1; write x end.` the code generator
never returns 0, whatever the lookup `findSymbol`, the buffer size and the
buffer content are. -/
theorem exampleProgram_never_zero (n : Nat) (env : Env) (vmCode : Nat → Instruction)
    (ht : env.tokens = exampleProgram) :
    (codeGenerator n env vmCode).1.code ≠ some 0 := by
  have hprog : (program n env (initialState vmCode)).code ≠ some 0 := by
    unfold program
    refine Outcome.onOk_code_ne_zero_of ?_
    cases n with
    | zero => simp [block, Outcome.code]
    | succ n =>
      rw [block]
      have hnull : (initialState vmCode).currentScope = NULL := rfl
      simp only [hnull, ne_eq, not_true_eq_false, if_false]
      refine Outcome.onOk_code_ne_zero (fun s1 h1 => ?_)
      have hp1 : s1.currentTokenInd = 5 :=
        const_declaration_single_pos n env _ s1
          (by rw [kind_at env _ 0 rfl, ht]; rfl) (by rw [kind_at env _ 1 rfl, ht]; rfl)
          (by rw [kind_at env _ 2 rfl, ht]; rfl) (by rw [kind_at env _ 3 rfl, ht]; rfl)
          (by rw [ht]; rfl) h1
      refine Outcome.onOk_code_ne_zero (fun s2 h2 => ?_)
      have hp2 : s2.currentTokenInd = 8 := by
        rw [var_declaration_single_pos n env s1 s2
          (by rw [kind_at env s1 5 hp1, ht]; rfl) (by rw [hp1, ht]; rfl) (by rw [hp1, ht]; rfl)
          h2, hp1]
      have k8 : getCurrentTokenType env s2 = .beginsym := by
        rw [kind_at env s2 8 hp2, ht]; rfl
      obtain ⟨_, hpp⟩ := proc_declaration_none n env s2 (by rw [k8]; decide)
      refine Outcome.onOk_code_ne_zero (fun s3 h3 => ?_)
      have hp3 : s3.currentTokenInd = 8 := by rw [hpp s3 h3, hp2]
      refine Outcome.onOk_code_ne_zero_of ?_
      apply statement_begin_assign_plus_ne_zero
      · rw [kind_at env _ 8 (by simpa [setScope] using hp3), ht]; rfl
      · rw [kind_at env _ 9 (by simp [setScope, nextToken, hp3]), ht]; rfl
      · rw [kind_at env _ 11 (by simp [setScope, nextToken, hp3]), ht]; rfl
      · have : (setScope (addrOfTempScope NULL) s3).currentTokenInd = 8 := by
          simpa [setScope] using hp3
        rw [this, ht]; rfl
  unfold codeGenerator
  split
  · rename_i err s h
    rw [h] at hprog
    exact hprog
  · exact hprog

/-- Whatever the token kind is, `factor()` returns 15 as soon as the lookup of
the current lexeme finds nothing. -/
theorem factor_lookup_none (n : Nat) (env : Env) (s : State)
    (h : env.findSymbol s.symbolTable s.currentScope (getCurrentToken env s).lexeme = none) :
    factor (n + 1) env s = .ret 15 s := by
  rw [factor]
  simp only [h]

/-- On an identifier that the lookup does not find, `statement()` reads through
the null pointer. -/
theorem statement_lookup_none (n : Nat) (env : Env) (s : State)
    (hk : getCurrentTokenType env s = .identsym)
    (h : env.findSymbol s.symbolTable s.currentScope (getCurrentToken env s).lexeme = none) :
    statement (n + 1) env s = .nullDeref := by
  rw [statement]
  simp only [hk, if_true, h]

/-- When `factor()` succeeds, `term()` returns with the same state: its loop
over `*` and `/` is never entered. -/
theorem term_stops_after_factor (n : Nat) (env : Env) (s s1 : State)
    (h : factor (n + 1) env s = .ret 0 s1) : term (n + 2) env s = .ret 0 s1 := by
  have hop : ¬ (getCurrentTokenType env s = .multsym ∨ getCurrentTokenType env s = .slashsym) := by
    intro hop
    rw [factor] at h
    split at h
    · cases h
    · rcases hop with hop | hop <;> simp [hop] at h
  rw [term, h]
  simp only [Outcome.onOk, if_true]
  rw [termLoop, if_neg hop]

/-- Entered at a token that is no sign, `expression()` returns with the state
its first `term()` leaves: its loop over `+` and `-` is never entered. -/
theorem expression_stops_after_term (n : Nat) (env : Env) (s s1 : State)
    (hop : ¬ (getCurrentTokenType env s = .plussym ∨ getCurrentTokenType env s = .minussym))
    (h : term (n + 1) env s = .ret 0 s1) : expression (n + 2) env s = .ret 0 s1 := by
  rw [expression]
  simp only [hop, if_false, Outcome.onOk, if_true, h]
  rw [expressionLoop, if_neg hop]

/-- Whenever `condition()` succeeds on a condition that does not begin with
`odd`, it returns one token and one instruction after its first expression:
the relational operator is read and its instruction emitted, nothing else. -/
theorem condition_stops_after_relop (n : Nat) (env : Env) (s s1 s' : State)
    (hodd : getCurrentTokenType env s ≠ .oddsym) (he : expression n env s = .ret 0 s1)
    (h : condition n env s = .ret 0 s') :
    s'.currentTokenInd = s1.currentTokenInd + 1 ∧ s'.nextCodeIndex = s1.nextCodeIndex + 1 := by
  unfold condition at h
  simp only [hodd, if_false, he, Outcome.onOk, if_true] at h
  have key : ∀ op, (emitThen env op s1.currentReg 0 0 s1 fun s => Outcome.ret 0 (nextToken s))
      = .ret 0 s' →
      s'.currentTokenInd = s1.currentTokenInd + 1 ∧ s'.nextCodeIndex = s1.nextCodeIndex + 1 := by
    intro op hop
    unfold emitThen emit at hop
    split at hop
    · cases hop
    · rename_i x s2 hs2
      split at hs2
      · cases hs2
      · simp only [Option.some.injEq, Prod.mk.injEq] at hs2
        simp only [Outcome.ret.injEq, true_and] at hop
        rw [← hop, ← hs2.2]
        simp [nextToken]
  split_ifs at h
  · exact key _ h
  · exact key _ h
  · exact key _ h
  · exact key _ h
  · exact key _ h
  · exact key _ h
  · exact absurd h (by simp)

/-- The assignment branch of `statement()` returns what `expression()` leaves:
nothing is emitted after the code of the expression. -/
theorem statement_assign_eq (n : Nat) (env : Env) (s : State) (currSym : Symbol)
    (hk : getCurrentTokenType env s = .identsym)
    (hf : env.findSymbol s.symbolTable s.currentScope (getCurrentToken env s).lexeme
      = some currSym)
    (hs : currSym.scope = s.currentScope) (ht : currSym.type = .VAR)
    (hb : getCurrentTokenType env (nextToken s) = .becomessym) :
    statement (n + 1) env s
      = (expression n env (nextToken (nextToken s))).onOk fun s => .ret 0 s := by
  rw [statement]
  simp [hk, hf, hs, ht, hb]

end CodeGenerator

/-! ## Code generator: what the code does on the inputs of the claims -/

namespace CodeGenerator

/-- C1: on `x := m + 1`, entered where `x` resolves to a variable of the current
scope and `m` to the constant 7, `statement()` returns 0 but the emitted code
is the literal-load of 7 alone: no store instruction follows the code of the
expression.  On the whole example program `codeGenerator` never returns 0,
whatever the lookup, the buffer size, the buffer content and the fuel are; with
the lookup of the specification the lookup of `x` under the scope `&tempScope`
finds nothing and the null result is dereferenced, and nothing is written to
the output. -/
theorem statement_assignment_emits_no_store :
    (statement 10 (specEnv exampleAssign) (stateWith tableMX)).ending
        = .returned 0 3 [{ op := .LIT, r := 0, l := 0, m := 7 }] ∧
      (∀ (n maxCodeLength : Nat) (lookup : List Symbol → ScopePtr → String → Option Symbol)
        (vmCode : Nat → Instruction),
        (codeGenerator n
          { tokens := exampleProgram, maxCodeLength := maxCodeLength, findSymbol := lookup }
          vmCode).1.code ≠ some 0) ∧
      (codeGenerator 30 (specEnv exampleProgram) zeroCode).1.ending = .nullDeref ∧
      (codeGenerator 30 (specEnv exampleProgram) zeroCode).2 = [] :=
  ⟨by decide, fun n _ _ vmCode => exampleProgram_never_zero n _ vmCode rfl, by decide,
    by decide⟩

/-- C2: on `a + b`, `expression()` returns 0 right after the first operand,
with the operator and the second operand unread and no `ADD` emitted; on
`a * b`, `term()` does the same and emits no `MUL`. -/
theorem binary_operator_is_not_compiled :
    (expression 10 (specEnv exampleSum) (stateWith tableAB)).ending
        = .returned 0 1 [{ op := .LOD, r := 0, l := 0, m := 1 }] ∧
      (term 10 (specEnv exampleProduct) (stateWith tableAB)).ending
        = .returned 0 1 [{ op := .LOD, r := 0, l := 0, m := 1 }] := by
  decide

/-- C3: on `a = b`, `condition()` returns 0 right after the relational operator:
the second operand is neither read nor compiled, and `EQL` directly follows the
code of the first operand.  (On `odd a` the code of `a` is followed by `ODD`.) -/
theorem condition_skips_second_operand :
    (condition 10 (specEnv exampleRelation) (stateWith tableAB)).ending
        = .returned 0 2 [{ op := .LOD, r := 0, l := 0, m := 1 },
                         { op := .EQL, r := 0, l := 0, m := 0 }] ∧
      (condition 10 (specEnv exampleOdd) (stateWith tableAB)).ending
        = .returned 0 2 [{ op := .LOD, r := 0, l := 0, m := 1 },
                         { op := .ODD, r := 0, l := 0, m := 0 }] := by
  decide

/-- C4: on `- a ;` and on `+ a ;`, `expression()` does not return 0: after the
signed term it asks for a second term, finds `;` and returns 15. -/
theorem signed_expression_fails :
    (expression 10 (specEnv exampleNegation) (stateWith tableAB)).ending
        = .returned 15 2 [{ op := .LOD, r := 0, l := 0, m := 1 },
                          { op := .NEG, r := 0, l := 0, m := 0 }] ∧
      (expression 10 (specEnv examplePlusSign) (stateWith tableAB)).ending
        = .returned 15 2 [{ op := .LOD, r := 0, l := 0, m := 1 }] := by
  decide

/-- C5: on the number token `7`, `factor()` returns 15, keeps the token and
emits nothing, both with an empty symbol table and with the table of
`const m = 7; var x;`: the lexeme is looked up as a symbol name first. -/
theorem factor_number_needs_symbol :
    (factor 10 (specEnv exampleNumber) (stateWith [])).ending = .returned 15 0 [] ∧
      (factor 10 (specEnv exampleNumber) (stateWith tableMX)).ending = .returned 15 0 [] := by
  decide

/-- C6: with an empty symbol table, `statement()` on `x := 1`, `call p`,
`write x` and `read x` returns no error code: it reads the `scope` field
through the null pointer the lookup gave.  Only `factor()` returns 15 on the
undeclared identifier `x`. -/
theorem undeclared_identifier_is_dereferenced :
    (statement 10 (specEnv exampleAssignOne) (stateWith [])).ending = .nullDeref ∧
      (statement 10 (specEnv exampleCall) (stateWith [])).ending = .nullDeref ∧
      (statement 10 (specEnv exampleWrite) (stateWith [])).ending = .nullDeref ∧
      (statement 10 (specEnv exampleRead) (stateWith [])).ending = .nullDeref ∧
      (factor 10 (specEnv exampleIdent) (stateWith [])).ending = .returned 15 0 [] := by
  decide

/-- C7: on `var x; x := 1 + end.` the code generator never returns 24, whatever
the lookup, the buffer size, the buffer content and the fuel are.  With the
lookup of the specification the assignment target `x`, declared under the scope
`NULL`, is looked up under the scope `&tempScope`, and the null result is
dereferenced.  Nothing is written to the output. -/
theorem bad_factor_is_not_reported :
    (∀ (n maxCodeLength : Nat) (lookup : List Symbol → ScopePtr → String → Option Symbol)
        (vmCode : Nat → Instruction),
        (codeGenerator n
          { tokens := exampleBadFactor, maxCodeLength := maxCodeLength, findSymbol := lookup }
          vmCode).1.code ≠ some 24) ∧
      (codeGenerator 30 (specEnv exampleBadFactor) zeroCode).1.ending = .nullDeref ∧
      (codeGenerator 30 (specEnv exampleBadFactor) zeroCode).2 = [] :=
  ⟨fun n _ _ vmCode => badFactor_never_24 n _ vmCode rfl, by decide, by decide⟩

/-- C10: on `var x = 5; .` the code generator's `program()` returns 0, having
read all six tokens and emitted `INC 0 0 2` and the halt instruction, while the
parser's `program()` returns 4 on the same token list. -/
theorem code_generator_accepts_var_initialiser :
    (program 30 (specEnv exampleVarInit) (initialState zeroCode)).ending
        = .returned 0 6 [{ op := .INC, r := 0, l := 0, m := 2 },
                         { op := .SIO_HALT, r := 0, l := 0, m := 3 }] ∧
      (Parser.program 30 exampleVarInit Parser.initialState).map Prod.fst = some 4 := by
  decide

end CodeGenerator

/-! ## Code generator: the emitted part of the buffer is never rewritten -/

namespace CodeGenerator

theorem emit_eq (env : Env) (OP : Opcode) (R L M : Int) (s : State) :
    emit env OP R L M s
      = if s.nextCodeIndex = env.maxCodeLength then none
        else some (s.nextCodeIndex, pushed OP R L M s) := rfl

theorem emitThen_eq (env : Env) (OP : Opcode) (R L M : Int) (s : State)
    (k : State → Outcome) :
    emitThen env OP R L M s k
      = if s.nextCodeIndex = env.maxCodeLength then .exit else k (pushed OP R L M s) := by
  unfold emitThen
  rw [emit_eq]
  split_ifs <;> rfl

theorem setM_eq (env : Env) (i : Nat) (M : Int) (s : State) (k : State → Outcome) :
    setM env i M s k = if i < env.maxCodeLength then k (patched i M s) else .outOfBounds := rfl

theorem Outcome.leaves_ret {P : State → Prop} {e : Nat} {s : State} (h : P s) :
    (Outcome.ret e s).Leaves P := by
  intro err s' hs
  cases hs
  exact h

theorem Outcome.leaves_exit {P : State → Prop} : Outcome.exit.Leaves P := by
  intro err s' hs; cases hs

theorem Outcome.leaves_nullDeref {P : State → Prop} : Outcome.nullDeref.Leaves P := by
  intro err s' hs; cases hs

theorem Outcome.leaves_outOfBounds {P : State → Prop} : Outcome.outOfBounds.Leaves P := by
  intro err s' hs; cases hs

theorem Outcome.leaves_outOfFuel {P : State → Prop} : Outcome.outOfFuel.Leaves P := by
  intro err s' hs; cases hs

theorem Outcome.leaves_onOk {o : Outcome} {k : State → Outcome} {P : State → Prop}
    (ho : o.Leaves P) (hk : ∀ s1, P s1 → (k s1).Leaves P) : (o.onOk k).Leaves P := by
  cases o with
  | ret err s =>
    by_cases he : err = 0
    · subst he
      simpa [Outcome.onOk] using hk s (ho 0 s rfl)
    · simpa [Outcome.onOk, he] using Outcome.leaves_ret (ho err s rfl)
  | exit => exact Outcome.leaves_exit
  | nullDeref => exact Outcome.leaves_nullDeref
  | outOfBounds => exact Outcome.leaves_outOfBounds
  | outOfFuel => exact Outcome.leaves_outOfFuel

theorem leaves_emitThen {env : Env} {OP : Opcode} {R L M : Int} {s : State}
    {k : State → Outcome} {P : State → Prop} (hk : (k (pushed OP R L M s)).Leaves P) :
    (emitThen env OP R L M s k).Leaves P := by
  rw [emitThen_eq]
  split_ifs
  · exact Outcome.leaves_exit
  · exact hk

theorem leaves_setM {env : Env} {i : Nat} {M : Int} {s : State}
    {k : State → Outcome} {P : State → Prop} (hk : (k (patched i M s)).Leaves P) :
    (setM env i M s k).Leaves P := by
  rw [setM_eq]
  split_ifs
  · exact hk
  · exact Outcome.leaves_outOfBounds

@[simp] theorem keeps_nextToken (lo : Nat) (c : Nat → Instruction) (s : State) :
    Keeps lo c (nextToken s) ↔ Keeps lo c s := Iff.rfl

@[simp] theorem keeps_addSymbol (lo : Nat) (c : Nat → Instruction) (sym : Symbol) (s : State) :
    Keeps lo c (addSymbol sym s) ↔ Keeps lo c s := Iff.rfl

@[simp] theorem keeps_setScope (lo : Nat) (c : Nat → Instruction) (p : ScopePtr) (s : State) :
    Keeps lo c (setScope p s) ↔ Keeps lo c s := Iff.rfl

@[simp] theorem keeps_enterProc (lo : Nat) (c : Nat → Instruction) (s : State) :
    Keeps lo c (enterProc s) ↔ Keeps lo c s := Iff.rfl

@[simp] theorem keeps_leaveProc (lo : Nat) (c : Nat → Instruction) (s : State) :
    Keeps lo c (leaveProc s) ↔ Keeps lo c s := Iff.rfl

theorem Keeps.pushed {lo : Nat} {c : Nat → Instruction} {s : State} (h : Keeps lo c s)
    (OP : Opcode) (R L M : Int) : Keeps lo c (pushed OP R L M s) := by
  refine ⟨Nat.le_succ_of_le h.1, fun i hi => ?_⟩
  have hne : i ≠ s.nextCodeIndex := by have := h.1; omega
  simp only [CodeGenerator.pushed, Function.update_noteq hne]
  exact h.2 i hi

theorem Keeps.patched {lo : Nat} {c : Nat → Instruction} {s : State} (h : Keeps lo c s)
    {i : Nat} (hi : lo ≤ i) (M : Int) : Keeps lo c (patched i M s) := by
  refine ⟨h.1, fun j hj => ?_⟩
  have hne : j ≠ i := by omega
  simp only [CodeGenerator.patched, Function.update_noteq hne]
  exact h.2 j hj

theorem Keeps.self (s : State) : Keeps s.nextCodeIndex s.vmCode s :=
  ⟨Nat.le_refl _, fun _ _ => rfl⟩

theorem keeps_ret {lo : Nat} {c : Nat → Instruction} {s : State} (e : Nat)
    (h : Keeps lo c s) : (Outcome.ret e s).Leaves (Keeps lo c) :=
  Outcome.leaves_ret h

theorem keeps_emitThen {lo : Nat} {c : Nat → Instruction} {s : State} {env : Env}
    {OP : Opcode} {R L M : Int} {k : State → Outcome} (h : Keeps lo c s)
    (hk : ∀ s1, Keeps lo c s1 → (k s1).Leaves (Keeps lo c)) :
    (emitThen env OP R L M s k).Leaves (Keeps lo c) :=
  leaves_emitThen (hk _ (h.pushed OP R L M))

theorem keeps_setM {lo : Nat} {c : Nat → Instruction} {s : State} {env : Env}
    {i : Nat} {M : Int} {k : State → Outcome} (h : Keeps lo c s) (hi : lo ≤ i)
    (hk : ∀ s1, Keeps lo c s1 → (k s1).Leaves (Keeps lo c)) :
    (setM env i M s k).Leaves (Keeps lo c) :=
  leaves_setM (hk _ (h.patched hi M))

theorem keeps_onOk {lo : Nat} {c : Nat → Instruction} {o : Outcome} {k : State → Outcome}
    (ho : o.Leaves (Keeps lo c))
    (hk : ∀ s1, Keeps lo c s1 → (k s1).Leaves (Keeps lo c)) :
    (o.onOk k).Leaves (Keeps lo c) :=
  Outcome.leaves_onOk ho hk

theorem constLoop_keeps (env : Env) : ∀ (n : Nat) (symbol : Symbol),
    Framed (constLoop n env symbol) := by
  intro n
  induction n with
  | zero => intro symbol lo c s _; exact Outcome.leaves_outOfFuel
  | succ n ih =>
    intro symbol lo c s h
    rw [constLoop]
    dsimp only
    split_ifs
    · exact keeps_ret _ h
    · exact keeps_ret _ h
    · exact keeps_ret _ h
    · exact ih _ lo c _ h
    · exact keeps_ret _ h
    · exact keeps_ret _ h

theorem const_declaration_keeps (n : Nat) (env : Env) : Framed (const_declaration n env) := by
  intro lo c s h
  unfold const_declaration
  dsimp only
  split_ifs
  · exact keeps_ret _ h
  · exact keeps_ret _ h
  · exact keeps_ret _ h
  · exact keeps_ret _ h
  · exact constLoop_keeps env n _ lo c _ h

theorem varLoop_keeps (env : Env) : ∀ (n : Nat) (symbol : Symbol) (varNum : Nat),
    Framed (varLoop n env symbol varNum) := by
  intro n
  induction n with
  | zero => intro symbol varNum lo c s _; exact Outcome.leaves_outOfFuel
  | succ n ih =>
    intro symbol varNum lo c s h
    rw [varLoop]
    dsimp only
    split_ifs
    all_goals first
      | exact keeps_ret _ h
      | exact ih _ _ lo c _ h

theorem var_declaration_keeps (n : Nat) (env : Env) : Framed (var_declaration n env) := by
  intro lo c s h
  unfold var_declaration
  dsimp only
  split_ifs
  · exact keeps_ret _ h
  · exact keeps_emitThen h fun s1 h1 => varLoop_keeps env n _ _ lo c s1 h1

theorem expression_group_keeps (env : Env) : ∀ n : Nat,
    Framed (expression n env) ∧ (∀ op, Framed (expressionLoop n env op)) ∧
      Framed (term n env) ∧ (∀ op, Framed (termLoop n env op)) ∧ Framed (factor n env) := by
  intro n
  induction n with
  | zero =>
    refine ⟨?_, ?_, ?_, ?_, ?_⟩
    · intro lo c s _; rw [expression]; exact Outcome.leaves_outOfFuel
    · intro op lo c s _; rw [expressionLoop]; exact Outcome.leaves_outOfFuel
    · intro lo c s _; rw [term]; exact Outcome.leaves_outOfFuel
    · intro op lo c s _; rw [termLoop]; exact Outcome.leaves_outOfFuel
    · intro lo c s _; rw [factor]; exact Outcome.leaves_outOfFuel
  | succ n ih =>
    obtain ⟨ihE, ihEL, ihT, ihTL, ihF⟩ := ih
    refine ⟨?_, ?_, ?_, ?_, ?_⟩
    · intro lo c s h
      rw [expression]
      refine keeps_onOk ?_ fun s1 h1 =>
        keeps_onOk (ihT lo c s1 h1) fun s2 h2 => ihEL _ lo c s2 h2
      split_ifs
      all_goals first
        | exact keeps_ret _ h
        | exact keeps_onOk (ihT lo c _ h) fun s1 h1 => keeps_ret _ h1
        | exact keeps_onOk (ihT lo c _ h) fun s1 h1 =>
            keeps_emitThen h1 fun s2 h2 => keeps_ret _ h2
    · intro op lo c s h
      rw [expressionLoop]
      split_ifs
      all_goals first
        | exact keeps_ret _ h
        | exact keeps_onOk (ihT lo c _ h) fun s1 h1 =>
            keeps_emitThen h1 fun s2 h2 => ihEL _ lo c s2 h2
    · intro lo c s h
      rw [term]
      exact keeps_onOk (ihF lo c s h) fun s1 h1 => ihTL _ lo c s1 h1
    · intro op lo c s h
      rw [termLoop]
      split_ifs
      all_goals first
        | exact keeps_ret _ h
        | exact keeps_onOk (ihF lo c _ h) fun s1 h1 =>
            keeps_emitThen h1 fun s2 h2 => ihTL _ lo c s2 h2
    · intro lo c s h
      rw [factor]
      split
      · exact keeps_ret _ h
      · split_ifs
        · exact keeps_ret _ h
        · exact keeps_emitThen h fun s1 h1 => keeps_ret _ h1
        · exact keeps_emitThen h fun s1 h1 => keeps_ret _ h1
        · exact keeps_emitThen h fun s1 h1 => keeps_ret _ h1
        · refine keeps_onOk (ihE lo c _ h) fun s1 h1 => ?_
          split_ifs
          · exact keeps_ret _ h1
          · exact keeps_ret _ h1
        · exact keeps_ret _ h

theorem expression_keeps (n : Nat) (env : Env) : Framed (expression n env) :=
  (expression_group_keeps env n).1

theorem condition_keeps (n : Nat) (env : Env) : Framed (condition n env) := by
  intro lo c s h
  unfold condition
  split_ifs
  · exact keeps_onOk (expression_keeps n env lo c _ h) fun s1 h1 =>
      keeps_emitThen h1 fun s2 h2 => keeps_ret _ h2
  · refine keeps_onOk (expression_keeps n env lo c _ h) fun s1 h1 => ?_
    split_ifs
    all_goals first
      | exact keeps_emitThen h1 fun s2 h2 => keeps_ret _ h2
      | exact keeps_ret _ h1

theorem statement_group_keeps (env : Env) : ∀ n : Nat,
    Framed (statement n env) ∧ Framed (beginLoop n env) := by
  intro n
  induction n with
  | zero =>
    refine ⟨?_, ?_⟩
    · intro lo c s _; rw [statement]; exact Outcome.leaves_outOfFuel
    · intro lo c s _; rw [beginLoop]; exact Outcome.leaves_outOfFuel
  | succ n ih =>
    obtain ⟨ihS, ihB⟩ := ih
    refine ⟨?_, ?_⟩
    · intro lo c s h
      rw [statement]
      by_cases k1 : getCurrentTokenType env s = .identsym
      · rw [if_pos k1]
        split
        · exact Outcome.leaves_nullDeref
        · dsimp only
          split_ifs
          all_goals first
            | exact keeps_ret _ h
            | exact keeps_onOk (expression_keeps n env lo c _ h) fun s1 h1 => keeps_ret _ h1
      rw [if_neg k1]
      by_cases k2 : getCurrentTokenType env s = .callsym
      · rw [if_pos k2]
        dsimp only
        split_ifs
        · exact keeps_ret _ h
        · split
          · exact Outcome.leaves_nullDeref
          · split_ifs
            all_goals first
              | exact keeps_ret _ h
              | exact keeps_emitThen h fun s1 h1 => keeps_ret _ h1
      rw [if_neg k2]
      by_cases k3 : getCurrentTokenType env s = .beginsym
      · rw [if_pos k3]
        refine keeps_onOk (ihS lo c _ h) fun s1 h1 =>
          keeps_onOk (ihB lo c s1 h1) fun s2 h2 => ?_
        split_ifs
        · exact keeps_ret _ h2
        · exact keeps_ret _ h2
      rw [if_neg k3]
      by_cases k4 : getCurrentTokenType env s = .ifsym
      · rw [if_pos k4]
        refine keeps_onOk (condition_keeps n env lo c _ h) fun s1 h1 => ?_
        dsimp only
        split_ifs
        · exact keeps_ret _ h1
        · refine keeps_emitThen h1 fun s2 h2 => keeps_onOk (ihS lo c s2 h2) fun s3 h3 =>
            keeps_setM h3 h1.1 fun s4 h4 => ?_
          split_ifs
          · exact keeps_emitThen h4 fun s5 h5 => keeps_setM h5 h4.1 fun s6 h6 =>
              keeps_onOk (ihS lo c s6 h6) fun s7 h7 => keeps_setM h7 h1.1 fun s8 h8 =>
                keeps_ret _ h8
          · exact keeps_ret _ h4
      rw [if_neg k4]
      by_cases k5 : getCurrentTokenType env s = .whilesym
      · rw [if_pos k5]
        dsimp only
        refine keeps_onOk (condition_keeps n env lo c _ h) fun s1 h1 =>
          keeps_emitThen h1 fun s2 h2 => ?_
        split_ifs
        · exact keeps_ret _ h2
        · exact keeps_onOk (ihS lo c _ h2) fun s3 h3 => keeps_emitThen h3 fun s4 h4 =>
            keeps_setM h4 h1.1 fun s5 h5 => keeps_ret _ h5
      rw [if_neg k5]
      by_cases k6 : getCurrentTokenType env s = .writesym
      · rw [if_pos k6]
        dsimp only
        split_ifs
        · exact keeps_ret _ h
        · split
          · exact Outcome.leaves_nullDeref
          · split_ifs
            all_goals first
              | exact keeps_ret _ h
              | exact keeps_emitThen h fun s1 h1 => keeps_emitThen h1 fun s2 h2 =>
                  keeps_ret _ h2
      rw [if_neg k6]
      by_cases k7 : getCurrentTokenType env s = .readsym
      · rw [if_pos k7]
        refine keeps_emitThen h fun s1 h1 => ?_
        dsimp only
        split_ifs
        · exact keeps_ret _ h1
        · split
          · exact Outcome.leaves_nullDeref
          · split_ifs
            all_goals first
              | exact keeps_ret _ h1
              | exact keeps_emitThen h1 fun s2 h2 => keeps_ret _ h2
      rw [if_neg k7]
      exact keeps_ret _ h
    · intro lo c s h
      rw [beginLoop]
      split_ifs
      · exact keeps_onOk (ihS lo c _ h) fun s1 h1 => ihB lo c s1 h1
      · exact keeps_ret _ h

theorem statement_keeps (n : Nat) (env : Env) : Framed (statement n env) :=
  (statement_group_keeps env n).1

/-- The part of `block()` after the frame instruction has the frame property
when `proc_declaration()` has it. -/
theorem block_body_keeps (n : Nat) (env : Env) (hP : Framed (proc_declaration n env))
    (sc : ScopePtr) :
    Framed fun s1 =>
      (const_declaration n env s1).onOk fun s =>
        (var_declaration n env s).onOk fun s =>
          (proc_declaration n env s).onOk fun s =>
            (statement n env (setScope (addrOfTempScope sc) s)).onOk fun s =>
              .ret 0 (setScope sc s) := by
  intro lo c s1 h1
  exact keeps_onOk (const_declaration_keeps n env lo c s1 h1) fun s2 h2 =>
    keeps_onOk (var_declaration_keeps n env lo c s2 h2) fun s3 h3 =>
      keeps_onOk (hP lo c s3 h3) fun s4 h4 =>
        keeps_onOk (statement_keeps n env lo c _ h4) fun s5 h5 => keeps_ret _ h5

theorem block_group_keeps (env : Env) : ∀ n : Nat,
    Framed (block n env) ∧ Framed (proc_declaration n env) ∧
      (∀ symbol, Framed (procLoop n env symbol)) := by
  intro n
  induction n with
  | zero =>
    refine ⟨?_, ?_, ?_⟩
    · intro lo c s _; rw [block]; exact Outcome.leaves_outOfFuel
    · intro lo c s _; rw [proc_declaration]; exact Outcome.leaves_outOfFuel
    · intro symbol lo c s _; rw [procLoop]; exact Outcome.leaves_outOfFuel
  | succ n ih =>
    obtain ⟨ihB, ihP, ihL⟩ := ih
    refine ⟨?_, ?_, ?_⟩
    · intro lo c s h
      rw [block]
      dsimp only
      by_cases k1 : s.currentScope ≠ NULL
      · rw [if_pos k1]
        exact keeps_emitThen h fun s1 h1 => block_body_keeps n env ihP _ lo c s1 h1
      · rw [if_neg k1]
        exact block_body_keeps n env ihP _ lo c s h
    · intro lo c s h
      rw [proc_declaration]
      dsimp only
      by_cases k1 : getCurrentTokenType env s = .procsym
      · simp only [k1, if_true, decide_True]
        exact keeps_emitThen h fun s1 h1 => keeps_onOk (ihL _ lo c s1 h1) fun s2 h2 =>
          keeps_emitThen h2 fun s3 h3 => keeps_setM h3 h.1 fun s4 h4 => keeps_ret _ h4
      · simp only [k1, if_false, decide_False]
        exact keeps_onOk (ihL _ lo c s h) fun s2 h2 =>
          keeps_setM h2 h.1 fun s4 h4 => keeps_ret _ h4
    · intro symbol lo c s h
      rw [procLoop]
      dsimp only
      by_cases k1 : getCurrentTokenType env s = .procsym
      · rw [if_pos k1]
        split_ifs
        · exact keeps_ret _ h
        · exact keeps_ret _ h
        · have hb := ihB lo c
            (enterProc (addSymbol
              { symbol with name := (getCurrentToken env (nextToken s)).lexeme,
                            scope := s.currentScope, level := s.currentLevel,
                            address := s.nextCodeIndex }
              (nextToken (nextToken (nextToken s))))) h
          split
          · rename_i err s1 heq
            have h1 : Keeps lo c s1 := hb err s1 heq
            split_ifs
            · exact keeps_ret _ h1
            · exact keeps_ret _ h1
            · exact ihL _ lo c _ h1
          · exact Outcome.leaves_exit
          · exact Outcome.leaves_nullDeref
          · exact Outcome.leaves_outOfBounds
          · exact Outcome.leaves_outOfFuel
      · rw [if_neg k1]
        exact keeps_ret _ h

theorem block_keeps (n : Nat) (env : Env) : Framed (block n env) :=
  (block_group_keeps env n).1

theorem proc_declaration_keeps (n : Nat) (env : Env) : Framed (proc_declaration n env) :=
  (block_group_keeps env n).2.1

theorem procLoop_keeps (n : Nat) (env : Env) (symbol : Symbol) :
    Framed (procLoop n env symbol) :=
  (block_group_keeps env n).2.2 symbol

theorem program_keeps (n : Nat) (env : Env) : Framed (program n env) := by
  intro lo c s h
  unfold program
  refine keeps_onOk (block_keeps n env lo c s h) fun s1 h1 => ?_
  split_ifs
  · exact keeps_emitThen h1 fun s2 h2 => keeps_ret _ h2
  · exact keeps_ret _ h1

end CodeGenerator

/-! ## Code generator: the calls behind a result 0 -/

namespace CodeGenerator

theorem Outcome.code_zero {o : Outcome} (h : o.code = some 0) : ∃ s', o = .ret 0 s' := by
  cases o with
  | ret err s =>
    simp only [Outcome.code, Option.some.injEq] at h
    subst h
    exact ⟨s, rfl⟩
  | exit => simp [Outcome.code] at h
  | nullDeref => simp [Outcome.code] at h
  | outOfBounds => simp [Outcome.code] at h
  | outOfFuel => simp [Outcome.code] at h

theorem emitThen_ret_pushed {env : Env} {OP : Opcode} {R L M : Int} {s : State}
    {k : State → Outcome} {e : Nat} {s' : State}
    (h : emitThen env OP R L M s k = .ret e s') :
    s.nextCodeIndex ≠ env.maxCodeLength ∧ k (pushed OP R L M s) = .ret e s' := by
  rw [emitThen_eq] at h
  by_cases hfull : s.nextCodeIndex = env.maxCodeLength
  · rw [if_pos hfull] at h; cases h
  · rw [if_neg hfull] at h; exact ⟨hfull, h⟩

theorem setM_ret_patched {env : Env} {i : Nat} {M : Int} {s : State}
    {k : State → Outcome} {e : Nat} {s' : State}
    (h : setM env i M s k = .ret e s') :
    i < env.maxCodeLength ∧ k (patched i M s) = .ret e s' := by
  rw [setM_eq] at h
  by_cases hin : i < env.maxCodeLength
  · rw [if_pos hin] at h; exact ⟨hin, h⟩
  · rw [if_neg hin] at h; cases h

theorem ret_zero_inj {e : Nat} {s s' : State} (h : Outcome.ret e s = .ret 0 s') :
    e = 0 ∧ s = s' := by
  cases h; exact ⟨rfl, rfl⟩

/-- The `while` branch of `statement()`. -/
theorem statement_while_eq (n : Nat) (env : Env) (s : State)
    (hw : getCurrentTokenType env s = .whilesym) :
    statement (n + 1) env s
      = (condition n env (nextToken s)).onOk fun s1 =>
          emitThen env .JPC 0 0 0 s1 fun s2 =>
            if getCurrentTokenType env s2 ≠ .dosym then .ret 11 s2
            else
              (statement n env (nextToken s2)).onOk fun s3 =>
                emitThen env .JMP 0 0 s.nextCodeIndex s3 fun s4 =>
                  setM env s1.nextCodeIndex s4.nextCodeIndex s4 fun s5 => .ret 0 s5 := by
  have k1 : getCurrentTokenType env s ≠ .identsym := by rw [hw]; decide
  have k2 : getCurrentTokenType env s ≠ .callsym := by rw [hw]; decide
  have k3 : getCurrentTokenType env s ≠ .beginsym := by rw [hw]; decide
  have k4 : getCurrentTokenType env s ≠ .ifsym := by rw [hw]; decide
  rw [statement, if_neg k1, if_neg k2, if_neg k3, if_neg k4, if_pos hw]

/-- The `if` branch of `statement()`. -/
theorem statement_if_eq (n : Nat) (env : Env) (s : State)
    (hw : getCurrentTokenType env s = .ifsym) :
    statement (n + 1) env s
      = (condition n env (nextToken s)).onOk fun s1 =>
          if getCurrentTokenType env s1 ≠ .thensym then .ret 9 s1
          else
            emitThen env .JPC 0 0 0 (nextToken s1) fun s2 =>
              (statement n env s2).onOk fun s3 =>
                setM env s1.nextCodeIndex s3.nextCodeIndex s3 fun s4 =>
                  if getCurrentTokenType env s4 = .elsesym then
                    emitThen env .JMP 0 0 0 s4 fun s5 =>
                      setM env s4.nextCodeIndex (nextToken s5).nextCodeIndex (nextToken s5)
                        fun s6 =>
                          (statement n env s6).onOk fun s7 =>
                            setM env s1.nextCodeIndex s7.nextCodeIndex s7 fun s8 => .ret 0 s8
                  else .ret 0 s4 := by
  have k1 : getCurrentTokenType env s ≠ .identsym := by rw [hw]; decide
  have k2 : getCurrentTokenType env s ≠ .callsym := by rw [hw]; decide
  have k3 : getCurrentTokenType env s ≠ .beginsym := by rw [hw]; decide
  rw [statement, if_neg k1, if_neg k2, if_neg k3, if_pos hw]
  rfl

/-- The `begin` branch of `statement()`. -/
theorem statement_begin_eq (n : Nat) (env : Env) (s : State)
    (hw : getCurrentTokenType env s = .beginsym) :
    statement (n + 1) env s
      = (statement n env (nextToken s)).onOk fun s1 =>
          (beginLoop n env s1).onOk fun s2 =>
            if getCurrentTokenType env s2 ≠ .endsym then .ret 10 s2
            else .ret 0 (nextToken s2) := by
  have k1 : getCurrentTokenType env s ≠ .identsym := by rw [hw]; decide
  have k2 : getCurrentTokenType env s ≠ .callsym := by rw [hw]; decide
  rw [statement, if_neg k1, if_neg k2, if_pos hw]

/-- The body of `proc_declaration()` when the current token is `procedure`. -/
theorem proc_declaration_some_eq (n : Nat) (env : Env) (s : State)
    (hp : getCurrentTokenType env s = .procsym) :
    proc_declaration (n + 1) env s
      = emitThen env .JMP 0 0 0 s fun s1 =>
          (procLoop n env
              { type := .PROC, name := "", value := 0, level := 0, address := 0, scope := NULL }
              s1).onOk fun s2 =>
            emitThen env .RTN 0 0 0 s2 fun s3 =>
              setM env s.nextCodeIndex s3.nextCodeIndex s3 fun s4 => .ret 0 s4 := by
  rw [proc_declaration]
  simp only [hp, if_true, decide_True]

/-- The body of `proc_declaration()` when the current token is not `procedure`. -/
theorem proc_declaration_none_eq (n : Nat) (env : Env) (s : State)
    (hp : getCurrentTokenType env s ≠ .procsym) :
    proc_declaration (n + 1) env s
      = (procLoop n env
            { type := .PROC, name := "", value := 0, level := 0, address := 0, scope := NULL }
            s).onOk fun s2 =>
          setM env s.nextCodeIndex s2.nextCodeIndex s2 fun s4 => .ret 0 s4 := by
  rw [proc_declaration]
  simp only [hp, if_false, decide_False]
  rfl

/-- The body of `block()`. -/
theorem block_eq (n : Nat) (env : Env) (s : State) :
    block (n + 1) env s
      = if s.currentScope ≠ NULL then
          emitThen env .INC 0 0 4 s fun s0 =>
            (const_declaration n env s0).onOk fun s1 =>
              (var_declaration n env s1).onOk fun s2 =>
                (proc_declaration n env s2).onOk fun s3 =>
                  (statement n env (setScope (addrOfTempScope s.currentScope) s3)).onOk fun s4 =>
                    .ret 0 (setScope s.currentScope s4)
        else
          (const_declaration n env s).onOk fun s1 =>
            (var_declaration n env s1).onOk fun s2 =>
              (proc_declaration n env s2).onOk fun s3 =>
                (statement n env (setScope (addrOfTempScope s.currentScope) s3)).onOk fun s4 =>
                  .ret 0 (setScope s.currentScope s4) := by
  rw [block]

/-- The calls behind a result 0 of `block()`. -/
theorem block_ret_zero (n : Nat) (env : Env) (s s' : State)
    (h : block (n + 1) env s = .ret 0 s') :
    ∃ s0 s1 s2 s3 s4 : State,
      s0 = (if s.currentScope ≠ NULL then pushed .INC 0 0 4 s else s) ∧
        const_declaration n env s0 = .ret 0 s1 ∧
        var_declaration n env s1 = .ret 0 s2 ∧
        proc_declaration n env s2 = .ret 0 s3 ∧
        statement n env (setScope (addrOfTempScope s.currentScope) s3) = .ret 0 s4 ∧
        s' = setScope s.currentScope s4 := by
  rw [block_eq] at h
  by_cases hs : s.currentScope ≠ NULL
  · rw [if_pos hs] at h
    obtain ⟨_, h0⟩ := emitThen_ret_pushed h
    obtain ⟨s1, h1, h⟩ := Outcome.onOk_ret_zero h0
    obtain ⟨s2, h2, h⟩ := Outcome.onOk_ret_zero h
    obtain ⟨s3, h3, h⟩ := Outcome.onOk_ret_zero h
    obtain ⟨s4, h4, h⟩ := Outcome.onOk_ret_zero h
    exact ⟨_, s1, s2, s3, s4, (if_pos hs).symm ▸ rfl, h1, h2, h3, h4, (ret_zero_inj h).2.symm⟩
  · rw [if_neg hs] at h
    obtain ⟨s1, h1, h⟩ := Outcome.onOk_ret_zero h
    obtain ⟨s2, h2, h⟩ := Outcome.onOk_ret_zero h
    obtain ⟨s3, h3, h⟩ := Outcome.onOk_ret_zero h
    obtain ⟨s4, h4, h⟩ := Outcome.onOk_ret_zero h
    exact ⟨s, s1, s2, s3, s4, (if_neg hs).symm, h1, h2, h3, h4, (ret_zero_inj h).2.symm⟩

/-- The calls behind a result 0 of `proc_declaration()` entered at `procedure`:
one `JMP`, the loop over the procedures, one `RTN`, and the `JMP` patched to the
index behind the `RTN`. -/
theorem proc_declaration_ret_zero (n : Nat) (env : Env) (s s' : State)
    (hp : getCurrentTokenType env s = .procsym)
    (h : proc_declaration (n + 1) env s = .ret 0 s') :
    ∃ sl : State,
      procLoop n env
          { type := .PROC, name := "", value := 0, level := 0, address := 0, scope := NULL }
          (pushed .JMP 0 0 0 s) = .ret 0 sl ∧
        s.nextCodeIndex < sl.nextCodeIndex ∧
        (∀ k, k < s.nextCodeIndex → sl.vmCode k = s.vmCode k) ∧
        sl.vmCode s.nextCodeIndex = { op := .JMP, r := 0, l := 0, m := 0 } ∧
        s'.nextCodeIndex = sl.nextCodeIndex + 1 ∧
        (∀ k, k < sl.nextCodeIndex → k ≠ s.nextCodeIndex → s'.vmCode k = sl.vmCode k) ∧
        s'.vmCode sl.nextCodeIndex = { op := .RTN, r := 0, l := 0, m := 0 } ∧
        s'.vmCode s.nextCodeIndex
          = { op := .JMP, r := 0, l := 0, m := (s'.nextCodeIndex : Int) } := by
  rw [proc_declaration_some_eq n env s hp] at h
  obtain ⟨_, h1⟩ := emitThen_ret_pushed h
  obtain ⟨sl, hl, h2⟩ := Outcome.onOk_ret_zero h1
  obtain ⟨_, h3⟩ := emitThen_ret_pushed h2
  obtain ⟨_, h4⟩ := setM_ret_patched h3
  have he := (ret_zero_inj h4).2
  have f : Keeps (s.nextCodeIndex + 1) (pushed .JMP 0 0 0 s).vmCode sl :=
    procLoop_keeps n env _ (s.nextCodeIndex + 1) (pushed .JMP 0 0 0 s).vmCode
      (pushed .JMP 0 0 0 s) (Keeps.self (pushed .JMP 0 0 0 s)) 0 sl hl
  have hlt : s.nextCodeIndex < sl.nextCodeIndex := f.1
  have g : sl.vmCode s.nextCodeIndex = { op := .JMP, r := 0, l := 0, m := 0 } := by
    rw [f.2 s.nextCodeIndex (Nat.lt_succ_self _)]
    simp [pushed]
  refine ⟨sl, hl, hlt, ?_, g, ?_, ?_, ?_, ?_⟩
  · intro k hk
    rw [f.2 k (by omega)]
    simp [pushed, Function.update_noteq (Nat.ne_of_lt hk)]
  · rw [← he]; rfl
  · intro k hk1 hk2
    rw [← he]
    have hk3 : k ≠ sl.nextCodeIndex := Nat.ne_of_lt hk1
    simp [patched, pushed, Function.update_noteq hk2, Function.update_noteq hk3]
  · rw [← he]
    have hk : sl.nextCodeIndex ≠ s.nextCodeIndex := by omega
    simp [patched, pushed, Function.update_noteq hk]
  · rw [← he]
    have hk : s.nextCodeIndex ≠ sl.nextCodeIndex := by omega
    simp [patched, pushed, Function.update_noteq hk, g]

/-- The calls behind a result 0 of a `while` statement, and the code they leave. -/
theorem statement_while_ret_zero (n : Nat) (env : Env) (s s' : State)
    (hw : getCurrentTokenType env s = .whilesym)
    (hs' : statement (n + 1) env s = .ret 0 s') :
    ∃ s1 s2 : State,
      condition n env (nextToken s) = .ret 0 s1 ∧
        statement n env (nextToken (pushed .JPC 0 0 0 s1)) = .ret 0 s2 ∧
        s.nextCodeIndex ≤ s1.nextCodeIndex ∧ s1.nextCodeIndex < s2.nextCodeIndex ∧
        s'.nextCodeIndex = s2.nextCodeIndex + 1 ∧
        (∀ k, k < s1.nextCodeIndex → s2.vmCode k = s1.vmCode k) ∧
        s2.vmCode s1.nextCodeIndex = { op := .JPC, r := 0, l := 0, m := 0 } ∧
        (∀ k, k < s1.nextCodeIndex → s'.vmCode k = s1.vmCode k) ∧
        s'.vmCode s1.nextCodeIndex
          = { op := .JPC, r := 0, l := 0, m := (s'.nextCodeIndex : Int) } ∧
        (∀ k, s1.nextCodeIndex < k → k < s2.nextCodeIndex → s'.vmCode k = s2.vmCode k) ∧
        s'.vmCode s2.nextCodeIndex
          = { op := .JMP, r := 0, l := 0, m := (s.nextCodeIndex : Int) } := by
  have hs := hs'
  rw [statement_while_eq n env s hw] at hs
  obtain ⟨s1, hc, h1⟩ := Outcome.onOk_ret_zero hs
  obtain ⟨_, h2⟩ := emitThen_ret_pushed h1
  by_cases hdo : getCurrentTokenType env (pushed .JPC 0 0 0 s1) ≠ .dosym
  · rw [if_pos hdo] at h2
    exact absurd (ret_zero_inj h2).1 (by decide)
  rw [if_neg hdo] at h2
  obtain ⟨s2, hb, h3⟩ := Outcome.onOk_ret_zero h2
  obtain ⟨_, h4⟩ := emitThen_ret_pushed h3
  obtain ⟨_, h5⟩ := setM_ret_patched h4
  have he := (ret_zero_inj h5).2
  have f1 : Keeps s.nextCodeIndex s.vmCode s1 :=
    condition_keeps n env s.nextCodeIndex s.vmCode (nextToken s) (Keeps.self s) 0 s1 hc
  have f2 : Keeps (s1.nextCodeIndex + 1) (pushed .JPC 0 0 0 s1).vmCode s2 :=
    statement_keeps n env (s1.nextCodeIndex + 1) (pushed .JPC 0 0 0 s1).vmCode
      (nextToken (pushed .JPC 0 0 0 s1)) (Keeps.self (pushed .JPC 0 0 0 s1)) 0 s2 hb
  have g1 : ∀ k, k < s1.nextCodeIndex → s2.vmCode k = s1.vmCode k := by
    intro k hk
    rw [f2.2 k (by omega)]
    simp [pushed, Function.update_noteq (Nat.ne_of_lt hk)]
  have g2 : s2.vmCode s1.nextCodeIndex = { op := .JPC, r := 0, l := 0, m := 0 } := by
    rw [f2.2 s1.nextCodeIndex (Nat.lt_succ_self _)]
    simp [pushed]
  have hlt : s1.nextCodeIndex < s2.nextCodeIndex := f2.1
  refine ⟨s1, s2, hc, hb, f1.1, hlt, ?_, g1, g2, ?_, ?_, ?_, ?_⟩
  · rw [← he]; rfl
  · intro k hk
    rw [← he]
    have hk1 : k ≠ s1.nextCodeIndex := Nat.ne_of_lt hk
    have hk2 : k ≠ s2.nextCodeIndex := by omega
    simp [patched, pushed, Function.update_noteq hk1, Function.update_noteq hk2, g1 k hk]
  · rw [← he]
    have hk2 : s1.nextCodeIndex ≠ s2.nextCodeIndex := by omega
    simp [patched, pushed, Function.update_noteq hk2, g2]
  · intro k hk1 hk2
    rw [← he]
    have hk3 : k ≠ s1.nextCodeIndex := by omega
    have hk4 : k ≠ s2.nextCodeIndex := by omega
    simp [patched, pushed, Function.update_noteq hk3, Function.update_noteq hk4]
  · rw [← he]
    have hk2 : s2.nextCodeIndex ≠ s1.nextCodeIndex := by omega
    simp [patched, pushed, Function.update_noteq hk2]

/-- The calls behind a result 0 of an `if` statement, and the code they leave:
without `else`, and with `else`. -/
theorem statement_if_ret_zero (n : Nat) (env : Env) (s s' : State)
    (hw : getCurrentTokenType env s = .ifsym)
    (hs' : statement (n + 1) env s = .ret 0 s') :
    ∃ s1 s3 : State,
      condition n env (nextToken s) = .ret 0 s1 ∧
        statement n env (pushed .JPC 0 0 0 (nextToken s1)) = .ret 0 s3 ∧
        s.nextCodeIndex ≤ s1.nextCodeIndex ∧ s1.nextCodeIndex < s3.nextCodeIndex ∧
        (∀ k, k < s1.nextCodeIndex → s'.vmCode k = s1.vmCode k) ∧
        (∀ k, s1.nextCodeIndex < k → k < s3.nextCodeIndex → s'.vmCode k = s3.vmCode k) ∧
        s'.vmCode s1.nextCodeIndex
          = { op := .JPC, r := 0, l := 0, m := (s'.nextCodeIndex : Int) } ∧
        ((getCurrentTokenType env s3 ≠ .elsesym ∧ s'.nextCodeIndex = s3.nextCodeIndex) ∨
          (getCurrentTokenType env s3 = .elsesym ∧
            ∃ s7 : State,
              statement n env
                  (patched s3.nextCodeIndex ((s3.nextCodeIndex + 1 : Nat) : Int)
                    (nextToken (pushed .JMP 0 0 0
                      (patched s1.nextCodeIndex (s3.nextCodeIndex : Int) s3))))
                = .ret 0 s7 ∧
                s3.nextCodeIndex < s7.nextCodeIndex ∧
                s'.nextCodeIndex = s7.nextCodeIndex ∧
                s'.vmCode s3.nextCodeIndex
                  = { op := .JMP, r := 0, l := 0, m := ((s3.nextCodeIndex + 1 : Nat) : Int) } ∧
                (∀ k, s3.nextCodeIndex < k → k < s7.nextCodeIndex →
                  s'.vmCode k = s7.vmCode k))) := by
  have hs := hs'
  rw [statement_if_eq n env s hw] at hs
  obtain ⟨s1, hc, h1⟩ := Outcome.onOk_ret_zero hs
  by_cases hthen : getCurrentTokenType env s1 ≠ .thensym
  · rw [if_pos hthen] at h1
    exact absurd (ret_zero_inj h1).1 (by decide)
  rw [if_neg hthen] at h1
  obtain ⟨_, h2⟩ := emitThen_ret_pushed h1
  obtain ⟨s3, hb, h3⟩ := Outcome.onOk_ret_zero h2
  obtain ⟨_, h4⟩ := setM_ret_patched h3
  have f1 : Keeps s.nextCodeIndex s.vmCode s1 :=
    condition_keeps n env s.nextCodeIndex s.vmCode (nextToken s) (Keeps.self s) 0 s1 hc
  have f2 : Keeps (s1.nextCodeIndex + 1) (pushed .JPC 0 0 0 (nextToken s1)).vmCode s3 :=
    statement_keeps n env (s1.nextCodeIndex + 1) (pushed .JPC 0 0 0 (nextToken s1)).vmCode
      (pushed .JPC 0 0 0 (nextToken s1)) (Keeps.self (pushed .JPC 0 0 0 (nextToken s1))) 0 s3 hb
  have g1 : ∀ k, k < s1.nextCodeIndex → s3.vmCode k = s1.vmCode k := by
    intro k hk
    rw [f2.2 k (by omega)]
    have : k ≠ (nextToken s1).nextCodeIndex := Nat.ne_of_lt hk
    simp [pushed, Function.update_noteq this]
    rfl
  have g2 : s3.vmCode s1.nextCodeIndex = { op := .JPC, r := 0, l := 0, m := 0 } := by
    rw [f2.2 s1.nextCodeIndex (Nat.lt_succ_self _)]
    show (pushed .JPC 0 0 0 (nextToken s1)).vmCode (nextToken s1).nextCodeIndex = _
    simp [pushed]
  have hlt : s1.nextCodeIndex < s3.nextCodeIndex := f2.1
  by_cases helse : getCurrentTokenType env s3 = .elsesym
  · have helse' : getCurrentTokenType env (patched s1.nextCodeIndex (s3.nextCodeIndex : Int) s3)
        = .elsesym := helse
    rw [if_pos helse'] at h4
    obtain ⟨_, h5⟩ := emitThen_ret_pushed h4
    obtain ⟨_, h6⟩ := setM_ret_patched h5
    obtain ⟨s7, hb2, h7⟩ := Outcome.onOk_ret_zero h6
    obtain ⟨_, h8⟩ := setM_ret_patched h7
    have he := (ret_zero_inj h8).2
    have f3 := statement_keeps n env (s3.nextCodeIndex + 1) _ _
      (Keeps.self (patched s3.nextCodeIndex ((s3.nextCodeIndex + 1 : Nat) : Int)
        (nextToken (pushed .JMP 0 0 0
          (patched s1.nextCodeIndex (s3.nextCodeIndex : Int) s3))))) 0 s7 hb2
    have hlt2 : s3.nextCodeIndex < s7.nextCodeIndex := f3.1
    have q1 : ∀ k, k < s1.nextCodeIndex → s7.vmCode k = s1.vmCode k := by
      intro k hk
      rw [f3.2 k (by omega)]
      have a1 : k ≠ s3.nextCodeIndex := by omega
      have a2 : k ≠ s1.nextCodeIndex := by omega
      simp [patched, pushed, nextToken, Function.update_noteq a1, Function.update_noteq a2,
        g1 k hk]
    have q2 : ∀ k, s1.nextCodeIndex < k → k < s3.nextCodeIndex → s7.vmCode k = s3.vmCode k := by
      intro k hk1 hk2
      rw [f3.2 k (by omega)]
      have a1 : k ≠ s3.nextCodeIndex := by omega
      have a2 : k ≠ s1.nextCodeIndex := by omega
      simp [patched, pushed, nextToken, Function.update_noteq a1, Function.update_noteq a2]
    have q3 : s7.vmCode s1.nextCodeIndex
        = { op := .JPC, r := 0, l := 0, m := (s3.nextCodeIndex : Int) } := by
      rw [f3.2 s1.nextCodeIndex (by omega)]
      have a1 : s1.nextCodeIndex ≠ s3.nextCodeIndex := by omega
      simp [patched, pushed, nextToken, Function.update_noteq a1, g2]
    have q4 : s7.vmCode s3.nextCodeIndex
        = { op := .JMP, r := 0, l := 0, m := ((s3.nextCodeIndex + 1 : Nat) : Int) } := by
      rw [f3.2 s3.nextCodeIndex (by omega)]
      simp [patched, pushed, nextToken]
    refine ⟨s1, s3, hc, hb, f1.1, hlt, ?_, ?_, ?_, Or.inr ⟨helse, s7, hb2, hlt2, ?_, ?_, ?_⟩⟩
    · intro k hk
      rw [← he]
      have a2 : k ≠ s1.nextCodeIndex := by omega
      simp [patched, Function.update_noteq a2, q1 k hk]
    · intro k hk1 hk2
      rw [← he]
      have a2 : k ≠ s1.nextCodeIndex := by omega
      simp [patched, Function.update_noteq a2, q2 k hk1 hk2]
    · rw [← he]
      simp [patched, q3]
    · rw [← he]; rfl
    · rw [← he]
      have a2 : s3.nextCodeIndex ≠ s1.nextCodeIndex := by omega
      simp [patched, Function.update_noteq a2, q4]
    · intro k hk1 hk2
      rw [← he]
      have a2 : k ≠ s1.nextCodeIndex := by omega
      simp [patched, Function.update_noteq a2]
  · have helse' : ¬ getCurrentTokenType env
        (patched s1.nextCodeIndex (s3.nextCodeIndex : Int) s3) = .elsesym := helse
    rw [if_neg helse'] at h4
    have he := (ret_zero_inj h4).2
    refine ⟨s1, s3, hc, hb, f1.1, hlt, ?_, ?_, ?_, Or.inl ⟨helse, ?_⟩⟩
    · intro k hk
      rw [← he]
      have a2 : k ≠ s1.nextCodeIndex := by omega
      simp [patched, Function.update_noteq a2, g1 k hk]
    · intro k hk1 hk2
      rw [← he]
      have a2 : k ≠ s1.nextCodeIndex := by omega
      simp [patched, Function.update_noteq a2]
    · rw [← he]
      simp [patched, g2]
    · rw [← he]; rfl

end CodeGenerator

/-! ## Code generator: what the declarations and the `call` statement do -/

namespace CodeGenerator

/-- The loop of `var_declaration()` writes no instruction. -/
theorem varLoop_leaves_code (env : Env) : ∀ (n : Nat) (symbol : Symbol) (varNum : Nat)
    (s : State) (c : Nat → Instruction) (k : Nat),
    s.vmCode = c → s.nextCodeIndex = k →
    (varLoop n env symbol varNum s).Leaves fun s' => s'.vmCode = c ∧ s'.nextCodeIndex = k := by
  intro n
  induction n with
  | zero => intro symbol varNum s c k _ _; exact Outcome.leaves_outOfFuel
  | succ n ih =>
    intro symbol varNum s c k h1 h2
    rw [varLoop]
    dsimp only
    split_ifs
    all_goals first
      | exact Outcome.leaves_ret ⟨h1, h2⟩
      | exact ih _ _ _ c k h1 h2

/-- Whatever list it reads, a `var_declaration()` entered at `var` that returns
has emitted the one instruction `INC 0 0 2`. -/
theorem var_declaration_emits_inc_two (n : Nat) (env : Env) (s s' : State) (err : Nat)
    (hvar : getCurrentTokenType env s = .varsym)
    (h : var_declaration n env s = .ret err s') :
    s'.nextCodeIndex = s.nextCodeIndex + 1 ∧
      s'.vmCode = Function.update s.vmCode s.nextCodeIndex
        { op := .INC, r := 0, l := 0, m := 2 } := by
  have hv : ¬ getCurrentTokenType env s ≠ .varsym := by simp [hvar]
  unfold var_declaration at h
  rw [if_neg hv] at h
  obtain ⟨_, h1⟩ := emitThen_ret_pushed h
  have := varLoop_leaves_code env n _ 0 (pushed .INC 0 0 2 s) _ _ rfl rfl err s' h1
  exact ⟨this.2, this.1⟩

theorem varAddress_eq (L k : Nat) (h : 4 * L + k < 2147483648) :
    varAddress L k = 4 * (L : Int) + (k : Int) := by
  unfold varAddress toInt32 wordSize
  have h1 : (4 * L + k) % 4294967296 = 4 * L + k := Nat.mod_eq_of_lt (by omega)
  rw [h1, h1, if_pos h]
  push_cast
  rfl

theorem varRecords_length (L : Nat) (scope : ScopePtr) (ids : List String) :
    ∀ k, (varRecords L scope k ids).length = ids.length := by
  induction ids with
  | nil => intro k; rfl
  | cons x r ih => intro k; simp [varRecords, ih]

theorem varRecords_address_gt (L : Nat) (scope : ScopePtr) (ids : List String) :
    ∀ k, ∀ y ∈ varRecords L scope k ids, 4 * (L : Int) + (k : Int) < y.2.2.2.2 := by
  induction ids with
  | nil => intro k y hy; simp [varRecords] at hy
  | cons x r ih =>
    intro k y hy
    simp only [varRecords, List.mem_cons] at hy
    rcases hy with rfl | hy
    · simp
    · have := ih (k + 1) y hy
      push_cast at this
      omega

theorem varRecords_nodup (L : Nat) (scope : ScopePtr) (ids : List String) :
    ∀ k, ((varRecords L scope k ids).map fun y => y.2.2.2.2).Nodup := by
  induction ids with
  | nil => intro k; simp [varRecords]
  | cons x r ih =>
    intro k
    simp only [varRecords, List.map_cons, List.nodup_cons, List.mem_map, not_exists, not_and]
    refine ⟨fun y hy he => ?_, ih (k + 1)⟩
    have := varRecords_address_gt L scope r (k + 1) y hy
    push_cast at this he
    omega

theorem varLoop_list (env : Env) (L : Nat) (sc : ScopePtr) (ids : List String) :
    ∀ (k n : Nat) (symbol : Symbol) (s : State),
      (getCurrentTokenType env s = .varsym ∨ getCurrentTokenType env s = .commasym) →
      VarList env.tokens (s.currentTokenInd + 1) ids →
      ids.length ≤ n →
      4 * L + (k + ids.length) < 2147483648 →
      s.currentLevel = L → symbol.type = .VAR → symbol.level = L → symbol.scope = sc →
      ∃ (s' : State) (syms : List Symbol),
        varLoop n env symbol k s = .ret 0 s' ∧
          s'.symbolTable = s.symbolTable ++ syms ∧
          syms.map Symbol.declared = varRecords L sc k ids ∧
          s'.currentTokenInd = s.currentTokenInd + 2 * ids.length + 1 ∧
          s'.vmCode = s.vmCode ∧ s'.nextCodeIndex = s.nextCodeIndex := by
  induction ids with
  | nil => intro k n symbol s _ hl; exact absurd hl (by simp [VarList])
  | cons x r ih =>
    intro k n symbol s hk hl hn hfit hL hT hLv hS
    cases n with
    | zero => simp at hn
    | succ n =>
      have hk1 : getCurrentTokenType env (nextToken s) = .identsym := by
        cases r with
        | nil => exact hl.1
        | cons y r => exact hl.1
      have hx : (getCurrentToken env (nextToken s)).lexeme = x := by
        cases r with
        | nil => exact hl.2.1
        | cons y r => exact hl.2.1
      have hadr : varAddress s.currentLevel (k + 1) = 4 * (L : Int) + ((k + 1 : Nat) : Int) := by
        rw [hL]
        exact varAddress_eq L (k + 1) (by simp only [List.length_cons] at hfit; omega)
      cases r with
      | nil =>
        have hk2 : getCurrentTokenType env (nextToken (nextToken s)) = .semicolonsym := hl.2.2
        have hne : getCurrentTokenType env (nextToken (nextToken s)) ≠ .eqsym := by
          rw [hk2]; decide
        refine ⟨addSymbol { symbol with name := x, address := varAddress s.currentLevel (k + 1) }
            (nextToken (nextToken (nextToken s))),
          [{ symbol with name := x, address := varAddress s.currentLevel (k + 1) }],
          ?_, ?_, ?_, ?_, ?_, ?_⟩
        · rw [varLoop]
          simp only [hk, hk1, hk2, hne, if_true, if_false, hx]
          rfl
        · rfl
        · simp [Symbol.declared, varRecords, hT, hLv, hS, hadr]
        · simp [nextToken, addSymbol]
        · rfl
        · rfl
      | cons y r =>
        have hk2 : getCurrentTokenType env (nextToken (nextToken s)) = .commasym := hl.2.2.1
        have hne : getCurrentTokenType env (nextToken (nextToken s)) ≠ .eqsym := by
          rw [hk2]; decide
        have hne2 : getCurrentTokenType env (nextToken (nextToken s)) ≠ .semicolonsym := by
          rw [hk2]; decide
        obtain ⟨s', syms, h1, h2, h3, h4, h5, h6⟩ := ih (k + 1) n
          { symbol with name := x, address := varAddress s.currentLevel (k + 1) }
          (addSymbol { symbol with name := x, address := varAddress s.currentLevel (k + 1) }
            (nextToken (nextToken s)))
          (Or.inr hk2) hl.2.2.2 (by simpa using hn)
          (by simp only [List.length_cons] at hfit ⊢; omega) hL hT hLv hS
        refine ⟨s', { symbol with name := x, address := varAddress s.currentLevel (k + 1) }
          :: syms, ?_, ?_, ?_, ?_, ?_, ?_⟩
        · rw [varLoop]
          simp only [hk, hk1, hk2, hne, hne2, if_true, if_false, hx]
          exact h1
        · rw [h2]; simp [addSymbol, nextToken]
        · simp [Symbol.declared, varRecords, hT, hLv, hS, hadr] at h3 ⊢
          exact h3
        · rw [h4]; simp [nextToken, addSymbol]; omega
        · rw [h5]; rfl
        · rw [h6]; rfl

theorem levelDiff_eq (currentLevel level : Nat) (hc : currentLevel < 2147483648)
    (hl : level < 2147483648) : levelDiff currentLevel level = (currentLevel : Int) - level := by
  unfold levelDiff usub toInt32 wordSize
  have h1 : currentLevel % 4294967296 = currentLevel := Nat.mod_eq_of_lt (by omega)
  have h2 : level % 4294967296 = level := Nat.mod_eq_of_lt (by omega)
  rw [h1, h2]
  by_cases h : level ≤ currentLevel
  · rw [if_pos h]
    have h3 : (currentLevel - level) % 4294967296 = currentLevel - level :=
      Nat.mod_eq_of_lt (by omega)
    rw [h3, if_pos (by omega)]
    omega
  · rw [if_neg h]
    have h3 : (4294967296 - (level - currentLevel)) % 4294967296
        = 4294967296 - (level - currentLevel) := Nat.mod_eq_of_lt (by omega)
    rw [h3, if_neg (by omega)]
    push_cast
    omega

/-- The `call` branch of `statement()`, once the identifier is found. -/
theorem statement_call_eq (n : Nat) (env : Env) (s : State) (currSym : Symbol)
    (hcall : getCurrentTokenType env s = .callsym)
    (hid : getCurrentTokenType env (nextToken s) = .identsym)
    (hfind : env.findSymbol s.symbolTable s.currentScope
      (getCurrentToken env (nextToken s)).lexeme = some currSym) :
    statement (n + 1) env s
      = if currSym.scope ≠ s.currentScope then .ret 15 (nextToken s)
        else if currSym.type = .PROC then
          emitThen env .CAL 0 (levelDiff s.currentLevel currSym.level) currSym.address
            (nextToken s) fun s => .ret 0 (nextToken s)
        else .ret 17 (nextToken s) := by
  have hk : getCurrentTokenType env s ≠ .identsym := by rw [hcall]; decide
  have hfind2 : env.findSymbol (nextToken s).symbolTable (nextToken s).currentScope
      (getCurrentToken env (nextToken s)).lexeme = some currSym := hfind
  rw [statement]
  simp only [hk, hcall, hid, if_true, if_false, ne_eq, not_true_eq_false, hfind2]
  rfl

/-- What a `call` statement that returns 0 has done. -/
theorem statement_call_ret_zero (n : Nat) (env : Env) (s : State)
    (hcall : getCurrentTokenType env s = .callsym)
    (hret : (statement n env s).code = some 0) :
    ∃ p : Symbol,
      env.findSymbol s.symbolTable s.currentScope
          (getCurrentToken env (nextToken s)).lexeme = some p ∧
        p.scope = s.currentScope ∧ p.type = .PROC ∧
        s.nextCodeIndex ≠ env.maxCodeLength ∧
        statement n env s = .ret 0 (nextToken
          (pushed .CAL 0 (levelDiff s.currentLevel p.level) p.address (nextToken s))) := by
  cases n with
  | zero => simp [statement, Outcome.code] at hret
  | succ n =>
    by_cases hid : getCurrentTokenType env (nextToken s) = .identsym
    · cases hfind : env.findSymbol s.symbolTable s.currentScope
          (getCurrentToken env (nextToken s)).lexeme with
      | none =>
        have hk : getCurrentTokenType env s ≠ .identsym := by rw [hcall]; decide
        have hfind2 : env.findSymbol (nextToken s).symbolTable (nextToken s).currentScope
            (getCurrentToken env (nextToken s)).lexeme = none := hfind
        rw [statement] at hret
        simp [hk, hcall, hid, hfind2, Outcome.code] at hret
      | some p =>
        rw [statement_call_eq n env s p hcall hid hfind] at hret ⊢
        by_cases hs : p.scope = s.currentScope
        · by_cases ht : p.type = .PROC
          · by_cases hfull : s.nextCodeIndex = env.maxCodeLength
            · have hfull2 : (nextToken s).nextCodeIndex = env.maxCodeLength := hfull
              simp [hs, ht, emitThen_eq, hfull2, Outcome.code] at hret
            · have hfull2 : ¬ (nextToken s).nextCodeIndex = env.maxCodeLength := hfull
              refine ⟨p, rfl, hs, ht, hfull, ?_⟩
              simp [hs, ht, emitThen_eq, hfull2]
          · simp [hs, ht, Outcome.code] at hret
        · simp [hs, Outcome.code] at hret
    · have hk : getCurrentTokenType env s ≠ .identsym := by rw [hcall]; decide
      rw [statement] at hret
      simp [hk, hcall, hid, Outcome.code] at hret

end CodeGenerator

/-! ## Code generator: where the emitted jumps lead -/

namespace CodeGenerator

theorem jumpOK_of_seg {code code' : Nat → Instruction} {lo hi lo' hi' i : Nat}
    (hseg : SegOK code lo hi) (hlo : lo ≤ i) (hhi : i < hi) (hlo' : lo' ≤ lo) (hhi' : hi ≤ hi')
    (hagree : ∀ k, lo ≤ k → k ≤ i → code' k = code k) : JumpOK code' lo' hi' i := by
  have h := hseg i hlo hhi
  have hi_eq : code' i = code i := hagree i hlo (Nat.le_refl i)
  refine ⟨fun hop => ?_, fun hop => ?_⟩
  · rw [hi_eq] at hop ⊢
    have := h.1 hop
    constructor
    · exact this.1
    · have : ((hi : Nat) : Int) ≤ (hi' : Int) := by exact_mod_cast hhi'
      omega
  · rw [hi_eq] at hop
    rcases h.2 hop with hf | ⟨a, j, hm, hla, haj, hji, hcj⟩
    · left
      rw [hi_eq]
      constructor
      · exact hf.1
      · have : ((hi : Nat) : Int) ≤ (hi' : Int) := by exact_mod_cast hhi'
        omega
    · right
      refine ⟨a, j, ?_, by omega, haj, hji, ?_⟩
      · rw [hi_eq]; exact hm
      · rw [hagree j (by omega) (by omega)]; exact hcj

theorem jumpOK_plain {code : Nat → Instruction} {lo hi i : Nat}
    (h1 : (code i).op ≠ .JPC) (h2 : (code i).op ≠ .JMP) : JumpOK code lo hi i :=
  ⟨fun h => absurd h h1, fun h => absurd h h2⟩

theorem SegOK.nil (code : Nat → Instruction) (lo : Nat) : SegOK code lo lo := by
  intro i h1 h2; omega

theorem good_ret (e : Nat) (s : State) : Good s (.ret e s) := by
  intro s' h
  obtain ⟨_, rfl⟩ := ret_zero_inj h
  exact ⟨Keeps.self s, SegOK.nil _ _⟩

theorem good_exit (s : State) : Good s .exit := by intro s' h; cases h

theorem good_nullDeref (s : State) : Good s .nullDeref := by intro s' h; cases h

theorem good_outOfBounds (s : State) : Good s .outOfBounds := by intro s' h; cases h

theorem good_outOfFuel (s : State) : Good s .outOfFuel := by intro s' h; cases h

/-- A state that differs from `s` in neither the buffer nor `nextCodeIndex`
may stand for it. -/
theorem Good.of_same {s t : State} {o : Outcome} (h : Good s o)
    (h1 : t.vmCode = s.vmCode) (h2 : t.nextCodeIndex = s.nextCodeIndex) : Good t o := by
  intro s' hs
  have := h s' hs
  rw [h1, h2]
  exact this

theorem good_onOk {s : State} {o : Outcome} {k : State → Outcome}
    (ho : Good s o) (hk : ∀ s1, o = .ret 0 s1 → Good s1 (k s1)) : Good s (o.onOk k) := by
  intro s' h
  obtain ⟨s1, h1, h2⟩ := Outcome.onOk_ret_zero h
  obtain ⟨f1, g1⟩ := ho s1 h1
  obtain ⟨f2, g2⟩ := hk s1 h1 s' h2
  refine ⟨⟨Nat.le_trans f1.1 f2.1, fun i hi => ?_⟩, fun i hlo hhi => ?_⟩
  · rw [f2.2 i (Nat.lt_of_lt_of_le hi f1.1)]
    exact f1.2 i hi
  · by_cases hi1 : i < s1.nextCodeIndex
    · exact jumpOK_of_seg g1 hlo hi1 (Nat.le_refl _) f2.1
        fun k _ hk2 => f2.2 k (by omega)
    · exact jumpOK_of_seg g2 (by omega) hhi f1.1 (Nat.le_refl _) fun k _ _ => rfl

/-- An emitted instruction that is no jump extends a good run. -/
theorem good_emitThen {s : State} {env : Env} {OP : Opcode} {R L M : Int}
    {k : State → Outcome} (h1 : OP ≠ .JPC) (h2 : OP ≠ .JMP)
    (hk : Good (pushed OP R L M s) (k (pushed OP R L M s))) :
    Good s (emitThen env OP R L M s k) := by
  intro s' h
  obtain ⟨_, h3⟩ := emitThen_ret_pushed h
  obtain ⟨f, g⟩ := hk s' h3
  have hlt : s.nextCodeIndex < s'.nextCodeIndex := f.1
  have hat : s'.vmCode s.nextCodeIndex = { op := OP, r := R, l := L, m := M } := by
    rw [f.2 s.nextCodeIndex (Nat.lt_succ_self _)]
    simp [pushed]
  refine ⟨⟨Nat.le_of_lt hlt, fun i hi => ?_⟩, fun i hlo hhi => ?_⟩
  · rw [f.2 i (Nat.lt_succ_of_lt hi)]
    simp [pushed, Function.update_noteq (Nat.ne_of_lt hi)]
  · by_cases hi1 : i = s.nextCodeIndex
    · subst hi1
      exact jumpOK_plain (by rw [hat]; exact h1) (by rw [hat]; exact h2)
    · exact jumpOK_of_seg g (Nat.succ_le_of_lt (Nat.lt_of_le_of_ne hlo (Ne.symm hi1))) hhi
        (Nat.le_succ _) (Nat.le_refl _) fun k _ _ => rfl

theorem good_ret' {s t : State} (e : Nat) (h1 : s.vmCode = t.vmCode)
    (h2 : s.nextCodeIndex = t.nextCodeIndex) : Good s (.ret e t) :=
  (good_ret e t).of_same h1 h2

theorem constLoop_good (env : Env) : ∀ (n : Nat) (symbol : Symbol) (s : State),
    Good s (constLoop n env symbol s) := by
  intro n
  induction n with
  | zero => intro symbol s; exact good_outOfFuel s
  | succ n ih =>
    intro symbol s
    rw [constLoop]
    dsimp only
    split_ifs
    all_goals first
      | exact good_ret' _ rfl rfl
      | exact (ih _ _).of_same rfl rfl

theorem const_declaration_good (n : Nat) (env : Env) (s : State) :
    Good s (const_declaration n env s) := by
  unfold const_declaration
  dsimp only
  split_ifs
  all_goals first
    | exact good_ret' _ rfl rfl
    | exact (constLoop_good env n _ _).of_same rfl rfl

theorem varLoop_good (env : Env) : ∀ (n : Nat) (symbol : Symbol) (varNum : Nat) (s : State),
    Good s (varLoop n env symbol varNum s) := by
  intro n
  induction n with
  | zero => intro symbol varNum s; exact good_outOfFuel s
  | succ n ih =>
    intro symbol varNum s
    rw [varLoop]
    dsimp only
    split_ifs
    all_goals first
      | exact good_ret' _ rfl rfl
      | exact (ih _ _ _).of_same rfl rfl

theorem var_declaration_good (n : Nat) (env : Env) (s : State) :
    Good s (var_declaration n env s) := by
  unfold var_declaration
  dsimp only
  split_ifs
  · exact good_ret _ _
  · exact good_emitThen (by decide) (by decide) (varLoop_good env n _ _ _)

theorem expression_group_good (env : Env) : ∀ n : Nat,
    (∀ s, Good s (expression n env s)) ∧ (∀ op s, Good s (expressionLoop n env op s)) ∧
      (∀ s, Good s (term n env s)) ∧ (∀ op s, Good s (termLoop n env op s)) ∧
      (∀ s, Good s (factor n env s)) := by
  intro n
  induction n with
  | zero =>
    refine ⟨?_, ?_, ?_, ?_, ?_⟩
    · intro s; rw [expression]; exact good_outOfFuel s
    · intro op s; rw [expressionLoop]; exact good_outOfFuel s
    · intro s; rw [term]; exact good_outOfFuel s
    · intro op s; rw [termLoop]; exact good_outOfFuel s
    · intro s; rw [factor]; exact good_outOfFuel s
  | succ n ih =>
    obtain ⟨ihE, ihEL, ihT, ihTL, ihF⟩ := ih
    refine ⟨?_, ?_, ?_, ?_, ?_⟩
    · intro s
      rw [expression]
      refine good_onOk ?_ fun s1 _ => good_onOk (ihT s1) fun s2 _ => ihEL _ s2
      split_ifs
      all_goals first
        | exact good_ret _ _
        | exact good_onOk ((ihT _).of_same rfl rfl) fun s1 _ => good_ret _ _
        | exact good_onOk ((ihT _).of_same rfl rfl) fun s1 _ =>
            good_emitThen (by decide) (by decide) (good_ret _ _)
    · intro op s
      rw [expressionLoop]
      split_ifs
      all_goals first
        | exact good_ret _ _
        | exact good_onOk ((ihT _).of_same rfl rfl) fun s1 _ =>
            good_emitThen (by decide) (by decide) (ihEL _ _)
    · intro s
      rw [term]
      exact good_onOk (ihF s) fun s1 _ => ihTL _ s1
    · intro op s
      rw [termLoop]
      split_ifs
      all_goals first
        | exact good_ret _ _
        | exact good_onOk ((ihF _).of_same rfl rfl) fun s1 _ =>
            good_emitThen (by decide) (by decide) (ihTL _ _)
    · intro s
      rw [factor]
      split
      · exact good_ret _ _
      · split_ifs
        all_goals first
          | exact good_ret _ _
          | exact good_emitThen (by decide) (by decide) (good_ret' _ rfl rfl)
          | exact good_onOk ((ihE _).of_same rfl rfl) fun s1 _ => by
              split_ifs
              · exact good_ret _ _
              · exact good_ret' _ rfl rfl

theorem expression_good (n : Nat) (env : Env) (s : State) : Good s (expression n env s) :=
  (expression_group_good env n).1 s

theorem condition_good (n : Nat) (env : Env) (s : State) : Good s (condition n env s) := by
  unfold condition
  split_ifs
  · exact good_onOk ((expression_good n env _).of_same rfl rfl) fun s1 _ =>
      good_emitThen (by decide) (by decide) (good_ret _ _)
  · refine good_onOk (expression_good n env s) fun s1 _ => ?_
    split_ifs
    all_goals first
      | exact good_emitThen (by decide) (by decide) (good_ret' _ rfl rfl)
      | exact good_ret _ _

theorem jumpOK_jpc {code : Nat → Instruction} {lo hi i : Nat} {m : Nat}
    (h : code i = { op := .JPC, r := 0, l := 0, m := (m : Int) }) (h1 : i < m) (h2 : m ≤ hi) :
    JumpOK code lo hi i := by
  refine ⟨fun _ => ?_, fun hop => ?_⟩
  · rw [h]
    constructor
    · show (i : Int) < (m : Int)
      exact_mod_cast h1
    · show (m : Int) ≤ (hi : Int)
      exact_mod_cast h2
  · rw [h] at hop
    simp at hop

theorem jumpOK_jmp_forward {code : Nat → Instruction} {lo hi i : Nat} {m : Nat}
    (h : code i = { op := .JMP, r := 0, l := 0, m := (m : Int) }) (h1 : i < m) (h2 : m ≤ hi) :
    JumpOK code lo hi i := by
  refine ⟨fun hop => ?_, fun _ => Or.inl ?_⟩
  · rw [h] at hop
    simp at hop
  · rw [h]
    constructor
    · show (i : Int) < (m : Int)
      exact_mod_cast h1
    · show (m : Int) ≤ (hi : Int)
      exact_mod_cast h2

theorem jumpOK_jmp_back {code : Nat → Instruction} {lo hi i : Nat} {a j : Nat}
    (h : code i = { op := .JMP, r := 0, l := 0, m := (a : Int) }) (h1 : lo ≤ a) (h2 : a ≤ j)
    (h3 : j < i) (h4 : code j = { op := .JPC, r := 0, l := 0, m := ((i + 1 : Nat) : Int) }) :
    JumpOK code lo hi i := by
  refine ⟨fun hop => ?_, fun _ => Or.inr ⟨a, j, ?_, h1, h2, h3, h4⟩⟩
  · rw [h] at hop
    simp at hop
  · rw [h]

theorem statement_group_good (env : Env) : ∀ n : Nat,
    (∀ s, Good s (statement n env s)) ∧ (∀ s, Good s (beginLoop n env s)) := by
  intro n
  induction n with
  | zero =>
    refine ⟨?_, ?_⟩
    · intro s; rw [statement]; exact good_outOfFuel s
    · intro s; rw [beginLoop]; exact good_outOfFuel s
  | succ n ih =>
    obtain ⟨ihS, ihB⟩ := ih
    refine ⟨?_, ?_⟩
    · intro s
      by_cases k4 : getCurrentTokenType env s = .ifsym
      · intro s' hs'
        obtain ⟨s1, s3, hc, hb, hle, hlt, e1, e2, e3, hcase⟩ :=
          statement_if_ret_zero n env s s' k4 hs'
        obtain ⟨fc, gc⟩ := condition_good n env (nextToken s) s1 hc
        obtain ⟨_, gb⟩ := ihS (pushed .JPC 0 0 0 (nextToken s1)) s3 hb
        have gc' : SegOK s1.vmCode s.nextCodeIndex s1.nextCodeIndex := gc
        have gb' : SegOK s3.vmCode (s1.nextCodeIndex + 1) s3.nextCodeIndex := gb
        have hfr : ∀ k, k < s.nextCodeIndex → s'.vmCode k = s.vmCode k := by
          intro k hk
          rw [e1 k (by omega)]
          exact fc.2 k hk
        rcases hcase with ⟨_, hn⟩ | ⟨_, s7, hb2, hlt2, hn, e4, e5⟩
        · refine ⟨⟨by omega, hfr⟩, fun i hlo hhi => ?_⟩
          by_cases c1 : i < s1.nextCodeIndex
          · exact jumpOK_of_seg gc' hlo c1 (Nat.le_refl _) (by omega)
              fun k _ hk2 => e1 k (by omega)
          by_cases c2 : i = s1.nextCodeIndex
          · subst c2
            exact jumpOK_jpc e3 (by omega) (Nat.le_refl _)
          · exact jumpOK_of_seg gb' (by omega) (by omega) (by omega) (by omega)
              fun k hk1 hk2 => e2 k (by omega) (by omega)
        · obtain ⟨_, gb2⟩ := ihS _ s7 hb2
          have gb2' : SegOK s7.vmCode (s3.nextCodeIndex + 1) s7.nextCodeIndex := gb2
          refine ⟨⟨by omega, hfr⟩, fun i hlo hhi => ?_⟩
          by_cases c1 : i < s1.nextCodeIndex
          · exact jumpOK_of_seg gc' hlo c1 (Nat.le_refl _) (by omega)
              fun k _ hk2 => e1 k (by omega)
          by_cases c2 : i = s1.nextCodeIndex
          · subst c2
            exact jumpOK_jpc e3 (by omega) (Nat.le_refl _)
          by_cases c3 : i < s3.nextCodeIndex
          · exact jumpOK_of_seg gb' (by omega) c3 (by omega) (by omega)
              fun k hk1 hk2 => e2 k (by omega) (by omega)
          by_cases c4 : i = s3.nextCodeIndex
          · subst c4
            exact jumpOK_jmp_forward e4 (by omega) (by omega)
          · exact jumpOK_of_seg gb2' (by omega) (by omega) (by omega) (by omega)
              fun k hk1 hk2 => e5 k (by omega) (by omega)
      by_cases k5 : getCurrentTokenType env s = .whilesym
      · intro s' hs'
        obtain ⟨s1, s2, hc, hb, hle, hlt, hn, _, _, e1, e2, e3, e4⟩ :=
          statement_while_ret_zero n env s s' k5 hs'
        obtain ⟨fc, gc⟩ := condition_good n env (nextToken s) s1 hc
        obtain ⟨_, gb⟩ := ihS (nextToken (pushed .JPC 0 0 0 s1)) s2 hb
        have gc' : SegOK s1.vmCode s.nextCodeIndex s1.nextCodeIndex := gc
        have gb' : SegOK s2.vmCode (s1.nextCodeIndex + 1) s2.nextCodeIndex := gb
        have hfr : ∀ k, k < s.nextCodeIndex → s'.vmCode k = s.vmCode k := by
          intro k hk
          rw [e1 k (by omega)]
          exact fc.2 k hk
        refine ⟨⟨by omega, hfr⟩, fun i hlo hhi => ?_⟩
        by_cases c1 : i < s1.nextCodeIndex
        · exact jumpOK_of_seg gc' hlo c1 (Nat.le_refl _) (by omega)
            fun k _ hk2 => e1 k (by omega)
        by_cases c2 : i = s1.nextCodeIndex
        · subst c2
          exact jumpOK_jpc e2 (by omega) (Nat.le_refl _)
        by_cases c3 : i < s2.nextCodeIndex
        · exact jumpOK_of_seg gb' (by omega) c3 (by omega) (by omega)
            fun k hk1 hk2 => e3 k (by omega) (by omega)
        · have c4 : i = s2.nextCodeIndex := by omega
          subst c4
          refine jumpOK_jmp_back e4 (Nat.le_refl _) hle hlt ?_
          rw [e2, hn]
      rw [statement]
      by_cases k1 : getCurrentTokenType env s = .identsym
      · rw [if_pos k1]
        split
        · exact good_nullDeref s
        · dsimp only
          split_ifs
          all_goals first
            | exact good_ret' _ rfl rfl
            | exact good_onOk ((expression_good n env _).of_same rfl rfl) fun s1 _ =>
                good_ret _ _
      rw [if_neg k1]
      by_cases k2 : getCurrentTokenType env s = .callsym
      · rw [if_pos k2]
        dsimp only
        split_ifs
        · exact good_ret' _ rfl rfl
        · split
          · exact good_nullDeref s
          · split_ifs
            all_goals first
              | exact good_ret' _ rfl rfl
              | exact Good.of_same (s := nextToken s)
                  (good_emitThen (by decide) (by decide) (good_ret' _ rfl rfl)) rfl rfl
      rw [if_neg k2]
      by_cases k3 : getCurrentTokenType env s = .beginsym
      · rw [if_pos k3]
        refine good_onOk ((ihS _).of_same rfl rfl) fun s1 _ =>
          good_onOk (ihB s1) fun s2 _ => ?_
        split_ifs
        · exact good_ret _ _
        · exact good_ret' _ rfl rfl
      rw [if_neg k3, if_neg k4, if_neg k5]
      by_cases k6 : getCurrentTokenType env s = .writesym
      · rw [if_pos k6]
        dsimp only
        split_ifs
        · exact good_ret' _ rfl rfl
        · split
          · exact good_nullDeref s
          · split_ifs
            all_goals first
              | exact good_ret' _ rfl rfl
              | exact Good.of_same (s := nextToken s)
                  (good_emitThen (by decide) (by decide)
                    (good_emitThen (by decide) (by decide) (good_ret' _ rfl rfl))) rfl rfl
      rw [if_neg k6]
      by_cases k7 : getCurrentTokenType env s = .readsym
      · rw [if_pos k7]
        refine good_emitThen (by decide) (by decide) ?_
        dsimp only
        split_ifs
        · exact good_ret' _ rfl rfl
        · split
          · exact good_nullDeref _
          · split_ifs
            all_goals first
              | exact good_ret' _ rfl rfl
              | exact Good.of_same (s := nextToken (nextToken (pushed .SIO_READ 0 0 0 s)))
                  (good_emitThen (by decide) (by decide) (good_ret _ _)) rfl rfl
      rw [if_neg k7]
      exact good_ret _ _
    · intro s
      rw [beginLoop]
      split_ifs
      · exact good_onOk ((ihS _).of_same rfl rfl) fun s1 _ => ihB s1
      · exact good_ret _ _

theorem statement_good (n : Nat) (env : Env) (s : State) : Good s (statement n env s) :=
  (statement_group_good env n).1 s

/-- Entered at a token that is not `procedure`, the loop of `proc_declaration()`
returns at once. -/
theorem procLoop_none (n : Nat) (env : Env) (symbol : Symbol) (s : State)
    (hp : getCurrentTokenType env s ≠ .procsym) : procLoop (n + 1) env symbol s = .ret 0 s := by
  rw [procLoop, if_neg hp]

/-- The calls behind a result 0 of the loop of `proc_declaration()` entered at
`procedure`: the block of the first procedure, then the loop again. -/
theorem procLoop_ret_zero (n : Nat) (env : Env) (symbol : Symbol) (s s' : State)
    (hp : getCurrentTokenType env s = .procsym)
    (h : procLoop (n + 1) env symbol s = .ret 0 s') :
    ∃ (sym : Symbol) (s1 : State),
      (sym.name = (getCurrentToken env (nextToken s)).lexeme ∧
          sym.address = (s.nextCodeIndex : Int) ∧ sym.level = s.currentLevel ∧
          sym.scope = s.currentScope) ∧
        block n env (enterProc (addSymbol sym (nextToken (nextToken (nextToken s)))))
          = .ret 0 s1 ∧
        procLoop n env sym (nextToken (leaveProc s1)) = .ret 0 s' := by
  rw [procLoop, if_pos hp] at h
  dsimp only at h
  by_cases h1 : getCurrentTokenType env (nextToken s) ≠ .identsym
  · rw [if_pos h1] at h
    exact absurd (ret_zero_inj h).1 (by decide)
  rw [if_neg h1] at h
  by_cases h2 : getCurrentTokenType env (nextToken (nextToken s)) ≠ .semicolonsym
  · rw [if_pos h2] at h
    exact absurd (ret_zero_inj h).1 (by decide)
  rw [if_neg h2] at h
  split at h
  · rename_i err s1 heq
    by_cases h3 : err ≠ 0
    · rw [if_pos h3] at h
      exact absurd (ret_zero_inj h).1 h3
    rw [if_neg h3] at h
    have h3' : err = 0 := by omega
    subst h3'
    by_cases h4 : getCurrentTokenType env (leaveProc s1) ≠ .semicolonsym
    · rw [if_pos h4] at h
      exact absurd (ret_zero_inj h).1 (by decide)
    rw [if_neg h4] at h
    exact ⟨_, s1, ⟨rfl, rfl, rfl, rfl⟩, heq, h⟩
  · cases h
  · cases h
  · cases h
  · cases h

theorem block_group_good (env : Env) : ∀ n : Nat,
    (∀ s, Good s (block n env s)) ∧ (∀ s, Good s (proc_declaration n env s)) ∧
      (∀ symbol s, Good s (procLoop n env symbol s)) := by
  intro n
  induction n with
  | zero =>
    refine ⟨?_, ?_, ?_⟩
    · intro s; rw [block]; exact good_outOfFuel s
    · intro s; rw [proc_declaration]; exact good_outOfFuel s
    · intro symbol s; rw [procLoop]; exact good_outOfFuel s
  | succ n ih =>
    obtain ⟨ihB, ihP, ihL⟩ := ih
    have body : ∀ (sc : ScopePtr) (s0 : State),
        Good s0 ((const_declaration n env s0).onOk fun s1 =>
          (var_declaration n env s1).onOk fun s2 =>
            (proc_declaration n env s2).onOk fun s3 =>
              (statement n env (setScope (addrOfTempScope sc) s3)).onOk fun s4 =>
                .ret 0 (setScope sc s4)) := by
      intro sc s0
      exact good_onOk (const_declaration_good n env s0) fun s1 _ =>
        good_onOk (var_declaration_good n env s1) fun s2 _ =>
          good_onOk (ihP s2) fun s3 _ =>
            good_onOk ((statement_good n env _).of_same rfl rfl) fun s4 _ =>
              good_ret' _ rfl rfl
    refine ⟨?_, ?_, ?_⟩
    · intro s
      rw [block_eq]
      by_cases hs : s.currentScope ≠ NULL
      · rw [if_pos hs]
        exact good_emitThen (by decide) (by decide) (body _ _)
      · rw [if_neg hs]
        exact body _ _
    · intro s
      by_cases hp : getCurrentTokenType env s = .procsym
      · intro s' hs'
        obtain ⟨sl, hl, hlt, e1, _, hn, e2, e3, e4⟩ :=
          proc_declaration_ret_zero n env s s' hp hs'
        obtain ⟨_, gl⟩ := ihL _ (pushed .JMP 0 0 0 s) sl hl
        have gl' : SegOK sl.vmCode (s.nextCodeIndex + 1) sl.nextCodeIndex := gl
        refine ⟨⟨by omega, fun k hk => ?_⟩, fun i hlo hhi => ?_⟩
        · rw [e2 k (by omega) (by omega)]
          exact e1 k hk
        · by_cases c1 : i = s.nextCodeIndex
          · subst c1
            exact jumpOK_jmp_forward e4 (by omega) (Nat.le_refl _)
          by_cases c2 : i < sl.nextCodeIndex
          · exact jumpOK_of_seg gl' (by omega) c2 (by omega) (by omega)
              fun k hk1 hk2 => e2 k (by omega) (by omega)
          · have c3 : i = sl.nextCodeIndex := by omega
            subst c3
            exact jumpOK_plain (by rw [e3]; decide) (by rw [e3]; decide)
      · rw [proc_declaration_none_eq n env s hp]
        cases n with
        | zero => rw [procLoop]; exact good_outOfFuel s
        | succ n =>
          rw [procLoop_none n env _ s hp]
          intro s' hs'
          simp only [Outcome.onOk, if_true] at hs'
          obtain ⟨_, h1⟩ := setM_ret_patched hs'
          have he := (ret_zero_inj h1).2
          rw [← he]
          refine ⟨⟨Nat.le_refl _, fun k hk => ?_⟩, SegOK.nil _ _⟩
          simp [patched, Function.update_noteq (Nat.ne_of_lt hk)]
    · intro symbol s
      by_cases hp : getCurrentTokenType env s = .procsym
      · intro s' hs'
        obtain ⟨sym, s1, _, hb, hl⟩ := procLoop_ret_zero n env symbol s s' hp hs'
        have hg : Good (enterProc (addSymbol sym (nextToken (nextToken (nextToken s)))))
            ((block n env (enterProc (addSymbol sym (nextToken (nextToken (nextToken s)))))).onOk
              fun s1 => procLoop n env sym (nextToken (leaveProc s1))) :=
          good_onOk (ihB _) fun s1 _ => (ihL _ _).of_same rfl rfl
        have hr : ((block n env
            (enterProc (addSymbol sym (nextToken (nextToken (nextToken s)))))).onOk
              fun s1 => procLoop n env sym (nextToken (leaveProc s1))) = .ret 0 s' := by
          rw [hb]
          simpa [Outcome.onOk] using hl
        exact hg s' hr
      · rw [procLoop_none n env symbol s hp]
        exact good_ret _ _

theorem block_good (n : Nat) (env : Env) (s : State) : Good s (block n env s) :=
  (block_group_good env n).1 s

/-- The calls behind a result 0 of `program()`: the block, and the halt
instruction emitted behind its code. -/
theorem program_ret_zero (n : Nat) (env : Env) (s s' : State)
    (h : program n env s = .ret 0 s') :
    ∃ sb : State, block n env s = .ret 0 sb ∧ s' = pushed .SIO_HALT 0 0 3 (nextToken sb) := by
  unfold program at h
  obtain ⟨sb, hb, h1⟩ := Outcome.onOk_ret_zero h
  by_cases hp : getCurrentTokenType env sb = .periodsym
  · rw [if_pos hp] at h1
    obtain ⟨_, h2⟩ := emitThen_ret_pushed h1
    exact ⟨sb, hb, (ret_zero_inj h2).2.symm⟩
  · rw [if_neg hp] at h1
    exact absurd (ret_zero_inj h1).1 (by decide)

end CodeGenerator

/-! ## Code generator: where the body of a procedure starts -/

namespace CodeGenerator

/-- Entered with `currentScope != NULL`, `block()` leaves `INC 0 0 4` in the
slot at its entry index, however it returns. -/
theorem block_frame_instruction (n : Nat) (env : Env) (s s' : State) (err : Nat)
    (hscope : s.currentScope ≠ NULL) (hret : block (n + 1) env s = .ret err s') :
    s.nextCodeIndex < s'.nextCodeIndex ∧
      s'.vmCode s.nextCodeIndex = { op := .INC, r := 0, l := 0, m := 4 } := by
  rw [block_eq, if_pos hscope, emitThen_eq] at hret
  by_cases hfull : s.nextCodeIndex = env.maxCodeLength
  · rw [if_pos hfull] at hret; cases hret
  · rw [if_neg hfull] at hret
    have hk := block_body_keeps n env (proc_declaration_keeps n env) s.currentScope
      (s.nextCodeIndex + 1) (pushed .INC 0 0 4 s).vmCode (pushed .INC 0 0 4 s)
      (Keeps.self (pushed .INC 0 0 4 s)) err s' hret
    refine ⟨hk.1, ?_⟩
    rw [hk.2 s.nextCodeIndex (Nat.lt_succ_self _)]
    simp [pushed]

/-- The address that the loop of `proc_declaration()` records for a procedure
is the index at which the code of its body starts: when the loop returns 0, the
record made for the first procedure has the address `nextCodeIndex` of the
entry state, `block()` was called for the body with that `nextCodeIndex`, and
the slot at that index holds the `INC 0 0 4` that opens the body. -/
theorem procLoop_body_at_address (n : Nat) (env : Env) (symbol : Symbol) (s s' : State)
    (hp : getCurrentTokenType env s = .procsym)
    (hscope : (enterProc s).currentScope ≠ NULL)
    (h : procLoop (n + 2) env symbol s = .ret 0 s') :
    ∃ (sym : Symbol) (s1 : State),
      sym.name = (getCurrentToken env (nextToken s)).lexeme ∧
        sym.level = s.currentLevel ∧ sym.scope = s.currentScope ∧
        sym.address = (s.nextCodeIndex : Int) ∧
        block (n + 1) env (enterProc (addSymbol sym (nextToken (nextToken (nextToken s)))))
          = .ret 0 s1 ∧
        s'.vmCode s.nextCodeIndex = { op := .INC, r := 0, l := 0, m := 4 } := by
  obtain ⟨sym, s1, hsym, hb, hl⟩ := procLoop_ret_zero (n + 1) env symbol s s' hp h
  obtain ⟨hn, ha, hlv, hsc⟩ := hsym
  obtain ⟨hlt, hinc⟩ := block_frame_instruction n env
    (enterProc (addSymbol sym (nextToken (nextToken (nextToken s))))) s1 0 hscope hb
  have f := procLoop_keeps (n + 1) env sym (s.nextCodeIndex + 1) s1.vmCode
    (nextToken (leaveProc s1)) ⟨hlt, fun _ _ => rfl⟩ 0 s' hl
  refine ⟨sym, s1, hn, hlv, hsc, ha, hb, ?_⟩
  rw [f.2 s.nextCodeIndex (Nat.lt_succ_self _)]
  exact hinc

end CodeGenerator

/-! ## Code generator: declarations, procedures, calls and jumps on the code -/

namespace CodeGenerator

/-- C11, as stated, fails: entered on `var x ;` with a full buffer,
`var_declaration()` does not return (its `emit` ends the process); and at level
1073741824 the address it records for `x` is 1, the 32-bit value of
`4 * 1073741824 + 1`. -/
theorem var_declaration_full_buffer_exits :
    (var_declaration 10 (specEnv exampleVarOne) (stateFull (specEnv exampleVarOne))).ending
        = .exit ∧
      (var_declaration 10 (specEnv exampleVarOne) (stateAtLevel 1073741824 [])).symbols
        = [{ type := .VAR, name := "x", value := 0, level := 1073741824, address := 1,
             scope := NULL }] := by
  decide

/-- C11 (amended): for a declaration list `var id1 , ... , idN ;` (N >= 1) read
at level L while the buffer is not full and `4 * L + N` is below 2^31,
`var_declaration()` (with fuel for N names) returns 0 after the `;` and appends
exactly N records to the symbol table, in order, the i-th one being a `VAR`
with the name idi, the level L, the current scope and the address `4 * L + i`;
the N addresses are pairwise distinct. -/
theorem var_declaration_records_each_variable (n : Nat) (env : Env) (s : State)
    (ids : List String)
    (hvar : getCurrentTokenType env s = .varsym)
    (hlist : VarList env.tokens (s.currentTokenInd + 1) ids)
    (hroom : s.nextCodeIndex ≠ env.maxCodeLength)
    (hfit : 4 * s.currentLevel + ids.length < 2147483648)
    (hfuel : ids.length ≤ n) :
    ∃ (s' : State) (syms : List Symbol),
      var_declaration n env s = .ret 0 s' ∧
        s'.symbolTable = s.symbolTable ++ syms ∧
        syms.length = ids.length ∧
        syms.map Symbol.declared = varRecords s.currentLevel s.currentScope 0 ids ∧
        (syms.map Symbol.address).Nodup ∧
        s'.currentTokenInd = s.currentTokenInd + 2 * ids.length + 1 := by
  obtain ⟨s', syms, h1, h2, h3, h4, _, _⟩ :=
    varLoop_list env s.currentLevel s.currentScope ids 0 n
      { type := .VAR, name := "", value := 0, level := s.currentLevel, address := 0,
        scope := s.currentScope }
      (pushed .INC 0 0 2 s) (Or.inl hvar) hlist hfuel (by omega) rfl rfl rfl rfl
  have hlen : syms.length = ids.length := by
    have := congrArg List.length h3
    simpa [varRecords_length] using this
  have hadr : syms.map Symbol.address
      = (varRecords s.currentLevel s.currentScope 0 ids).map fun y => y.2.2.2.2 := by
    rw [← h3, List.map_map]
    rfl
  refine ⟨s', syms, ?_, h2, hlen, h3, ?_, h4⟩
  · have hv : ¬ getCurrentTokenType env s ≠ .varsym := by simp [hvar]
    unfold var_declaration
    rw [if_neg hv, emitThen_eq, if_neg hroom]
    exact h1
  · rw [hadr]
    exact varRecords_nodup _ _ _ _

theorem var_declaration_records_each_variable_witness :
    ∃ (s' : State) (syms : List Symbol),
      var_declaration 3 (specEnv exampleVarThree) (stateAtLevel 2 []) = .ret 0 s' ∧
        s'.symbolTable = [] ++ syms ∧
        syms.length = 3 ∧
        syms.map Symbol.declared
          = [(.VAR, "a", 2, NULL, 9), (.VAR, "b", 2, NULL, 10), (.VAR, "c", 2, NULL, 11)] ∧
        (syms.map Symbol.address).Nodup ∧
        s'.currentTokenInd = 0 + 2 * 3 + 1 :=
  var_declaration_records_each_variable 3 (specEnv exampleVarThree) (stateAtLevel 2 [])
    ["a", "b", "c"] (by decide) (by decide) (by decide) (by decide) (by decide)

/-- C12: for `var x ;` (one variable) and for `var a , b , c ;` (three
variables) `var_declaration()` returns 0 having emitted the single instruction
`INC 0 0 2`: the modifier is the constant 2 and not the count of declared
variables, and the whole program `var a , b , c ; .` compiles to `INC 0 0 2`
and the halt instruction. -/
theorem var_declaration_reserves_two_slots :
    (var_declaration 10 (specEnv exampleVarOne) (initialState zeroCode)).ending
        = .returned 0 3 [{ op := .INC, r := 0, l := 0, m := 2 }] ∧
      (var_declaration 10 (specEnv exampleVarThree) (initialState zeroCode)).ending
        = .returned 0 7 [{ op := .INC, r := 0, l := 0, m := 2 }] ∧
      (program 10 (specEnv exampleVarThreeProgram) (initialState zeroCode)).ending
        = .returned 0 8 [{ op := .INC, r := 0, l := 0, m := 2 },
                         { op := .SIO_HALT, r := 0, l := 0, m := 3 }] := by
  decide

/-- C13, as stated, fails: for the global block of `var a , b , c ; .` no
`INC 0 0 4` is emitted; the first instruction `block()` emits is the `INC 0 0 2`
of the variable declaration, and the output of `codeGenerator` is that
instruction and the halt instruction. -/
theorem global_block_emits_no_frame_instruction :
    (block 10 (specEnv exampleVarThreeProgram) (initialState zeroCode)).ending
        = .returned 0 7 [{ op := .INC, r := 0, l := 0, m := 2 }] ∧
      (codeGenerator 10 (specEnv exampleVarThreeProgram) zeroCode).2
        = [{ op := .INC, r := 0, l := 0, m := 2 },
           { op := .SIO_HALT, r := 0, l := 0, m := 3 }] := by
  decide

/-- C13 (amended): a call of `block()` entered with `currentScope != NULL`, as
the body of a procedure is after `currentScope++`, first calls
`emit(INC, 0, 0, 4)` and only then compiles its declarations and its statement
(with a full buffer the process ends in that `emit`); in whatever state the call
returns, with whatever error code, the slot at the index it was entered with
holds `INC 0 0 4` and `nextCodeIndex` lies behind it. -/
theorem block_of_procedure_starts_with_frame_instruction (n : Nat) (env : Env) (s : State)
    (hscope : s.currentScope ≠ NULL) :
    block (n + 1) env s
        = (emitThen env .INC 0 0 4 s fun s0 =>
            (const_declaration n env s0).onOk fun s1 =>
              (var_declaration n env s1).onOk fun s2 =>
                (proc_declaration n env s2).onOk fun s3 =>
                  (statement n env (setScope (addrOfTempScope s.currentScope) s3)).onOk
                    fun s4 => .ret 0 (setScope s.currentScope s4)) ∧
      ∀ (err : Nat) (s' : State), block (n + 1) env s = .ret err s' →
        s.nextCodeIndex < s'.nextCodeIndex ∧
          s'.vmCode s.nextCodeIndex = { op := .INC, r := 0, l := 0, m := 4 } := by
  have heq := block_eq n env s
  rw [if_pos hscope] at heq
  exact ⟨heq, fun err s' hret => block_frame_instruction n env s s' err hscope hret⟩

theorem block_of_procedure_starts_with_frame_instruction_witness :
    stateInProc.currentScope ≠ NULL ∧
      (block (9 + 1) (specEnv exampleVarOne) stateInProc).ending
        = .returned 0 3 [{ op := .INC, r := 0, l := 0, m := 4 },
                         { op := .INC, r := 0, l := 0, m := 2 }] ∧
      ∀ (err : Nat) (s' : State),
        block (9 + 1) (specEnv exampleVarOne) stateInProc = .ret err s' →
          stateInProc.nextCodeIndex < s'.nextCodeIndex ∧
            s'.vmCode stateInProc.nextCodeIndex = { op := .INC, r := 0, l := 0, m := 4 } :=
  ⟨by decide, by decide,
    (block_of_procedure_starts_with_frame_instruction 9 (specEnv exampleVarOne) stateInProc
      (by decide)).2⟩

/-- C14: on `procedure p ; ; procedure q ; ; .` the program compiles to
`JMP 0 0 4`, `INC 0 0 4` (the body of `p`), `INC 0 0 4` (the body of `q`),
`RTN 0 0 0` and the halt instruction: the instruction after the last one of the
block of `p` is the first one of the body of `q`, not `RTN`, and the two
procedures share one `RTN`. -/
theorem two_procedures_share_one_return :
    (program 10 (specEnv exampleTwoProcs) (initialState zeroCode)).ending
        = .returned 0 9 [{ op := .JMP, r := 0, l := 0, m := 4 },
                         { op := .INC, r := 0, l := 0, m := 4 },
                         { op := .INC, r := 0, l := 0, m := 4 },
                         { op := .RTN, r := 0, l := 0, m := 0 },
                         { op := .SIO_HALT, r := 0, l := 0, m := 3 }] := by
  decide

/-- C15: a call of `block()` that returns 0 has gone through the frame
instruction (state `s0`), `const_declaration()` (state `s1`),
`var_declaration()` (state `sp`), `proc_declaration()` (state `s3`) and
`statement()`, which was entered with `nextCodeIndex = s3.nextCodeIndex`.  When
the block declares a procedure (the token at `sp` is `procedure`), exactly one
`JMP` was emitted, at `sp.nextCodeIndex`, before the loop over the procedure
bodies started; that loop and the one `RTN` behind it lie between the `JMP` and
`s3.nextCodeIndex`; and when `block()` returns the `JMP` has the modifier
`s3.nextCodeIndex`, the index at which `statement()` was entered. -/
theorem procedure_skip_jump_targets_statement (n : Nat) (env : Env) (s : State)
    (hret : (block (n + 2) env s).code = some 0) :
    ∃ s0 s1 sp s3 s4 s' : State,
      s0 = (if s.currentScope ≠ NULL then pushed .INC 0 0 4 s else s) ∧
        const_declaration (n + 1) env s0 = .ret 0 s1 ∧
        var_declaration (n + 1) env s1 = .ret 0 sp ∧
        proc_declaration (n + 1) env sp = .ret 0 s3 ∧
        statement (n + 1) env (setScope (addrOfTempScope s.currentScope) s3) = .ret 0 s4 ∧
        block (n + 2) env s = .ret 0 s' ∧
        (getCurrentTokenType env sp = .procsym →
          (∃ sl : State,
            procLoop n env
                { type := .PROC, name := "", value := 0, level := 0, address := 0,
                  scope := NULL }
                (pushed .JMP 0 0 0 sp) = .ret 0 sl ∧
              sp.nextCodeIndex < sl.nextCodeIndex ∧
              s3.nextCodeIndex = sl.nextCodeIndex + 1) ∧
            s'.vmCode sp.nextCodeIndex
              = { op := .JMP, r := 0, l := 0, m := (s3.nextCodeIndex : Int) }) := by
  obtain ⟨s', hs'⟩ := Outcome.code_zero hret
  obtain ⟨s0, s1, sp, s3, s4, h0, h1, h2, h3, h4, h5⟩ := block_ret_zero (n + 1) env s s' hs'
  refine ⟨s0, s1, sp, s3, s4, s', h0, h1, h2, h3, h4, hs', fun hp => ?_⟩
  obtain ⟨sl, hl, hlt, _, _, hn, _, _, hj⟩ := proc_declaration_ret_zero n env sp s3 hp h3
  refine ⟨⟨sl, hl, hlt, hn⟩, ?_⟩
  have f : Keeps s3.nextCodeIndex s3.vmCode s4 :=
    statement_keeps (n + 1) env s3.nextCodeIndex s3.vmCode
      (setScope (addrOfTempScope s.currentScope) s3) (Keeps.self s3) 0 s4 h4
  have hv : s'.vmCode = s4.vmCode := by rw [h5]; rfl
  rw [hv, f.2 sp.nextCodeIndex (by omega), hj]

theorem procedure_skip_jump_targets_statement_witness :
    getCurrentTokenType (specEnv exampleOneProc) (initialState zeroCode) = .procsym ∧
      (block (8 + 2) (specEnv exampleOneProc) (initialState zeroCode)).ending
        = .returned 0 4 [{ op := .JMP, r := 0, l := 0, m := 3 },
                         { op := .INC, r := 0, l := 0, m := 4 },
                         { op := .RTN, r := 0, l := 0, m := 0 }] ∧
      ∃ s3 s4 s' : State,
        proc_declaration (8 + 1) (specEnv exampleOneProc) (initialState zeroCode) = .ret 0 s3 ∧
          statement (8 + 1) (specEnv exampleOneProc)
              (setScope (addrOfTempScope NULL) s3) = .ret 0 s4 ∧
          block (8 + 2) (specEnv exampleOneProc) (initialState zeroCode) = .ret 0 s' ∧
          s'.vmCode 0 = { op := .JMP, r := 0, l := 0, m := (s3.nextCodeIndex : Int) } := by
  refine ⟨by decide, by decide, ?_⟩
  obtain ⟨s0, s1, sp, s3, s4, s', h0, h1, h2, h3, h4, h5, h6⟩ :=
    procedure_skip_jump_targets_statement 8 (specEnv exampleOneProc) (initialState zeroCode)
      (by decide)
  have e0 : s0 = initialState zeroCode := h0
  subst e0
  have e1 : s1 = initialState zeroCode := (ret_zero_inj h1).2.symm
  subst e1
  have e2 : sp = initialState zeroCode := (ret_zero_inj h2).2.symm
  subst e2
  exact ⟨s3, s4, s', h3, h4, h5, (h6 (by decide)).2⟩

/-- C16: a `call p` statement that returns 0 has found a procedure symbol for
`p`, has advanced `nextCodeIndex` by one and has written into that one slot,
and into no other, the instruction `CAL` with register 0, with the level
difference `currentLevel - level` of the caller's level and the level recorded
in the symbol (computed on `unsigned int`, so it is the integer difference
whenever both levels are below 2^31), and with the address recorded in the
symbol as modifier. -/
theorem call_emits_one_cal (n : Nat) (env : Env) (s : State)
    (hcall : getCurrentTokenType env s = .callsym)
    (hret : (statement n env s).code = some 0) :
    ∃ (p : Symbol) (s' : State),
      env.findSymbol s.symbolTable s.currentScope
          (getCurrentToken env (nextToken s)).lexeme = some p ∧
        p.type = .PROC ∧
        statement n env s = .ret 0 s' ∧
        s'.nextCodeIndex = s.nextCodeIndex + 1 ∧
        s'.vmCode = Function.update s.vmCode s.nextCodeIndex
          { op := .CAL, r := 0, l := levelDiff s.currentLevel p.level, m := p.address } ∧
        (s.currentLevel < 2147483648 → p.level < 2147483648 →
          levelDiff s.currentLevel p.level = (s.currentLevel : Int) - (p.level : Int)) := by
  obtain ⟨p, hfind, _, htype, _, heq⟩ := statement_call_ret_zero n env s hcall hret
  exact ⟨p, _, hfind, htype, heq, rfl, rfl, levelDiff_eq _ _⟩

theorem call_emits_one_cal_witness :
    ∃ (p : Symbol) (s' : State),
      findSymbol tableDeepP NULL "p" = some p ∧
        p.type = .PROC ∧
        statement 10 (specEnv exampleCall) (stateAtLevel 5 tableDeepP) = .ret 0 s' ∧
        s'.nextCodeIndex = 0 + 1 ∧
        s'.vmCode = Function.update zeroCode 0
          { op := .CAL, r := 0, l := levelDiff 5 p.level, m := p.address } ∧
        ((5 : Nat) < 2147483648 → p.level < 2147483648 →
          levelDiff 5 p.level = ((5 : Nat) : Int) - (p.level : Int)) :=
  call_emits_one_cal 10 (specEnv exampleCall) (stateAtLevel 5 tableDeepP) (by decide) (by decide)

/-- C18: after a compilation that returns 0, every `JPC` in the buffer
`vmCode[0 .. nextCodeIndex)` has a modifier above its own index and below
`nextCodeIndex`; every `JMP` has a modifier from 0 up to below `nextCodeIndex`,
and a `JMP` whose modifier is not above its own index closes a `while` loop: it
leads back to an index `a`, and a `JPC` at an index from `a` on and before the
`JMP` leads to the index just behind the `JMP`. -/
theorem jumps_lead_into_the_code (n : Nat) (env : Env) (vmCode : Nat → Instruction)
    (hret : (program n env (initialState vmCode)).code = some 0) :
    ∃ s' : State,
      program n env (initialState vmCode) = .ret 0 s' ∧
        ∀ i, i < s'.nextCodeIndex →
          ((s'.vmCode i).op = .JPC →
              (i : Int) < (s'.vmCode i).m ∧ (s'.vmCode i).m < (s'.nextCodeIndex : Int)) ∧
            ((s'.vmCode i).op = .JMP →
              0 ≤ (s'.vmCode i).m ∧ (s'.vmCode i).m < (s'.nextCodeIndex : Int) ∧
                ((s'.vmCode i).m ≤ (i : Int) → ClosesWhile s'.vmCode 0 i)) := by
  obtain ⟨s', hs'⟩ := Outcome.code_zero hret
  obtain ⟨sb, hb, he⟩ := program_ret_zero n env _ s' hs'
  obtain ⟨_, gb⟩ := block_good n env (initialState vmCode) sb hb
  have gb' : SegOK sb.vmCode 0 sb.nextCodeIndex := gb
  have hn : s'.nextCodeIndex = sb.nextCodeIndex + 1 := by rw [he]; rfl
  have hlow : ∀ k, k < sb.nextCodeIndex → s'.vmCode k = sb.vmCode k := by
    intro k hk
    rw [he]
    have : k ≠ (nextToken sb).nextCodeIndex := Nat.ne_of_lt hk
    simp [pushed, Function.update_noteq this]
    rfl
  have hhalt : s'.vmCode sb.nextCodeIndex = { op := .SIO_HALT, r := 0, l := 0, m := 3 } := by
    rw [he]
    show (pushed .SIO_HALT 0 0 3 (nextToken sb)).vmCode (nextToken sb).nextCodeIndex = _
    simp [pushed]
  refine ⟨s', hs', fun i hi => ?_⟩
  by_cases c : i < sb.nextCodeIndex
  · have hj : JumpOK s'.vmCode 0 sb.nextCodeIndex i :=
      jumpOK_of_seg gb' (Nat.zero_le _) c (Nat.le_refl _) (Nat.le_refl _)
        fun k _ hk2 => hlow k (by omega)
    refine ⟨fun hop => ?_, fun hop => ?_⟩
    · have := hj.1 hop
      omega
    · rcases hj.2 hop with hf | hw
      · refine ⟨by omega, by omega, fun hle => ?_⟩
        omega
      · have hw' := hw
        obtain ⟨a, j, hm, _, haj, hji, _⟩ := hw'
        exact ⟨by omega, by omega, fun _ => hw⟩
  · have c' : i = sb.nextCodeIndex := by omega
    subst c'
    refine ⟨fun hop => ?_, fun hop => ?_⟩
    · rw [hhalt] at hop; simp at hop
    · rw [hhalt] at hop; simp at hop

theorem jumps_lead_into_the_code_witness :
    ((program 12 (specEnv exampleOneProc) (initialState zeroCode)).ending
        = .returned 0 5 [{ op := .JMP, r := 0, l := 0, m := 3 },
                         { op := .INC, r := 0, l := 0, m := 4 },
                         { op := .RTN, r := 0, l := 0, m := 0 },
                         { op := .SIO_HALT, r := 0, l := 0, m := 3 }] ∧
      ∃ s' : State,
        program 12 (specEnv exampleOneProc) (initialState zeroCode) = .ret 0 s' ∧
          ∀ i, i < s'.nextCodeIndex →
            ((s'.vmCode i).op = .JPC →
                (i : Int) < (s'.vmCode i).m ∧ (s'.vmCode i).m < (s'.nextCodeIndex : Int)) ∧
              ((s'.vmCode i).op = .JMP →
                0 ≤ (s'.vmCode i).m ∧ (s'.vmCode i).m < (s'.nextCodeIndex : Int) ∧
                  ((s'.vmCode i).m ≤ (i : Int) → ClosesWhile s'.vmCode 0 i))) ∧
      ((program 12 (byNameEnv exampleJumps) (initialState zeroCode)).ending
        = .returned 0 17 [{ op := .INC, r := 0, l := 0, m := 2 },
                          { op := .LOD, r := 0, l := 0, m := 1 },
                          { op := .ODD, r := 0, l := 0, m := 0 },
                          { op := .JPC, r := 0, l := 0, m := 9 },
                          { op := .LOD, r := 0, l := 0, m := 1 },
                          { op := .ODD, r := 0, l := 0, m := 0 },
                          { op := .JPC, r := 0, l := 0, m := 8 },
                          { op := .JMP, r := 0, l := 0, m := 8 },
                          { op := .JMP, r := 0, l := 0, m := 1 },
                          { op := .SIO_HALT, r := 0, l := 0, m := 3 }] ∧
      ∃ s' : State,
        program 12 (byNameEnv exampleJumps) (initialState zeroCode) = .ret 0 s' ∧
          ∀ i, i < s'.nextCodeIndex →
            ((s'.vmCode i).op = .JPC →
                (i : Int) < (s'.vmCode i).m ∧ (s'.vmCode i).m < (s'.nextCodeIndex : Int)) ∧
              ((s'.vmCode i).op = .JMP →
                0 ≤ (s'.vmCode i).m ∧ (s'.vmCode i).m < (s'.nextCodeIndex : Int) ∧
                  ((s'.vmCode i).m ≤ (i : Int) → ClosesWhile s'.vmCode 0 i))) :=
  ⟨⟨by decide,
      jumps_lead_into_the_code 12 (specEnv exampleOneProc) zeroCode (by decide)⟩,
    ⟨by decide,
      jumps_lead_into_the_code 12 (byNameEnv exampleJumps) zeroCode (by decide)⟩⟩

/-- C19: a statement `while c do s` that returns 0, entered with
`nextCodeIndex = i`: `condition()` has compiled `c` from index `i` on and left
the state `s1`, one `JPC` has been emitted at `s1.nextCodeIndex`, `statement()`
has compiled the body behind it and left the state `s2` without changing the
code of `c` or that `JPC`, and one `JMP` has been emitted at
`s2.nextCodeIndex`.  On return the code of `c` and the code of the body are as
those calls left them, the `JMP` has the modifier `i`, and the `JPC` has the
modifier `nextCodeIndex`, the index just after the `JMP`.  The body is any
statement, whatever it nests. -/
theorem while_statement_layout (n : Nat) (env : Env) (s : State)
    (hw : getCurrentTokenType env s = .whilesym)
    (hret : (statement (n + 1) env s).code = some 0) :
    ∃ s1 s2 s' : State,
      condition n env (nextToken s) = .ret 0 s1 ∧
        statement n env (nextToken (pushed .JPC 0 0 0 s1)) = .ret 0 s2 ∧
        statement (n + 1) env s = .ret 0 s' ∧
        s.nextCodeIndex ≤ s1.nextCodeIndex ∧ s1.nextCodeIndex < s2.nextCodeIndex ∧
        s'.nextCodeIndex = s2.nextCodeIndex + 1 ∧
        (∀ k, k < s1.nextCodeIndex → s2.vmCode k = s1.vmCode k) ∧
        s2.vmCode s1.nextCodeIndex = { op := .JPC, r := 0, l := 0, m := 0 } ∧
        (∀ k, k < s1.nextCodeIndex → s'.vmCode k = s1.vmCode k) ∧
        s'.vmCode s1.nextCodeIndex
          = { op := .JPC, r := 0, l := 0, m := (s'.nextCodeIndex : Int) } ∧
        (∀ k, s1.nextCodeIndex < k → k < s2.nextCodeIndex → s'.vmCode k = s2.vmCode k) ∧
        s'.vmCode s2.nextCodeIndex
          = { op := .JMP, r := 0, l := 0, m := (s.nextCodeIndex : Int) } := by
  obtain ⟨s', hs'⟩ := Outcome.code_zero hret
  obtain ⟨s1, s2, h⟩ := statement_while_ret_zero n env s s' hw hs'
  exact ⟨s1, s2, s', h.1, h.2.1, hs', h.2.2⟩

theorem while_statement_layout_witness :
    (statement (9 + 1) (specEnv exampleNestedLoops) (stateWith tableAB)).ending
        = .returned 0 16 [{ op := .LOD, r := 0, l := 0, m := 1 },
                          { op := .ODD, r := 0, l := 0, m := 0 },
                          { op := .JPC, r := 0, l := 0, m := 13 },
                          { op := .LOD, r := 0, l := 0, m := 2 },
                          { op := .ODD, r := 0, l := 0, m := 0 },
                          { op := .JPC, r := 0, l := 0, m := 12 },
                          { op := .LOD, r := 0, l := 0, m := 1 },
                          { op := .ODD, r := 0, l := 0, m := 0 },
                          { op := .JPC, r := 0, l := 0, m := 12 },
                          { op := .SIO_READ, r := 0, l := 0, m := 0 },
                          { op := .STO, r := 0, l := 0, m := 2 },
                          { op := .JMP, r := 0, l := 0, m := 6 },
                          { op := .JMP, r := 0, l := 0, m := 0 }] ∧
      ∃ s1 s2 s' : State,
        condition 9 (specEnv exampleNestedLoops) (nextToken (stateWith tableAB)) = .ret 0 s1 ∧
          statement 9 (specEnv exampleNestedLoops) (nextToken (pushed .JPC 0 0 0 s1))
            = .ret 0 s2 ∧
          statement (9 + 1) (specEnv exampleNestedLoops) (stateWith tableAB) = .ret 0 s' ∧
          (stateWith tableAB).nextCodeIndex ≤ s1.nextCodeIndex ∧
          s1.nextCodeIndex < s2.nextCodeIndex ∧
          s'.nextCodeIndex = s2.nextCodeIndex + 1 ∧
          (∀ k, k < s1.nextCodeIndex → s2.vmCode k = s1.vmCode k) ∧
          s2.vmCode s1.nextCodeIndex = { op := .JPC, r := 0, l := 0, m := 0 } ∧
          (∀ k, k < s1.nextCodeIndex → s'.vmCode k = s1.vmCode k) ∧
          s'.vmCode s1.nextCodeIndex
            = { op := .JPC, r := 0, l := 0, m := (s'.nextCodeIndex : Int) } ∧
          (∀ k, s1.nextCodeIndex < k → k < s2.nextCodeIndex → s'.vmCode k = s2.vmCode k) ∧
          s'.vmCode s2.nextCodeIndex
            = { op := .JMP, r := 0, l := 0, m := ((stateWith tableAB).nextCodeIndex : Int) } :=
  ⟨by decide,
    while_statement_layout 9 (specEnv exampleNestedLoops) (stateWith tableAB)
      (by decide) (by decide)⟩

/-- C20: on `if odd a then read a else read b` the `JPC` at index 2 ends with
the modifier 8, the index after the code of the `else` branch, and the `JMP` at
index 5 with the modifier 6, the index of the first instruction of the `else`
branch: the two targets are exchanged.  On `if odd a then read a` the `JPC`
ends with the modifier 5, the index after the code of the `then` branch. -/
theorem if_else_targets_are_exchanged :
    (statement 10 (specEnv exampleIfElse) (stateWith tableAB)).ending
        = .returned 0 9 [{ op := .LOD, r := 0, l := 0, m := 1 },
                         { op := .ODD, r := 0, l := 0, m := 0 },
                         { op := .JPC, r := 0, l := 0, m := 8 },
                         { op := .SIO_READ, r := 0, l := 0, m := 0 },
                         { op := .STO, r := 0, l := 0, m := 1 },
                         { op := .JMP, r := 0, l := 0, m := 6 },
                         { op := .SIO_READ, r := 0, l := 0, m := 0 },
                         { op := .STO, r := 0, l := 0, m := 2 }] ∧
      (statement 10 (specEnv exampleIf) (stateWith tableAB)).ending
        = .returned 0 6 [{ op := .LOD, r := 0, l := 0, m := 1 },
                         { op := .ODD, r := 0, l := 0, m := 0 },
                         { op := .JPC, r := 0, l := 0, m := 5 },
                         { op := .SIO_READ, r := 0, l := 0, m := 0 },
                         { op := .STO, r := 0, l := 0, m := 1 }] := by
  decide

end CodeGenerator

/-! ## Both modes: the empty statement; the error code of `factor` -/

namespace Parser

/-- Entered at a token that starts no statement, `statement()` returns 0 having
written its `NONTERM` line only. -/
theorem parser_statement_other (n : Nat) (ts : List Token) (s : State)
    (h : ¬ StartsStatement (getCurrentTokenType ts s)) :
    statement (n + 1) ts s = some (0, printNonTerminal .STATEMENT s) := by
  have h' : ¬ StartsStatement (getCurrentTokenType ts (printNonTerminal .STATEMENT s)) := h
  simp only [StartsStatement, not_or] at h'
  obtain ⟨h1, h2, h3, h4, h5, h6, h7⟩ := h'
  rw [statement]
  rw [if_neg h1, if_neg h2, if_neg h3, if_neg h4, if_neg h5, if_neg h6, if_neg h7]

/-- Entered at a token that starts no factor, `factor()` returns 14 having
written its `NONTERM` line only. -/
theorem parser_factor_other (n : Nat) (ts : List Token) (s : State)
    (h : ¬ StartsFactor (getCurrentTokenType ts s)) :
    factor (n + 1) ts s = some (14, printNonTerminal .FACTOR s) := by
  have h' : ¬ StartsFactor (getCurrentTokenType ts (printNonTerminal .FACTOR s)) := h
  simp only [StartsFactor, not_or] at h'
  obtain ⟨h1, h2, h3⟩ := h'
  rw [factor]
  rw [if_neg h1, if_neg h2, if_neg h3]

end Parser

namespace CodeGenerator

/-- Entered at a token that starts no statement, `statement()` returns 0 and
leaves every global as it is. -/
theorem statement_other (n : Nat) (env : Env) (s : State)
    (h : ¬ StartsStatement (getCurrentTokenType env s)) :
    statement (n + 1) env s = .ret 0 s := by
  simp only [StartsStatement, not_or] at h
  obtain ⟨h1, h2, h3, h4, h5, h6, h7⟩ := h
  rw [statement, if_neg h1, if_neg h2, if_neg h3, if_neg h4, if_neg h5, if_neg h6, if_neg h7]

/-- Entered at a token that starts no factor, with a lookup that finds a record,
the code generator's `factor()` returns 24. -/
theorem factor_other (n : Nat) (env : Env) (s : State) (currSym : Symbol)
    (hf : env.findSymbol s.symbolTable s.currentScope (getCurrentToken env s).lexeme
      = some currSym)
    (h : ¬ StartsFactor (getCurrentTokenType env s)) :
    factor (n + 1) env s = .ret 24 s := by
  simp only [StartsFactor, not_or] at h
  obtain ⟨h1, h2, h3⟩ := h
  rw [factor, hf]
  dsimp only
  rw [if_neg h1, if_neg h2, if_neg h3]

/-- Entered at a token that is not `procedure`, `proc_declaration()` still
writes `vmCode[codeIndex].m = nextCodeIndex` with `codeIndex = nextCodeIndex`:
into the first slot that is not emitted, or past the end of a full buffer. -/
theorem proc_declaration_no_procedure (n : Nat) (env : Env) (s : State)
    (hp : getCurrentTokenType env s ≠ .procsym) :
    proc_declaration (n + 2) env s
      = if s.nextCodeIndex < env.maxCodeLength then
          .ret 0 (patched s.nextCodeIndex (s.nextCodeIndex : Int) s)
        else .outOfBounds := by
  rw [proc_declaration_none_eq (n + 1) env s hp, procLoop_none n env _ s hp]
  simp only [Outcome.onOk, if_true]
  rw [setM_eq]

end CodeGenerator

/-! ## The empty statement, the error code of `factor`, the patch of `proc_declaration` -/

/-- C21: in both modes `statement()`, entered at a token whose kind is none of
identifier, `call`, `begin`, `if`, `while`, `write`, `read` (the sentinel past
the end of the list included), returns 0.  The parser leaves the token
position, the symbol table and the level as they were (it only writes its
`NONTERM` line); the code generator leaves every global as it was, so also
the instruction buffer and `nextCodeIndex`. -/
theorem statement_falls_through (n : Nat) (ts : List Token) (s : Parser.State)
    (env : CodeGenerator.Env) (g : CodeGenerator.State)
    (hs : ¬ StartsStatement (Parser.getCurrentTokenType ts s))
    (hg : ¬ StartsStatement (CodeGenerator.getCurrentTokenType env g)) :
    (∃ s', Parser.statement (n + 1) ts s = some (0, s')
      ∧ s'.currentTokenInd = s.currentTokenInd ∧ s'.symbolTable = s.symbolTable
      ∧ s'.currentLevel = s.currentLevel ∧ s'.out = s.out ++ [.nonterm .STATEMENT])
    ∧ CodeGenerator.statement (n + 1) env g = .ret 0 g :=
  ⟨⟨_, Parser.parser_statement_other n ts s hs, rfl, rfl, rfl, rfl⟩,
    CodeGenerator.statement_other n env g hg⟩

/-- Instance: `statement()` entered at the token `end`, and at the sentinel
past the end of the empty list. -/
theorem statement_falls_through_witness :
    (¬ StartsStatement (Parser.getCurrentTokenType exampleEnd Parser.initialState)
      ∧ ¬ StartsStatement (CodeGenerator.getCurrentTokenType (CodeGenerator.specEnv [])
          (CodeGenerator.initialState CodeGenerator.zeroCode)))
    ∧ ((∃ s', Parser.statement 1 exampleEnd Parser.initialState = some (0, s')
        ∧ s'.currentTokenInd = Parser.initialState.currentTokenInd
        ∧ s'.symbolTable = Parser.initialState.symbolTable
        ∧ s'.currentLevel = Parser.initialState.currentLevel
        ∧ s'.out = Parser.initialState.out ++ [.nonterm .STATEMENT])
      ∧ CodeGenerator.statement 1 (CodeGenerator.specEnv [])
          (CodeGenerator.initialState CodeGenerator.zeroCode)
        = .ret 0 (CodeGenerator.initialState CodeGenerator.zeroCode)) :=
  ⟨⟨by decide, by decide⟩,
    statement_falls_through 0 exampleEnd Parser.initialState (CodeGenerator.specEnv [])
      (CodeGenerator.initialState CodeGenerator.zeroCode) (by decide) (by decide)⟩

/-- C25: the parser's `factor()`, entered at a token that is not an identifier,
a number or `(`, consumes no token and returns 14, where the comment of that
branch says 24, the code that the code generator's `factor()` returns for
that condition; the parse of `var x; x := 1 + end.` returns 14. -/
theorem parser_factor_returns_14 :
    (Parser.program 12 exampleBadFactor Parser.initialState).map Prod.fst = some 14
    ∧ (∀ (n : Nat) (ts : List Token) (s : Parser.State),
        ¬ StartsFactor (Parser.getCurrentTokenType ts s) →
        Parser.factor (n + 1) ts s = some (14, Parser.printNonTerminal .FACTOR s))
    ∧ (∀ (n : Nat) (env : CodeGenerator.Env) (g : CodeGenerator.State) (currSym : Symbol),
        env.findSymbol g.symbolTable g.currentScope (CodeGenerator.getCurrentToken env g).lexeme
          = some currSym →
        ¬ StartsFactor (CodeGenerator.getCurrentTokenType env g) →
        CodeGenerator.factor (n + 1) env g = .ret 24 g) :=
  ⟨by decide, Parser.parser_factor_other, CodeGenerator.factor_other⟩

namespace CodeGenerator

/-- C27: `proc_declaration()` writes `vmCode[codeIndex].m = nextCodeIndex` also
when it was entered at a token other than `procedure`, where `codeIndex` is
`nextCodeIndex` itself: the write lands on the first slot that is not emitted,
and past the end of the buffer when the buffer is full.  In the body of `p` in
`procedure p ; ; .` the slot 2 is written while `nextCodeIndex` is 2; with a
buffer of four slots, `var a ; procedure p ; var x ; ; .` fills the buffer and
then writes the slot 4. -/
theorem proc_declaration_patches_unemitted_slot :
    (∀ (n : Nat) (env : Env) (s : State), getCurrentTokenType env s ≠ .procsym →
      proc_declaration (n + 2) env s
        = if s.nextCodeIndex < env.maxCodeLength then
            .ret 0 (patched s.nextCodeIndex (s.nextCodeIndex : Int) s)
          else .outOfBounds)
    ∧ (block 9 (specEnv exampleOneProc) stateAtBodyOfP).nextSlot
        = some (2, { op := .LIT, r := 0, l := 0, m := 2 })
    ∧ (program 12 (specEnv exampleOneProc) (initialState zeroCode)).ending
        = .returned 0 5 [⟨.JMP, 0, 0, 3⟩, ⟨.INC, 0, 0, 4⟩, ⟨.RTN, 0, 0, 0⟩, ⟨.SIO_HALT, 0, 0, 3⟩]
    ∧ (program 12 (smallEnv exampleVarInProc) (initialState zeroCode)).ending = .outOfBounds :=
  ⟨proc_declaration_no_procedure, by decide, by decide, rfl⟩

end CodeGenerator

/-! ## Code generator: the register field of the emitted instructions -/

namespace CodeGenerator

theorem RegOK.push {s : State} (h : RegOK s) (OP : Opcode) (L M : Int) :
    RegOK (CodeGenerator.pushed OP 0 L M s) := by
  refine ⟨h.1, fun i hi => ?_⟩
  by_cases hi' : i = s.nextCodeIndex
  · subst hi'
    simp [CodeGenerator.pushed]
  · have hlt : i < s.nextCodeIndex := by
      have : i < s.nextCodeIndex + 1 := hi
      omega
    simp only [CodeGenerator.pushed, Function.update_noteq hi']
    exact h.2 i hlt

theorem RegOK.pushed_cur {s : State} (h : RegOK s) (OP : Opcode) (L M : Int) :
    RegOK (CodeGenerator.pushed OP s.currentReg L M s) := by
  have h0 := h.1
  have hp := h.push OP L M
  rw [h0]
  exact hp

theorem RegOK.patch {s : State} (h : RegOK s) (i : Nat) (M : Int) :
    RegOK (CodeGenerator.patched i M s) := by
  refine ⟨h.1, fun j hj => ?_⟩
  by_cases hj' : j = i
  · subst hj'
    simp only [CodeGenerator.patched, Function.update_same]
    exact h.2 j hj
  · simp only [CodeGenerator.patched, Function.update_noteq hj']
    exact h.2 j hj

theorem reg_ret {s : State} (e : Nat) (h : RegOK s) : (Outcome.ret e s).Leaves RegOK :=
  Outcome.leaves_ret h

theorem reg_emitThen {s : State} {env : Env} {OP : Opcode} {L M : Int}
    {k : State → Outcome} (h : RegOK s) (hk : ∀ s1, RegOK s1 → (k s1).Leaves RegOK) :
    (emitThen env OP 0 L M s k).Leaves RegOK :=
  leaves_emitThen (hk _ (h.push OP L M))

theorem reg_emitThen_cur {s : State} {env : Env} {OP : Opcode} {L M : Int}
    {k : State → Outcome} (h : RegOK s) (hk : ∀ s1, RegOK s1 → (k s1).Leaves RegOK) :
    (emitThen env OP s.currentReg L M s k).Leaves RegOK :=
  leaves_emitThen (hk _ (h.pushed_cur OP L M))

theorem reg_setM {s : State} {env : Env} {i : Nat} {M : Int} {k : State → Outcome}
    (h : RegOK s) (hk : ∀ s1, RegOK s1 → (k s1).Leaves RegOK) :
    (setM env i M s k).Leaves RegOK :=
  leaves_setM (hk _ (h.patch i M))

theorem reg_onOk {o : Outcome} {k : State → Outcome} (ho : o.Leaves RegOK)
    (hk : ∀ s1, RegOK s1 → (k s1).Leaves RegOK) : (o.onOk k).Leaves RegOK :=
  Outcome.leaves_onOk ho hk

theorem constLoop_regs (env : Env) : ∀ (n : Nat) (symbol : Symbol),
    Regs (constLoop n env symbol) := by
  intro n
  induction n with
  | zero => intro symbol s _; exact Outcome.leaves_outOfFuel
  | succ n ih =>
    intro symbol s h
    rw [constLoop]
    dsimp only
    split_ifs
    · exact reg_ret _ h
    · exact reg_ret _ h
    · exact reg_ret _ h
    · exact ih _ _ h
    · exact reg_ret _ h
    · exact reg_ret _ h

theorem const_declaration_regs (n : Nat) (env : Env) : Regs (const_declaration n env) := by
  intro s h
  unfold const_declaration
  dsimp only
  split_ifs
  · exact reg_ret _ h
  · exact reg_ret _ h
  · exact reg_ret _ h
  · exact reg_ret _ h
  · exact constLoop_regs env n _ _ h

theorem varLoop_regs (env : Env) : ∀ (n : Nat) (symbol : Symbol) (varNum : Nat),
    Regs (varLoop n env symbol varNum) := by
  intro n
  induction n with
  | zero => intro symbol varNum s _; exact Outcome.leaves_outOfFuel
  | succ n ih =>
    intro symbol varNum s h
    rw [varLoop]
    dsimp only
    split_ifs
    all_goals first
      | exact reg_ret _ h
      | exact ih _ _ _ h

theorem var_declaration_regs (n : Nat) (env : Env) : Regs (var_declaration n env) := by
  intro s h
  unfold var_declaration
  dsimp only
  split_ifs
  · exact reg_ret _ h
  · exact reg_emitThen h fun s1 h1 => varLoop_regs env n _ _ s1 h1

theorem expression_group_regs (env : Env) : ∀ n : Nat,
    Regs (expression n env) ∧ (∀ op, Regs (expressionLoop n env op)) ∧
      Regs (term n env) ∧ (∀ op, Regs (termLoop n env op)) ∧ Regs (factor n env) := by
  intro n
  induction n with
  | zero =>
    refine ⟨?_, ?_, ?_, ?_, ?_⟩
    · intro s _; rw [expression]; exact Outcome.leaves_outOfFuel
    · intro op s _; rw [expressionLoop]; exact Outcome.leaves_outOfFuel
    · intro s _; rw [term]; exact Outcome.leaves_outOfFuel
    · intro op s _; rw [termLoop]; exact Outcome.leaves_outOfFuel
    · intro s _; rw [factor]; exact Outcome.leaves_outOfFuel
  | succ n ih =>
    obtain ⟨ihE, ihEL, ihT, ihTL, ihF⟩ := ih
    refine ⟨?_, ?_, ?_, ?_, ?_⟩
    · intro s h
      rw [expression]
      refine reg_onOk ?_ fun s1 h1 =>
        reg_onOk (ihT s1 h1) fun s2 h2 => ihEL _ s2 h2
      split_ifs
      all_goals first
        | exact reg_ret _ h
        | exact reg_onOk (ihT _ h) fun s1 h1 => reg_ret _ h1
        | exact reg_onOk (ihT _ h) fun s1 h1 =>
            reg_emitThen h1 fun s2 h2 => reg_ret _ h2
    · intro op s h
      rw [expressionLoop]
      split_ifs
      all_goals first
        | exact reg_ret _ h
        | exact reg_onOk (ihT _ h) fun s1 h1 =>
            reg_emitThen h1 fun s2 h2 => ihEL _ s2 h2
    · intro s h
      rw [term]
      exact reg_onOk (ihF s h) fun s1 h1 => ihTL _ s1 h1
    · intro op s h
      rw [termLoop]
      split_ifs
      all_goals first
        | exact reg_ret _ h
        | exact reg_onOk (ihF _ h) fun s1 h1 =>
            reg_emitThen h1 fun s2 h2 => ihTL _ s2 h2
    · intro s h
      rw [factor]
      split
      · exact reg_ret _ h
      · split_ifs
        · exact reg_ret _ h
        · exact reg_emitThen h fun s1 h1 => reg_ret _ h1
        · exact reg_emitThen h fun s1 h1 => reg_ret _ h1
        · exact reg_emitThen h fun s1 h1 => reg_ret _ h1
        · refine reg_onOk (ihE _ h) fun s1 h1 => ?_
          split_ifs
          · exact reg_ret _ h1
          · exact reg_ret _ h1
        · exact reg_ret _ h

theorem expression_regs (n : Nat) (env : Env) : Regs (expression n env) :=
  (expression_group_regs env n).1

theorem condition_regs (n : Nat) (env : Env) : Regs (condition n env) := by
  intro s h
  unfold condition
  split_ifs
  · exact reg_onOk (expression_regs n env _ h) fun s1 h1 =>
      reg_emitThen_cur h1 fun s2 h2 => reg_ret _ h2
  · refine reg_onOk (expression_regs n env _ h) fun s1 h1 => ?_
    split_ifs
    all_goals first
      | exact reg_emitThen_cur h1 fun s2 h2 => reg_ret _ h2
      | exact reg_ret _ h1

theorem statement_group_regs (env : Env) : ∀ n : Nat,
    Regs (statement n env) ∧ Regs (beginLoop n env) := by
  intro n
  induction n with
  | zero =>
    refine ⟨?_, ?_⟩
    · intro s _; rw [statement]; exact Outcome.leaves_outOfFuel
    · intro s _; rw [beginLoop]; exact Outcome.leaves_outOfFuel
  | succ n ih =>
    obtain ⟨ihS, ihB⟩ := ih
    refine ⟨?_, ?_⟩
    · intro s h
      rw [statement]
      by_cases k1 : getCurrentTokenType env s = .identsym
      · rw [if_pos k1]
        split
        · exact Outcome.leaves_nullDeref
        · dsimp only
          split_ifs
          all_goals first
            | exact reg_ret _ h
            | exact reg_onOk (expression_regs n env _ h) fun s1 h1 => reg_ret _ h1
      rw [if_neg k1]
      by_cases k2 : getCurrentTokenType env s = .callsym
      · rw [if_pos k2]
        dsimp only
        split_ifs
        · exact reg_ret _ h
        · split
          · exact Outcome.leaves_nullDeref
          · split_ifs
            all_goals first
              | exact reg_ret _ h
              | exact reg_emitThen h fun s1 h1 => reg_ret _ h1
      rw [if_neg k2]
      by_cases k3 : getCurrentTokenType env s = .beginsym
      · rw [if_pos k3]
        refine reg_onOk (ihS _ h) fun s1 h1 =>
          reg_onOk (ihB s1 h1) fun s2 h2 => ?_
        split_ifs
        · exact reg_ret _ h2
        · exact reg_ret _ h2
      rw [if_neg k3]
      by_cases k4 : getCurrentTokenType env s = .ifsym
      · rw [if_pos k4]
        refine reg_onOk (condition_regs n env _ h) fun s1 h1 => ?_
        dsimp only
        split_ifs
        · exact reg_ret _ h1
        · refine reg_emitThen h1 fun s2 h2 => reg_onOk (ihS s2 h2) fun s3 h3 =>
            reg_setM h3 fun s4 h4 => ?_
          split_ifs
          · exact reg_emitThen h4 fun s5 h5 => reg_setM h5 fun s6 h6 =>
              reg_onOk (ihS s6 h6) fun s7 h7 => reg_setM h7 fun s8 h8 =>
                reg_ret _ h8
          · exact reg_ret _ h4
      rw [if_neg k4]
      by_cases k5 : getCurrentTokenType env s = .whilesym
      · rw [if_pos k5]
        dsimp only
        refine reg_onOk (condition_regs n env _ h) fun s1 h1 =>
          reg_emitThen h1 fun s2 h2 => ?_
        split_ifs
        · exact reg_ret _ h2
        · exact reg_onOk (ihS _ h2) fun s3 h3 => reg_emitThen h3 fun s4 h4 =>
            reg_setM h4 fun s5 h5 => reg_ret _ h5
      rw [if_neg k5]
      by_cases k6 : getCurrentTokenType env s = .writesym
      · rw [if_pos k6]
        dsimp only
        split_ifs
        · exact reg_ret _ h
        · split
          · exact Outcome.leaves_nullDeref
          · split_ifs
            all_goals first
              | exact reg_ret _ h
              | exact reg_emitThen h fun s1 h1 => reg_emitThen h1 fun s2 h2 =>
                  reg_ret _ h2
      rw [if_neg k6]
      by_cases k7 : getCurrentTokenType env s = .readsym
      · rw [if_pos k7]
        refine reg_emitThen h fun s1 h1 => ?_
        dsimp only
        split_ifs
        · exact reg_ret _ h1
        · split
          · exact Outcome.leaves_nullDeref
          · split_ifs
            all_goals first
              | exact reg_ret _ h1
              | exact reg_emitThen h1 fun s2 h2 => reg_ret _ h2
      rw [if_neg k7]
      exact reg_ret _ h
    · intro s h
      rw [beginLoop]
      split_ifs
      · exact reg_onOk (ihS _ h) fun s1 h1 => ihB s1 h1
      · exact reg_ret _ h

theorem statement_regs (n : Nat) (env : Env) : Regs (statement n env) :=
  (statement_group_regs env n).1

/-- The part of `block()` after the frame instruction has the register discipline
when `proc_declaration()` has it. -/
theorem block_body_regs (n : Nat) (env : Env) (hP : Regs (proc_declaration n env))
    (sc : ScopePtr) :
    Regs fun s1 =>
      (const_declaration n env s1).onOk fun s =>
        (var_declaration n env s).onOk fun s =>
          (proc_declaration n env s).onOk fun s =>
            (statement n env (setScope (addrOfTempScope sc) s)).onOk fun s =>
              .ret 0 (setScope sc s) := by
  intro s1 h1
  exact reg_onOk (const_declaration_regs n env s1 h1) fun s2 h2 =>
    reg_onOk (var_declaration_regs n env s2 h2) fun s3 h3 =>
      reg_onOk (hP s3 h3) fun s4 h4 =>
        reg_onOk (statement_regs n env _ h4) fun s5 h5 => reg_ret _ h5

theorem block_group_regs (env : Env) : ∀ n : Nat,
    Regs (block n env) ∧ Regs (proc_declaration n env) ∧
      (∀ symbol, Regs (procLoop n env symbol)) := by
  intro n
  induction n with
  | zero =>
    refine ⟨?_, ?_, ?_⟩
    · intro s _; rw [block]; exact Outcome.leaves_outOfFuel
    · intro s _; rw [proc_declaration]; exact Outcome.leaves_outOfFuel
    · intro symbol s _; rw [procLoop]; exact Outcome.leaves_outOfFuel
  | succ n ih =>
    obtain ⟨ihB, ihP, ihL⟩ := ih
    refine ⟨?_, ?_, ?_⟩
    · intro s h
      rw [block]
      dsimp only
      by_cases k1 : s.currentScope ≠ NULL
      · rw [if_pos k1]
        exact reg_emitThen h fun s1 h1 => block_body_regs n env ihP _ s1 h1
      · rw [if_neg k1]
        exact block_body_regs n env ihP _ s h
    · intro s h
      rw [proc_declaration]
      dsimp only
      by_cases k1 : getCurrentTokenType env s = .procsym
      · simp only [k1, if_true, decide_True]
        exact reg_emitThen h fun s1 h1 => reg_onOk (ihL _ s1 h1) fun s2 h2 =>
          reg_emitThen h2 fun s3 h3 => reg_setM h3 fun s4 h4 => reg_ret _ h4
      · simp only [k1, if_false, decide_False]
        exact reg_onOk (ihL _ s h) fun s2 h2 =>
          reg_setM h2 fun s4 h4 => reg_ret _ h4
    · intro symbol s h
      rw [procLoop]
      dsimp only
      by_cases k1 : getCurrentTokenType env s = .procsym
      · rw [if_pos k1]
        split_ifs
        · exact reg_ret _ h
        · exact reg_ret _ h
        · have hb := ihB
            (enterProc (addSymbol
              { symbol with name := (getCurrentToken env (nextToken s)).lexeme,
                            scope := s.currentScope, level := s.currentLevel,
                            address := s.nextCodeIndex }
              (nextToken (nextToken (nextToken s))))) h
          split
          · rename_i err s1 heq
            have h1 : RegOK s1 := hb err s1 heq
            split_ifs
            · exact reg_ret _ h1
            · exact reg_ret _ h1
            · exact ihL _ _ h1
          · exact Outcome.leaves_exit
          · exact Outcome.leaves_nullDeref
          · exact Outcome.leaves_outOfBounds
          · exact Outcome.leaves_outOfFuel
      · rw [if_neg k1]
        exact reg_ret _ h

theorem block_regs (n : Nat) (env : Env) : Regs (block n env) :=
  (block_group_regs env n).1

theorem proc_declaration_regs (n : Nat) (env : Env) : Regs (proc_declaration n env) :=
  (block_group_regs env n).2.1

theorem procLoop_regs (n : Nat) (env : Env) (symbol : Symbol) :
    Regs (procLoop n env symbol) :=
  (block_group_regs env n).2.2 symbol

theorem program_regs (n : Nat) (env : Env) : Regs (program n env) := by
  intro s h
  unfold program
  refine reg_onOk (block_regs n env s h) fun s1 h1 => ?_
  split_ifs
  · exact reg_emitThen h1 fun s2 h2 => reg_ret _ h2
  · exact reg_ret _ h1


end CodeGenerator

namespace CodeGenerator

theorem RegOK.initially (vmCode : Nat → Instruction) : RegOK (initialState vmCode) :=
  ⟨rfl, fun i hi => absurd hi (Nat.not_lt_zero i)⟩

theorem RegOK.emitted {s : State} (h : RegOK s) : ∀ ins ∈ emitted s, ins.r = 0 := by
  intro ins hins
  simp only [CodeGenerator.emitted, List.mem_map, List.mem_range] at hins
  obtain ⟨i, hi, rfl⟩ := hins
  exact h.2 i hi

/-- C24: every production function of the code generator, entered in a state in
which `currentReg` is 0 and every emitted instruction has the register field 0,
returns in such a state, whatever the error code; `codeGenerator()` starts
`program()` in such a state, so in whatever way a run of `program()` returns,
every instruction below `nextCodeIndex` has the register field 0. -/
theorem register_fields_are_zero (n : Nat) (env : Env) :
    (Regs (program n env) ∧ Regs (block n env) ∧ Regs (const_declaration n env)
      ∧ Regs (var_declaration n env) ∧ Regs (proc_declaration n env)
      ∧ Regs (statement n env) ∧ Regs (condition n env) ∧ Regs (expression n env)
      ∧ Regs (term n env) ∧ Regs (factor n env))
    ∧ ∀ (vmCode : Nat → Instruction) (err p : Nat) (code : List Instruction),
        (program n env (initialState vmCode)).ending = .returned err p code →
        ∀ ins ∈ code, ins.r = 0 := by
  refine ⟨⟨program_regs n env, block_regs n env, const_declaration_regs n env,
    var_declaration_regs n env, proc_declaration_regs n env, statement_regs n env,
    condition_regs n env, expression_regs n env, (expression_group_regs env n).2.2.1,
    (expression_group_regs env n).2.2.2.2⟩, ?_⟩
  intro vmCode err p code h
  have hr := program_regs n env _ (RegOK.initially vmCode)
  cases ho : program n env (initialState vmCode) with
  | ret e s' =>
    rw [ho] at h
    simp only [Outcome.ending, Ending.returned.injEq] at h
    obtain ⟨_, _, rfl⟩ := h
    exact (hr e s' ho).emitted
  | exit => rw [ho] at h; simp [Outcome.ending] at h
  | nullDeref => rw [ho] at h; simp [Outcome.ending] at h
  | outOfBounds => rw [ho] at h; simp [Outcome.ending] at h
  | outOfFuel => rw [ho] at h; simp [Outcome.ending] at h

/-- Instance: the code emitted for
`var a ; while odd a do if odd a then begin end else begin end .`, with its two
`ODD` instructions, which `condition()` emits with `currentReg`. -/
theorem register_fields_are_zero_witness :
    (program 14 (byNameEnv exampleJumps) (initialState zeroCode)).ending
      = .returned 0 17
        [⟨.INC, 0, 0, 2⟩, ⟨.LOD, 0, 0, 1⟩, ⟨.ODD, 0, 0, 0⟩, ⟨.JPC, 0, 0, 9⟩, ⟨.LOD, 0, 0, 1⟩,
         ⟨.ODD, 0, 0, 0⟩, ⟨.JPC, 0, 0, 8⟩, ⟨.JMP, 0, 0, 8⟩, ⟨.JMP, 0, 0, 1⟩,
         ⟨.SIO_HALT, 0, 0, 3⟩]
    ∧ ∀ ins ∈ ([⟨.INC, 0, 0, 2⟩, ⟨.LOD, 0, 0, 1⟩, ⟨.ODD, 0, 0, 0⟩, ⟨.JPC, 0, 0, 9⟩,
         ⟨.LOD, 0, 0, 1⟩, ⟨.ODD, 0, 0, 0⟩, ⟨.JPC, 0, 0, 8⟩, ⟨.JMP, 0, 0, 8⟩, ⟨.JMP, 0, 0, 1⟩,
         ⟨.SIO_HALT, 0, 0, 3⟩] : List Instruction), ins.r = 0 :=
  ⟨by decide,
    (register_fields_are_zero 14 (byNameEnv exampleJumps)).2 zeroCode 0 17 _ (by decide)⟩

end CodeGenerator

/-! ## Parser: the `TOKEN` lines, and the fuel that suffices -/

namespace Parser

theorem tokenLines_append (a b : List TraceLine) :
    tokenLines (a ++ b) = tokenLines a ++ tokenLines b := by
  simp [tokenLines, List.filterMap_append]

theorem kindAt_ne_nulsym {ts : List Token} {p : Nat} (h : kindAt ts p ≠ .nulsym) :
    p < ts.length := by
  by_contra hp
  apply h
  have : ts[p]? = none := List.getElem?_eq_none (Nat.le_of_not_lt hp)
  simp [kindAt, tokenAt, this, nulToken]

@[simp] theorem traced_printNonTerminal (ts : List Token) (nt : NonTerminal) (s : State) :
    Traced ts (printNonTerminal nt s) ↔ Traced ts s := by
  simp [Traced, printNonTerminal, tokenLines_append, tokenLines]

@[simp] theorem traced_addSymbol (ts : List Token) (sym : Symbol) (s : State) :
    Traced ts (addSymbol sym s) ↔ Traced ts s := Iff.rfl

@[simp] theorem traced_levelUp (ts : List Token) (s : State) :
    Traced ts (levelUp s) ↔ Traced ts s := Iff.rfl

@[simp] theorem traced_levelDown (ts : List Token) (s : State) :
    Traced ts (levelDown s) ↔ Traced ts s := Iff.rfl

/-- The pair `printCurrentToken(); nextToken();` at a token of the list writes
the line of that token and steps over it. -/
theorem Traced.after_consume {ts : List Token} {s : State} (h : Traced ts s) {t : TokenType}
    (hk : getCurrentTokenType ts s = t) (ht : t ≠ .nulsym) : Traced ts (consume ts s) := by
  have hlt : s.currentTokenInd < ts.length :=
    kindAt_ne_nulsym (by rw [← getCurrentTokenType_eq, hk]; exact ht)
  refine ⟨hlt, ?_⟩
  have h2 := h.2
  simp only [Parser.consume, nextToken, printCurrentToken, getCurrentToken, tokenLines_append,
    h2, List.take_succ, List.map_append]
  congr 1
  simp [tokenLines, tokenAt, List.getElem?_eq_getElem hlt]

theorem Traced.at_start (ts : List Token) : Traced ts initialState := by
  simp [Traced, initialState, tokenLines]

theorem At.le_length {ts : List Token} {p : Nat} {s : State} (h : At ts p s) : p ≤ ts.length :=
  Nat.le_trans h.2 h.1.1

theorem At.lower {ts : List Token} {p q : Nat} {s : State} (h : At ts q s) (hpq : p ≤ q) :
    At ts p s :=
  ⟨h.1, Nat.le_trans hpq h.2⟩

theorem At.print {ts : List Token} {p : Nat} {s : State} (h : At ts p s) (nt : NonTerminal) :
    At ts p (printNonTerminal nt s) :=
  ⟨(traced_printNonTerminal ts nt s).mpr h.1, h.2⟩

theorem At.consume {ts : List Token} {p : Nat} {s : State} (h : At ts p s) {t : TokenType}
    (hk : getCurrentTokenType ts s = t) (ht : t ≠ .nulsym) :
    At ts (p + 1) (Parser.consume ts s) :=
  ⟨h.1.after_consume hk ht, Nat.succ_le_succ h.2⟩

theorem At.step {ts : List Token} {p : Nat} {s : State} (h : At ts p s) {t : TokenType}
    (hk : getCurrentTokenType ts s = t) (ht : t ≠ .nulsym) : At ts p (Parser.consume ts s) :=
  (h.consume hk ht).lower (Nat.le_succ p)

theorem At.add {ts : List Token} {p : Nat} {s : State} (h : At ts p s) (sym : Symbol) :
    At ts p (addSymbol sym s) := h

theorem At.up {ts : List Token} {p : Nat} {s : State} (h : At ts p s) : At ts p (levelUp s) := h

theorem At.down {ts : List Token} {p : Nat} {s : State} (h : At ts p s) :
    At ts p (levelDown s) := h

theorem At.consume_add {ts : List Token} {p : Nat} {s : State} (h : At ts p s) {t : TokenType}
    (hk : getCurrentTokenType ts s = t) (ht : t ≠ .nulsym) (sym : Symbol) :
    At ts (p + 1) (Parser.consume ts (addSymbol sym s)) :=
  (h.add sym).consume hk ht

theorem At.start (ts : List Token) : At ts 0 initialState :=
  ⟨Traced.at_start ts, Nat.le_refl 0⟩

theorem Result.Fine.some {ts : List Token} {p e : Nat} {s' : State} (h : At ts p s') :
    Result.Fine ts p (some (e, s')) :=
  ⟨e, s', rfl, h⟩

theorem Result.Fine.earlier {ts : List Token} {p q : Nat} {r : Result} (h : r.Fine ts q)
    (hpq : p ≤ q) : r.Fine ts p := by
  obtain ⟨e, s', hr, ha⟩ := h
  exact ⟨e, s', hr, ha.lower hpq⟩

theorem Result.Fine.onOk {ts : List Token} {p : Nat} {r : Result} {k : State → Result}
    (hr : r.Fine ts p) (hk : ∀ s1, At ts p s1 → (k s1).Fine ts p) :
    (r.onOk k).Fine ts p := by
  obtain ⟨e, s1, rfl, ha⟩ := hr
  by_cases he : e = 0
  · subst he
    simpa [Result.onOk] using hk s1 ha
  · simpa [Result.onOk, he] using Result.Fine.some ha

theorem kind_ne_nulsym_of_or {a t1 t2 : TokenType} (h : a = t1 ∨ a = t2)
    (h1 : t1 ≠ .nulsym) (h2 : t2 ≠ .nulsym) : a ≠ .nulsym := by
  rcases h with h | h <;> rw [h] <;> assumption

end Parser

namespace Parser

theorem constLoop_total (ts : List Token) : ∀ (n : Nat) (sym : Symbol) (s : State) (p : Nat),
    At ts p s → getCurrentTokenType ts s ≠ .nulsym → 4 * (ts.length - p) + 1 ≤ n →
    (constLoop n ts sym s).Fine ts p := by
  intro n
  induction n with
  | zero => intro sym s p _ _ hn; omega
  | succ n ih =>
    intro sym s p a hk hn
    rw [constLoop]
    have a1 := a.consume rfl hk
    have l1 := a1.le_length
    split
    · exact .some (a1.lower (by omega))
    rename_i h1
    have a2 := a1.consume (not_not.mp h1) (by decide)
    have l2 := a2.le_length
    dsimp only
    split
    · exact .some (a2.lower (by omega))
    rename_i h2
    have a3 := a2.consume (not_not.mp h2) (by decide)
    have l3 := a3.le_length
    split
    · exact .some (a3.lower (by omega))
    rename_i h3
    have a4 := a3.consume_add (not_not.mp h3) (by decide)
    have l4 := (a3.consume (not_not.mp h3) (by decide)).le_length
    split
    · rename_i h4
      exact (ih _ _ _ (a4 _) (by rw [h4]; decide) (by omega)).earlier (by omega)
    · exact .some ((a4 _).lower (by omega))

end Parser

namespace Parser

theorem const_declaration_total (ts : List Token) :
    Total ts 1 fun n s => const_declaration n ts s := by
  intro n s p a hn
  unfold const_declaration
  have a0 := a.print .CONST_DECLARATION
  dsimp only
  split
  · rename_i h
    refine (constLoop_total ts n _ _ p a0 (by rw [h]; decide) hn).onOk fun s1 a1 => ?_
    split
    · exact .some a1
    · rename_i h1
      exact .some (a1.step (not_not.mp h1) (by decide))
  · exact .some a0

theorem varLoop_total (ts : List Token) : ∀ (n : Nat) (sym : Symbol) (s : State) (p : Nat),
    At ts p s → getCurrentTokenType ts s ≠ .nulsym → 4 * (ts.length - p) + 1 ≤ n →
    (varLoop n ts sym s).Fine ts p := by
  intro n
  induction n with
  | zero => intro sym s p _ _ hn; omega
  | succ n ih =>
    intro sym s p a hk hn
    rw [varLoop]
    have a1 := a.consume rfl hk
    have l1 := a1.le_length
    split
    · exact .some (a1.lower (by omega))
    rename_i h1
    have a2 := a1.consume_add (not_not.mp h1) (by decide)
    have l2 := (a1.consume (not_not.mp h1) (by decide)).le_length
    dsimp only
    split
    · rename_i h2
      exact (ih _ _ _ (a2 _) (by rw [h2]; decide) (by omega)).earlier (by omega)
    · exact .some ((a2 _).lower (by omega))

theorem var_declaration_total (ts : List Token) :
    Total ts 1 fun n s => var_declaration n ts s := by
  intro n s p a hn
  unfold var_declaration
  have a0 := a.print .VAR_DECLARATION
  dsimp only
  split
  · rename_i h
    refine (varLoop_total ts n _ _ p a0 (by rw [h]; decide) hn).onOk fun s1 a1 => ?_
    split
    · exact .some a1
    · rename_i h1
      exact .some (a1.step (not_not.mp h1) (by decide))
  · exact .some a0

theorem expression_group_total (ts : List Token) : ∀ n : Nat,
    (∀ (s : State) (p : Nat), At ts p s → 4 * (ts.length - p) + 3 ≤ n →
      (expression n ts s).Fine ts p) ∧
    (∀ (s : State) (p : Nat), At ts p s → 4 * (ts.length - p) + 1 ≤ n →
      (expressionLoop n ts s).Fine ts p) ∧
    (∀ (s : State) (p : Nat), At ts p s → 4 * (ts.length - p) + 2 ≤ n →
      (term n ts s).Fine ts p) ∧
    (∀ (s : State) (p : Nat), At ts p s → 4 * (ts.length - p) + 1 ≤ n →
      (termLoop n ts s).Fine ts p) ∧
    (∀ (s : State) (p : Nat), At ts p s → 4 * (ts.length - p) + 1 ≤ n →
      (factor n ts s).Fine ts p) := by
  intro n
  induction n with
  | zero =>
    refine ⟨?_, ?_, ?_, ?_, ?_⟩ <;> intro s p _ hn <;> omega
  | succ n ih =>
    obtain ⟨ihE, ihEL, ihT, ihTL, ihF⟩ := ih
    refine ⟨?_, ?_, ?_, ?_, ?_⟩
    · intro s p a hn
      rw [expression]
      have a0 := a.print .EXPRESSION
      split
      · rename_i h
        have a1 := a0.step rfl (kind_ne_nulsym_of_or h (by decide) (by decide))
        exact (ihT _ p a1 (by omega)).onOk fun s1 a2 => ihEL s1 p a2 (by omega)
      · exact (ihT _ p a0 (by omega)).onOk fun s1 a2 => ihEL s1 p a2 (by omega)
    · intro s p a hn
      rw [expressionLoop]
      split
      · rename_i h
        have a1 := a.consume rfl (kind_ne_nulsym_of_or h (by decide) (by decide))
        have l1 := a1.le_length
        exact ((ihT _ (p + 1) a1 (by omega)).onOk fun s1 a2 =>
          ihEL s1 (p + 1) a2 (by omega)).earlier (by omega)
      · exact .some a
    · intro s p a hn
      rw [term]
      have a0 := a.print .TERM
      exact (ihF _ p a0 (by omega)).onOk fun s1 a1 => ihTL s1 p a1 (by omega)
    · intro s p a hn
      rw [termLoop]
      split
      · rename_i h
        have a1 := a.consume rfl (kind_ne_nulsym_of_or h (by decide) (by decide))
        have l1 := a1.le_length
        exact ((ihF _ (p + 1) a1 (by omega)).onOk fun s1 a2 =>
          ihTL s1 (p + 1) a2 (by omega)).earlier (by omega)
      · exact .some a
    · intro s p a hn
      rw [factor]
      have a0 := a.print .FACTOR
      split
      · rename_i h
        exact .some (a0.step h (by decide))
      split
      · rename_i h
        exact .some (a0.step h (by decide))
      split
      · rename_i h
        have a1 := a0.consume h (by decide)
        have l1 := a1.le_length
        refine ((ihE _ (p + 1) a1 (by omega)).onOk fun s1 a2 => ?_).earlier (by omega)
        split
        · exact .some a2
        · rename_i h1
          exact .some (a2.step (not_not.mp h1) (by decide))
      · exact .some a0

theorem expression_total (ts : List Token) : Total ts 3 fun n s => expression n ts s :=
  fun n s p a hn => (expression_group_total ts n).1 s p a hn

theorem relop_fine (ts : List Token) (s : State) (p : Nat) (a : At ts p s) :
    (relop ts s).Fine ts p := by
  unfold relop
  have a0 := a.print .REL_OP
  dsimp only
  split
  · rename_i h
    have hk : getCurrentTokenType ts (printNonTerminal .REL_OP s) ≠ .nulsym := by
      rcases h with h | h | h | h | h | h <;> rw [h] <;> decide
    exact .some (a0.step rfl hk)
  · exact .some a0

theorem condition_total (ts : List Token) : Total ts 3 fun n s => condition n ts s := by
  intro n s p a hn
  unfold condition
  have a0 := a.print .CONDITION
  dsimp only
  split
  · rename_i h
    have a1 := a0.step h (by decide)
    exact (expression_total ts n _ p a1 hn).onOk fun s1 a2 => .some a2
  · exact (expression_total ts n _ p a0 hn).onOk fun s1 a1 =>
      (relop_fine ts s1 p a1).onOk fun s2 a2 =>
        (expression_total ts n _ p a2 hn).onOk fun s3 a3 => .some a3

end Parser

namespace Parser

theorem statement_group_total (ts : List Token) : ∀ n : Nat,
    (∀ (s : State) (p : Nat), At ts p s → 4 * (ts.length - p) + 1 ≤ n →
      (statement n ts s).Fine ts p) ∧
    (∀ (s : State) (p : Nat), At ts p s → 4 * (ts.length - p) + 1 ≤ n →
      (beginLoop n ts s).Fine ts p) := by
  intro n
  induction n with
  | zero => refine ⟨?_, ?_⟩ <;> intro s p _ hn <;> omega
  | succ n ih =>
    obtain ⟨ihS, ihB⟩ := ih
    have ihE := expression_total ts n
    have ihC := condition_total ts n
    refine ⟨?_, ?_⟩
    · intro s p a hn
      rw [statement]
      have a0 := a.print .STATEMENT
      split
      · -- assignment
        rename_i h
        have a1 := a0.consume h (by decide)
        have l1 := a1.le_length
        dsimp only
        split
        · exact .some (a1.lower (by omega))
        rename_i h1
        have a2 := a1.consume (not_not.mp h1) (by decide)
        have l2 := a2.le_length
        exact ((ihE _ _ a2 (by omega)).onOk fun s1 a3 => .some a3).earlier (by omega)
      split
      · -- call
        rename_i h
        have a1 := a0.consume h (by decide)
        dsimp only
        split
        · exact .some (a1.lower (by omega))
        rename_i h1
        exact .some ((a1.step (not_not.mp h1) (by decide)).lower (by omega))
      split
      · -- begin
        rename_i h
        have a1 := a0.consume h (by decide)
        have l1 := a1.le_length
        refine ((ihS _ _ a1 (by omega)).onOk fun s1 a2 =>
          (ihB s1 _ a2 (by omega)).onOk fun s2 a3 => ?_).earlier (by omega)
        split
        · exact .some a3
        · rename_i h1
          exact .some (a3.step (not_not.mp h1) (by decide))
      split
      · -- if
        rename_i h
        have a1 := a0.consume h (by decide)
        have l1 := a1.le_length
        refine ((ihC _ _ a1 (by omega)).onOk fun s1 a2 => ?_).earlier (by omega)
        split
        · exact .some a2
        rename_i h1
        have a3 := a2.step (not_not.mp h1) (by decide)
        refine (ihS _ _ a3 (by omega)).onOk fun s2 a4 => ?_
        split
        · rename_i h2
          have a5 := a4.step h2 (by decide)
          exact (ihS _ _ a5 (by omega)).onOk fun s3 a6 => .some a6
        · exact .some a4
      split
      · -- while
        rename_i h
        have a1 := a0.consume h (by decide)
        have l1 := a1.le_length
        refine ((ihC _ _ a1 (by omega)).onOk fun s1 a2 => ?_).earlier (by omega)
        split
        · exact .some a2
        rename_i h1
        have a3 := a2.step (not_not.mp h1) (by decide)
        exact (ihS _ _ a3 (by omega)).onOk fun s2 a4 => .some a4
      split
      · -- write
        rename_i h
        have a1 := a0.consume h (by decide)
        dsimp only
        split
        · exact .some (a1.lower (by omega))
        rename_i h1
        exact .some ((a1.step (not_not.mp h1) (by decide)).lower (by omega))
      split
      · -- read
        rename_i h
        have a1 := a0.consume h (by decide)
        dsimp only
        split
        · exact .some (a1.lower (by omega))
        rename_i h1
        exact .some ((a1.step (not_not.mp h1) (by decide)).lower (by omega))
      · exact .some a0
    · intro s p a hn
      rw [beginLoop]
      split
      · rename_i h
        have a1 := a.consume h (by decide)
        have l1 := a1.le_length
        exact ((ihS _ _ a1 (by omega)).onOk fun s1 a2 => ihB s1 _ a2 (by omega)).earlier (by omega)
      · exact .some a

theorem statement_total (ts : List Token) : Total ts 1 fun n s => statement n ts s :=
  fun n s p a hn => (statement_group_total ts n).1 s p a hn

theorem block_group_total (ts : List Token) : ∀ n : Nat,
    (∀ (s : State) (p : Nat), At ts p s → 4 * (ts.length - p) + 3 ≤ n →
      (block n ts s).Fine ts p) ∧
    (∀ (s : State) (p : Nat), At ts p s → 4 * (ts.length - p) + 2 ≤ n →
      (proc_declaration n ts s).Fine ts p) ∧
    (∀ (s : State) (p : Nat), At ts p s → 4 * (ts.length - p) + 1 ≤ n →
      (procLoop n ts s).Fine ts p) := by
  intro n
  induction n with
  | zero => refine ⟨?_, ?_, ?_⟩ <;> intro s p _ hn <;> omega
  | succ n ih =>
    obtain ⟨ihB, ihP, ihL⟩ := ih
    refine ⟨?_, ?_, ?_⟩
    · intro s p a hn
      rw [block]
      have a0 := a.print .BLOCK
      exact (const_declaration_total ts n _ p a0 (by omega)).onOk fun s1 a1 =>
        (var_declaration_total ts n s1 p a1 (by omega)).onOk fun s2 a2 =>
          (ihP s2 p a2 (by omega)).onOk fun s3 a3 =>
            (statement_total ts n s3 p a3 (by omega)).onOk fun s4 a4 => .some a4
    · intro s p a hn
      rw [proc_declaration]
      exact ihL _ p (a.print .PROC_DECLARATION) (by omega)
    · intro s p a hn
      rw [procLoop]
      split
      · rename_i h
        have a1 := a.consume h (by decide)
        have l1 := a1.le_length
        dsimp only
        split
        · exact .some (a1.lower (by omega))
        rename_i h1
        have a2 := a1.consume_add (not_not.mp h1) (by decide)
        have l2 := (a1.consume (not_not.mp h1) (by decide)).le_length
        split
        · exact .some ((a2 _).lower (by omega))
        rename_i h2
        have a3 := ((a2 _).consume (not_not.mp h2) (by decide)).up
        have l3 := a3.le_length
        refine ((ihB _ _ a3 (by omega)).onOk fun s1 a4 => ?_).earlier (by omega)
        have a5 := a4.down
        split
        · exact .some a5
        rename_i h3
        have a6 := a5.step (not_not.mp h3) (by decide)
        exact ihL _ _ a6 (by omega)
      · exact .some a

theorem block_total (ts : List Token) : Total ts 3 fun n s => block n ts s :=
  fun n s p a hn => (block_group_total ts n).1 s p a hn

theorem program_total (ts : List Token) : Total ts 3 fun n s => program n ts s := by
  intro n s p a hn
  unfold program
  have a0 := a.print .PROGRAM
  dsimp only
  refine (block_total ts n _ p a0 hn).onOk fun s1 a1 => ?_
  split
  · exact .some a1
  · rename_i h
    exact .some (a1.step (not_not.mp h) (by decide))

end Parser

/-! ## Code generator: the fuel that suffices -/

namespace CodeGenerator

theorem Pos.next {p : Nat} {s : State} (h : Pos p s) : Pos (p + 1) (nextToken s) :=
  Nat.succ_le_succ h

theorem Pos.weaker {p q : Nat} {s : State} (h : Pos q s) (hpq : p ≤ q) : Pos p s :=
  Nat.le_trans hpq h

theorem Pos.lt {env : Env} {p : Nat} {s : State} (h : Pos p s) {t : TokenType}
    (hk : getCurrentTokenType env s = t) (ht : t ≠ .nulsym) : p < env.tokens.length :=
  Nat.lt_of_le_of_lt h (Parser.kindAt_ne_nulsym (by
    have : kindAt env.tokens s.currentTokenInd = getCurrentTokenType env s := rfl
    rw [this, hk]
    exact ht))

theorem Pos.lt_of_or {env : Env} {p : Nat} {s : State} (h : Pos p s) {t1 t2 : TokenType}
    (hk : getCurrentTokenType env s = t1 ∨ getCurrentTokenType env s = t2)
    (h1 : t1 ≠ .nulsym) (h2 : t2 ≠ .nulsym) : p < env.tokens.length := by
  rcases hk with hk | hk
  · exact h.lt hk h1
  · exact h.lt hk h2

theorem safe_ret {Q : State → Prop} {s : State} (h : Q s) : (Outcome.ret 0 s).Safe Q := by
  refine ⟨by simp, fun s' hs => ?_⟩
  cases hs
  exact h

theorem safe_err {Q : State → Prop} {e : Nat} {s : State} (he : e ≠ 0) :
    (Outcome.ret e s).Safe Q := by
  refine ⟨by simp, fun s' hs => ?_⟩
  cases hs
  exact absurd rfl he

theorem safe_exit {Q : State → Prop} : Outcome.exit.Safe Q :=
  ⟨by simp, fun s' hs => by cases hs⟩

theorem safe_nullDeref {Q : State → Prop} : Outcome.nullDeref.Safe Q :=
  ⟨by simp, fun s' hs => by cases hs⟩

theorem safe_outOfBounds {Q : State → Prop} : Outcome.outOfBounds.Safe Q :=
  ⟨by simp, fun s' hs => by cases hs⟩

theorem Outcome.Safe.imp {o : Outcome} {Q R : State → Prop} (h : o.Safe Q)
    (hQR : ∀ s, Q s → R s) : o.Safe R :=
  ⟨h.1, fun s' hs => hQR s' (h.2 s' hs)⟩

theorem Outcome.Safe.weaken {o : Outcome} {p q : Nat} (h : o.Safe (Pos q)) (hpq : p ≤ q) :
    o.Safe (Pos p) :=
  h.imp fun _ h1 => Pos.weaker h1 hpq

theorem safe_step {o : Outcome} {p : Nat} (k : Nat) (h : o.Safe (Pos (p + k))) :
    o.Safe (Pos p) :=
  h.weaken (Nat.le_add_right p k)

theorem safe_onOk {o : Outcome} {k : State → Outcome} {Q R : State → Prop} (ho : o.Safe Q)
    (hk : ∀ s1, Q s1 → (k s1).Safe R) : (o.onOk k).Safe R := by
  cases o with
  | ret err s =>
    by_cases he : err = 0
    · subst he
      simpa [Outcome.onOk] using hk s (ho.2 s rfl)
    · simpa [Outcome.onOk, he] using (safe_err he : (Outcome.ret err s).Safe R)
  | exit => exact safe_exit
  | nullDeref => exact safe_nullDeref
  | outOfBounds => exact safe_outOfBounds
  | outOfFuel => exact absurd rfl ho.1

theorem safe_emitThen {env : Env} {OP : Opcode} {R L M : Int} {s : State}
    {k : State → Outcome} {Q : State → Prop} (hk : (k (pushed OP R L M s)).Safe Q) :
    (emitThen env OP R L M s k).Safe Q := by
  rw [emitThen_eq]
  split_ifs
  · exact safe_exit
  · exact hk

theorem safe_setM {env : Env} {i : Nat} {M : Int} {s : State}
    {k : State → Outcome} {Q : State → Prop} (hk : (k (patched i M s)).Safe Q) :
    (setM env i M s k).Safe Q := by
  rw [setM_eq]
  split_ifs
  · exact hk
  · exact safe_outOfBounds

theorem constLoop_safe (env : Env) : ∀ (n : Nat) (symbol : Symbol) (s : State) (p : Nat),
    Pos p s → 8 * (env.tokens.length - p) + 1 ≤ n → (constLoop n env symbol s).Safe (Pos p) := by
  intro n
  induction n with
  | zero => intro symbol s p _ hn; omega
  | succ n ih =>
    intro symbol s p hp hn
    rw [constLoop]
    by_cases k1 : getCurrentTokenType env s = .commasym
    · rw [if_pos k1]
      have hlt := hp.lt k1 (by decide)
      dsimp only
      split_ifs
      · exact safe_err (by decide)
      · exact safe_err (by decide)
      · exact safe_err (by decide)
      · refine safe_step 4 ?_
        exact ih _ _ (p + 4) hp.next.next.next.next (by omega)
    · rw [if_neg k1]
      split_ifs
      · exact safe_err (by decide)
      · exact safe_ret (hp.next.weaker (by omega))

theorem const_declaration_safe (env : Env) (n : Nat) (s : State) (p : Nat) (hp : Pos p s)
    (hn : 8 * (env.tokens.length - p) + 1 ≤ n) : (const_declaration n env s).Safe (Pos p) := by
  unfold const_declaration
  dsimp only
  split_ifs
  · exact safe_ret hp
  · exact safe_err (by decide)
  · exact safe_err (by decide)
  · exact safe_err (by decide)
  · rename_i h1 _ _ _
    have hlt := hp.lt (not_not.mp h1) (by decide)
    refine safe_step 4 ?_
    exact constLoop_safe env n _ _ (p + 4) hp.next.next.next.next (by omega)

theorem varLoop_safe (env : Env) : ∀ (n : Nat) (symbol : Symbol) (varNum : Nat) (s : State)
    (p : Nat), Pos p s → 8 * (env.tokens.length - p) + 1 ≤ n →
    (varLoop n env symbol varNum s).Safe (Pos p) := by
  intro n
  induction n with
  | zero => intro symbol varNum s p _ hn; omega
  | succ n ih =>
    intro symbol varNum s p hp hn
    rw [varLoop]
    by_cases k1 : getCurrentTokenType env s = .varsym ∨ getCurrentTokenType env s = .commasym
    · rw [if_pos k1]
      have hlt := hp.lt_of_or k1 (by decide) (by decide)
      dsimp only
      split_ifs
      all_goals first
        | exact safe_err (by decide)
        | exact safe_ret (hp.next.next.next.next.next.weaker (by omega))
        | exact safe_ret (hp.next.next.next.weaker (by omega))
        | (refine safe_step 4 ?_
           exact ih _ _ _ (p + 4) hp.next.next.next.next (by omega))
        | (refine safe_step 2 ?_
           exact ih _ _ _ (p + 2) hp.next.next (by omega))
    · rw [if_neg k1]
      exact safe_ret hp

theorem var_declaration_safe (env : Env) (n : Nat) (s : State) (p : Nat) (hp : Pos p s)
    (hn : 8 * (env.tokens.length - p) + 1 ≤ n) : (var_declaration n env s).Safe (Pos p) := by
  unfold var_declaration
  dsimp only
  split_ifs
  · exact safe_ret hp
  · exact safe_emitThen (varLoop_safe env n _ _ _ p hp hn)

end CodeGenerator

namespace CodeGenerator

theorem Gain.pos {env : Env} {p : Nat} {s : State} (h : Gain env p s) : Pos p s :=
  Pos.weaker h.2 (Nat.le_succ p)

theorem safe_gain {env : Env} {o : Outcome} {p : Nat} (hlt : p < env.tokens.length)
    (h : o.Safe (Pos (p + 1))) : o.Safe (Gain env p) :=
  h.imp fun _ h1 => ⟨hlt, h1⟩

theorem expression_group_safe (env : Env) : ∀ n : Nat,
    (∀ (s : State) (p : Nat), Pos p s → 8 * (env.tokens.length - p) + 5 ≤ n →
      (expression n env s).Safe (Gain env p)) ∧
    (∀ (op : TokenType) (s : State) (p : Nat), Pos p s →
      8 * (env.tokens.length - p) + 4 ≤ n → (expressionLoop n env op s).Safe (Pos p)) ∧
    (∀ (s : State) (p : Nat), Pos p s → 8 * (env.tokens.length - p) + 3 ≤ n →
      (term n env s).Safe (Gain env p)) ∧
    (∀ (op : TokenType) (s : State) (p : Nat), Pos p s →
      8 * (env.tokens.length - p) + 2 ≤ n → (termLoop n env op s).Safe (Pos p)) ∧
    (∀ (s : State) (p : Nat), Pos p s → 8 * (env.tokens.length - p) + 1 ≤ n →
      (factor n env s).Safe (Gain env p)) := by
  intro n
  induction n with
  | zero =>
    refine ⟨?_, ?_, ?_, ?_, ?_⟩
    · intro s p _ hn; omega
    · intro op s p _ hn; omega
    · intro s p _ hn; omega
    · intro op s p _ hn; omega
    · intro s p _ hn; omega
  | succ n ih =>
    obtain ⟨ihE, ihEL, ihT, ihTL, ihF⟩ := ih
    refine ⟨?_, ?_, ?_, ?_, ?_⟩
    · intro s p hp hn
      rw [expression]
      refine safe_onOk (Q := Pos p) ?_ fun s1 h1 =>
        safe_onOk (ihT s1 p h1 (by omega)) fun s2 h2 =>
          safe_gain h2.1 (ihEL _ s2 (p + 1) h2.2 (by have := h2.1; omega))
      split_ifs
      all_goals first
        | exact safe_ret hp
        | exact safe_onOk (ihT _ (p + 1) hp.next (by omega)) fun s1 h1 =>
            safe_ret (h1.pos.weaker (Nat.le_succ p))
        | exact safe_onOk (ihT _ (p + 1) hp.next (by omega)) fun s1 h1 =>
            safe_emitThen (safe_ret (h1.pos.weaker (Nat.le_succ p)))
    · intro op s p hp hn
      rw [expressionLoop]
      split_ifs
      all_goals first
        | exact safe_ret hp
        | exact safe_onOk (ihT _ (p + 1) hp.next (by omega)) fun s1 h1 =>
            safe_emitThen (safe_step 2 (ihEL _ _ (p + 2) h1.2 (by have := h1.1; omega)))
    · intro s p hp hn
      rw [term]
      exact safe_onOk (ihF s p hp (by omega)) fun s1 h1 =>
        safe_gain h1.1 (ihTL _ s1 (p + 1) h1.2 (by have := h1.1; omega))
    · intro op s p hp hn
      rw [termLoop]
      split_ifs
      all_goals first
        | exact safe_ret hp
        | exact safe_onOk (ihF _ (p + 1) hp.next (by omega)) fun s1 h1 =>
            safe_emitThen (safe_step 2 (ihTL _ _ (p + 2) h1.2 (by have := h1.1; omega)))
    · intro s p hp hn
      rw [factor]
      split
      · exact safe_err (by decide)
      · by_cases k1 : getCurrentTokenType env s = .identsym
        · rw [if_pos k1]
          have hlt := hp.lt k1 (by decide)
          split_ifs
          · exact safe_err (by decide)
          · exact safe_emitThen (safe_ret ⟨hlt, hp.next⟩)
          · exact safe_emitThen (safe_ret ⟨hlt, hp.next⟩)
        rw [if_neg k1]
        by_cases k2 : getCurrentTokenType env s = .numbersym
        · rw [if_pos k2]
          have hlt := hp.lt k2 (by decide)
          exact safe_emitThen (safe_ret ⟨hlt, hp.next⟩)
        rw [if_neg k2]
        by_cases k3 : getCurrentTokenType env s = .lparentsym
        · rw [if_pos k3]
          have hlt := hp.lt k3 (by decide)
          refine safe_onOk (ihE _ (p + 1) hp.next (by omega)) fun s1 h1 => ?_
          split_ifs
          · exact safe_err (by decide)
          · exact safe_ret ⟨hlt, (h1.pos.next).weaker (by omega)⟩
        rw [if_neg k3]
        exact safe_err (by decide)

theorem expression_safe (env : Env) (n : Nat) (s : State) (p : Nat) (hp : Pos p s)
    (hn : 8 * (env.tokens.length - p) + 5 ≤ n) : (expression n env s).Safe (Pos p) :=
  ((expression_group_safe env n).1 s p hp hn).imp fun _ h => h.pos

theorem condition_safe (env : Env) (n : Nat) (s : State) (p : Nat) (hp : Pos p s)
    (hn : 8 * (env.tokens.length - p) + 5 ≤ n) : (condition n env s).Safe (Pos p) := by
  unfold condition
  split_ifs
  · refine safe_step 1 ?_
    exact safe_onOk (expression_safe env n _ (p + 1) hp.next (by omega)) fun s1 h1 =>
      safe_emitThen (safe_ret h1)
  · refine safe_onOk (expression_safe env n _ p hp hn) fun s1 h1 => ?_
    split_ifs
    all_goals first
      | exact safe_emitThen (safe_ret (h1.next.weaker (Nat.le_succ p)))
      | exact safe_err (by decide)

end CodeGenerator

namespace CodeGenerator

theorem statement_group_safe (env : Env) : ∀ n : Nat,
    (∀ (s : State) (p : Nat), Pos p s → 8 * (env.tokens.length - p) + 1 ≤ n →
      (statement n env s).Safe (Pos p)) ∧
    (∀ (s : State) (p : Nat), Pos p s → 8 * (env.tokens.length - p) + 1 ≤ n →
      (beginLoop n env s).Safe (Pos p)) := by
  intro n
  induction n with
  | zero =>
    refine ⟨?_, ?_⟩
    · intro s p _ hn; omega
    · intro s p _ hn; omega
  | succ n ih =>
    obtain ⟨ihS, ihB⟩ := ih
    refine ⟨?_, ?_⟩
    · intro s p hp hn
      rw [statement]
      by_cases k1 : getCurrentTokenType env s = .identsym
      · rw [if_pos k1]
        have hlt := hp.lt k1 (by decide)
        split
        · exact safe_nullDeref
        · dsimp only
          split_ifs
          all_goals first
            | exact safe_err (by decide)
            | (refine safe_step 2 ?_
               exact safe_onOk (expression_safe env n _ (p + 2) hp.next.next (by omega))
                 fun s1 h1 => safe_ret h1)
      rw [if_neg k1]
      by_cases k2 : getCurrentTokenType env s = .callsym
      · rw [if_pos k2]
        dsimp only
        split_ifs
        · exact safe_err (by decide)
        · split
          · exact safe_nullDeref
          · split_ifs
            all_goals first
              | exact safe_err (by decide)
              | exact safe_emitThen (safe_ret (hp.next.next.weaker (by omega)))
      rw [if_neg k2]
      by_cases k3 : getCurrentTokenType env s = .beginsym
      · rw [if_pos k3]
        have hlt := hp.lt k3 (by decide)
        refine safe_step 1 ?_
        refine safe_onOk (ihS _ (p + 1) hp.next (by omega)) fun s1 h1 =>
          safe_onOk (ihB s1 (p + 1) h1 (by omega)) fun s2 h2 => ?_
        split_ifs
        · exact safe_err (by decide)
        · exact safe_ret (h2.next.weaker (by omega))
      rw [if_neg k3]
      by_cases k4 : getCurrentTokenType env s = .ifsym
      · rw [if_pos k4]
        have hlt := hp.lt k4 (by decide)
        refine safe_step 1 ?_
        refine safe_onOk (condition_safe env n _ (p + 1) hp.next (by omega)) fun s1 h1 => ?_
        dsimp only
        split_ifs
        · exact safe_err (by decide)
        · refine safe_emitThen (safe_onOk
            (ihS _ (p + 1) (h1.next.weaker (Nat.le_succ _)) (by omega)) fun s3 h3 =>
              safe_setM ?_)
          split_ifs
          · exact safe_emitThen (safe_setM (safe_onOk
              (ihS _ (p + 1) (h3.next.weaker (Nat.le_succ _)) (by omega)) fun s7 h7 =>
                safe_setM (safe_ret h7)))
          · exact safe_ret h3
      rw [if_neg k4]
      by_cases k5 : getCurrentTokenType env s = .whilesym
      · rw [if_pos k5]
        have hlt := hp.lt k5 (by decide)
        dsimp only
        refine safe_step 1 ?_
        refine safe_onOk (condition_safe env n _ (p + 1) hp.next (by omega)) fun s1 h1 =>
          safe_emitThen ?_
        split_ifs
        · exact safe_err (by decide)
        · exact safe_onOk (ihS _ (p + 1) (h1.next.weaker (Nat.le_succ _)) (by omega))
            fun s3 h3 => safe_emitThen (safe_setM (safe_ret h3))
      rw [if_neg k5]
      by_cases k6 : getCurrentTokenType env s = .writesym
      · rw [if_pos k6]
        dsimp only
        split_ifs
        · exact safe_err (by decide)
        · split
          · exact safe_nullDeref
          · split_ifs
            all_goals first
              | exact safe_err (by decide)
              | exact safe_emitThen (safe_emitThen (safe_ret (hp.next.next.weaker (by omega))))
      rw [if_neg k6]
      by_cases k7 : getCurrentTokenType env s = .readsym
      · rw [if_pos k7]
        refine safe_emitThen ?_
        dsimp only
        split_ifs
        · exact safe_err (by decide)
        · split
          · exact safe_nullDeref
          · split_ifs
            all_goals first
              | exact safe_err (by decide)
              | exact safe_emitThen (safe_ret (hp.next.next.weaker (by omega)))
      rw [if_neg k7]
      exact safe_ret hp
    · intro s p hp hn
      rw [beginLoop]
      split_ifs
      · rename_i k
        have hlt := hp.lt k (by decide)
        refine safe_step 1 ?_
        exact safe_onOk (ihS _ (p + 1) hp.next (by omega)) fun s1 h1 =>
          ihB s1 (p + 1) h1 (by omega)
      · exact safe_ret hp

theorem statement_safe (env : Env) (n : Nat) (s : State) (p : Nat) (hp : Pos p s)
    (hn : 8 * (env.tokens.length - p) + 1 ≤ n) : (statement n env s).Safe (Pos p) :=
  (statement_group_safe env n).1 s p hp hn

theorem block_body_safe (n : Nat) (env : Env) (p : Nat)
    (hn : 8 * (env.tokens.length - p) + 2 ≤ n)
    (hP : ∀ s, Pos p s → (proc_declaration n env s).Safe (Pos p)) (sc : ScopePtr) (s1 : State)
    (h1 : Pos p s1) :
    ((const_declaration n env s1).onOk fun s =>
      (var_declaration n env s).onOk fun s =>
        (proc_declaration n env s).onOk fun s =>
          (statement n env (setScope (addrOfTempScope sc) s)).onOk fun s =>
            .ret 0 (setScope sc s)).Safe (Pos p) :=
  safe_onOk (const_declaration_safe env n s1 p h1 (by omega)) fun s2 h2 =>
    safe_onOk (var_declaration_safe env n s2 p h2 (by omega)) fun s3 h3 =>
      safe_onOk (hP s3 h3) fun s4 h4 =>
        safe_onOk (statement_safe env n _ p h4 (by omega)) fun s5 h5 => safe_ret h5

theorem block_group_safe (env : Env) : ∀ n : Nat,
    (∀ (s : State) (p : Nat), Pos p s → 8 * (env.tokens.length - p) + 3 ≤ n →
      (block n env s).Safe (Pos p)) ∧
    (∀ (s : State) (p : Nat), Pos p s → 8 * (env.tokens.length - p) + 2 ≤ n →
      (proc_declaration n env s).Safe (Pos p)) ∧
    (∀ (symbol : Symbol) (s : State) (p : Nat), Pos p s →
      8 * (env.tokens.length - p) + 1 ≤ n → (procLoop n env symbol s).Safe (Pos p)) := by
  intro n
  induction n with
  | zero =>
    refine ⟨?_, ?_, ?_⟩
    · intro s p _ hn; omega
    · intro s p _ hn; omega
    · intro symbol s p _ hn; omega
  | succ n ih =>
    obtain ⟨ihB, ihP, ihL⟩ := ih
    refine ⟨?_, ?_, ?_⟩
    · intro s p hp hn
      rw [block]
      dsimp only
      have hP : ∀ s, Pos p s → (proc_declaration n env s).Safe (Pos p) :=
        fun s1 h1 => ihP s1 p h1 (by omega)
      by_cases k1 : s.currentScope ≠ NULL
      · rw [if_pos k1]
        exact safe_emitThen (block_body_safe n env p (by omega) hP _ _ hp)
      · rw [if_neg k1]
        exact block_body_safe n env p (by omega) hP _ s hp
    · intro s p hp hn
      rw [proc_declaration]
      dsimp only
      by_cases k1 : getCurrentTokenType env s = .procsym
      · simp only [k1, if_true, decide_True]
        exact safe_emitThen (safe_onOk (ihL _ _ p hp (by omega)) fun s2 h2 =>
          safe_emitThen (safe_setM (safe_ret h2)))
      · simp only [k1, if_false, decide_False]
        exact safe_onOk (ihL _ s p hp (by omega)) fun s2 h2 => safe_setM (safe_ret h2)
    · intro symbol s p hp hn
      rw [procLoop]
      dsimp only
      by_cases k1 : getCurrentTokenType env s = .procsym
      · rw [if_pos k1]
        have hlt := hp.lt k1 (by decide)
        split_ifs
        · exact safe_err (by decide)
        · exact safe_err (by decide)
        · have hb := ihB
            (enterProc (addSymbol
              { symbol with name := (getCurrentToken env (nextToken s)).lexeme,
                            scope := s.currentScope, level := s.currentLevel,
                            address := s.nextCodeIndex }
              (nextToken (nextToken (nextToken s))))) (p + 3) hp.next.next.next (by omega)
          split
          · rename_i err s1 heq
            split_ifs
            · rename_i he
              exact safe_err he
            · exact safe_err (by decide)
            · rename_i he _
              have he0 : err = 0 := not_not.mp he
              subst he0
              have h1 : Pos (p + 3) s1 := hb.2 s1 heq
              refine safe_step 4 ?_
              exact ihL _ _ (p + 4) h1.next (by omega)
          · exact safe_exit
          · exact safe_nullDeref
          · exact safe_outOfBounds
          · rename_i heq
            exact absurd heq hb.1
      · rw [if_neg k1]
        exact safe_ret hp

theorem block_safe (env : Env) (n : Nat) (s : State) (p : Nat) (hp : Pos p s)
    (hn : 8 * (env.tokens.length - p) + 3 ≤ n) : (block n env s).Safe (Pos p) :=
  (block_group_safe env n).1 s p hp hn

/-- With `8 * length + 3` units of fuel `program()` does not stop for lack of
fuel, whatever the state it is entered in. -/
theorem program_safe (env : Env) (n : Nat) (s : State)
    (hn : 8 * env.tokens.length + 3 ≤ n) : (program n env s).Safe (Pos 0) := by
  unfold program
  refine safe_onOk (block_safe env n s 0 (Nat.zero_le _) (by omega)) fun s1 h1 => ?_
  split_ifs
  · exact safe_emitThen (safe_ret (Nat.zero_le _))
  · exact safe_err (by decide)

end CodeGenerator

/-! ## The `TOKEN` lines of a parse, and the end of every run -/

/-- C22: with `4 * length + 3` units of fuel or more the parser's `program()`
returns, with 0 or with an error code, at a position `k` inside the list or
just behind it, and the `TOKEN` lines it has written are then the kinds and
lexemes of the first `k` tokens, in order, one line for each. -/
theorem token_lines_are_the_consumed_tokens (ts : List Token) (n : Nat)
    (hn : 4 * ts.length + 3 ≤ n) :
    ∃ err s', Parser.program n ts Parser.initialState = some (err, s')
      ∧ s'.currentTokenInd ≤ ts.length
      ∧ Parser.tokenLines s'.out
          = (ts.take s'.currentTokenInd).map fun t => (t.id, t.lexeme) := by
  obtain ⟨err, s', h, ha⟩ :=
    Parser.program_total ts n Parser.initialState 0 (Parser.At.start ts) (by omega)
  exact ⟨err, s', h, ha.1.1, ha.1.2⟩

/-- Instance: the parse of `var x; x := 1 + end.`, which fails at `end`. -/
theorem token_lines_are_the_consumed_tokens_witness :
    4 * exampleBadFactor.length + 3 ≤ 39
    ∧ ∃ err s', Parser.program 39 exampleBadFactor Parser.initialState = some (err, s')
      ∧ s'.currentTokenInd ≤ exampleBadFactor.length
      ∧ Parser.tokenLines s'.out
          = (exampleBadFactor.take s'.currentTokenInd).map fun t => (t.id, t.lexeme) :=
  ⟨by decide, token_lines_are_the_consumed_tokens exampleBadFactor 39 (by decide)⟩

/-- C26: the code generator's `program()` on `x := 1 .` ends in the read of a
field through the null pointer that `findSymbol` returned, so neither with a
result code nor with the abort of a full buffer.  Apart from that every run
ends: with `4 * length + 3` units of fuel the parser's `program()` returns a
result code, at a position that is not beyond the end of the list, and with
`8 * length + 3` units the code generator's `program()` never stops for lack
of fuel, whatever the lookup and the state it starts in. -/
theorem code_generator_run_ends_in_null_read :
    (CodeGenerator.program 12 (CodeGenerator.specEnv exampleAssignOneProgram)
        (CodeGenerator.initialState CodeGenerator.zeroCode)).ending = .nullDeref
    ∧ (∀ (ts : List Token) (n : Nat), 4 * ts.length + 3 ≤ n →
        ∃ err s', Parser.program n ts Parser.initialState = some (err, s')
          ∧ s'.currentTokenInd ≤ ts.length)
    ∧ (∀ (env : CodeGenerator.Env) (n : Nat) (s : CodeGenerator.State),
        8 * env.tokens.length + 3 ≤ n → CodeGenerator.program n env s ≠ .outOfFuel) := by
  refine ⟨by decide, ?_, fun env n s hn => (CodeGenerator.program_safe env n s hn).1⟩
  intro ts n hn
  obtain ⟨err, s', h, ha⟩ :=
    Parser.program_total ts n Parser.initialState 0 (Parser.At.start ts) (by omega)
  exact ⟨err, s', h, ha.1.1⟩


/-! ## Code generator: the scopes of the records, and the `call` of a run -/

namespace CodeGenerator

theorem fromTable_findSymbol (tokens : List Token) : FromTable (specEnv tokens) := by
  intro table scope name sym h
  exact List.mem_of_find?_eq_some h

theorem fromTable_findByName (tokens : List Token) : FromTable (byNameEnv tokens) := by
  intro table scope name sym h
  exact List.mem_of_find?_eq_some h

theorem NoCal.after_push {s : State} (h : NoCal s) {OP : Opcode} (hop : OP ≠ .CAL) (R L M : Int) :
    NoCal (pushed OP R L M s) := by
  intro i hi
  by_cases hi' : i = s.nextCodeIndex
  · subst hi'
    simpa [CodeGenerator.pushed] using hop
  · have hlt : i < s.nextCodeIndex := by
      have : i < s.nextCodeIndex + 1 := hi
      omega
    simp only [CodeGenerator.pushed, Function.update_noteq hi']
    exact h i hlt

theorem NoCal.after_patch {s : State} (h : NoCal s) (i : Nat) (M : Int) : NoCal (patched i M s) := by
  intro j hj
  by_cases hj' : j = i
  · subst hj'
    simp only [CodeGenerator.patched, Function.update_same]
    exact h j hj
  · simp only [CodeGenerator.patched, Function.update_noteq hj']
    exact h j hj

theorem Settled.pushed_ok {c : ScopePtr} {s : State} (h : Settled c s) {OP : Opcode}
    (hop : OP ≠ .CAL) (R L M : Int) : Settled c (pushed OP R L M s) :=
  ⟨h.1, h.2.1, h.2.2.after_push hop R L M⟩

theorem Settled.patched_ok {c : ScopePtr} {s : State} (h : Settled c s) (i : Nat) (M : Int) :
    Settled c (patched i M s) :=
  ⟨h.1, h.2.1, h.2.2.after_patch i M⟩

theorem Settled.with_record {c : ScopePtr} {s : State} (h : Settled c s) {y : Symbol}
    (hy : y.scope.base = .null) : Settled c (addSymbol y s) := by
  refine ⟨h.1, ?_, h.2.2⟩
  intro z hz
  simp only [addSymbol, List.mem_append, List.mem_singleton] at hz
  rcases hz with hz | hz
  · exact h.2.1 z hz
  · rw [hz]; exact hy

theorem Settled.rescope {c : ScopePtr} {s : State} (h : Settled c s) (d : ScopePtr) :
    Settled d (setScope d s) :=
  ⟨rfl, h.2.1, h.2.2⟩

theorem Settled.base {c : ScopePtr} {s : State} (h : Settled c s) (hc : c.base = .null) :
    s.currentScope.base = .null := by
  rw [h.1]; exact hc

theorem settled_ret {c : ScopePtr} {s : State} (e : Nat) (h : Settled c s) :
    (Outcome.ret e s).Leaves (Settled c) :=
  Outcome.leaves_ret h

theorem settled_emitThen {c : ScopePtr} {s : State} {env : Env} {OP : Opcode} {R L M : Int}
    {k : State → Outcome} (hop : OP ≠ .CAL) (h : Settled c s)
    (hk : ∀ s1, Settled c s1 → (k s1).Leaves (Settled c)) :
    (emitThen env OP R L M s k).Leaves (Settled c) :=
  leaves_emitThen (hk _ (h.pushed_ok hop R L M))

theorem settled_setM {c : ScopePtr} {s : State} {env : Env} {i : Nat} {M : Int}
    {k : State → Outcome} (h : Settled c s)
    (hk : ∀ s1, Settled c s1 → (k s1).Leaves (Settled c)) :
    (setM env i M s k).Leaves (Settled c) :=
  leaves_setM (hk _ (h.patched_ok i M))

theorem settled_onOk {c : ScopePtr} {o : Outcome} {k : State → Outcome}
    (ho : o.Leaves (Settled c)) (hk : ∀ s1, Settled c s1 → (k s1).Leaves (Settled c)) :
    (o.onOk k).Leaves (Settled c) :=
  Outcome.leaves_onOk ho hk

theorem constLoop_settled (env : Env) (c : ScopePtr) (hc : c.base = .null) :
    ∀ (n : Nat) (symbol : Symbol) (s : State), Settled c s →
      (constLoop n env symbol s).Leaves (Settled c) := by
  intro n
  induction n with
  | zero => intro symbol s _; exact Outcome.leaves_outOfFuel
  | succ n ih =>
    intro symbol s h
    rw [constLoop]
    dsimp only
    split_ifs
    · exact settled_ret _ h
    · exact settled_ret _ h
    · exact settled_ret _ h
    · exact ih _ _ (Settled.with_record h (h.base hc))
    · exact settled_ret _ h
    · exact settled_ret _ h

theorem const_declaration_settled (env : Env) (c : ScopePtr) (hc : c.base = .null) (n : Nat)
    (s : State) (h : Settled c s) : (const_declaration n env s).Leaves (Settled c) := by
  unfold const_declaration
  dsimp only
  split_ifs
  · exact settled_ret _ h
  · exact settled_ret _ h
  · exact settled_ret _ h
  · exact settled_ret _ h
  · exact constLoop_settled env c hc n _ _ (Settled.with_record h (h.base hc))

theorem varLoop_settled (env : Env) (c : ScopePtr) :
    ∀ (n : Nat) (symbol : Symbol) (varNum : Nat) (s : State), symbol.scope.base = .null →
      Settled c s → (varLoop n env symbol varNum s).Leaves (Settled c) := by
  intro n
  induction n with
  | zero => intro symbol varNum s _ _; exact Outcome.leaves_outOfFuel
  | succ n ih =>
    intro symbol varNum s hy h
    rw [varLoop]
    dsimp only
    split_ifs
    all_goals first
      | exact settled_ret _ h
      | exact settled_ret _ (Settled.with_record h hy)
      | exact ih _ _ _ hy (Settled.with_record h hy)

theorem var_declaration_settled (env : Env) (c : ScopePtr) (hc : c.base = .null) (n : Nat)
    (s : State) (h : Settled c s) : (var_declaration n env s).Leaves (Settled c) := by
  unfold var_declaration
  dsimp only
  split_ifs
  · exact settled_ret _ h
  · exact settled_emitThen (by decide) h fun s1 h1 =>
      varLoop_settled env c n _ _ s1 (h.base hc) h1

theorem expression_group_settled (env : Env) (c : ScopePtr) : ∀ n : Nat,
    (∀ s, Settled c s → (expression n env s).Leaves (Settled c)) ∧
    (∀ op s, Settled c s → (expressionLoop n env op s).Leaves (Settled c)) ∧
    (∀ s, Settled c s → (term n env s).Leaves (Settled c)) ∧
    (∀ op s, Settled c s → (termLoop n env op s).Leaves (Settled c)) ∧
    (∀ s, Settled c s → (factor n env s).Leaves (Settled c)) := by
  intro n
  induction n with
  | zero =>
    refine ⟨?_, ?_, ?_, ?_, ?_⟩
    · intro s _; rw [expression]; exact Outcome.leaves_outOfFuel
    · intro op s _; rw [expressionLoop]; exact Outcome.leaves_outOfFuel
    · intro s _; rw [term]; exact Outcome.leaves_outOfFuel
    · intro op s _; rw [termLoop]; exact Outcome.leaves_outOfFuel
    · intro s _; rw [factor]; exact Outcome.leaves_outOfFuel
  | succ n ih =>
    obtain ⟨ihE, ihEL, ihT, ihTL, ihF⟩ := ih
    refine ⟨?_, ?_, ?_, ?_, ?_⟩
    · intro s h
      rw [expression]
      refine settled_onOk ?_ fun s1 h1 =>
        settled_onOk (ihT s1 h1) fun s2 h2 => ihEL _ s2 h2
      split_ifs
      all_goals first
        | exact settled_ret _ h
        | exact settled_onOk (ihT _ h) fun s1 h1 => settled_ret _ h1
        | exact settled_onOk (ihT _ h) fun s1 h1 =>
            settled_emitThen (by decide) h1 fun s2 h2 => settled_ret _ h2
    · intro op s h
      rw [expressionLoop]
      split_ifs
      all_goals first
        | exact settled_ret _ h
        | exact settled_onOk (ihT _ h) fun s1 h1 =>
            settled_emitThen (by decide) h1 fun s2 h2 => ihEL _ s2 h2
    · intro s h
      rw [term]
      exact settled_onOk (ihF s h) fun s1 h1 => ihTL _ s1 h1
    · intro op s h
      rw [termLoop]
      split_ifs
      all_goals first
        | exact settled_ret _ h
        | exact settled_onOk (ihF _ h) fun s1 h1 =>
            settled_emitThen (by decide) h1 fun s2 h2 => ihTL _ s2 h2
    · intro s h
      rw [factor]
      split
      · exact settled_ret _ h
      · split_ifs
        · exact settled_ret _ h
        · exact settled_emitThen (by decide) h fun s1 h1 => settled_ret _ h1
        · exact settled_emitThen (by decide) h fun s1 h1 => settled_ret _ h1
        · exact settled_emitThen (by decide) h fun s1 h1 => settled_ret _ h1
        · refine settled_onOk (ihE _ h) fun s1 h1 => ?_
          split_ifs
          · exact settled_ret _ h1
          · exact settled_ret _ h1
        · exact settled_ret _ h

theorem expression_settled (env : Env) (c : ScopePtr) (n : Nat) (s : State)
    (h : Settled c s) : (expression n env s).Leaves (Settled c) :=
  (expression_group_settled env c n).1 s h

theorem condition_settled (env : Env) (c : ScopePtr) (n : Nat) (s : State)
    (h : Settled c s) : (condition n env s).Leaves (Settled c) := by
  unfold condition
  split_ifs
  · exact settled_onOk (expression_settled env c n _ h) fun s1 h1 =>
      settled_emitThen (by decide) h1 fun s2 h2 => settled_ret _ h2
  · refine settled_onOk (expression_settled env c n _ h) fun s1 h1 => ?_
    split_ifs
    all_goals first
      | exact settled_emitThen (by decide) h1 fun s2 h2 => settled_ret _ h2
      | exact settled_ret _ h1

/-- A record that the lookup hands out has another scope than the current one
when the table holds scopes `NULL + k` only and the current scope is the
address of a `tempScope`. -/
theorem found_scope_ne {env : Env} (hT : FromTable env) {s : State} (hr : NullBased s)
    (hc : s.currentScope.base ≠ .null) {name : String} {currSym : Symbol}
    (hfind : env.findSymbol s.symbolTable s.currentScope name = some currSym) :
    currSym.scope ≠ s.currentScope := by
  intro e
  apply hc
  rw [← e]
  exact hr currSym (hT _ _ _ _ hfind)

end CodeGenerator

namespace CodeGenerator

/-- In a state that a run enters `statement()` in, a `call` whose identifier
the lookup resolves returns 15 behind the keyword, with the buffer as it was. -/
theorem statement_call_scope_mismatch {env : Env} (hT : FromTable env) (n : Nat) (s : State)
    (currSym : Symbol) (hr : NullBased s) (hc : s.currentScope.base ≠ .null)
    (hcall : getCurrentTokenType env s = .callsym)
    (hid : getCurrentTokenType env (nextToken s) = .identsym)
    (hfind : env.findSymbol s.symbolTable s.currentScope
      (getCurrentToken env (nextToken s)).lexeme = some currSym) :
    statement (n + 1) env s = .ret 15 (nextToken s) := by
  rw [statement_call_eq n env s currSym hcall hid hfind,
    if_pos (found_scope_ne hT hr hc hfind)]

theorem statement_group_settled (env : Env) (hT : FromTable env) (c : ScopePtr)
    (hc : c.base ≠ .null) : ∀ n : Nat,
    (∀ s, Settled c s → (statement n env s).Leaves (Settled c)) ∧
    (∀ s, Settled c s → (beginLoop n env s).Leaves (Settled c)) := by
  intro n
  induction n with
  | zero =>
    refine ⟨?_, ?_⟩
    · intro s _; rw [statement]; exact Outcome.leaves_outOfFuel
    · intro s _; rw [beginLoop]; exact Outcome.leaves_outOfFuel
  | succ n ih =>
    obtain ⟨ihS, ihB⟩ := ih
    refine ⟨?_, ?_⟩
    · intro s h
      rw [statement]
      by_cases k1 : getCurrentTokenType env s = .identsym
      · rw [if_pos k1]
        split
        · exact Outcome.leaves_nullDeref
        · dsimp only
          split_ifs
          all_goals first
            | exact settled_ret _ h
            | exact settled_onOk (expression_settled env c n _ h) fun s1 h1 => settled_ret _ h1
      rw [if_neg k1]
      by_cases k2 : getCurrentTokenType env s = .callsym
      · rw [if_pos k2]
        dsimp only
        split_ifs
        · exact settled_ret _ h
        · split
          · exact Outcome.leaves_nullDeref
          · rename_i currSym hfind
            have hne : currSym.scope ≠ (nextToken s).currentScope :=
              found_scope_ne hT (s := nextToken s) h.2.1
                (by show s.currentScope.base ≠ .null; rw [h.1]; exact hc) hfind
            rw [if_pos hne]
            exact settled_ret _ h
      rw [if_neg k2]
      by_cases k3 : getCurrentTokenType env s = .beginsym
      · rw [if_pos k3]
        refine settled_onOk (ihS _ h) fun s1 h1 =>
          settled_onOk (ihB s1 h1) fun s2 h2 => ?_
        split_ifs
        · exact settled_ret _ h2
        · exact settled_ret _ h2
      rw [if_neg k3]
      by_cases k4 : getCurrentTokenType env s = .ifsym
      · rw [if_pos k4]
        refine settled_onOk (condition_settled env c n _ h) fun s1 h1 => ?_
        dsimp only
        split_ifs
        · exact settled_ret _ h1
        · refine settled_emitThen (by decide) h1 fun s2 h2 =>
            settled_onOk (ihS s2 h2) fun s3 h3 => settled_setM h3 fun s4 h4 => ?_
          split_ifs
          · exact settled_emitThen (by decide) h4 fun s5 h5 => settled_setM h5 fun s6 h6 =>
              settled_onOk (ihS s6 h6) fun s7 h7 => settled_setM h7 fun s8 h8 =>
                settled_ret _ h8
          · exact settled_ret _ h4
      rw [if_neg k4]
      by_cases k5 : getCurrentTokenType env s = .whilesym
      · rw [if_pos k5]
        dsimp only
        refine settled_onOk (condition_settled env c n _ h) fun s1 h1 =>
          settled_emitThen (by decide) h1 fun s2 h2 => ?_
        split_ifs
        · exact settled_ret _ h2
        · exact settled_onOk (ihS _ h2) fun s3 h3 =>
            settled_emitThen (by decide) h3 fun s4 h4 =>
              settled_setM h4 fun s5 h5 => settled_ret _ h5
      rw [if_neg k5]
      by_cases k6 : getCurrentTokenType env s = .writesym
      · rw [if_pos k6]
        dsimp only
        split_ifs
        · exact settled_ret _ h
        · split
          · exact Outcome.leaves_nullDeref
          · split_ifs
            all_goals first
              | exact settled_ret _ h
              | exact settled_emitThen (by decide) h fun s1 h1 =>
                  settled_emitThen (by decide) h1 fun s2 h2 => settled_ret _ h2
      rw [if_neg k6]
      by_cases k7 : getCurrentTokenType env s = .readsym
      · rw [if_pos k7]
        refine settled_emitThen (by decide) h fun s1 h1 => ?_
        dsimp only
        split_ifs
        · exact settled_ret _ h1
        · split
          · exact Outcome.leaves_nullDeref
          · split_ifs
            all_goals first
              | exact settled_ret _ h1
              | exact settled_emitThen (by decide) h1 fun s2 h2 => settled_ret _ h2
      rw [if_neg k7]
      exact settled_ret _ h
    · intro s h
      rw [beginLoop]
      split_ifs
      · exact settled_onOk (ihS _ h) fun s1 h1 => ihB s1 h1
      · exact settled_ret _ h

theorem statement_settled (env : Env) (hT : FromTable env) (c : ScopePtr)
    (hc : c.base ≠ .null) (n : Nat) (s : State) (h : Settled c s) :
    (statement n env s).Leaves (Settled c) :=
  (statement_group_settled env hT c hc n).1 s h

theorem Outcome.Leaves.wraps {o : Outcome} {c : ScopePtr} (h : o.Leaves (Settled c)) :
    o.Wraps c :=
  fun err s' hs => ⟨(h err s' hs).2.1, (h err s' hs).2.2, fun _ => (h err s' hs).1⟩

theorem wraps_ret {c : ScopePtr} {s : State} (e : Nat) (h : Settled c s) :
    (Outcome.ret e s).Wraps c :=
  (settled_ret e h).wraps

theorem wraps_err {c d : ScopePtr} {s : State} {e : Nat} (he : e ≠ 0) (h : Settled d s) :
    (Outcome.ret e s).Wraps c := by
  intro err s' hs
  cases hs
  exact ⟨h.2.1, h.2.2, fun h0 => absurd h0 he⟩

theorem wraps_exit {c : ScopePtr} : Outcome.exit.Wraps c := by
  intro err s' hs; cases hs

theorem wraps_nullDeref {c : ScopePtr} : Outcome.nullDeref.Wraps c := by
  intro err s' hs; cases hs

theorem wraps_outOfBounds {c : ScopePtr} : Outcome.outOfBounds.Wraps c := by
  intro err s' hs; cases hs

theorem wraps_outOfFuel {c : ScopePtr} : Outcome.outOfFuel.Wraps c := by
  intro err s' hs; cases hs

theorem wraps_onOk {c d : ScopePtr} {o : Outcome} {k : State → Outcome} (ho : o.Wraps c)
    (hk : ∀ s1, Settled c s1 → (k s1).Wraps d) : (o.onOk k).Wraps d := by
  cases o with
  | ret err s =>
    obtain ⟨h1, h2, h3⟩ := ho err s rfl
    by_cases he : err = 0
    · subst he
      simpa [Outcome.onOk] using hk s ⟨h3 rfl, h1, h2⟩
    · have : (Outcome.ret err s).Wraps d := by
        intro err' s' hs
        cases hs
        exact ⟨h1, h2, fun h0 => absurd h0 he⟩
      simpa [Outcome.onOk, he] using this
  | exit => exact wraps_exit
  | nullDeref => exact wraps_nullDeref
  | outOfBounds => exact wraps_outOfBounds
  | outOfFuel => exact wraps_outOfFuel

theorem wraps_emitThen {c d : ScopePtr} {s : State} {env : Env} {OP : Opcode} {R L M : Int}
    {k : State → Outcome} (hop : OP ≠ .CAL) (h : Settled c s)
    (hk : ∀ s1, Settled c s1 → (k s1).Wraps d) : (emitThen env OP R L M s k).Wraps d := by
  rw [emitThen_eq]
  split_ifs
  · exact wraps_exit
  · exact hk _ (h.pushed_ok hop R L M)

theorem wraps_setM {c d : ScopePtr} {s : State} {env : Env} {i : Nat} {M : Int}
    {k : State → Outcome} (h : Settled c s) (hk : ∀ s1, Settled c s1 → (k s1).Wraps d) :
    (setM env i M s k).Wraps d := by
  rw [setM_eq]
  split_ifs
  · exact hk _ (h.patched_ok i M)
  · exact wraps_outOfBounds

theorem addrOfTempScope_base (c : ScopePtr) : (addrOfTempScope c).base ≠ .null := by
  simp [addrOfTempScope]

/-- The part of `block()` after the frame instruction. -/
theorem block_body_wraps (n : Nat) (env : Env) (hT : FromTable env) (c : ScopePtr)
    (hc : c.base = .null)
    (hP : ∀ s, Settled c s → (proc_declaration n env s).Wraps c) (s1 : State)
    (h1 : Settled c s1) :
    ((const_declaration n env s1).onOk fun s =>
      (var_declaration n env s).onOk fun s =>
        (proc_declaration n env s).onOk fun s =>
          (statement n env (setScope (addrOfTempScope c) s)).onOk fun s =>
            .ret 0 (setScope c s)).Wraps c :=
  wraps_onOk (const_declaration_settled env c hc n s1 h1).wraps fun s2 h2 =>
    wraps_onOk (var_declaration_settled env c hc n s2 h2).wraps fun s3 h3 =>
      wraps_onOk (hP s3 h3) fun _ h4 =>
        wraps_onOk (statement_settled env hT _ (addrOfTempScope_base c) n _
          (h4.rescope (addrOfTempScope c))).wraps fun _ h5 => wraps_ret _ (h5.rescope c)

theorem block_group_wraps (env : Env) (hT : FromTable env) : ∀ n : Nat,
    (∀ (c : ScopePtr) (s : State), c.base = .null → Settled c s → (block n env s).Wraps c) ∧
    (∀ (c : ScopePtr) (s : State), c.base = .null → Settled c s →
      (proc_declaration n env s).Wraps c) ∧
    (∀ (c : ScopePtr) (symbol : Symbol) (s : State), c.base = .null → Settled c s →
      (procLoop n env symbol s).Wraps c) := by
  intro n
  induction n with
  | zero =>
    refine ⟨?_, ?_, ?_⟩
    · intro c s _ _; rw [block]; exact wraps_outOfFuel
    · intro c s _ _; rw [proc_declaration]; exact wraps_outOfFuel
    · intro c symbol s _ _; rw [procLoop]; exact wraps_outOfFuel
  | succ n ih =>
    obtain ⟨ihB, ihP, ihL⟩ := ih
    refine ⟨?_, ?_, ?_⟩
    · intro c s hc h
      rw [block]
      dsimp only
      have hsc : s.currentScope = c := h.1
      rw [hsc]
      by_cases k1 : c ≠ NULL
      · rw [if_pos k1]
        exact wraps_emitThen (by decide) h fun s1 h1 =>
          block_body_wraps n env hT c hc (fun s2 h2 => ihP c s2 hc h2) s1 h1
      · rw [if_neg k1]
        exact block_body_wraps n env hT c hc (fun s2 h2 => ihP c s2 hc h2) s h
    · intro c s hc h
      rw [proc_declaration]
      dsimp only
      by_cases k1 : getCurrentTokenType env s = .procsym
      · simp only [k1, if_true, decide_True]
        exact wraps_emitThen (by decide) h fun s1 h1 => wraps_onOk (ihL c _ s1 hc h1) fun s2 h2 =>
          wraps_emitThen (by decide) h2 fun s3 h3 => wraps_setM h3 fun _ h4 => wraps_ret _ h4
      · simp only [k1, if_false, decide_False]
        exact wraps_onOk (ihL c _ s hc h) fun s2 h2 =>
          wraps_setM h2 fun _ h4 => wraps_ret _ h4
    · intro c symbol s hc h
      rw [procLoop]
      dsimp only
      by_cases k1 : getCurrentTokenType env s = .procsym
      · rw [if_pos k1]
        split_ifs
        · exact wraps_ret _ h
        · exact wraps_ret _ h
        · have hin : Settled { c with off := c.off + 1 }
              (enterProc (addSymbol
                { symbol with name := (getCurrentToken env (nextToken s)).lexeme,
                              scope := s.currentScope, level := s.currentLevel,
                              address := s.nextCodeIndex }
                (nextToken (nextToken (nextToken s))))) := by
            refine ⟨?_, (Settled.with_record h (h.base hc)).2.1, h.2.2⟩
            show ({ s.currentScope with off := s.currentScope.off + 1 } : ScopePtr) = _
            rw [h.1]
          have hb := ihB { c with off := c.off + 1 } _ hc hin
          split
          · rename_i err s1 heq
            obtain ⟨r1, r2, r3⟩ := hb err s1 heq
            split_ifs
            · rename_i he
              exact wraps_err he (⟨rfl, r1, r2⟩ : Settled (leaveProc s1).currentScope _)
            · exact wraps_err (by decide) (⟨rfl, r1, r2⟩ : Settled (leaveProc s1).currentScope _)
            · rename_i he _
              have he0 : err = 0 := not_not.mp he
              have hs1 : s1.currentScope = { c with off := c.off + 1 } := r3 he0
              have hout : Settled c (leaveProc s1) := by
                refine ⟨?_, r1, r2⟩
                show ({ s1.currentScope with off := s1.currentScope.off - 1 } : ScopePtr) = c
                rw [hs1]
                cases c with
                | mk b o => simp
              exact ihL c _ _ hc hout
          · exact wraps_exit
          · exact wraps_nullDeref
          · exact wraps_outOfBounds
          · exact wraps_outOfFuel
      · rw [if_neg k1]
        exact wraps_ret _ h

/-- However a run of `program()` from the state that `codeGenerator()` sets up
ends, no `CAL` is in the emitted code. -/
theorem program_wraps (env : Env) (hT : FromTable env) (n : Nat) (vmCode : Nat → Instruction) :
    (program n env (initialState vmCode)).Wraps NULL := by
  have h0 : Settled NULL (initialState vmCode) :=
    ⟨rfl, fun y hy => absurd hy (List.not_mem_nil y), fun i hi => absurd hi (Nat.not_lt_zero i)⟩
  unfold program
  refine wraps_onOk ((block_group_wraps env hT n).1 NULL _ rfl h0) fun s1 h1 => ?_
  split_ifs
  · exact wraps_emitThen (by decide) h1 fun s2 h2 => wraps_ret _ h2
  · exact wraps_ret _ h1

end CodeGenerator

namespace CodeGenerator

/-- In the run on `procedure p ; ; call p .` the outermost `block()` emits no
frame instruction, reads no `const` and no `var`, and calls `statement()` in
the state `stateAtCallOfP`. -/
theorem block_calls_statement_at_call :
    block 11 (byNameEnv exampleProcCall) (initialState zeroCode)
      = (statement 10 (byNameEnv exampleProcCall) stateAtCallOfP).onOk
          fun s => .ret 0 (setScope NULL s) := by
  rfl

/-- C17: in a run of the code generator the records of the table carry the
scopes `NULL + k` of their declarations and `statement()` works under
`currentScope = &tempScope`.  So a `call p` statement in which the lookup
resolves `p` to a record of the table, a procedure of whatever level, is
rejected: `statement()` returns 15 behind the keyword and appends nothing; and
however a run of `program()` ends, whatever the tokens, no `CAL` is in the
emitted code. -/
theorem call_is_rejected_in_every_run (env : Env) (hT : FromTable env) :
    (∀ (n : Nat) (s : State) (p : Symbol),
        NullBased s → s.currentScope.base ≠ .null →
        getCurrentTokenType env s = .callsym →
        getCurrentTokenType env (nextToken s) = .identsym →
        env.findSymbol s.symbolTable s.currentScope
          (getCurrentToken env (nextToken s)).lexeme = some p →
        statement (n + 1) env s = .ret 15 (nextToken s))
    ∧ (∀ (n : Nat) (vmCode : Nat → Instruction) (err q : Nat) (code : List Instruction),
        (program n env (initialState vmCode)).ending = .returned err q code →
        ∀ ins ∈ code, ins.op ≠ .CAL) := by
  refine ⟨fun n s p hr hc hcall hid hfind =>
    statement_call_scope_mismatch hT n s p hr hc hcall hid hfind, ?_⟩
  intro n vmCode err q code h ins hins
  have hw := program_wraps env hT n vmCode
  cases ho : program n env (initialState vmCode) with
  | ret e s' =>
    rw [ho] at h
    simp only [Outcome.ending, Ending.returned.injEq] at h
    obtain ⟨_, _, rfl⟩ := h
    simp only [emitted, List.mem_map, List.mem_range] at hins
    obtain ⟨i, hi, rfl⟩ := hins
    exact (hw e s' ho).2.1 i hi
  | exit => rw [ho] at h; simp [Outcome.ending] at h
  | nullDeref => rw [ho] at h; simp [Outcome.ending] at h
  | outOfBounds => rw [ho] at h; simp [Outcome.ending] at h
  | outOfFuel => rw [ho] at h; simp [Outcome.ending] at h

/-- Instance: the run on `procedure p ; ; call p .` under the lookup by name,
which resolves `p` to the procedure of level 0 that the caller's block
declares, and the `call` statement of that run. -/
theorem call_is_rejected_in_every_run_witness :
    FromTable (byNameEnv exampleProcCall)
    ∧ (findByName stateAtCallOfP.symbolTable stateAtCallOfP.currentScope "p"
        = some { type := .PROC, name := "p", value := 0, level := 0, address := 1,
                 scope := NULL }
      ∧ stateAtCallOfP.currentLevel = 0)
    ∧ statement (9 + 1) (byNameEnv exampleProcCall) stateAtCallOfP
        = .ret 15 (nextToken stateAtCallOfP)
    ∧ (program 12 (byNameEnv exampleProcCall) (initialState zeroCode)).ending
        = .returned 15 5 [⟨.JMP, 0, 0, 3⟩, ⟨.INC, 0, 0, 4⟩, ⟨.RTN, 0, 0, 0⟩]
    ∧ ∀ ins ∈ ([⟨.JMP, 0, 0, 3⟩, ⟨.INC, 0, 0, 4⟩, ⟨.RTN, 0, 0, 0⟩] : List Instruction),
        ins.op ≠ .CAL :=
  ⟨fromTable_findByName exampleProcCall, by decide,
    (call_is_rejected_in_every_run (byNameEnv exampleProcCall)
      (fromTable_findByName exampleProcCall)).1 9 stateAtCallOfP
      { type := .PROC, name := "p", value := 0, level := 0, address := 1, scope := NULL }
      (by decide) (by decide) (by decide) (by decide) (by decide),
    by decide,
    (call_is_rejected_in_every_run (byNameEnv exampleProcCall)
      (fromTable_findByName exampleProcCall)).2 12 zeroCode 15 5 _ (by decide)⟩

end CodeGenerator

/-! ## The value that the parser stores for a numeral -/

namespace Parser

end Parser

namespace Parser

@[simp] theorem entries_printNonTerminal (nt : NonTerminal) (s : State) :
    entries (printNonTerminal nt s) = entries s := rfl

end Parser

namespace Parser

@[simp] theorem consume_level (ts : List Token) (s : State) :
    (consume ts s).currentLevel = s.currentLevel := rfl

end Parser

/-! ## The records of a parse -/

end PL0
